import Mathlib

/-!
# DetSDW: update engine and propagation machinery

Shallow embedding of the local-update, global-move and checkerboard routines of
`sdw-moreobs_detsdw.cpp`.  The C++ type `num` (double) is read as an arbitrary
linearly ordered field `R`, `cpx` (std::complex<double>) as the pairs `Cpx R`,
so every statement is one of exact arithmetic.  The library functions
`std::exp`, `std::cosh`, `std::sinh` and `std::sqrt` are passed as parameters.
-/

namespace DetSDW

/-! ## Complex numbers over an ordered field (`cpx`) -/

/-- A complex number `re + i im` with components in `R` (the C++ type `cpx`). -/
@[ext]
structure Cpx (R : Type) where
  re : R
  im : R
deriving DecidableEq, Repr

namespace Cpx

variable {R : Type}

instance [Zero R] : Zero (Cpx R) := ⟨⟨0, 0⟩⟩
instance [Zero R] [One R] : One (Cpx R) := ⟨⟨1, 0⟩⟩
instance [Add R] : Add (Cpx R) := ⟨fun z w => ⟨z.re + w.re, z.im + w.im⟩⟩
instance [Neg R] : Neg (Cpx R) := ⟨fun z => ⟨-z.re, -z.im⟩⟩
instance [Sub R] : Sub (Cpx R) := ⟨fun z w => ⟨z.re - w.re, z.im - w.im⟩⟩
instance [Add R] [Sub R] [Mul R] : Mul (Cpx R) :=
  ⟨fun z w => ⟨z.re * w.re - z.im * w.im, z.re * w.im + z.im * w.re⟩⟩

/-- The squared modulus `re^2 + im^2`. -/
def normSq [Add R] [Mul R] (z : Cpx R) : R := z.re * z.re + z.im * z.im

instance [Add R] [Mul R] [Neg R] [Div R] : Inv (Cpx R) :=
  ⟨fun z => ⟨z.re / normSq z, -z.im / normSq z⟩⟩

/-- The embedding of a real number, `cpx(x, 0)`. -/
def ofReal [Zero R] (x : R) : Cpx R := ⟨x, 0⟩

@[simp] theorem zero_re [Zero R] : (0 : Cpx R).re = 0 := rfl
@[simp] theorem zero_im [Zero R] : (0 : Cpx R).im = 0 := rfl
@[simp] theorem one_re [Zero R] [One R] : (1 : Cpx R).re = 1 := rfl
@[simp] theorem one_im [Zero R] [One R] : (1 : Cpx R).im = 0 := rfl
@[simp] theorem add_re [Add R] (z w : Cpx R) : (z + w).re = z.re + w.re := rfl
@[simp] theorem add_im [Add R] (z w : Cpx R) : (z + w).im = z.im + w.im := rfl
@[simp] theorem neg_re [Neg R] (z : Cpx R) : (-z).re = -z.re := rfl
@[simp] theorem neg_im [Neg R] (z : Cpx R) : (-z).im = -z.im := rfl
@[simp] theorem sub_re [Sub R] (z w : Cpx R) : (z - w).re = z.re - w.re := rfl
@[simp] theorem sub_im [Sub R] (z w : Cpx R) : (z - w).im = z.im - w.im := rfl
@[simp] theorem mul_re [Add R] [Sub R] [Mul R] (z w : Cpx R) :
    (z * w).re = z.re * w.re - z.im * w.im := rfl
@[simp] theorem mul_im [Add R] [Sub R] [Mul R] (z w : Cpx R) :
    (z * w).im = z.re * w.im + z.im * w.re := rfl
@[simp] theorem inv_re [Add R] [Mul R] [Neg R] [Div R] (z : Cpx R) :
    (z⁻¹).re = z.re / normSq z := rfl
@[simp] theorem inv_im [Add R] [Mul R] [Neg R] [Div R] (z : Cpx R) :
    (z⁻¹).im = -z.im / normSq z := rfl
@[simp] theorem ofReal_re [Zero R] (x : R) : (ofReal x).re = x := rfl
@[simp] theorem ofReal_im [Zero R] (x : R) : (ofReal x).im = 0 := rfl

instance [CommRing R] : CommRing (Cpx R) where
  add_assoc := by intros; ext <;> simp [add_assoc]
  zero_add := by intros; ext <;> simp
  add_zero := by intros; ext <;> simp
  add_comm := by intros; ext <;> simp [add_comm]
  nsmul := nsmulRec
  zsmul := zsmulRec
  neg_add_cancel := by intros; ext <;> simp
  sub_eq_add_neg := by intros; ext <;> simp [sub_eq_add_neg]
  left_distrib := by intros; ext <;> simp <;> ring
  right_distrib := by intros; ext <;> simp <;> ring
  zero_mul := by intros; ext <;> simp
  mul_zero := by intros; ext <;> simp
  mul_assoc := by intros; ext <;> simp <;> ring
  one_mul := by intros; ext <;> simp
  mul_one := by intros; ext <;> simp
  mul_comm := by intros; ext <;> simp <;> ring

theorem normSq_pos [LinearOrderedField R] {z : Cpx R} (hz : z ≠ 0) : 0 < normSq z := by
  unfold normSq
  by_contra hcon
  have h1 : 0 ≤ z.re * z.re := mul_self_nonneg _
  have h2 : 0 ≤ z.im * z.im := mul_self_nonneg _
  have h3 : z.re * z.re = 0 := by linarith
  have h4 : z.im * z.im = 0 := by linarith
  apply hz
  ext
  · simpa using h3
  · simpa using h4

instance [LinearOrderedField R] : Field (Cpx R) where
  exists_pair_ne := ⟨0, 1, fun h => by
    have := congrArg Cpx.re h
    simp at this⟩
  inv_zero := by ext <;> simp [normSq]
  mul_inv_cancel := by
    intro z hz
    have hpos := normSq_pos hz
    have hne : normSq z ≠ 0 := ne_of_gt hpos
    ext
    · simp only [mul_re, inv_re, inv_im, one_re]
      field_simp
      unfold normSq
      ring
    · simp only [mul_im, inv_re, inv_im, one_im]
      field_simp
      ring
  nnqsmul := _
  qsmul := _

end Cpx

/-! ## Site-local 4x4 blocks of the 4N x 4N Green's function -/

variable {R : Type} [LinearOrderedField R]

/-- The C++ type `MatCpx` with fixed dimensions. -/
abbrev MatCpx (R : Type) (n k : Nat) := Matrix (Fin n) (Fin k) (Cpx R)

/-- The row or column index `site + a*N` of band-spin flavour `a` at `site`. -/
def siteIdx {N : Nat} (site : Fin N) (a : Fin 4) : Fin (4 * N) :=
  ⟨site.val + a.val * N, by
    have h1 := site.isLt
    have h2 : a.val ≤ 3 := Nat.le_of_lt_succ a.isLt
    calc site.val + a.val * N < N + a.val * N := by omega
      _ ≤ N + 3 * N := Nat.add_le_add_left (Nat.mul_le_mul_right N h2) N
      _ = 4 * N := by ring⟩

/-- The inverse used in place of `arma::inv`: `det(A)^-1 * adj(A)`. -/
def matInv {n : Nat} (A : MatCpx R n n) : MatCpx R n n := (A.det)⁻¹ • A.adjugate

/-- The library call `arma::inv(A)`, which throws for a singular matrix. -/
def armaInv {n : Nat} (A : MatCpx R n n) : Option (MatCpx R n n) :=
  if A.det = 0 then none else some (matInv A)

/-- The matrix `g_sub` of `updateInSlice_woodbury`: `g_sub(a,b) = g(site + a*N, site + b*N)`. -/
def g_sub {N : Nat} (g : MatCpx R (4 * N) (4 * N)) (site : Fin N) : MatCpx R 4 4 :=
  fun a b => g (siteIdx site a) (siteIdx site b)

/-- The matrix `M = eye4cpx + (eye4cpx - g_sub) * deltanonzero` of `updateInSlice_woodbury`. -/
def woodburyM {N : Nat} (g : MatCpx R (4 * N) (4 * N)) (site : Fin N)
    (deltanonzero : MatCpx R 4 4) : MatCpx R 4 4 :=
  1 + (1 - g_sub g site) * deltanonzero

/-- The matrix `mat_V`: row `r` is row `site + r*N` of `g` with 1 subtracted at column
`site + r*N`. -/
def mat_V {N : Nat} (g : MatCpx R (4 * N) (4 * N)) (site : Fin N) : MatCpx R 4 (4 * N) :=
  fun r col => Function.update (g (siteIdx site r)) (siteIdx site r)
    (g (siteIdx site r) (siteIdx site r) - 1) col

/-- The matrix `g_times_mat_U`: the columns `site + c*N` of `g`, multiplied by `deltanonzero`. -/
def g_times_mat_U {N : Nat} (g : MatCpx R (4 * N) (4 * N)) (site : Fin N)
    (deltanonzero : MatCpx R 4 4) : MatCpx R (4 * N) 4 :=
  (Matrix.of fun row c => g row (siteIdx site c)) * deltanonzero

/-- The Green's function written by an accepted step of `updateInSlice_woodbury`:
`g += g_times_mat_U * (arma::inv(M) * mat_V)`. -/
def woodburyGreen {N : Nat} (g : MatCpx R (4 * N) (4 * N)) (site : Fin N)
    (deltanonzero : MatCpx R 4 4) : Option (MatCpx R (4 * N) (4 * N)) :=
  (armaInv (woodburyM g site deltanonzero)).map
    (fun Minv => g + g_times_mat_U g site deltanonzero * (Minv * mat_V g site))

/-- Reference of the spec: the full 4N x 4N matrix that is zero except
`Delta_full(site + a*N, site + b*N) = Delta(a,b)`. -/
def deltaFull {N : Nat} (site : Fin N) (deltanonzero : MatCpx R 4 4) :
    MatCpx R (4 * N) (4 * N) :=
  fun i j => ∑ a : Fin 4, ∑ b : Fin 4,
    if i = siteIdx site a ∧ j = siteIdx site b then deltanonzero a b else 0

/-- Reference of the spec: the full matrix `I + Delta_full * (I - G)`. -/
def referenceTarget {N : Nat} (g : MatCpx R (4 * N) (4 * N)) (site : Fin N)
    (deltanonzero : MatCpx R 4 4) : MatCpx R (4 * N) (4 * N) :=
  1 + deltaFull site deltanonzero * (1 - g)

/-! ## Lattice geometry and the bosonic action -/

/-- The four neighbour directions of the square lattice (`NeighDir`). -/
inductive NeighDir where
  | XPLUS | XMINUS | YPLUS | YMINUS
deriving DecidableEq, Repr

/-- The two directions of the time chain (`ChainDir`). -/
inductive ChainDir where
  | PLUS | MINUS
deriving DecidableEq, Repr

/-- Modelled from the spec: `coordsToSite` is declared outside the given sources; sites of the
periodic L x L lattice are numbered row by row, `site = y*L + x` (as `siteY = site / L`,
`siteX = site % L` in `setupPropK`). -/
def coordsToSite (L x y : Nat) : Nat := y * L + x

/-- The coordinate following `x` on a periodic chain of length `L`. -/
def wrapPlus (L x : Nat) : Nat := if x + 1 = L then 0 else x + 1

/-- The coordinate preceding `x` on a periodic chain of length `L`. -/
def wrapMinus (L x : Nat) : Nat := if x = 0 then L - 1 else x - 1

/-- Modelled from the spec: the neighbour table `spaceNeigh` of the periodic 2D square lattice
(its class is outside the given sources); `spaceNeigh(dir, site)` is the nearest neighbour of
`site` in direction `dir`, with periodic wrap-around. -/
def spaceNeigh (L : Nat) (dir : NeighDir) (site : Nat) : Nat :=
  match dir with
  | NeighDir.XPLUS => coordsToSite L (wrapPlus L (site % L)) (site / L)
  | NeighDir.XMINUS => coordsToSite L (wrapMinus L (site % L)) (site / L)
  | NeighDir.YPLUS => coordsToSite L (site % L) (wrapPlus L (site / L))
  | NeighDir.YMINUS => coordsToSite L (site % L) (wrapMinus L (site / L))

/-- Modelled from the spec: the neighbour table `timeNeigh` of the periodic chain of time slices
`1..m` (its class is outside the given sources). -/
def timeNeigh (m : Nat) (dir : ChainDir) (timeslice : Nat) : Nat :=
  match dir with
  | ChainDir.PLUS => if timeslice = m then 1 else timeslice + 1
  | ChainDir.MINUS => if timeslice = 1 then m else timeslice - 1

/-- Modelled from the spec: the coordination number `z = 4` of the square lattice (a constant
declared outside the given sources). -/
def z : Nat := 4

/-- The neighbours visited by `spaceNeigh.beginNeighbors(site) .. endNeighbors(site)`. -/
def neighbors (L : Nat) (site : Nat) : List Nat :=
  [spaceNeigh L NeighDir.XPLUS site, spaceNeigh L NeighDir.XMINUS site,
   spaceNeigh L NeighDir.YPLUS site, spaceNeigh L NeighDir.YMINUS site]

/-- The C++ type `Phi`, a 3-vector. -/
abbrev Phi (R : Type) := Fin 3 → R

/-- The scalar product `arma::dot` of two 3-vectors. -/
def dot (a b : Phi R) : R := a 0 * b 0 + a 1 * b 1 + a 2 * b 2

/-- The constants of the model that the update routines read. -/
structure Params (R : Type) where
  /-- linear lattice size -/
  L : Nat
  /-- number of time slices -/
  m : Nat
  dtau : R
  r : R
  u : R
  c : R
  mu : R

/-- The number of lattice sites `N = L*L`. -/
def Params.N (P : Params R) : Nat := P.L * P.L

/-- The field arrays `phi0`, `phi1`, `phi2` (each `N x (m+1)`), indexed `(site, timeslice)`. -/
structure PhiField (R : Type) where
  phi0 : Nat → Nat → R
  phi1 : Nat → Nat → R
  phi2 : Nat → Nat → R

/-- The vector `(phi0(site,k), phi1(site,k), phi2(site,k))`. -/
def PhiField.getPhi (F : PhiField R) (site timeslice : Nat) : Phi R :=
  ![F.phi0 site timeslice, F.phi1 site timeslice, F.phi2 site timeslice]

/-- Assignment `a(site, timeslice) = v` to one entry of an array. -/
def setEntry (a : Nat → Nat → R) (site timeslice : Nat) (v : R) : Nat → Nat → R :=
  Function.update a site (Function.update (a site) timeslice v)

/-- The field with `phi(site, timeslice)` replaced by `newphi`. -/
def PhiField.set (F : PhiField R) (site timeslice : Nat) (newphi : Phi R) : PhiField R :=
  { phi0 := setEntry F.phi0 site timeslice (newphi 0)
    phi1 := setEntry F.phi1 site timeslice (newphi 1)
    phi2 := setEntry F.phi2 site timeslice (newphi 2) }

/-- The function `DetSDW::deltaSPhi(site, timeslice, newphi)`. -/
def deltaSPhi (P : Params R) (F : PhiField R) (site timeslice : Nat) (newphi : Phi R) : R :=
  let oldphi : Phi R := F.getPhi site timeslice
  let phiDiff : Phi R := newphi - oldphi
  let oldphiSq := dot oldphi oldphi
  let newphiSq := dot newphi newphi
  let phiSqDiff := newphiSq - oldphiSq
  let oldphiPow4 := oldphiSq * oldphiSq
  let newphiPow4 := newphiSq * newphiSq
  let phiPow4Diff := newphiPow4 - oldphiPow4
  let kEarlier := timeNeigh P.m ChainDir.MINUS timeslice
  let phiEarlier : Phi R := F.getPhi site kEarlier
  let kLater := timeNeigh P.m ChainDir.PLUS timeslice
  let phiLater : Phi R := F.getPhi site kLater
  let phiTimeNeigh : Phi R := phiLater + phiEarlier
  let phiZero : Phi R := ![0, 0, 0]
  let phiSpaceNeigh : Phi R := (neighbors P.L site).foldl
    (fun accum neighSite => accum + F.getPhi neighSite timeslice) phiZero
  let delta1 := (1 / (P.c * P.c * P.dtau)) * (phiSqDiff - dot phiTimeNeigh phiDiff)
  let delta2 := (1 / 2) * P.dtau * ((z : R) * phiSqDiff - 2 * dot phiSpaceNeigh phiDiff)
  let delta3 := P.dtau * ((1 / 2) * P.r * phiSqDiff + (1 / 4) * P.u * phiPow4Diff)
  delta1 + delta2 + delta3

/-- The contribution of one `(timeslice, site)` to the loop of `DetSDW::phiAction`. -/
def phiActionTerm (P : Params R) (F : PhiField R) (timeslice site : Nat) : R :=
  let timeDerivative : Phi R :=
    fun i => (F.getPhi site timeslice - F.getPhi site (timeNeigh P.m ChainDir.MINUS timeslice)) i / P.dtau
  let xneighDiff : Phi R :=
    F.getPhi site timeslice - F.getPhi (spaceNeigh P.L NeighDir.XPLUS site) timeslice
  let yneighDiff : Phi R :=
    F.getPhi site timeslice - F.getPhi (spaceNeigh P.L NeighDir.YPLUS site) timeslice
  let phisq := dot (F.getPhi site timeslice) (F.getPhi site timeslice)
  (P.dtau / (2 * P.c * P.c)) * dot timeDerivative timeDerivative
    + (1 / 2) * P.dtau * dot xneighDiff xneighDiff
    + (1 / 2) * P.dtau * dot yneighDiff yneighDiff
    + (1 / 2) * P.dtau * P.r * phisq
    + (1 / 4) * P.dtau * P.u * phisq ^ 2

/-- The function `DetSDW::phiAction()`: the sum over `timeslice = 1..m` and `site = 0..N-1`. -/
def phiAction (P : Params R) (F : PhiField R) : R :=
  ∑ timeslice ∈ Finset.Icc 1 P.m, ∑ site ∈ Finset.range P.N, phiActionTerm P F timeslice site

/-! ## The local update engine -/

/-- The library functions of `<cmath>` that the model calls. -/
structure StdMath (R : Type) where
  exp : R → R
  cosh : R → R
  sinh : R → R
  sqrt : R → R

/-- The random number generator `RngWrapper`, with generator state `G`. -/
structure RngWrapper (R G : Type) where
  rand01 : G → R × G
  randRange : R → R → G → R × G
  randInt : Nat → Nat → G → Nat × G
  randPointOnSphere : G → (R × R × R) × G

/-- The Euclidean norm `arma::norm(phi, 2)`, `sqrt(phi0^2 + phi1^2 + phi2^2)`. -/
def normPhi (sm : StdMath R) (phi : Phi R) : R :=
  sm.sqrt (phi 0 ^ 2 + phi 1 ^ 2 + phi 2 ^ 2)

/-- The lambda `evMatrix` of the update routines: the 4x4 block of `e^(sign*dtau*V)` at one
space-time point. -/
def evMatrix (sign : Int) (kphi0 kphi1 kphi2 kphiCosh kphiSinh : R) : MatCpx R 4 4 :=
  let ev_real : Fin 4 → Fin 4 → R :=
    ![![kphiCosh, 0, sign * kphi2 * kphiSinh, sign * kphi0 * kphiSinh],
      ![0, kphiCosh, sign * kphi0 * kphiSinh, -sign * kphi2 * kphiSinh],
      ![sign * kphi2 * kphiSinh, sign * kphi0 * kphiSinh, kphiCosh, 0],
      ![sign * kphi0 * kphiSinh, -sign * kphi2 * kphiSinh, 0, kphiCosh]]
  let ev_imag : Fin 4 → Fin 4 → R :=
    ![![0, 0, 0, -sign * kphi1 * kphiSinh],
      ![0, 0, sign * kphi1 * kphiSinh, 0],
      ![0, -sign * kphi1 * kphiSinh, 0, 0],
      ![sign * kphi1 * kphiSinh, 0, 0, 0]]
  fun a b => ⟨ev_real a b, ev_imag a b⟩

/-- The part of the `DetSDW` object that the local updates read and write. -/
structure State (R G : Type) (P : Params R) where
  /-- the arrays `phi0`, `phi1`, `phi2` -/
  F : PhiField R
  phiCosh : Nat → Nat → R
  phiSinh : Nat → Nat → R
  /-- the Green's function of the current time slice -/
  g : MatCpx R (4 * P.N) (4 * P.N)
  lastAccRatioLocal : R
  rng : G

/-- The callable `proposeSpin(site, timeslice)`: it reads the field and draws from `rng`, and
returns the flag `valid` and the proposed vector. -/
abbrev ProposeSpin (R G : Type) := PhiField R → G → Nat → Nat → (Bool × Phi R) × G

/-- The function `DetSDW::get_deltanonzero(newphi, timeslice, site)`, which is also the inline
computation of `deltanonzero` in `updateInSlice_iterative` and `updateInSlice_woodbury`. -/
def get_deltanonzero {G : Type} (sm : StdMath R) {P : Params R} (st : State R G P)
    (newphi : Phi R) (timeslice site : Nat) : MatCpx R 4 4 :=
  let evOld := evMatrix 1 (st.F.phi0 site timeslice) (st.F.phi1 site timeslice)
    (st.F.phi2 site timeslice) (st.phiCosh site timeslice) (st.phiSinh site timeslice)
  let normnewphi := normPhi sm newphi
  let coshnewphi := sm.cosh (P.dtau * normnewphi)
  let sinhnewphi := sm.sinh (P.dtau * normnewphi) / normnewphi
  let emvNew := evMatrix (-1) (newphi 0) (newphi 1) (newphi 2) coshnewphi sinhnewphi
  emvNew * evOld - 1

/-- The test `prob > 1.0 or rng.rand01() < prob`; the draw is made only if `prob <= 1`. -/
def acceptTest {G : Type} (rw : RngWrapper R G) (prob : R) (rng : G) : Bool × G :=
  if 1 < prob then (true, rng)
  else (decide ((rw.rand01 rng).1 < prob), (rw.rand01 rng).2)

/-- The writes of an accepted update to the counter, the field and its cosh/sinh caches. -/
def acceptField {G : Type} (sm : StdMath R) {P : Params R} (st : State R G P)
    (site timeslice : Nat) (newphi : Phi R) : State R G P :=
  { st with
    lastAccRatioLocal := st.lastAccRatioLocal + 1
    F := st.F.set site timeslice newphi
    phiCosh := setEntry st.phiCosh site timeslice (sm.cosh (P.dtau * normPhi sm newphi))
    phiSinh := setEntry st.phiSinh site timeslice
      (sm.sinh (P.dtau * normPhi sm newphi) / normPhi sm newphi) }

/-- The acceptance probability `prob = probSPhi * probSFermion` of `updateInSlice_woodbury`. -/
def woodburyProb {G : Type} (sm : StdMath R) {P : Params R} (st : State R G P)
    (timeslice : Nat) (site : Fin P.N) (newphi : Phi R) : R :=
  sm.exp (-(deltaSPhi P st.F site timeslice newphi))
    * (woodburyM st.g site (get_deltanonzero sm st newphi timeslice site)).det.re

/-- The body of the site loop of `updateInSlice_woodbury`; `none` when `arma::inv` throws. -/
def updateInSlice_woodbury_site {G : Type} (sm : StdMath R) (rw : RngWrapper R G)
    {P : Params R} (proposeSpin : ProposeSpin R G) (timeslice : Nat)
    (st : State R G P) (site : Fin P.N) : Option (State R G P) :=
  let prop := proposeSpin st.F st.rng site timeslice
  if prop.1.1 = false then some { st with rng := prop.2 }
  else
    let newphi := prop.1.2
    let deltanonzero := get_deltanonzero sm st newphi timeslice site
    let prob := woodburyProb sm st timeslice site newphi
    let test := acceptTest rw prob prop.2
    if test.1 = true then
      (woodburyGreen st.g site deltanonzero).map fun g' =>
        { acceptField sm { st with rng := test.2 } site timeslice newphi with g := g' }
    else some { st with rng := test.2 }

/-- The function `DetSDW::updateInSlice_woodbury(timeslice, proposeSpin)`. -/
def updateInSlice_woodbury {G : Type} (sm : StdMath R) (rw : RngWrapper R G)
    {P : Params R} (proposeSpin : ProposeSpin R G) (timeslice : Nat)
    (st : State R G P) : Option (State R G P) :=
  ((List.finRange P.N).foldlM (updateInSlice_woodbury_site sm rw proposeSpin timeslice)
      { st with lastAccRatioLocal := 0 }).map
    fun s => { s with lastAccRatioLocal := s.lastAccRatioLocal / (P.N : R) }

/-! ### The iterative scheme -/

/-- The rows `rows[r]` of `Delta*(I - G)` as `updateInSlice_iterative` computes them. -/
def iterativeRows {N : Nat} (g : MatCpx R (4 * N) (4 * N)) (site : Fin N)
    (deltanonzero : MatCpx R 4 4) (r : Fin 4) : Fin (4 * N) → Cpx R :=
  let row0 : Fin (4 * N) → Cpx R := fun col => -deltanonzero r 0 * g (siteIdx site 0) col
  let row1 := Function.update row0 (siteIdx site 0) (row0 (siteIdx site 0) + deltanonzero r 0)
  ([1, 2, 3] : List (Fin 4)).foldl
    (fun row dc =>
      let row' : Fin (4 * N) → Cpx R :=
        fun col => row col + -deltanonzero r dc * g (siteIdx site dc) col
      Function.update row' (siteIdx site dc) (row' (siteIdx site dc) + deltanonzero r dc))
    row1

/-- The values `k = l-1, ..., 0` of the inner loops of the iterative scheme. -/
def downFrom (l : Fin 4) : List (Fin 4) :=
  ((List.finRange 4).filter (fun k => k < l)).reverse

/-- The vector `row` of step `l` of the iterative scheme. -/
def iterativeRow {N : Nat} (site : Fin N) (rows : Fin 4 → Fin (4 * N) → Cpx R) (l : Fin 4) :
    Fin (4 * N) → Cpx R :=
  let row := (downFrom l).foldl (fun row k => Function.update row (siteIdx site k) 0) (rows l)
  (downFrom l).foldl (fun row k => row + rows l (siteIdx site k) • rows k) row

/-- The value `divisor` of step `l` of the iterative scheme. -/
def iterativeDivisor {N : Nat} (site : Fin N) (rows : Fin 4 → Fin (4 * N) → Cpx R)
    (l : Fin 4) : Cpx R :=
  1 + iterativeRow site rows l (siteIdx site l)

/-- One pass `l` of the loop that turns `rows` into rows of the inverse and accumulates `det`. -/
def iterativeStep {N : Nat} (site : Fin N)
    (s : (Fin 4 → Fin (4 * N) → Cpx R) × Cpx R) (l : Fin 4) :
    (Fin 4 → Fin (4 * N) → Cpx R) × Cpx R :=
  let rows := s.1
  let row := iterativeRow site rows l
  let divisor := iterativeDivisor site rows l
  let rows1 := Function.update rows l ((-1 / divisor) • row)
  let rows2 := Function.update rows1 l
    (Function.update (rows1 l) (siteIdx site l) (rows1 l (siteIdx site l) + 1))
  let rows3 := (downFrom l).foldl
    (fun (rs : Fin 4 → Fin (4 * N) → Cpx R) k =>
      Function.update rs k (rs k - (rs k (siteIdx site l) / divisor) • row)) rows2
  (rows3, s.2 * divisor)

/-- The state `(rows, det)` of the iterative scheme after the passes `l = 0, ..., n-1`. -/
def iterativeLoop {N : Nat} (g : MatCpx R (4 * N) (4 * N)) (site : Fin N)
    (deltanonzero : MatCpx R 4 4) (n : Nat) : (Fin 4 → Fin (4 * N) → Cpx R) × Cpx R :=
  ((List.finRange 4).take n).foldl (iterativeStep site) (iterativeRows g site deltanonzero, 1)

/-- The divisor met in pass `l` of the iterative scheme. -/
def iterativeDivisorAt {N : Nat} (g : MatCpx R (4 * N) (4 * N)) (site : Fin N)
    (deltanonzero : MatCpx R 4 4) (l : Fin 4) : Cpx R :=
  iterativeDivisor site (iterativeLoop g site deltanonzero l.val).1 l

/-- The value `det` of `updateInSlice_iterative`, the product of the four divisors. -/
def iterativeDet {N : Nat} (g : MatCpx R (4 * N) (4 * N)) (site : Fin N)
    (deltanonzero : MatCpx R 4 4) : Cpx R :=
  (iterativeLoop g site deltanonzero 4).2

/-- The Green's function written by an accepted step of `updateInSlice_iterative`:
`g += gTimesInvRows`, after 1 is subtracted from `rows[r][site + r*N]`. -/
def iterativeGreen {N : Nat} (g : MatCpx R (4 * N) (4 * N)) (site : Fin N)
    (deltanonzero : MatCpx R 4 4) : MatCpx R (4 * N) (4 * N) :=
  let rows := (iterativeLoop g site deltanonzero 4).1
  let rows' : Fin 4 → Fin (4 * N) → Cpx R :=
    fun r => Function.update (rows r) (siteIdx site r) (rows r (siteIdx site r) - 1)
  let gTimesInvRows : MatCpx R (4 * N) (4 * N) :=
    fun row col => g row (siteIdx site 0) * rows' 0 col
      + g row (siteIdx site 1) * rows' 1 col
      + g row (siteIdx site 2) * rows' 2 col
      + g row (siteIdx site 3) * rows' 3 col
  g + gTimesInvRows

/-- The acceptance probability `prob = probSPhi * probSFermion` of `updateInSlice_iterative`. -/
def iterativeProb {G : Type} (sm : StdMath R) {P : Params R} (st : State R G P)
    (timeslice : Nat) (site : Fin P.N) (newphi : Phi R) : R :=
  sm.exp (-(deltaSPhi P st.F site timeslice newphi))
    * (iterativeDet st.g site (get_deltanonzero sm st newphi timeslice site)).re

/-- The body of the site loop of `updateInSlice_iterative`. -/
def updateInSlice_iterative_site {G : Type} (sm : StdMath R) (rw : RngWrapper R G)
    {P : Params R} (proposeSpin : ProposeSpin R G) (timeslice : Nat)
    (st : State R G P) (site : Fin P.N) : State R G P :=
  let prop := proposeSpin st.F st.rng site timeslice
  if prop.1.1 = false then { st with rng := prop.2 }
  else
    let newphi := prop.1.2
    let deltanonzero := get_deltanonzero sm st newphi timeslice site
    let prob := iterativeProb sm st timeslice site newphi
    let test := acceptTest rw prob prop.2
    if test.1 = true then
      { acceptField sm { st with rng := test.2 } site timeslice newphi with
        g := iterativeGreen st.g site deltanonzero }
    else { st with rng := test.2 }

/-- The function `DetSDW::updateInSlice_iterative(timeslice, proposeSpin)`. -/
def updateInSlice_iterative {G : Type} (sm : StdMath R) (rw : RngWrapper R G)
    {P : Params R} (proposeSpin : ProposeSpin R G) (timeslice : Nat)
    (st : State R G P) : State R G P :=
  let s := (List.finRange P.N).foldl (updateInSlice_iterative_site sm rw proposeSpin timeslice)
    { st with lastAccRatioLocal := 0 }
  { s with lastAccRatioLocal := s.lastAccRatioLocal / (P.N : R) }

/-! ### Delayed updates -/

/-- The members `X` and `Y` of `DelayedUpdatesData`; `X l` is the block `getX(l)` (columns
`4l .. 4l+3` of `dud.X`), `Y l` the block `getY(l)` (rows `4l .. 4l+3` of `dud.Y`).  The
members `Rj`, `Sj`, `Cj`, `Mj`, `tempBlock` are assigned before every use and are local here. -/
structure DelayedUpdatesData (R : Type) (N : Nat) where
  X : Nat → MatCpx R (4 * N) 4
  Y : Nat → MatCpx R 4 (4 * N)

/-- The lambda `take4rows`: the rows `for_site + r*N` of `source`. -/
def take4rows {N k : Nat} (source : MatCpx R (4 * N) k) (for_site : Fin N) : MatCpx R 4 k :=
  fun r => source (siteIdx for_site r)

/-- The lambda `take4cols`: the columns `for_site + c*N` of `source`. -/
def take4cols {N k : Nat} (source : MatCpx R k (4 * N)) (for_site : Fin N) : MatCpx R k 4 :=
  fun i c => source i (siteIdx for_site c)

/-- The product `dud.X * dud.Y` of the first `j` blocks. -/
def delayedProduct {N : Nat} (dud : DelayedUpdatesData R N) (j : Nat) :
    MatCpx R (4 * N) (4 * N) :=
  ∑ l ∈ Finset.range j, dud.X l * dud.Y l

/-- The matrix `Rj` of `updateInSlice_delayed`: the four rows of `g` plus the pending
corrections. -/
def delayedRj {N : Nat} (g : MatCpx R (4 * N) (4 * N)) (dud : DelayedUpdatesData R N)
    (j : Nat) (site : Fin N) : MatCpx R 4 (4 * N) :=
  (List.range j).foldl (fun Rj l => Rj + take4rows (dud.X l) site * dud.Y l) (take4rows g site)

/-- The matrix `Cj` of `updateInSlice_delayed`: the four columns of `g` plus the pending
corrections. -/
def delayedCj {N : Nat} (g : MatCpx R (4 * N) (4 * N)) (dud : DelayedUpdatesData R N)
    (j : Nat) (site : Fin N) : MatCpx R (4 * N) 4 :=
  (List.range j).foldl (fun Cj l => Cj + dud.X l * take4cols (dud.Y l) site) (take4cols g site)

/-- The matrix `Mj = eye4cpx - Sj * deltanonzero + deltanonzero` of `updateInSlice_delayed`. -/
def delayedMj {N : Nat} (g : MatCpx R (4 * N) (4 * N)) (dud : DelayedUpdatesData R N)
    (j : Nat) (site : Fin N) (deltanonzero : MatCpx R 4 4) : MatCpx R 4 4 :=
  1 - take4cols (delayedRj g dud j site) site * deltanonzero + deltanonzero

/-- The acceptance probability `prob = probSPhi * probSFermion` of `updateInSlice_delayed`. -/
def delayedProb {G : Type} (sm : StdMath R) {P : Params R} (st : State R G P)
    (dud : DelayedUpdatesData R P.N) (j : Nat) (timeslice : Nat) (site : Fin P.N)
    (newphi : Phi R) : R :=
  sm.exp (-(deltaSPhi P st.F site timeslice newphi))
    * (delayedMj st.g dud j site (get_deltanonzero sm st newphi timeslice site)).det.re

/-- The body of the inner loop of `updateInSlice_delayed` (without `++site`), on the state, the
blocks `X`, `Y` and the counter `j`; `none` when `arma::inv` throws. -/
def updateInSlice_delayed_site {G : Type} (sm : StdMath R) (rw : RngWrapper R G)
    {P : Params R} (proposeSpin : ProposeSpin R G) (timeslice : Nat)
    (s : State R G P × DelayedUpdatesData R P.N × Nat) (site : Fin P.N) :
    Option (State R G P × DelayedUpdatesData R P.N × Nat) :=
  let st := s.1
  let dud := s.2.1
  let j := s.2.2
  let prop := proposeSpin st.F st.rng site timeslice
  if prop.1.1 = false then some ({ st with rng := prop.2 }, dud, j)
  else
    let newphi := prop.1.2
    let deltanonzero := get_deltanonzero sm st newphi timeslice site
    let Rj := delayedRj st.g dud j site
    let Mj := delayedMj st.g dud j site deltanonzero
    let prob := delayedProb sm st dud j timeslice site newphi
    let test := acceptTest rw prob prop.2
    if test.1 = true then
      let Cj := delayedCj st.g dud j site
      let Rj' : MatCpx R 4 (4 * P.N) :=
        fun rc => Function.update (Rj rc) (siteIdx site rc) (Rj rc (siteIdx site rc) - 1)
      (armaInv Mj).map fun Minv =>
        (acceptField sm { st with rng := test.2 } site timeslice newphi,
          { X := Function.update dud.X j (Cj * deltanonzero)
            Y := Function.update dud.Y j (Minv * Rj') },
          j + 1)
    else some ({ st with rng := test.2 }, dud, j)

/-- The inner loop `while (j < delayStepsNow and site < N)` of `updateInSlice_delayed`.
The outer `none` means that `fuel` iterations did not suffice, the inner one that `arma::inv`
threw. -/
def delayedInner {G : Type} (sm : StdMath R) (rw : RngWrapper R G)
    {P : Params R} (proposeSpin : ProposeSpin R G) (timeslice : Nat) (delayStepsNow : Nat) :
    Nat → Nat → State R G P × DelayedUpdatesData R P.N × Nat →
      Option (Option (Nat × (State R G P × DelayedUpdatesData R P.N × Nat)))
  | fuel, site, s =>
    if h : s.2.2 < delayStepsNow ∧ site < P.N then
      match fuel with
      | 0 => none
      | fuel + 1 =>
        match updateInSlice_delayed_site sm rw proposeSpin timeslice s ⟨site, h.2⟩ with
        | none => some none
        | some s' => delayedInner sm rw proposeSpin timeslice delayStepsNow fuel (site + 1) s'
    else some (some (site, s))

/-- The outer loop `while (site < N)` of `updateInSlice_delayed`, with the flush
`g += dud.X*dud.Y` after each batch. -/
def delayedOuter {G : Type} (sm : StdMath R) (rw : RngWrapper R G)
    {P : Params R} (proposeSpin : ProposeSpin R G) (timeslice : Nat) (delaySteps : Nat) :
    Nat → Nat → State R G P × DelayedUpdatesData R P.N →
      Option (Option (State R G P))
  | fuel, site, s =>
    if site < P.N then
      match fuel with
      | 0 => none
      | fuel + 1 =>
        let delayStepsNow := min delaySteps (P.N - site)
        match delayedInner sm rw proposeSpin timeslice delayStepsNow (fuel + 1) site
            (s.1, s.2, 0) with
        | none => none
        | some none => some none
        | some (some (site', st, dud, j)) =>
          let st' := if 0 < j then { st with g := st.g + delayedProduct dud j } else st
          delayedOuter sm rw proposeSpin timeslice delaySteps fuel site' (st', dud)
    else some (some s.1)

/-- The function `DetSDW::updateInSlice_delayed(timeslice, proposeSpin)`; `dud` holds the
contents of the scratch blocks on entry. -/
def updateInSlice_delayed {G : Type} (sm : StdMath R) (rw : RngWrapper R G)
    {P : Params R} (proposeSpin : ProposeSpin R G) (timeslice : Nat) (delaySteps : Nat)
    (fuel : Nat) (st : State R G P) (dud : DelayedUpdatesData R P.N) :
    Option (Option (State R G P)) :=
  (delayedOuter sm rw proposeSpin timeslice delaySteps fuel 0
      ({ st with lastAccRatioLocal := 0 }, dud)).map
    fun r => r.map fun s => { s with lastAccRatioLocal := s.lastAccRatioLocal / (P.N : R) }

/-- The cosh/sinh caches agree with the field at every site and every time slice `1..m`:
`phiCosh = cosh(dtau*|phi|)` and `phiSinh = sinh(dtau*|phi|)/|phi|`, the values that
`updatePhiCoshSinh` computes. -/
def CacheConsistent {G : Type} (sm : StdMath R) {P : Params R} (st : State R G P) : Prop :=
  ∀ site ∈ Finset.range P.N, ∀ k ∈ Finset.Icc 1 P.m,
    st.phiCosh site k = sm.cosh (P.dtau * normPhi sm (st.F.getPhi site k))
    ∧ st.phiSinh site k
      = sm.sinh (P.dtau * normPhi sm (st.F.getPhi site k)) / normPhi sm (st.F.getPhi site k)

/-! ## Global moves -/

/-- The scratch data `gmd` of the global moves (`GlobalMoveData`): backups of the field, its
caches, the Green's function and the UdV storage, and the work data of the cluster growth. -/
structure GlobalMoveData (R U : Type) (N : Nat) where
  /-- the backups `gmd.phi0`, `gmd.phi1`, `gmd.phi2` -/
  F : PhiField R
  phiCosh : Nat → Nat → R
  phiSinh : Nat → Nat → R
  g : MatCpx R (4 * N) (4 * N)
  UdVStorage : U
  visited : Nat → Nat → Bool
  /-- the stack `next_sites`, top first -/
  next_sites : List (Nat × Nat)

/-- The part of the `DetSDW` object that the global moves read and write; `U` is the type of
the UdV storage of the base class. -/
structure GlobalState (R G U : Type) (P : Params R) where
  F : PhiField R
  phiCosh : Nat → Nat → R
  phiSinh : Nat → Nat → R
  g : MatCpx R (4 * P.N) (4 * P.N)
  UdVStorage : U
  gmd : GlobalMoveData R U P.N
  phiDelta : R
  acceptedGlobalShifts : Nat
  attemptedGlobalShifts : Nat
  acceptedWolffClusterUpdates : Nat
  attemptedWolffClusterUpdates : Nat
  addedWolffClusterSize : R
  rng : G

/-- The collaborators of the global moves that lie outside the given sources: the singular
values `arma::svd(g)` and the recomputation `setupUdVStorage_and_calculateGreen()` of the base
class, which yields a new Green's function and UdV storage from the current object. -/
structure GlobalEnv (R G U : Type) (P : Params R) where
  svd : MatCpx R (4 * P.N) (4 * P.N) → Fin (4 * P.N) → R
  setupUdVStorage_and_calculateGreen :
    GlobalState R G U P → MatCpx R (4 * P.N) (4 * P.N) × U

/-- The function `DetSDW::updatePhiCoshSinh(site, k)`. -/
def updatePhiCoshSinh {G U : Type} (sm : StdMath R) {P : Params R}
    (st : GlobalState R G U P) (site k : Nat) : GlobalState R G U P :=
  let phiNorm := sm.sqrt (st.F.phi0 site k ^ 2 + st.F.phi1 site k ^ 2 + st.F.phi2 site k ^ 2)
  { st with
    phiCosh := setEntry st.phiCosh site k (sm.cosh (P.dtau * phiNorm))
    phiSinh := setEntry st.phiSinh site k (sm.sinh (P.dtau * phiNorm) / phiNorm) }

/-- The function `DetSDW::updatePhiCoshSinh()`: the entries `(site, k)` with `k = 1..m` and
`site < N` of both caches are recomputed, each once; the others are left as they are. -/
def updatePhiCoshSinhAll {G U : Type} (sm : StdMath R) {P : Params R}
    (st : GlobalState R G U P) : GlobalState R G U P :=
  let phiNorm : Nat → Nat → R := fun site k =>
    sm.sqrt (st.F.phi0 site k ^ 2 + st.F.phi1 site k ^ 2 + st.F.phi2 site k ^ 2)
  { st with
    phiCosh := fun site k =>
      if 1 ≤ k ∧ k ≤ P.m ∧ site < P.N then sm.cosh (P.dtau * phiNorm site k)
      else st.phiCosh site k
    phiSinh := fun site k =>
      if 1 ≤ k ∧ k ≤ P.m ∧ site < P.N then sm.sinh (P.dtau * phiNorm site k) / phiNorm site k
      else st.phiSinh site k }

/-- The product of the ratios `old_green_sv / new_green_sv` (`prob_fermion`). -/
def svRatioProduct {n : Nat} (old_green_sv new_green_sv : Fin n → R) : R :=
  (List.finRange n).foldl (fun prob_fermion i => prob_fermion * (old_green_sv i / new_green_sv i)) 1

/-- The test `prob >= 1. or rng.rand01() < prob` of the global moves. -/
def acceptTestGlobal {G : Type} (rw : RngWrapper R G) (prob : R) (rng : G) : Bool × G :=
  if 1 ≤ prob then (true, rng)
  else (decide ((rw.rand01 rng).1 < prob), (rw.rand01 rng).2)

/-- The restore of a rejected global move: the seven `swap` calls with the backup `gmd`. -/
def restoreFromBackup {G U : Type} {P : Params R} (st : GlobalState R G U P) :
    GlobalState R G U P :=
  { st with
    F := st.gmd.F
    phiCosh := st.gmd.phiCosh
    phiSinh := st.gmd.phiSinh
    g := st.gmd.g
    UdVStorage := st.gmd.UdVStorage
    gmd := { st.gmd with
      F := st.F, phiCosh := st.phiCosh, phiSinh := st.phiSinh, g := st.g,
      UdVStorage := st.UdVStorage } }

/-- The function `DetSDW::attemptGlobalShiftMove()`; the Boolean is the outcome that the
routine prints (`accept globalShift` or `reject globalShift`). -/
def attemptGlobalShiftMove {G U : Type} (sm : StdMath R) (rw : RngWrapper R G)
    {P : Params R} (env : GlobalEnv R G U P) (st : GlobalState R G U P) :
    Bool × GlobalState R G U P :=
  let old_scalar_action := phiAction P st.F
  let old_green_sv := env.svd st.g
  -- backup: phi0, phi1, phi2 are copied, the rest is swapped
  let st1 : GlobalState R G U P :=
    { st with
      phiCosh := st.gmd.phiCosh
      phiSinh := st.gmd.phiSinh
      g := st.gmd.g
      UdVStorage := st.gmd.UdVStorage
      gmd := { st.gmd with
        F := st.F, phiCosh := st.phiCosh, phiSinh := st.phiSinh, g := st.g,
        UdVStorage := st.UdVStorage } }
  -- shift fields by a random, constant displacement
  let r0 := rw.randRange (-st1.phiDelta) st1.phiDelta st1.rng
  let r1 := rw.randRange (-st1.phiDelta) st1.phiDelta r0.2
  let r2 := rw.randRange (-st1.phiDelta) st1.phiDelta r1.2
  let st2 : GlobalState R G U P :=
    { st1 with
      F := { phi0 := fun site k => st1.F.phi0 site k + r0.1
             phi1 := fun site k => st1.F.phi1 site k + r1.1
             phi2 := fun site k => st1.F.phi2 site k + r2.1 }
      rng := r2.2 }
  let st3 := updatePhiCoshSinhAll sm st2
  let green := env.setupUdVStorage_and_calculateGreen st3
  let st4 : GlobalState R G U P := { st3 with g := green.1, UdVStorage := green.2 }
  let new_scalar_action := phiAction P st4.F
  let new_green_sv := env.svd st4.g
  let prob_scalar := sm.exp (-(new_scalar_action - old_scalar_action))
  let prob_fermion := svRatioProduct old_green_sv new_green_sv
  let prob := prob_scalar * prob_fermion
  let st5 : GlobalState R G U P :=
    { st4 with attemptedGlobalShifts := st4.attemptedGlobalShifts + 1 }
  let test := acceptTestGlobal rw prob st5.rng
  let st6 : GlobalState R G U P := { st5 with rng := test.2 }
  if test.1 = true then
    (true, { st6 with acceptedGlobalShifts := st6.acceptedGlobalShifts + 1 })
  else
    (false, restoreFromBackup st6)

/-- The lambda `projectedPhi(site, timeslice)`: the component of the field along `rd`. -/
def projectedPhi (F : PhiField R) (rd : Phi R) (site timeslice : Nat) : R :=
  dot (F.getPhi site timeslice) rd

/-- The lambda `flippedPhi(site, timeslice)`: `phi - 2 (phi . rd) rd`. -/
def flippedPhi (F : PhiField R) (rd : Phi R) (site timeslice : Nat) : Phi R :=
  fun i => F.getPhi site timeslice i - 2 * dot (F.getPhi site timeslice) rd * rd i

/-- The lambda `flipPhi(site, timeslice)`: `setPhi` of the flipped vector, which also calls
`updatePhiCoshSinh(site, timeslice)`. -/
def flipPhi {G U : Type} (sm : StdMath R) {P : Params R} (rd : Phi R)
    (st : GlobalState R G U P) (site timeslice : Nat) : GlobalState R G U P :=
  updatePhiCoshSinh sm
    { st with F := st.F.set site timeslice (flippedPhi st.F rd site timeslice) } site timeslice

/-- The treatment of one neighbour `(neigh_site, neigh_time)` of the point `(site, timeslice)`
in the cluster growth, with the bond factor `2*dtau` (space) or `2/dtau` (time). -/
def wolffTryNeighbor {G U : Type} (sm : StdMath R) (rw : RngWrapper R G) {P : Params R}
    (rd : Phi R) (factor : R) (site timeslice : Nat)
    (s : GlobalState R G U P × Nat) (neigh : Nat × Nat) : GlobalState R G U P × Nat :=
  let st := s.1
  if st.gmd.visited neigh.1 neigh.2 = false then
    let bond_arg := factor * projectedPhi st.F rd site timeslice
      * projectedPhi st.F rd neigh.1 neigh.2
    if bond_arg < 0 then
      let draw := rw.rand01 st.rng
      let st1 : GlobalState R G U P := { st with rng := draw.2 }
      if draw.1 ≤ 1 - sm.exp bond_arg then
        let st2 := flipPhi sm rd st1 neigh.1 neigh.2
        ({ st2 with gmd := { st2.gmd with
              visited := Function.update st2.gmd.visited neigh.1
                (Function.update (st2.gmd.visited neigh.1) neigh.2 true)
              next_sites := neigh :: st2.gmd.next_sites } },
          s.2 + 1)
      else (st1, s.2)
    else s
  else s

/-- The body of the `do ... while` loop of the cluster growth for the popped point. -/
def wolffVisit {G U : Type} (sm : StdMath R) (rw : RngWrapper R G) {P : Params R}
    (rd : Phi R) (site timeslice : Nat) (s : GlobalState R G U P × Nat) :
    GlobalState R G U P × Nat :=
  let s1 := ((neighbors P.L site).map fun neigh_site => (neigh_site, timeslice)).foldl
    (wolffTryNeighbor sm rw rd (2 * P.dtau) site timeslice) s
  ([timeNeigh P.m ChainDir.PLUS timeslice, timeNeigh P.m ChainDir.MINUS timeslice].map
      fun neigh_time => (site, neigh_time)).foldl
    (wolffTryNeighbor sm rw rd (2 / P.dtau) site timeslice) s1

/-- The loop `do ... while (not gmd.next_sites.empty())` of the cluster growth; `none` when
`fuel` iterations did not suffice. -/
def wolffGrow {G U : Type} (sm : StdMath R) (rw : RngWrapper R G) {P : Params R}
    (rd : Phi R) : Nat → GlobalState R G U P × Nat → Option (GlobalState R G U P × Nat)
  | 0, _ => none
  | fuel + 1, s =>
    match s.1.gmd.next_sites with
    | [] => some s
    | top :: rest =>
      let s1 : GlobalState R G U P × Nat :=
        ({ s.1 with gmd := { s.1.gmd with next_sites := rest } }, s.2)
      let s2 := wolffVisit sm rw rd top.1 top.2 s1
      if s2.1.gmd.next_sites.isEmpty then some s2
      else wolffGrow sm rw rd fuel s2

/-- The function `DetSDW::attemptWolffClusterUpdate()`; the Boolean is the outcome that the
routine prints (`accept cluster` or `reject cluster`), `none` means that `fuel` iterations of
the cluster growth did not suffice. -/
def attemptWolffClusterUpdate {G U : Type} (sm : StdMath R) (rw : RngWrapper R G)
    {P : Params R} (env : GlobalEnv R G U P) (fuel : Nat) (st : GlobalState R G U P) :
    Option (Bool × GlobalState R G U P) :=
  let old_green_sv := env.svd st.g
  -- backup: the field and its caches are copied, the rest is swapped
  let st1 : GlobalState R G U P :=
    { st with
      g := st.gmd.g
      UdVStorage := st.gmd.UdVStorage
      gmd := { st.gmd with
        F := st.F, phiCosh := st.phiCosh, phiSinh := st.phiSinh, g := st.g,
        UdVStorage := st.UdVStorage } }
  let point := rw.randPointOnSphere st1.rng
  let rd : Phi R := ![point.1.1, point.1.2.1, point.1.2.2]
  let tsDraw := rw.randInt 1 P.m point.2
  let siteDraw := rw.randInt 0 (P.N - 1) tsDraw.2
  let timeslice := tsDraw.1
  let site := siteDraw.1
  let st2 : GlobalState R G U P :=
    { st1 with
      rng := siteDraw.2
      gmd := { st1.gmd with visited := fun _ _ => false, next_sites := [] } }
  let st3 := flipPhi sm rd st2 site timeslice
  let st4 : GlobalState R G U P :=
    { st3 with gmd := { st3.gmd with
        visited := Function.update st3.gmd.visited site
          (Function.update (st3.gmd.visited site) timeslice true)
        next_sites := (site, timeslice) :: st3.gmd.next_sites } }
  match wolffGrow sm rw rd fuel (st4, 1) with
  | none => none
  | some (st5, cluster_size) =>
    let green := env.setupUdVStorage_and_calculateGreen st5
    let st6 : GlobalState R G U P := { st5 with g := green.1, UdVStorage := green.2 }
    let new_green_sv := env.svd st6.g
    let prob_fermion := svRatioProduct old_green_sv new_green_sv
    let st7 : GlobalState R G U P :=
      { st6 with attemptedWolffClusterUpdates := st6.attemptedWolffClusterUpdates + 1 }
    let test := acceptTestGlobal rw prob_fermion st7.rng
    let st8 : GlobalState R G U P := { st7 with rng := test.2 }
    if test.1 = true then
      some (true, { st8 with
        acceptedWolffClusterUpdates := st8.acceptedWolffClusterUpdates + 1
        addedWolffClusterSize := st8.addedWolffClusterSize + (cluster_size : R) })
    else
      some (false, restoreFromBackup st8)

/-! ## Checkerboard multiplication with the hopping exponentials -/

/-- Modelled from the spec: the enumeration `CheckerboardMethod` is declared outside the given
sources; these are the four values that the source dispatches on. -/
inductive CheckerboardMethod where
  | CB_NONE | CB_SANTOS | CB_ASSAAD | CB_ASSAAD_BERG
deriving DecidableEq, Repr

/-- Modelled from the spec: the boundary conditions `bc` (declared outside the given sources):
periodic, or antiperiodic in x, in y, or in both. -/
inductive BC where
  | PBC | APBC_X | APBC_Y | APBC_XY
deriving DecidableEq, Repr

/-- Modelled from the spec: the two fermion bands (the enumeration `Band` is declared outside
the given sources). -/
inductive Band where
  | XBAND | YBAND
deriving DecidableEq, Repr

/-- The members of `DetSDW` that the checkerboard routines read: the boundary conditions and
the bond factors `cosh(-dtau*t)`, `sinh(-dtau*t)` of each band, for the whole and for half a
time step. -/
structure Hopping (R : Type) where
  bc : BC
  sinhHopHor : Band → R
  sinhHopVer : Band → R
  coshHopHor : Band → R
  coshHopVer : Band → R
  sinhHopHorHalf : Band → R
  sinhHopVerHalf : Band → R
  coshHopHorHalf : Band → R
  coshHopVerHalf : Band → R

/-- The row `result.row(i)`; the checkerboard routines only read rows inside the matrix, the
value outside is a zero row. -/
def matRow {n k : Nat} (A : MatCpx R n k) (i : Nat) : Fin k → Cpx R :=
  fun c => if h : i < n then A ⟨i, h⟩ c else 0

/-- The assignment `result.row(i) = v`. -/
def setRow {n k : Nat} (A : MatCpx R n k) (i : Nat) (v : Fin k → Cpx R) : MatCpx R n k :=
  fun r => if r.val = i then v else A r

/-- The column `result.col(i)`; zero outside the matrix. -/
def matCol {n k : Nat} (A : MatCpx R n k) (i : Nat) : Fin n → Cpx R :=
  fun r => if h : i < k then A r ⟨i, h⟩ else 0

/-- The assignment `result.col(i) = v`. -/
def setCol {n k : Nat} (A : MatCpx R n k) (i : Nat) (v : Fin n → Cpx R) : MatCpx R n k :=
  fun r c => if c.val = i then v r else A r c

/-- The product of a real number and a complex one. -/
def rmul (x : R) (w : Cpx R) : Cpx R := Cpx.ofReal x * w

/-- The values taken by the counter of `for (i = start; i < stop; i += 2)`. -/
def stepTwo (start stop : Nat) : List Nat :=
  (List.range ((stop - start + 1) / 2)).map fun t => start + 2 * t

/-- The sign-adjusted bond factor `b_sh` of `cb_santos_applyBondFactorsLeft` and `...Right`. -/
def santos_b_sh (L : Nat) (bc : BC) (neigh : NeighDir) (i1 : Nat) (sh : R) : R :=
  if (bc = BC.APBC_X ∨ bc = BC.APBC_XY) ∧ neigh = NeighDir.XPLUS ∧ i1 = L - 1 then -sh
  else if (bc = BC.APBC_Y ∨ bc = BC.APBC_XY) ∧ neigh = NeighDir.YPLUS ∧ i1 = L - 1 then -sh
  else sh

/-- The site `i` chosen by the `switch (neigh)` of the Santos routines (the routine asserts
that `neigh` is `XPLUS` or `YPLUS`). -/
def santos_site (L : Nat) (neigh : NeighDir) (i1 i2 : Nat) : Nat :=
  match neigh with
  | NeighDir.XPLUS => coordsToSite L i1 i2
  | NeighDir.YPLUS => coordsToSite L i2 i1
  | _ => 0

/-- The loop body of `cb_santos_applyBondFactorsLeft`: rows `i` and `j` of `result` are
blended with the factors `ch` and `b_sh`. -/
def cb_santos_bondLeft {n k : Nat} (L : Nat) (bc : BC) (neigh : NeighDir) (ch sh : R)
    (result : MatCpx R n k) (i1 i2 : Nat) : MatCpx R n k :=
  let i := santos_site L neigh i1 i2
  let j := spaceNeigh L neigh i
  let b_sh := santos_b_sh L bc neigh i1 sh
  let new_row_i : Fin k → Cpx R := fun c => rmul ch (matRow result i c) + rmul b_sh (matRow result j c)
  let new_row_j : Fin k → Cpx R := fun c => rmul b_sh (matRow result i c) + rmul ch (matRow result j c)
  setRow (setRow result j new_row_j) i new_row_i

/-- The function `DetSDW::cb_santos_applyBondFactorsLeft`. -/
def cb_santos_applyBondFactorsLeft {n k : Nat} (L : Nat) (bc : BC) (result : MatCpx R n k)
    (neigh : NeighDir) (subgroup : Nat) (ch sh : R) : MatCpx R n k :=
  (stepTwo subgroup L).foldl
    (fun res i1 => (List.range L).foldl
      (fun res2 i2 => cb_santos_bondLeft L bc neigh ch sh res2 i1 i2) res)
    result

/-- The function `cbLMultHoppingExp_impl` for `CB_SANTOS`. -/
def cbLMultHoppingExp_santos {n k : Nat} (L : Nat) (hp : Hopping R) (A : MatCpx R n k)
    (band : Band) (sign : Int) (invertedCbOrder : Bool) : MatCpx R n k :=
  if invertedCbOrder = false then
    let r1 := cb_santos_applyBondFactorsLeft L hp.bc A NeighDir.XPLUS 0
      (hp.coshHopHor band) (sign * hp.sinhHopHor band)
    let r2 := cb_santos_applyBondFactorsLeft L hp.bc r1 NeighDir.YPLUS 0
      (hp.coshHopVer band) (sign * hp.sinhHopVer band)
    let r3 := cb_santos_applyBondFactorsLeft L hp.bc r2 NeighDir.XPLUS 1
      (hp.coshHopHor band) (sign * hp.sinhHopHor band)
    cb_santos_applyBondFactorsLeft L hp.bc r3 NeighDir.YPLUS 1
      (hp.coshHopVer band) (sign * hp.sinhHopVer band)
  else
    let r1 := cb_santos_applyBondFactorsLeft L hp.bc A NeighDir.YPLUS 1
      (hp.coshHopVer band) (sign * hp.sinhHopVer band)
    let r2 := cb_santos_applyBondFactorsLeft L hp.bc r1 NeighDir.XPLUS 1
      (hp.coshHopHor band) (sign * hp.sinhHopHor band)
    let r3 := cb_santos_applyBondFactorsLeft L hp.bc r2 NeighDir.YPLUS 0
      (hp.coshHopVer band) (sign * hp.sinhHopVer band)
    cb_santos_applyBondFactorsLeft L hp.bc r3 NeighDir.XPLUS 0
      (hp.coshHopHor band) (sign * hp.sinhHopHor band)

/-- The factor `b_sh_hor` of the Assaad routines: negated for a plaquette whose horizontal
bonds cross an antiperiodic boundary. -/
def assaad_b_sh_hor (L : Nat) (bc : BC) (i1 : Nat) (sh_hor : R) : R :=
  if (bc = BC.APBC_X ∨ bc = BC.APBC_XY) ∧ i1 = L - 1 then -sh_hor else sh_hor

/-- The factor `b_sh_ver` of the Assaad routines. -/
def assaad_b_sh_ver (L : Nat) (bc : BC) (i2 : Nat) (sh_ver : R) : R :=
  if (bc = BC.APBC_Y ∨ bc = BC.APBC_XY) ∧ i2 = L - 1 then -sh_ver else sh_ver

/-- The loop body of `cb_assaad_applyBondFactorsLeft`: the rows `i, j, k, l` of one plaquette
are blended. -/
def cb_assaad_plaquetteLeft {n k : Nat} (L : Nat) (bc : BC) (ch_hor sh_hor ch_ver sh_ver : R)
    (result : MatCpx R n k) (i1 i2 : Nat) : MatCpx R n k :=
  let i := coordsToSite L i1 i2
  let j := spaceNeigh L NeighDir.XPLUS i
  let k' := spaceNeigh L NeighDir.YPLUS i
  let l := spaceNeigh L NeighDir.XPLUS k'
  let ri := matRow result i
  let rj := matRow result j
  let rk := matRow result k'
  let rl := matRow result l
  let b_sh_hor := assaad_b_sh_hor L bc i1 sh_hor
  let b_sh_ver := assaad_b_sh_ver L bc i2 sh_ver
  let new_row_i : Fin k → Cpx R := fun c =>
    rmul (ch_hor * ch_ver) (ri c) + rmul (ch_ver * b_sh_hor) (rj c)
      + rmul (ch_hor * b_sh_ver) (rk c) + rmul (b_sh_hor * b_sh_ver) (rl c)
  let new_row_j : Fin k → Cpx R := fun c =>
    rmul (ch_ver * b_sh_hor) (ri c) + rmul (ch_hor * ch_ver) (rj c)
      + rmul (b_sh_hor * b_sh_ver) (rk c) + rmul (ch_hor * b_sh_ver) (rl c)
  let new_row_k : Fin k → Cpx R := fun c =>
    rmul (ch_hor * b_sh_ver) (ri c) + rmul (b_sh_hor * b_sh_ver) (rj c)
      + rmul (ch_hor * ch_ver) (rk c) + rmul (ch_ver * b_sh_hor) (rl c)
  let new_row_l : Fin k → Cpx R := fun c =>
    rmul (b_sh_hor * b_sh_ver) (ri c) + rmul (ch_hor * b_sh_ver) (rj c)
      + rmul (ch_ver * b_sh_hor) (rk c) + rmul (ch_hor * ch_ver) (rl c)
  setRow (setRow (setRow (setRow result l new_row_l) i new_row_i) j new_row_j) k' new_row_k

/-- The function `DetSDW::cb_assaad_applyBondFactorsLeft`. -/
def cb_assaad_applyBondFactorsLeft {n k : Nat} (L : Nat) (bc : BC) (result : MatCpx R n k)
    (subgroup : Nat) (ch_hor sh_hor ch_ver sh_ver : R) : MatCpx R n k :=
  (stepTwo subgroup L).foldl
    (fun res i1 => (stepTwo subgroup L).foldl
      (fun res2 i2 => cb_assaad_plaquetteLeft L bc ch_hor sh_hor ch_ver sh_ver res2 i1 i2) res)
    result

/-- The function `cbLMultHoppingExp_impl` for `CB_ASSAAD`. -/
def cbLMultHoppingExp_assaad {n k : Nat} (L : Nat) (hp : Hopping R) (A : MatCpx R n k)
    (band : Band) (sign : Int) (invertedCbOrder : Bool) : MatCpx R n k :=
  if invertedCbOrder = false then
    let r1 := cb_assaad_applyBondFactorsLeft L hp.bc A 0 (hp.coshHopHor band)
      (sign * hp.sinhHopHor band) (hp.coshHopVer band) (sign * hp.sinhHopVer band)
    cb_assaad_applyBondFactorsLeft L hp.bc r1 1 (hp.coshHopHor band)
      (sign * hp.sinhHopHor band) (hp.coshHopVer band) (sign * hp.sinhHopVer band)
  else
    let r1 := cb_assaad_applyBondFactorsLeft L hp.bc A 1 (hp.coshHopHor band)
      (sign * hp.sinhHopHor band) (hp.coshHopVer band) (sign * hp.sinhHopVer band)
    cb_assaad_applyBondFactorsLeft L hp.bc r1 0 (hp.coshHopHor band)
      (sign * hp.sinhHopHor band) (hp.coshHopVer band) (sign * hp.sinhHopVer band)

/-- The function `cbLMultHoppingExp_impl` for `CB_ASSAAD_BERG`; the order flag is unused. -/
def cbLMultHoppingExp_assaad_berg {n k : Nat} (L : Nat) (hp : Hopping R) (A : MatCpx R n k)
    (band : Band) (sign : Int) : MatCpx R n k :=
  let r1 := cb_assaad_applyBondFactorsLeft L hp.bc A 1 (hp.coshHopHorHalf band)
    (sign * hp.sinhHopHorHalf band) (hp.coshHopVerHalf band) (sign * hp.sinhHopVerHalf band)
  let r2 := cb_assaad_applyBondFactorsLeft L hp.bc r1 0 (hp.coshHopHor band)
    (sign * hp.sinhHopHor band) (hp.coshHopVer band) (sign * hp.sinhHopVer band)
  cb_assaad_applyBondFactorsLeft L hp.bc r2 1 (hp.coshHopHorHalf band)
    (sign * hp.sinhHopHorHalf band) (hp.coshHopVerHalf band) (sign * hp.sinhHopVerHalf band)

/-- The function `DetSDW::cbLMultHoppingExp`, which dispatches on the checkerboard method;
`none` stands for the `GeneralError` thrown for `CB_NONE`. -/
def cbLMultHoppingExp {n k : Nat} (cb : CheckerboardMethod) (L : Nat) (hp : Hopping R)
    (A : MatCpx R n k) (band : Band) (sign : Int) (invertedCbOrder : Bool) :
    Option (MatCpx R n k) :=
  match cb with
  | CheckerboardMethod.CB_NONE => none
  | CheckerboardMethod.CB_SANTOS =>
    some (cbLMultHoppingExp_santos L hp A band sign invertedCbOrder)
  | CheckerboardMethod.CB_ASSAAD =>
    some (cbLMultHoppingExp_assaad L hp A band sign invertedCbOrder)
  | CheckerboardMethod.CB_ASSAAD_BERG =>
    some (cbLMultHoppingExp_assaad_berg L hp A band sign)

/-- The loop body of `cb_santos_applyBondFactorsRight`: columns `i` and `j` of `result` are
blended with the factors `ch` and `b_sh`. -/
def cb_santos_bondRight {n k : Nat} (L : Nat) (bc : BC) (neigh : NeighDir) (ch sh : R)
    (result : MatCpx R n k) (i1 i2 : Nat) : MatCpx R n k :=
  let i := santos_site L neigh i1 i2
  let j := spaceNeigh L neigh i
  let b_sh := santos_b_sh L bc neigh i1 sh
  let new_col_i : Fin n → Cpx R := fun r => rmul ch (matCol result i r) + rmul b_sh (matCol result j r)
  let new_col_j : Fin n → Cpx R := fun r => rmul b_sh (matCol result i r) + rmul ch (matCol result j r)
  setCol (setCol result j new_col_j) i new_col_i

/-- The function `DetSDW::cb_santos_applyBondFactorsRight`. -/
def cb_santos_applyBondFactorsRight {n k : Nat} (L : Nat) (bc : BC) (result : MatCpx R n k)
    (neigh : NeighDir) (subgroup : Nat) (ch sh : R) : MatCpx R n k :=
  (stepTwo subgroup L).foldl
    (fun res i1 => (List.range L).foldl
      (fun res2 i2 => cb_santos_bondRight L bc neigh ch sh res2 i1 i2) res)
    result

/-- The function `cbRMultHoppingExp_impl` for `CB_SANTOS`, with the order of the four passes
reversed with respect to `cbLMultHoppingExp`. -/
def cbRMultHoppingExp_santos {n k : Nat} (L : Nat) (hp : Hopping R) (A : MatCpx R n k)
    (band : Band) (sign : Int) (invertedCbOrder : Bool) : MatCpx R n k :=
  if invertedCbOrder = false then
    let r1 := cb_santos_applyBondFactorsRight L hp.bc A NeighDir.YPLUS 1
      (hp.coshHopVer band) (sign * hp.sinhHopVer band)
    let r2 := cb_santos_applyBondFactorsRight L hp.bc r1 NeighDir.XPLUS 1
      (hp.coshHopHor band) (sign * hp.sinhHopHor band)
    let r3 := cb_santos_applyBondFactorsRight L hp.bc r2 NeighDir.YPLUS 0
      (hp.coshHopVer band) (sign * hp.sinhHopVer band)
    cb_santos_applyBondFactorsRight L hp.bc r3 NeighDir.XPLUS 0
      (hp.coshHopHor band) (sign * hp.sinhHopHor band)
  else
    let r1 := cb_santos_applyBondFactorsRight L hp.bc A NeighDir.XPLUS 0
      (hp.coshHopHor band) (sign * hp.sinhHopHor band)
    let r2 := cb_santos_applyBondFactorsRight L hp.bc r1 NeighDir.YPLUS 0
      (hp.coshHopVer band) (sign * hp.sinhHopVer band)
    let r3 := cb_santos_applyBondFactorsRight L hp.bc r2 NeighDir.XPLUS 1
      (hp.coshHopHor band) (sign * hp.sinhHopHor band)
    cb_santos_applyBondFactorsRight L hp.bc r3 NeighDir.YPLUS 1
      (hp.coshHopVer band) (sign * hp.sinhHopVer band)

/-- The loop body of `cb_assaad_applyBondFactorsRight`: the columns `i, j, k, l` of one
plaquette are blended. -/
def cb_assaad_plaquetteRight {n k : Nat} (L : Nat) (bc : BC) (ch_hor sh_hor ch_ver sh_ver : R)
    (result : MatCpx R n k) (i1 i2 : Nat) : MatCpx R n k :=
  let i := coordsToSite L i1 i2
  let j := spaceNeigh L NeighDir.XPLUS i
  let k' := spaceNeigh L NeighDir.YPLUS i
  let l := spaceNeigh L NeighDir.XPLUS k'
  let ci := matCol result i
  let cj := matCol result j
  let ck := matCol result k'
  let cl := matCol result l
  let b_sh_hor := assaad_b_sh_hor L bc i1 sh_hor
  let b_sh_ver := assaad_b_sh_ver L bc i2 sh_ver
  let new_col_i : Fin n → Cpx R := fun r =>
    rmul (ch_hor * ch_ver) (ci r) + rmul (ch_ver * b_sh_hor) (cj r)
      + rmul (ch_hor * b_sh_ver) (ck r) + rmul (b_sh_hor * b_sh_ver) (cl r)
  let new_col_j : Fin n → Cpx R := fun r =>
    rmul (ch_ver * b_sh_hor) (ci r) + rmul (ch_hor * ch_ver) (cj r)
      + rmul (b_sh_hor * b_sh_ver) (ck r) + rmul (ch_hor * b_sh_ver) (cl r)
  let new_col_k : Fin n → Cpx R := fun r =>
    rmul (ch_hor * b_sh_ver) (ci r) + rmul (b_sh_hor * b_sh_ver) (cj r)
      + rmul (ch_hor * ch_ver) (ck r) + rmul (ch_ver * b_sh_hor) (cl r)
  let new_col_l : Fin n → Cpx R := fun r =>
    rmul (b_sh_hor * b_sh_ver) (ci r) + rmul (ch_hor * b_sh_ver) (cj r)
      + rmul (ch_ver * b_sh_hor) (ck r) + rmul (ch_hor * ch_ver) (cl r)
  setCol (setCol (setCol (setCol result l new_col_l) i new_col_i) j new_col_j) k' new_col_k

/-- The function `DetSDW::cb_assaad_applyBondFactorsRight`. -/
def cb_assaad_applyBondFactorsRight {n k : Nat} (L : Nat) (bc : BC) (result : MatCpx R n k)
    (subgroup : Nat) (ch_hor sh_hor ch_ver sh_ver : R) : MatCpx R n k :=
  (stepTwo subgroup L).foldl
    (fun res i1 => (stepTwo subgroup L).foldl
      (fun res2 i2 => cb_assaad_plaquetteRight L bc ch_hor sh_hor ch_ver sh_ver res2 i1 i2) res)
    result

/-- The function `cbRMultHoppingExp_impl` for `CB_ASSAAD`; both branches of the source make
the same two calls, subgroup 1 and then subgroup 0. -/
def cbRMultHoppingExp_assaad {n k : Nat} (L : Nat) (hp : Hopping R) (A : MatCpx R n k)
    (band : Band) (sign : Int) (invertedCbOrder : Bool) : MatCpx R n k :=
  if invertedCbOrder = false then
    let r1 := cb_assaad_applyBondFactorsRight L hp.bc A 1 (hp.coshHopHor band)
      (sign * hp.sinhHopHor band) (hp.coshHopVer band) (sign * hp.sinhHopVer band)
    cb_assaad_applyBondFactorsRight L hp.bc r1 0 (hp.coshHopHor band)
      (sign * hp.sinhHopHor band) (hp.coshHopVer band) (sign * hp.sinhHopVer band)
  else
    let r1 := cb_assaad_applyBondFactorsRight L hp.bc A 1 (hp.coshHopHor band)
      (sign * hp.sinhHopHor band) (hp.coshHopVer band) (sign * hp.sinhHopVer band)
    cb_assaad_applyBondFactorsRight L hp.bc r1 0 (hp.coshHopHor band)
      (sign * hp.sinhHopHor band) (hp.coshHopVer band) (sign * hp.sinhHopVer band)

/-- The function `cbRMultHoppingExp_impl` for `CB_ASSAAD_BERG`; the order flag is unused. -/
def cbRMultHoppingExp_assaad_berg {n k : Nat} (L : Nat) (hp : Hopping R) (A : MatCpx R n k)
    (band : Band) (sign : Int) : MatCpx R n k :=
  let r1 := cb_assaad_applyBondFactorsRight L hp.bc A 1 (hp.coshHopHorHalf band)
    (sign * hp.sinhHopHorHalf band) (hp.coshHopVerHalf band) (sign * hp.sinhHopVerHalf band)
  let r2 := cb_assaad_applyBondFactorsRight L hp.bc r1 0 (hp.coshHopHor band)
    (sign * hp.sinhHopHor band) (hp.coshHopVer band) (sign * hp.sinhHopVer band)
  cb_assaad_applyBondFactorsRight L hp.bc r2 1 (hp.coshHopHorHalf band)
    (sign * hp.sinhHopHorHalf band) (hp.coshHopVerHalf band) (sign * hp.sinhHopVerHalf band)

/-- The function `DetSDW::cbRMultHoppingExp`, which dispatches on the checkerboard method;
`none` stands for the `GeneralError` thrown for `CB_NONE`. -/
def cbRMultHoppingExp {n k : Nat} (cb : CheckerboardMethod) (L : Nat) (hp : Hopping R)
    (A : MatCpx R n k) (band : Band) (sign : Int) (invertedCbOrder : Bool) :
    Option (MatCpx R n k) :=
  match cb with
  | CheckerboardMethod.CB_NONE => none
  | CheckerboardMethod.CB_SANTOS =>
    some (cbRMultHoppingExp_santos L hp A band sign invertedCbOrder)
  | CheckerboardMethod.CB_ASSAAD =>
    some (cbRMultHoppingExp_assaad L hp A band sign invertedCbOrder)
  | CheckerboardMethod.CB_ASSAAD_BERG =>
    some (cbRMultHoppingExp_assaad_berg L hp A band sign)

/-! ## Multiplication with the transfer matrix of one time slice -/

/-- The flavour block `x / N` of a row or column index of a `4N x 4N` matrix. -/
def blockOf {N : Nat} (x : Fin (4 * N)) : Fin 4 :=
  ⟨x.val / N, by
    have h := x.isLt
    exact Nat.div_lt_of_lt_mul (by omega)⟩

/-- The site `x % N` of a row or column index of a `4N x 4N` matrix. -/
def posOf {N : Nat} (x : Fin (4 * N)) : Fin N :=
  ⟨x.val % N, by
    have h := x.isLt
    exact Nat.mod_lt _ (by omega)⟩

/-- The macro `block(mat,row,col)`: the submatrix of rows `row*N .. (row+1)*N - 1` and columns
`col*N .. (col+1)*N - 1`. -/
def block {N : Nat} (mat : MatCpx R (4 * N) (4 * N)) (row col : Fin 4) : MatCpx R N N :=
  fun i j => mat (siteIdx i row) (siteIdx j col)

/-- The matrix `result` whose sixteen blocks `block(result,row,col)` have been assigned. -/
def fromBlocks4 {N : Nat} (blk : Fin 4 → Fin 4 → MatCpx R N N) : MatCpx R (4 * N) (4 * N) :=
  fun x y => blk (blockOf x) (blockOf y) (posOf x) (posOf y)

/-- The product `diagmat(d) * M`: row `i` of `M` is scaled by `d(i)`. -/
def diagTimes {n k : Nat} (d : Fin n → Cpx R) (M : MatCpx R n k) : MatCpx R n k :=
  fun i j => d i * M i j

/-- The product `M * diagmat(d)`: column `j` of `M` is scaled by `d(j)`. -/
def timesDiag {n k : Nat} (M : MatCpx R n k) (d : Fin k → Cpx R) : MatCpx R n k :=
  fun i j => M i j * d j

/-- The site-diagonal vectors that the four routines build from slice `k` of the field and of
its caches, for a given `muTerm`. -/
structure SliceVectors (R : Type) (N : Nat) where
  c : Fin N → Cpx R
  ax : Fin N → Cpx R
  max : Fin N → Cpx R
  /-- the vector `mbx` of the forward routines, `bx` of the inverse ones -/
  bx : Fin N → Cpx R
  /-- the vector `mbcx` of the forward routines, `bcx` of the inverse ones -/
  bcx : Fin N → Cpx R

/-- The vectors `c`, `ax`, `max`, `mbx`, `mbcx` of `leftMultiplyBk` and `rightMultiplyBk`. -/
def sliceVectorsFwd (sm : StdMath R) (P : Params R) (F : PhiField R)
    (phiCosh phiSinh : Nat → Nat → R) (k : Nat) : SliceVectors R P.N :=
  let muTerm := sm.exp (P.dtau * P.mu)
  let b : Fin P.N → Cpx R := fun i => ⟨F.phi0 i k, -F.phi1 i k⟩
  let bc : Fin P.N → Cpx R := fun i => ⟨F.phi0 i k, F.phi1 i k⟩
  { c := fun i => Cpx.ofReal (muTerm * phiCosh i k)
    ax := fun i => Cpx.ofReal (muTerm * F.phi2 i k * phiSinh i k)
    max := fun i => Cpx.ofReal (-muTerm * F.phi2 i k * phiSinh i k)
    bx := fun i => Cpx.ofReal muTerm * -b i * Cpx.ofReal (phiSinh i k)
    bcx := fun i => Cpx.ofReal muTerm * -bc i * Cpx.ofReal (phiSinh i k) }

/-- The vectors `c`, `ax`, `max`, `bx`, `bcx` of `leftMultiplyBkInv` and
`rightMultiplyBkInv`. -/
def sliceVectorsInv (sm : StdMath R) (P : Params R) (F : PhiField R)
    (phiCosh phiSinh : Nat → Nat → R) (k : Nat) : SliceVectors R P.N :=
  let muTerm := sm.exp (-P.dtau * P.mu)
  let b : Fin P.N → Cpx R := fun i => ⟨F.phi0 i k, -F.phi1 i k⟩
  let bc : Fin P.N → Cpx R := fun i => ⟨F.phi0 i k, F.phi1 i k⟩
  { c := fun i => Cpx.ofReal (muTerm * phiCosh i k)
    ax := fun i => Cpx.ofReal (muTerm * F.phi2 i k * phiSinh i k)
    max := fun i => Cpx.ofReal (-muTerm * F.phi2 i k * phiSinh i k)
    bx := fun i => Cpx.ofReal muTerm * b i * Cpx.ofReal (phiSinh i k)
    bcx := fun i => Cpx.ofReal muTerm * bc i * Cpx.ofReal (phiSinh i k) }

/-- The sixteen block assignments of the four routines, each of which may fail. -/
def assignBlocks {N : Nat} (blk : Fin 4 → Fin 4 → Option (MatCpx R N N)) :
    Option (MatCpx R (4 * N) (4 * N)) :=
  if h : ∀ row col, (blk row col).isSome = true then
    some (fromBlocks4 fun row col => (blk row col).get (h row col))
  else none

/-- The sum of three matrices, each the result of a call that may fail. -/
def add3 {N : Nat} (x y z : Option (MatCpx R N N)) : Option (MatCpx R N N) :=
  x.bind fun a => y.bind fun b => z.bind fun c => some (a + b + c)

/-- The function `DetSDW::leftMultiplyBk`. -/
def leftMultiplyBk (sm : StdMath R) (cb : CheckerboardMethod) (P : Params R) (hp : Hopping R)
    (F : PhiField R) (phiCosh phiSinh : Nat → Nat → R)
    (orig : MatCpx R (4 * P.N) (4 * P.N)) (k : Nat) : Option (MatCpx R (4 * P.N) (4 * P.N)) :=
  let v := sliceVectorsFwd sm P F phiCosh phiSinh k
  let times := fun (d : Fin P.N → Cpx R) (row col : Fin 4) (band : Band) =>
    (cbLMultHoppingExp cb P.L hp (block orig row col) band (-1) false).map
      fun t => diagTimes d t
  assignBlocks fun row col =>
    match row with
    | 0 => add3 (times v.c 0 col Band.XBAND) (times v.max 2 col Band.YBAND)
        (times v.bx 3 col Band.YBAND)
    | 1 => add3 (times v.c 1 col Band.XBAND) (times v.bcx 2 col Band.YBAND)
        (times v.ax 3 col Band.YBAND)
    | 2 => add3 (times v.max 0 col Band.XBAND) (times v.bx 1 col Band.XBAND)
        (times v.c 2 col Band.YBAND)
    | 3 => add3 (times v.bcx 0 col Band.XBAND) (times v.ax 1 col Band.XBAND)
        (times v.c 3 col Band.YBAND)

/-- The function `DetSDW::leftMultiplyBkInv`. -/
def leftMultiplyBkInv (sm : StdMath R) (cb : CheckerboardMethod) (P : Params R)
    (hp : Hopping R) (F : PhiField R) (phiCosh phiSinh : Nat → Nat → R)
    (orig : MatCpx R (4 * P.N) (4 * P.N)) (k : Nat) : Option (MatCpx R (4 * P.N) (4 * P.N)) :=
  let v := sliceVectorsInv sm P F phiCosh phiSinh k
  let times := fun (d : Fin P.N → Cpx R) (row col : Fin 4) (band : Band) =>
    cbLMultHoppingExp cb P.L hp (diagTimes d (block orig row col)) band 1 true
  assignBlocks fun row col =>
    match row with
    | 0 => add3 (times v.c 0 col Band.XBAND) (times v.ax 2 col Band.XBAND)
        (times v.bx 3 col Band.XBAND)
    | 1 => add3 (times v.c 1 col Band.XBAND) (times v.bcx 2 col Band.XBAND)
        (times v.max 3 col Band.XBAND)
    | 2 => add3 (times v.ax 0 col Band.YBAND) (times v.bx 1 col Band.YBAND)
        (times v.c 2 col Band.YBAND)
    | 3 => add3 (times v.bcx 0 col Band.YBAND) (times v.max 1 col Band.YBAND)
        (times v.c 3 col Band.YBAND)

/-- The function `DetSDW::rightMultiplyBk`. -/
def rightMultiplyBk (sm : StdMath R) (cb : CheckerboardMethod) (P : Params R) (hp : Hopping R)
    (F : PhiField R) (phiCosh phiSinh : Nat → Nat → R)
    (orig : MatCpx R (4 * P.N) (4 * P.N)) (k : Nat) : Option (MatCpx R (4 * P.N) (4 * P.N)) :=
  let v := sliceVectorsFwd sm P F phiCosh phiSinh k
  let times := fun (row col : Fin 4) (d : Fin P.N → Cpx R) (band : Band) =>
    cbRMultHoppingExp cb P.L hp (timesDiag (block orig row col) d) band (-1) false
  assignBlocks fun row col =>
    match col with
    | 0 => add3 (times row 0 v.c Band.XBAND) (times row 2 v.max Band.XBAND)
        (times row 3 v.bcx Band.XBAND)
    | 1 => add3 (times row 1 v.c Band.XBAND) (times row 2 v.bx Band.XBAND)
        (times row 3 v.ax Band.XBAND)
    | 2 => add3 (times row 0 v.max Band.YBAND) (times row 1 v.bcx Band.YBAND)
        (times row 2 v.c Band.YBAND)
    | 3 => add3 (times row 0 v.bx Band.YBAND) (times row 1 v.ax Band.YBAND)
        (times row 3 v.c Band.YBAND)

/-- The function `DetSDW::rightMultiplyBkInv`. -/
def rightMultiplyBkInv (sm : StdMath R) (cb : CheckerboardMethod) (P : Params R)
    (hp : Hopping R) (F : PhiField R) (phiCosh phiSinh : Nat → Nat → R)
    (orig : MatCpx R (4 * P.N) (4 * P.N)) (k : Nat) : Option (MatCpx R (4 * P.N) (4 * P.N)) :=
  let v := sliceVectorsInv sm P F phiCosh phiSinh k
  let times := fun (row col : Fin 4) (band : Band) (d : Fin P.N → Cpx R) =>
    (cbRMultHoppingExp cb P.L hp (block orig row col) band 1 true).map
      fun t => timesDiag t d
  assignBlocks fun row col =>
    match col with
    | 0 => add3 (times row 0 Band.XBAND v.c) (times row 2 Band.YBAND v.ax)
        (times row 3 Band.YBAND v.bcx)
    | 1 => add3 (times row 1 Band.XBAND v.c) (times row 2 Band.YBAND v.bx)
        (times row 3 Band.YBAND v.max)
    | 2 => add3 (times row 0 Band.XBAND v.ax) (times row 1 Band.XBAND v.bcx)
        (times row 2 Band.YBAND v.c)
    | 3 => add3 (times row 0 Band.XBAND v.bx) (times row 1 Band.XBAND v.max)
        (times row 3 Band.YBAND v.c)

/-! ## Quotients of the floating-point type -/

/-- The result of a division of two finite values of the floating-point type `num`: a finite
number, an infinity with its sign, or not-a-number. -/
inductive NumQuotient (R : Type) where
  | finite (x : R)
  | infinite (negative : Bool)
  | nan
deriving DecidableEq

/-- The finite results. -/
def NumQuotient.isFinite : NumQuotient R → Bool
  | .finite _ => true
  | .infinite _ => false
  | .nan => false

/-- The quotient `a / b` of two finite values of type `num`: a zero divisor gives not-a-number
for a zero dividend and an infinity with the sign of the dividend otherwise. -/
def numDiv (a b : R) : NumQuotient R :=
  if b = 0 then
    if a = 0 then NumQuotient.nan else NumQuotient.infinite (decide (a < 0))
  else NumQuotient.finite (a / b)

/-- The absolute value `std::abs(q)` of such a value. -/
def NumQuotient.abs : NumQuotient R → NumQuotient R
  | .finite x => .finite |x|
  | .infinite _ => .infinite false
  | .nan => .nan

/-- The difference `a - q` of a finite value and such a value. -/
def NumQuotient.subFrom (a : R) : NumQuotient R → NumQuotient R
  | .finite x => .finite (a - x)
  | .infinite negative => .infinite (!negative)
  | .nan => .nan

/-- The quotient `q / b` of such a value and a finite value: an infinity stays one, with the
sign of `b` taken into account, and not-a-number stays not-a-number. -/
def NumQuotient.divBy (q : NumQuotient R) (b : R) : NumQuotient R :=
  match q with
  | .finite x => numDiv x b
  | .infinite negative => .infinite (xor negative (decide (b < 0)))
  | .nan => .nan

/-- The comparison `q > t` with a finite value: true for plus infinity, false for minus
infinity and for not-a-number. -/
def NumQuotient.gt (q : NumQuotient R) (t : R) : Bool :=
  match q with
  | .finite x => decide (t < x)
  | .infinite negative => !negative
  | .nan => false

/-! ## Proposals of a new field value -/

/-- The library functions `pow`, `cos`, `sin` and the constant `M_PI` that the proposal
routines call. -/
structure TrigMath (R : Type) where
  pow : R → R → R
  cos : R → R
  sin : R → R
  M_PI : R

/-- The member `normal_distribution`: `get(a, b)` draws one Gaussian sample and advances the
generator. -/
structure NormalDistribution (R G : Type) where
  get : R → R → G → R × G

/-- The spin that `proposeRotatedField` and `proposeRotatedScaledField` build from the old spin
`(x, y, z)`, its squares, its length `r`, the two angles and the new length `len`. The
quotients are those of the field `R`; they are the quotients of the floating-point type where
no divisor is zero, that is for `r2 != 0` and `x2n + y2n != 0`. On the z-axis the source
divides by `x2n + y2n = 0`, which `numDiv` describes. -/
def rotatedSpin (x y z x2 y2 r2 r cosTheta sinTheta cosPhi sinPhi len : R) : Phi R :=
  let x2n := x2 / r2
  let y2n := y2 / r2
  let xn := x / r
  let yn := y / r
  let zn := z / r
  let newx := (sinTheta / (x2n + y2n)) * ((x2n * zn + y2n) * cosPhi + (zn - 1) * xn * yn * sinPhi)
    + xn * cosTheta
  let newy := (sinTheta / (x2n + y2n)) * ((zn - 1) * xn * yn * cosPhi + (x2n + y2n * zn) * sinPhi)
    + yn * cosTheta
  let newz := -sinTheta * (xn * cosPhi + yn * sinPhi) + zn * cosTheta
  ![newx * len, newy * len, newz * len]

/-- The function `DetSDW::proposeRotatedField`. -/
def proposeRotatedField {G : Type} (sm : StdMath R) (tm : TrigMath R) (rw : RngWrapper R G)
    (angleDelta : R) : ProposeSpin R G :=
  fun F rng site timeslice =>
    let x := F.phi0 site timeslice
    let y := F.phi1 site timeslice
    let z := F.phi2 site timeslice
    let x2 := tm.pow x 2
    let y2 := tm.pow y 2
    let z2 := tm.pow z 2
    let r2 := x2 + y2 + z2
    let r := sm.sqrt r2
    let draw1 := rw.rand01 rng
    let cosTheta := draw1.1 * (1 - angleDelta) + angleDelta
    let draw2 := rw.rand01 draw1.2
    let phi := draw2.1 * 2 * tm.M_PI
    let sinTheta := sm.sqrt (1 - tm.pow cosTheta 2)
    let cosPhi := tm.cos phi
    let sinPhi := tm.sin phi
    ((true, rotatedSpin x y z x2 y2 r2 r cosTheta sinTheta cosPhi sinPhi r), draw2.2)

/-- The Gaussian draw `normal_distribution.get(scaleDelta, r3)` of `proposeScaledField`, with
`r3 = pow(x2 + y2 + z2, 3.0/2.0)`. -/
def scaledDraw {G : Type} (tm : TrigMath R) (nd : NormalDistribution R G) (scaleDelta : R)
    (F : PhiField R) (rng : G) (site timeslice : Nat) : R × G :=
  let x2 := tm.pow (F.phi0 site timeslice) 2
  let y2 := tm.pow (F.phi1 site timeslice) 2
  let z2 := tm.pow (F.phi2 site timeslice) 2
  let r3 := tm.pow (x2 + y2 + z2) (3 / 2)
  nd.get scaleDelta r3 rng

/-- The function `DetSDW::proposeScaledField`. -/
def proposeScaledField {G : Type} (tm : TrigMath R) (nd : NormalDistribution R G)
    (scaleDelta : R) : ProposeSpin R G :=
  fun F rng site timeslice =>
    let x := F.phi0 site timeslice
    let y := F.phi1 site timeslice
    let z := F.phi2 site timeslice
    let x2 := tm.pow x 2
    let y2 := tm.pow y 2
    let z2 := tm.pow z 2
    let r3 := tm.pow (x2 + y2 + z2) (3 / 2)
    let draw := scaledDraw tm nd scaleDelta F rng site timeslice
    let new_r3 := draw.1
    let scale : R := if new_r3 ≤ 0 then 1 else tm.pow (new_r3 / r3) (1 / 3)
    let valid : Bool := if new_r3 ≤ 0 then false else true
    ((valid, ![x * scale, y * scale, z * scale]), draw.2)

/-- The Gaussian draw `normal_distribution.get(scaleDelta, r3)` of
`proposeRotatedScaledField`, with `r3 = pow(r, 3)` and `r = sqrt(x2 + y2 + z2)`. -/
def rotatedScaledDraw {G : Type} (sm : StdMath R) (tm : TrigMath R)
    (nd : NormalDistribution R G) (scaleDelta : R) (F : PhiField R) (rng : G)
    (site timeslice : Nat) : R × G :=
  let x2 := tm.pow (F.phi0 site timeslice) 2
  let y2 := tm.pow (F.phi1 site timeslice) 2
  let z2 := tm.pow (F.phi2 site timeslice) 2
  let r := sm.sqrt (x2 + y2 + z2)
  let r3 := tm.pow r 3
  nd.get scaleDelta r3 rng

/-- The function `DetSDW::proposeRotatedScaledField`. -/
def proposeRotatedScaledField {G : Type} (sm : StdMath R) (tm : TrigMath R)
    (rw : RngWrapper R G) (nd : NormalDistribution R G) (angleDelta scaleDelta : R) :
    ProposeSpin R G :=
  fun F rng site timeslice =>
    let x := F.phi0 site timeslice
    let y := F.phi1 site timeslice
    let z := F.phi2 site timeslice
    let x2 := tm.pow x 2
    let y2 := tm.pow y 2
    let z2 := tm.pow z 2
    let r2 := x2 + y2 + z2
    let r := sm.sqrt r2
    let draw := rotatedScaledDraw sm tm nd scaleDelta F rng site timeslice
    let new_r3 := draw.1
    if new_r3 ≤ 0 then
      ((false, ![x, y, z]), draw.2)
    else
      let draw1 := rw.rand01 draw.2
      let cosTheta := draw1.1 * (1 - angleDelta) + angleDelta
      let draw2 := rw.rand01 draw1.2
      let phi := draw2.1 * 2 * tm.M_PI
      let sinTheta := sm.sqrt (1 - tm.pow cosTheta 2)
      let cosPhi := tm.cos phi
      let sinPhi := tm.sin phi
      let new_r := tm.pow new_r3 (1 / 3)
      ((true, rotatedSpin x y z x2 y2 r2 r cosTheta sinTheta cosPhi sinPhi new_r), draw2.2)

/-! ## Construction of the model from its parameters -/

/-- Modelled from the spec: the parameter struct `ModelParams` of the SDW model is declared
outside the given sources; these are the members that `createDetSDW` and the constructor of
`DetSDW` read, `specified` being the set of the names of the parameters that were given. -/
structure ModelParams where
  specified : List String
  bc : String
  updateMethod : String
  delaySteps : Nat
  spinProposalMethod : String
  globalShift : Bool
  wolffClusterUpdate : Bool
  globalUpdateInterval : Nat
  checkerboard : Bool
  checkerboardMethod : String
  L : Nat
  timedisplaced : Bool
  rescale : Bool
  rescaleInterval : Nat
  repeatUpdateInSlice : Nat
  adaptScaleVariance : Bool

/-- The value that a `ParameterWrong` exception is constructed with: a string or a number. -/
inductive ParamValue where
  | text (s : String)
  | number (n : Nat)
deriving DecidableEq, Repr

/-- Modelled from the spec: the exception classes are declared outside the given sources;
`createDetSDW` constructs `ParameterMissing(name)`, `ParameterWrong(name, value)` and, with a
single string argument, `ParameterWrong(message)`. -/
inductive ConfigError where
  | ParameterMissing (par : String)
  | ParameterWrong (par : String) (val : ParamValue)
  | ParameterWrongMessage (message : String)
deriving DecidableEq, Repr

/-- The list `neededModelPars` of `createDetSDW`. -/
def neededModelPars : List String :=
  ["mu", "L", "r", "accRatio", "bc", "txhor", "txver", "tyhor", "tyver", "rescale",
   "updateMethod", "spinProposalMethod", "repeatUpdateInSlice", "globalShift"]

/-- The array `possibleBC`. -/
def possibleBC : List String := ["pbc", "apbc-x", "apbc-y", "apbc-xy"]

/-- The array `possibleUpdateMethods`. -/
def possibleUpdateMethods : List String := ["iterative", "woodbury", "delayed"]

/-- The array `possibleSpinProposalMethods`. -/
def possibleSpinProposalMethods : List String := ["box", "rotate_then_scale", "rotate_and_scale"]

/-- The text of the exception for an odd lattice size with checkerboard decomposition. -/
def oddLatticeMessage : String :=
  "Checker board decomposition only supported for even linear lattice sizes"

/-- The conversion of a non-negative value to `uint32_t`. -/
def toUInt32 (n : Nat) : Nat := n % 2 ^ 32

/-- The block of `createDetSDW` that checks `delaySteps` for the update method `delayed`; the
result is the exception thrown, if any. -/
def checkDelaySteps (pars : ModelParams) : Option ConfigError :=
  if pars.specified.count "updateMethod" ≠ 0 ∧ pars.updateMethod = "delayed" then
    if pars.specified.count "delaySteps" = 0 then
      some (ConfigError.ParameterMissing "delaySteps")
    else
      let N := toUInt32 (pars.L ^ 2)
      if pars.delaySteps ≤ 0 ∨ pars.delaySteps > N then
        some (ConfigError.ParameterWrong "delaySteps" (ParamValue.number pars.delaySteps))
      else none
  else none

/-- The choice of the checkerboard method `cbm` in `createDetSDW`. -/
def chooseCheckerboardMethod (pars : ModelParams) : Except ConfigError CheckerboardMethod :=
  if pars.checkerboard = true then
    if pars.checkerboardMethod = "santos" then Except.ok CheckerboardMethod.CB_SANTOS
    else if pars.checkerboardMethod = "assaad" then Except.ok CheckerboardMethod.CB_ASSAAD
    else if pars.checkerboardMethod = "assaad_berg" then
      Except.ok CheckerboardMethod.CB_ASSAAD_BERG
    else Except.error
      (ConfigError.ParameterWrong "checkerboardMethod" (ParamValue.text pars.checkerboardMethod))
  else Except.ok CheckerboardMethod.CB_NONE

/-- The function `createDetSDW`. The argument `updateTemperatureParameters` is the function of
that name, which is declared outside the given sources; the result names the instance
`DetSDW<timedisplaced, cbm>` that is constructed, or is the exception thrown. -/
def createDetSDW (updateTemperatureParameters : ModelParams → ModelParams)
    (pars0 : ModelParams) : Except ConfigError (Bool × CheckerboardMethod) :=
  let pars := updateTemperatureParameters pars0
  match neededModelPars.find? (fun p => pars.specified.count p == 0) with
  | some p => Except.error (ConfigError.ParameterMissing p)
  | none =>
    if ¬ (possibleBC.any fun bc => pars.bc == bc) = true then
      Except.error (ConfigError.ParameterWrong "bc" (ParamValue.text pars.bc))
    else if ¬ (possibleUpdateMethods.any fun um => pars.updateMethod == um) = true then
      Except.error (ConfigError.ParameterWrong "updateMethod" (ParamValue.text pars.updateMethod))
    else
      match checkDelaySteps pars with
      | some e => Except.error e
      | none =>
        if ¬ (possibleSpinProposalMethods.any fun sp => pars.spinProposalMethod == sp) = true
        then
          Except.error (ConfigError.ParameterWrong "spinProposalMethod"
            (ParamValue.text pars.spinProposalMethod))
        else if (pars.globalShift = true ∨ pars.wolffClusterUpdate = true)
            ∧ pars.globalUpdateInterval = 0 then
          Except.error (ConfigError.ParameterWrong "globalUpdateInterval"
            (ParamValue.number pars.globalUpdateInterval))
        else if pars.checkerboard = true ∧ pars.L % 2 ≠ 0 then
          Except.error (ConfigError.ParameterWrongMessage oddLatticeMessage)
        else if pars.specified.count "L" > 0 ∧ pars.L ≤ 0 then
          Except.error (ConfigError.ParameterWrong "L" (ParamValue.number pars.L))
        else
          match chooseCheckerboardMethod pars with
          | Except.error e => Except.error e
          | Except.ok cbm => Except.ok (pars.timedisplaced, cbm)

/-! ## Consistency check of the caches -/

/-- The exception `GeneralError` with its message. -/
structure GeneralError where
  message : String
deriving DecidableEq, Repr

/-- A loop whose body may throw: the first exception ends the loop. -/
def forEachOrThrow {α ε : Type} (l : List α) (body : α → Except ε Unit) : Except ε Unit :=
  match l with
  | [] => Except.ok ()
  | a :: t =>
    match body a with
    | Except.error e => Except.error e
    | Except.ok _ => forEachOrThrow t body

/-- The value `relDiffCosh` of `consistencyCheck` at `(site, k)`, with the division of the
floating-point type. -/
def relDiffCosh {G : Type} (sm : StdMath R) {P : Params R} (st : State R G P)
    (k site : Nat) : NumQuotient R :=
  let phiNorm := sm.sqrt (st.F.phi0 site k ^ 2 + st.F.phi1 site k ^ 2 + st.F.phi2 site k ^ 2)
  NumQuotient.abs (numDiv (st.phiCosh site k - sm.cosh (P.dtau * phiNorm)) (st.phiCosh site k))

/-- The value `relDiffSinh` of `consistencyCheck` at `(site, k)`, with the divisions of the
floating-point type. -/
def relDiffSinh {G : Type} (sm : StdMath R) {P : Params R} (st : State R G P)
    (k site : Nat) : NumQuotient R :=
  let phiNorm := sm.sqrt (st.F.phi0 site k ^ 2 + st.F.phi1 site k ^ 2 + st.F.phi2 site k ^ 2)
  NumQuotient.abs
    ((NumQuotient.subFrom (st.phiSinh site k)
      (numDiv (sm.sinh (P.dtau * phiNorm)) phiNorm)).divBy (st.phiSinh site k))

/-- The body of the two loops of `consistencyCheck`. -/
def consistencyCheckAt {G : Type} (sm : StdMath R) {P : Params R} (st : State R G P)
    (k site : Nat) : Except GeneralError Unit :=
  if (relDiffCosh sm st k site).gt (1 / 10 ^ 10) = true then
    Except.error { message := "phiCosh is inconsistent" }
  else if (relDiffSinh sm st k site).gt (1 / 10 ^ 10) = true then
    Except.error { message := "phiSinh is inconsistent" }
  else Except.ok ()

/-- The function `DetSDW::consistencyCheck`: the outcome of the call and the object after
it. -/
def consistencyCheck {G : Type} (sm : StdMath R) {P : Params R} (st : State R G P) :
    Except GeneralError Unit × State R G P :=
  (forEachOrThrow (List.range' 1 P.m) fun k =>
    forEachOrThrow (List.range P.N) fun site => consistencyCheckAt sm st k site, st)

/-! ## The hopping matrix of `setupPropK` -/

/-- Modelled from the spec: the values `dir = 0 .. z-1` of the enumeration `NeighDir`, which is
declared outside the given sources. -/
def allDirs : List NeighDir :=
  [NeighDir.XPLUS, NeighDir.XMINUS, NeighDir.YPLUS, NeighDir.YMINUS]

/-- The table `t[band][dir]` of `setupPropK`. -/
def hopTable (hopHor hopVer : Band → R) (band : Band) (dir : NeighDir) : R :=
  match dir with
  | NeighDir.XPLUS => hopHor band
  | NeighDir.XMINUS => hopHor band
  | NeighDir.YPLUS => hopVer band
  | NeighDir.YMINUS => hopVer band

/-- The value of `hop` that `setupPropK` subtracts from `k(site, neigh)`: the table entry, with
a sign flip for each antiperiodic boundary that the bond crosses. -/
def boundaryHop (L : Nat) (bc : BC) (t : NeighDir → R) (site : Nat) (dir : NeighDir) : R :=
  let hop := t dir
  let siteY := site / L
  let siteX := site % L
  let hop1 :=
    if bc = BC.APBC_X ∨ bc = BC.APBC_XY then
      if (siteX = 0 ∧ dir = NeighDir.XMINUS) ∨ (siteX = L - 1 ∧ dir = NeighDir.XPLUS) then -hop
      else hop
    else hop
  if bc = BC.APBC_Y ∨ bc = BC.APBC_XY then
    if (siteY = 0 ∧ dir = NeighDir.YMINUS) ∨ (siteY = L - 1 ∧ dir = NeighDir.YPLUS) then -hop1
    else hop1
  else hop1

/-- The matrix `k` that `setupPropK` assembles for one band, before it is exponentiated:
`-mu` times the identity, minus the hopping amplitude at each pair `(site, neigh)`. -/
def setupPropK_k (L : Nat) (mu : R) (bc : BC) (hopHor hopVer : Band → R) (band : Band) :
    Nat → Nat → R :=
  (List.range (L * L)).foldl
    (fun k site => allDirs.foldl
      (fun k2 dir =>
        let neigh := spaceNeigh L dir site
        let hop := boundaryHop L bc (hopTable hopHor hopVer band) site dir
        setEntry k2 site neigh (k2 site neigh - hop))
      k)
    (fun i j => -mu * (if i = j then 1 else 0))

/-! ## Accumulation of observables -/

/-- Modelled from the spec: the members of the struct `MCParams` that the observable handlers
read (the struct is declared outside the given sources). -/
structure MCParams where
  sweeps : Nat
  jkBlocks : Nat
  measureInterval : Nat
  timeseries : Bool
deriving DecidableEq, Repr

/-- The data members of `ObservableHandlerCommon<num>` that change or are read after
construction. -/
structure ObservableHandlerCommon (R : Type) where
  mcparams : MCParams
  zero : R
  jkBlockCount : Nat
  jkBlockSizeSweeps : Nat
  lastSweepLogged : Nat
  countValues : Nat
  jkBlockValues : List R
  total : R

/-- The constructor of `ObservableHandlerCommon`. -/
def ObservableHandlerCommon.create (simulationParameters : MCParams) (zeroValue : R) :
    ObservableHandlerCommon R :=
  { mcparams := simulationParameters
    zero := zeroValue
    jkBlockCount := simulationParameters.jkBlocks
    jkBlockSizeSweeps := simulationParameters.sweeps / simulationParameters.jkBlocks
    lastSweepLogged := 0
    countValues := 0
    jkBlockValues := List.replicate simulationParameters.jkBlocks zeroValue
    total := zeroValue }

/-- The loop of `insertValue` over the jackknife blocks: `value` is added to every block but
`curJkBlock`. -/
def addToOtherBlocks (jkBlockCount curJkBlock : Nat) (value : R) (jkBlockValues : List R) :
    List R :=
  (List.range jkBlockCount).foldl
    (fun vals jb => if jb ≠ curJkBlock then vals.set jb (vals.getD jb 0 + value) else vals)
    jkBlockValues

/-- The function `ObservableHandlerCommon::insertValue`; `value` is the current value
`obs.valRef` of the observable. The result is `none` for the integer division by a zero
`jkBlockSizeSweeps`. -/
def ObservableHandlerCommon.insertValue (h : ObservableHandlerCommon R) (value : R)
    (curSweep : Nat) : Option (ObservableHandlerCommon R) :=
  if h.jkBlockSizeSweeps = 0 then none
  else
    let curJkBlock := curSweep / h.jkBlockSizeSweeps
    some { h with
      jkBlockValues := addToOtherBlocks h.jkBlockCount curJkBlock value h.jkBlockValues
      total := h.total + value
      countValues := (h.countValues + 1) % 2 ^ 32
      lastSweepLogged := curSweep }

/-- A sequence of calls of `insertValue`, each with the measured value and the sweep. -/
def ObservableHandlerCommon.insertAll (h : ObservableHandlerCommon R) :
    List (R × Nat) → Option (ObservableHandlerCommon R)
  | [] => some h
  | (value, curSweep) :: rest =>
    match h.insertValue value curSweep with
    | none => none
    | some h1 => h1.insertAll rest

/-- The function `ObservableHandlerCommon::evaluateJackknife`; the argument `jackknife` is the
function of that name of `statistics.h`, which lies outside the given sources. -/
def ObservableHandlerCommon.evaluateJackknife (jackknife : List R → R → R → R)
    (h : ObservableHandlerCommon R) : R × R :=
  let mean := h.total / (h.countValues : R)
  let error :=
    if (h.mcparams.sweeps + 2 ^ 32 - h.lastSweepLogged) % 2 ^ 32 ≤ h.mcparams.measureInterval
    then
      if h.jkBlockCount > 1 then
        let jkBlockSizeSamples := h.countValues / h.jkBlockCount
        let jkTotalSamples := h.countValues - jkBlockSizeSamples
        let jkBlockAverages :=
          ((List.range h.jkBlockCount).foldl
            (fun avgs jb => avgs.set jb (avgs.getD jb 0 / (jkTotalSamples : R)))
            h.jkBlockValues)
        jackknife jkBlockAverages mean h.zero
      else h.zero
    else h.zero
  (mean, error)

/-- The archive written by `ObservableHandlerCommon::serializeContents`: `lastSweepLogged`,
`countValues` and `total`. -/
structure HandlerArchive (R : Type) where
  lastSweepLogged : Nat
  countValues : Nat
  total : R

/-- The function `serializeContents` with a saving archive. -/
def ObservableHandlerCommon.save (h : ObservableHandlerCommon R) : HandlerArchive R :=
  { lastSweepLogged := h.lastSweepLogged, countValues := h.countValues, total := h.total }

/-- The function `serializeContents` with a loading archive: the three archived members are
overwritten. -/
def ObservableHandlerCommon.load (h : ObservableHandlerCommon R) (ar : HandlerArchive R) :
    ObservableHandlerCommon R :=
  { h with
    lastSweepLogged := ar.lastSweepLogged, countValues := ar.countValues, total := ar.total }

/-! ## Reporting of the global-move statistics -/

/-- The statements of `DetSDW::prepareModelMetadataMap` under `if (globalShift)` and
`if (wolffClusterUpdate)`: the keys inserted into `meta`, each with the value of type `num`
that is handed to `numToString`. -/
def prepareModelMetadataMap_globalMoves {G U : Type} {P : Params R}
    (globalShift wolffClusterUpdate : Bool) (st : GlobalState R G U P) :
    List (String × NumQuotient R) :=
  let meta1 : List (String × NumQuotient R) :=
    if globalShift then
      let globalShiftAccRatio :=
        numDiv (st.acceptedGlobalShifts : R) (st.attemptedGlobalShifts : R)
      [("globalShiftAccRatio", globalShiftAccRatio)]
    else []
  if wolffClusterUpdate then
    let wolffClusterUpdateAccRatio :=
      numDiv (st.acceptedWolffClusterUpdates : R) (st.attemptedWolffClusterUpdates : R)
    let averageAcceptedWolffClusterSize :=
      numDiv st.addedWolffClusterSize (st.acceptedWolffClusterUpdates : R)
    meta1 ++ [("wolffClusterUpdateAccRatio", wolffClusterUpdateAccRatio),
      ("averageAcceptedWolffClusterSize", averageAcceptedWolffClusterSize)]
  else meta1

/-- The statements of `DetSDW::thermalizationOver` under `if (globalShift)` and
`if (wolffClusterUpdate)`: the texts written to `std::cout`, each with the value of type `num`
that follows it. -/
def thermalizationOver_globalMoves {G U : Type} {P : Params R}
    (globalShift wolffClusterUpdate : Bool) (st : GlobalState R G U P) :
    List (String × NumQuotient R) :=
  let out1 : List (String × NumQuotient R) :=
    if globalShift then
      let ratio := numDiv (st.acceptedGlobalShifts : R) (st.attemptedGlobalShifts : R)
      [("globalShiftMove acceptance ratio = ", ratio)]
    else []
  if wolffClusterUpdate then
    let ratio :=
      numDiv (st.acceptedWolffClusterUpdates : R) (st.attemptedWolffClusterUpdates : R)
    let avgsize := numDiv st.addedWolffClusterSize (st.acceptedWolffClusterUpdates : R)
    out1 ++ [("wolffClusterUpdate acceptance ratio = ", ratio),
      (", average accepted size = ", avgsize)]
  else out1

/-! ## The change of the action under a rescaling of one time slice -/

/-- The function `DetSDW::deltaSPhiTimesliceRescale(timeslice, factor)`. -/
def deltaSPhiTimesliceRescale (tm : TrigMath R) (P : Params R) (F : PhiField R)
    (timeslice : Nat) (factor : R) : R :=
  let delta1 := (List.range P.N).foldl
    (fun delta1 site_i =>
      [spaceNeigh P.L NeighDir.XPLUS site_i, spaceNeigh P.L NeighDir.YPLUS site_i].foldl
        (fun delta1 site_j => delta1
          + (tm.pow (F.phi0 site_i timeslice - F.phi0 site_j timeslice) 2
            + tm.pow (F.phi1 site_i timeslice - F.phi1 site_j timeslice) 2
            + tm.pow (F.phi2 site_i timeslice - F.phi2 site_j timeslice) 2))
        delta1)
    0
  let delta2 := (List.range P.N).foldl
    (fun delta2 site_i => delta2
      + (tm.pow (F.phi0 site_i timeslice) 2
        + tm.pow (F.phi1 site_i timeslice) 2
        + tm.pow (F.phi2 site_i timeslice) 2))
    0
  let delta3 := (List.range P.N).foldl
    (fun delta3 site_i => delta3
      + tm.pow (tm.pow (F.phi0 site_i timeslice) 2
        + tm.pow (F.phi1 site_i timeslice) 2
        + tm.pow (F.phi2 site_i timeslice) 2) 2)
    0
  let timeslicePlus := timeNeigh P.m ChainDir.PLUS timeslice
  let timesliceMinus := timeNeigh P.m ChainDir.MINUS timeslice
  let delta4 := (List.range P.N).foldl
    (fun delta4 site_i =>
      let delta4a := delta4 + (tm.pow factor 2 - 1) * (
          tm.pow (F.phi0 site_i timeslice) 2
        + tm.pow (F.phi1 site_i timeslice) 2
        + tm.pow (F.phi2 site_i timeslice) 2)
      delta4a - (factor - 1) * (
          F.phi0 site_i timeslice
            * (F.phi0 site_i timesliceMinus + F.phi0 site_i timeslicePlus)
        + F.phi1 site_i timeslice
            * (F.phi1 site_i timesliceMinus + F.phi1 site_i timeslicePlus)
        + F.phi2 site_i timeslice
            * (F.phi2 site_i timesliceMinus + F.phi2 site_i timeslicePlus)))
    0
  (P.dtau / 2) * (tm.pow factor 2 - 1) * delta1
    + (P.dtau * P.r / 2) * (tm.pow factor 2 - 1) * delta2
    + (P.dtau * P.u / 4) * (tm.pow factor 4 - 1) * delta3
    + (1 / (P.c * P.dtau)) * delta4

/-- The field after an accepted `attemptTimesliceRescaleMove(timeslice, factor)`: the columns
`timeslice` of `phi0`, `phi1`, `phi2`, which have `N` rows, are replaced by `factor` times
themselves. -/
def PhiField.rescaleSlice (F : PhiField R) (N timeslice : Nat) (factor : R) : PhiField R :=
  { phi0 := fun s k => if k = timeslice ∧ s < N then factor * F.phi0 s k else F.phi0 s k
    phi1 := fun s k => if k = timeslice ∧ s < N then factor * F.phi1 s k else F.phi1 s k
    phi2 := fun s k => if k = timeslice ∧ s < N then factor * F.phi2 s k else F.phi2 s k }

/-! ## Sweeps: choice of the proposal, the step-size controller and the global moves -/

/-- The enumeration `SpinProposalMethod`. -/
inductive SpinProposalMethod where
  | BOX | ROTATE_THEN_SCALE | ROTATE_AND_SCALE
deriving DecidableEq, Repr

/-- The ways in which a call does not return normally: an integer modulus with a zero divisor,
an exception thrown by a routine that was called, or (in this development only) a loop that
ran out of fuel. -/
inductive SweepFailure where
  | zeroDivisor | exception | outOfFuel
deriving DecidableEq, Repr

/-- The function `DetSDW::proposeNewField`: each component is shifted by a draw from
`[-phiDelta, +phiDelta]`. -/
def proposeNewField {G : Type} (rw : RngWrapper R G) (phiDelta : R) : ProposeSpin R G :=
  fun F rng site timeslice =>
    let r0 := rw.randRange (-phiDelta) phiDelta rng
    let r1 := rw.randRange (-phiDelta) phiDelta r0.2
    let r2 := rw.randRange (-phiDelta) phiDelta r1.2
    ((true, ![F.phi0 site timeslice + r0.1, F.phi1 site timeslice + r1.1,
      F.phi2 site timeslice + r2.1]), r2.2)

/-- The members of `DetSDW` that `updateInSlice`, `updateInSliceThermalization` and
`globalMove` read and do not write. -/
structure SweepMembers (R : Type) where
  spinProposalMethod : SpinProposalMethod
  repeatUpdateInSlice : Nat
  rescale : Bool
  rescaleInterval : Nat
  rescaleGrowthFactor : R
  globalShift : Bool
  wolffClusterUpdate : Bool
  globalMoveInterval : Nat
  targetAccRatioLocal : R
  adaptScaleDelta : Bool
  performedSweeps : Nat

/-- The members of `DetSDW` that the step-size controller of `updateInSliceThermalization`
writes; `A` is the type of a `RunningAverage`. -/
structure StepSizes (R A : Type) where
  phiDelta : R
  angleDelta : R
  scaleDelta : R
  accRatioLocal_box_RA : A
  accRatioLocal_rotate_RA : A
  accRatioLocal_scale_RA : A
  curminAngleDelta : R
  curmaxAngleDelta : R
  curminScaleDelta : R
  curmaxScaleDelta : R

/-- Modelled from the spec: the constants of the class declaration that the controller and the
constructor use; the declaration lies outside the given sources. -/
structure ControllerConstants (R : Type) where
  AccRatioAdjustmentSamples : Nat
  phiDeltaShrinkFactor : R
  phiDeltaGrowFactor : R
  InitialPhiDelta : R
  InitialAngleDelta : R
  InitialScaleDelta : R
  MinAngleDelta : R
  MaxAngleDelta : R
  MinScaleDelta : R
  MaxScaleDelta : R

/-- Modelled from the spec: the member functions of the class `RunningAverage`, which lies
outside the given sources, and its constructor for a given number of samples. -/
structure RunningAverage (R A : Type) where
  create : Nat → A
  addValue : A → R → A
  get : A → R
  getSamplesAdded : A → Nat

/-- The routines that `updateInSlice` calls, as parameters: the member template
`callUpdateInSlice_for_updateMethod(timeslice, proposeSpin)`, which is declared outside the
given sources and runs one of `updateInSlice_iterative`, `updateInSlice_woodbury`,
`updateInSlice_delayed` (the definition `callUpdateInSlice_for_updateMethod` below is its
model), and `attemptTimesliceRescaleMove(timeslice, factor)`; `none` stands for an
exception. -/
structure SweepEnv (R G : Type) (P : Params R) where
  callUpdateInSlice_for_updateMethod :
    Nat → ProposeSpin R G → State R G P → Option (State R G P)
  attemptTimesliceRescaleMove : Nat → R → State R G P → Option (State R G P)

/-- The result of a called routine as a result of the caller. -/
def orException {α : Type} : Option α → Except SweepFailure α
  | some a => Except.ok a
  | none => Except.error SweepFailure.exception

/-- The loop over `rep` of `DetSDW::updateInSlice(timeslice)`; the proposal is chosen anew in
each repetition by the `switch` over `spinProposalMethod`. -/
def updateInSlice_repeat {G A : Type} (sm : StdMath R) (tm : TrigMath R)
    (rw : RngWrapper R G) (nd : NormalDistribution R G) {P : Params R} (env : SweepEnv R G P)
    (mem : SweepMembers R) (sz : StepSizes R A) (timeslice : Nat) (st : State R G P) :
    Except SweepFailure (State R G P) :=
  (List.range mem.repeatUpdateInSlice).foldlM
    (fun s _ =>
      match mem.spinProposalMethod with
      | SpinProposalMethod.BOX =>
        orException (env.callUpdateInSlice_for_updateMethod timeslice
          (proposeNewField rw sz.phiDelta) s)
      | SpinProposalMethod.ROTATE_THEN_SCALE =>
        if mem.performedSweeps % 2 = 0 then
          orException (env.callUpdateInSlice_for_updateMethod timeslice
            (proposeRotatedField sm tm rw sz.angleDelta) s)
        else
          orException (env.callUpdateInSlice_for_updateMethod timeslice
            (proposeScaledField tm nd sz.scaleDelta) s)
      | SpinProposalMethod.ROTATE_AND_SCALE =>
        orException (env.callUpdateInSlice_for_updateMethod timeslice
          (proposeRotatedScaledField sm tm rw nd sz.angleDelta sz.scaleDelta) s))
    st

/-- The function `DetSDW::updateInSlice(timeslice)`. The sampler `normal_distribution` of this
development keeps no state, so that its `reset()` has no effect. -/
def updateInSlice {G A : Type} (sm : StdMath R) (tm : TrigMath R)
    (rw : RngWrapper R G) (nd : NormalDistribution R G) {P : Params R} (env : SweepEnv R G P)
    (mem : SweepMembers R) (sz : StepSizes R A) (timeslice : Nat) (st : State R G P) :
    Except SweepFailure (State R G P) :=
  match updateInSlice_repeat sm tm rw nd env mem sz timeslice st with
  | Except.error e => Except.error e
  | Except.ok st1 =>
    if mem.rescale = true then
      if mem.rescaleInterval = 0 then Except.error SweepFailure.zeroDivisor
      else if mem.performedSweeps % mem.rescaleInterval = 0 then
        let rnd := rw.rand01 st1.rng
        let st2 : State R G P := { st1 with rng := rnd.2 }
        if rnd.1 ≤ 1 / 2 then
          orException (env.attemptTimesliceRescaleMove timeslice mem.rescaleGrowthFactor st2)
        else
          orException
            (env.attemptTimesliceRescaleMove timeslice (1 / mem.rescaleGrowthFactor) st2)
      else Except.ok st1
    else Except.ok st1

/-- The local enumeration of `updateInSliceThermalization`. -/
inductive AdaptingWhat where
  | ADAPT_BOX | ADAPT_ROTATE | ADAPT_SCALE
deriving DecidableEq, Repr

/-- The choice of `adapting_what` in `updateInSliceThermalization`. -/
def adaptingWhat (c : ControllerConstants R) (mem : SweepMembers R) :
    Except SweepFailure AdaptingWhat :=
  match mem.spinProposalMethod with
  | SpinProposalMethod.BOX => Except.ok AdaptingWhat.ADAPT_BOX
  | SpinProposalMethod.ROTATE_THEN_SCALE =>
    if mem.performedSweeps % 2 = 0 then Except.ok AdaptingWhat.ADAPT_ROTATE
    else Except.ok AdaptingWhat.ADAPT_SCALE
  | SpinProposalMethod.ROTATE_AND_SCALE =>
    if 2 * c.AccRatioAdjustmentSamples = 0 then Except.error SweepFailure.zeroDivisor
    else if mem.performedSweeps % (2 * c.AccRatioAdjustmentSamples)
        < c.AccRatioAdjustmentSamples then Except.ok AdaptingWhat.ADAPT_ROTATE
    else Except.ok AdaptingWhat.ADAPT_SCALE

/-- The statement `ra.get().addValue(lastAccRatioLocal)`, where `ra` refers to the running
average chosen by `adapting_what`. -/
def addToRunningAverage {A : Type} (ra : RunningAverage R A) (what : AdaptingWhat)
    (lastAccRatioLocal : R) (sz : StepSizes R A) : StepSizes R A :=
  match what with
  | AdaptingWhat.ADAPT_BOX =>
    { sz with accRatioLocal_box_RA := ra.addValue sz.accRatioLocal_box_RA lastAccRatioLocal }
  | AdaptingWhat.ADAPT_ROTATE =>
    { sz with
      accRatioLocal_rotate_RA := ra.addValue sz.accRatioLocal_rotate_RA lastAccRatioLocal }
  | AdaptingWhat.ADAPT_SCALE =>
    { sz with
      accRatioLocal_scale_RA := ra.addValue sz.accRatioLocal_scale_RA lastAccRatioLocal }

/-- The running average that `ra` refers to. -/
def chosenRunningAverage {A : Type} (what : AdaptingWhat) (sz : StepSizes R A) : A :=
  match what with
  | AdaptingWhat.ADAPT_BOX => sz.accRatioLocal_box_RA
  | AdaptingWhat.ADAPT_ROTATE => sz.accRatioLocal_rotate_RA
  | AdaptingWhat.ADAPT_SCALE => sz.accRatioLocal_scale_RA

/-- The `switch (adapting_what)` of `updateInSliceThermalization` that adjusts a step size at
an adjustment point, for the averaged acceptance ratio `avgAccRatio`. -/
def adjustStepSize {A : Type} (c : ControllerConstants R) (mem : SweepMembers R)
    (what : AdaptingWhat) (avgAccRatio : R) (sz : StepSizes R A) : StepSizes R A :=
  match what with
  | AdaptingWhat.ADAPT_BOX =>
    if avgAccRatio < mem.targetAccRatioLocal then
      { sz with phiDelta := sz.phiDelta * c.phiDeltaShrinkFactor }
    else if avgAccRatio > mem.targetAccRatioLocal then
      { sz with phiDelta := sz.phiDelta * c.phiDeltaGrowFactor }
    else sz
  | AdaptingWhat.ADAPT_ROTATE =>
    if avgAccRatio < mem.targetAccRatioLocal ∧ sz.angleDelta < c.MaxAngleDelta then
      { sz with
        curminAngleDelta := sz.angleDelta
        angleDelta := sz.angleDelta + (sz.curmaxAngleDelta - sz.angleDelta) / 2 }
    else if avgAccRatio > mem.targetAccRatioLocal ∧ sz.angleDelta > c.MinAngleDelta then
      { sz with
        curmaxAngleDelta := sz.angleDelta
        angleDelta := sz.angleDelta - (sz.angleDelta - sz.curminAngleDelta) / 2 }
    else sz
  | AdaptingWhat.ADAPT_SCALE =>
    if ¬ mem.adaptScaleDelta = true then sz
    else if avgAccRatio > mem.targetAccRatioLocal ∧ sz.scaleDelta < c.MaxScaleDelta then
      { sz with
        curminScaleDelta := sz.scaleDelta
        scaleDelta := sz.scaleDelta + (sz.curmaxScaleDelta - sz.scaleDelta) / 2 }
    else if avgAccRatio > mem.targetAccRatioLocal ∧ sz.scaleDelta > c.MinScaleDelta then
      { sz with
        curmaxScaleDelta := sz.scaleDelta
        scaleDelta := sz.scaleDelta - (sz.scaleDelta - sz.curminScaleDelta) / 2 }
    else sz

/-- The part of `updateInSliceThermalization` that follows the call of `updateInSlice`, for
the value of `lastAccRatioLocal` that this call has left. -/
def adaptStepSizes {A : Type} (c : ControllerConstants R) (ra : RunningAverage R A)
    (mem : SweepMembers R) (lastAccRatioLocal : R) (sz : StepSizes R A) :
    Except SweepFailure (StepSizes R A) :=
  match adaptingWhat c mem with
  | Except.error e => Except.error e
  | Except.ok what =>
    let sz1 := addToRunningAverage ra what lastAccRatioLocal sz
    if c.AccRatioAdjustmentSamples = 0 then Except.error SweepFailure.zeroDivisor
    else if ra.getSamplesAdded (chosenRunningAverage what sz1) % c.AccRatioAdjustmentSamples = 0
    then
      let avgAccRatio := ra.get (chosenRunningAverage what sz1)
      Except.ok (adjustStepSize c mem what avgAccRatio sz1)
    else Except.ok sz1

/-- The function `DetSDW::updateInSliceThermalization(timeslice)`. -/
def updateInSliceThermalization {G A : Type} (sm : StdMath R) (tm : TrigMath R)
    (rw : RngWrapper R G) (nd : NormalDistribution R G) {P : Params R} (env : SweepEnv R G P)
    (c : ControllerConstants R) (ra : RunningAverage R A)
    (mem : SweepMembers R) (timeslice : Nat) (s : State R G P × StepSizes R A) :
    Except SweepFailure (State R G P × StepSizes R A) :=
  match updateInSlice sm tm rw nd env mem s.2 timeslice s.1 with
  | Except.error e => Except.error e
  | Except.ok st1 =>
    match adaptStepSizes c ra mem st1.lastAccRatioLocal s.2 with
    | Except.error e => Except.error e
    | Except.ok sz1 => Except.ok (st1, sz1)

/-- The function `DetSDW::globalMove()`; `fuel` bounds the cluster growth of
`attemptWolffClusterUpdate`. -/
def globalMove {G U : Type} (sm : StdMath R) (rw : RngWrapper R G) {P : Params R}
    (env : GlobalEnv R G U P) (fuel : Nat) (mem : SweepMembers R)
    (st : GlobalState R G U P) : Except SweepFailure (GlobalState R G U P) :=
  if mem.globalMoveInterval = 0 then Except.error SweepFailure.zeroDivisor
  else if ((mem.performedSweeps + 1) % 2 ^ 32) % mem.globalMoveInterval = 0 then
    let st1 :=
      if mem.globalShift = true then (attemptGlobalShiftMove sm rw env st).2 else st
    if mem.wolffClusterUpdate = true then
      match attemptWolffClusterUpdate sm rw env fuel st1 with
      | none => Except.error SweepFailure.outOfFuel
      | some r => Except.ok r.2
    else Except.ok st1
  else Except.ok st

/-- The part of the constructor `DetSDW::DetSDW(rng, pars)` that initialises the members read
by the sweeps. The real-valued parameters `accRatio` and `rescaleGrowthFactor`, which
`ModelParams` of this development does not carry, are arguments. -/
def constructSweepMembers (pars : ModelParams) (accRatio rescaleGrowthFactor : R) :
    SweepMembers R :=
  { spinProposalMethod :=
      if pars.spinProposalMethod = "box" then SpinProposalMethod.BOX
      else if pars.spinProposalMethod = "rotate_then_scale" then
        SpinProposalMethod.ROTATE_THEN_SCALE
      else if pars.spinProposalMethod = "rotate_and_scale" then
        SpinProposalMethod.ROTATE_AND_SCALE
      else SpinProposalMethod.BOX
    repeatUpdateInSlice := pars.repeatUpdateInSlice
    rescale := pars.rescale
    rescaleInterval := pars.rescaleInterval
    rescaleGrowthFactor := rescaleGrowthFactor
    globalShift := pars.globalShift
    wolffClusterUpdate := pars.wolffClusterUpdate
    globalMoveInterval := pars.globalUpdateInterval
    targetAccRatioLocal := accRatio
    adaptScaleDelta := pars.adaptScaleVariance
    performedSweeps := 0 }

/-- The part of the constructor `DetSDW::DetSDW(rng, pars)` that initialises the step sizes,
their brackets and the running averages. -/
def constructStepSizes {A : Type} (c : ControllerConstants R) (ra : RunningAverage R A) :
    StepSizes R A :=
  { phiDelta := c.InitialPhiDelta
    angleDelta := c.InitialAngleDelta
    scaleDelta := c.InitialScaleDelta
    accRatioLocal_box_RA := ra.create c.AccRatioAdjustmentSamples
    accRatioLocal_rotate_RA := ra.create c.AccRatioAdjustmentSamples
    accRatioLocal_scale_RA := ra.create c.AccRatioAdjustmentSamples
    curminAngleDelta := c.MinAngleDelta
    curmaxAngleDelta := c.MaxAngleDelta
    curminScaleDelta := c.MinScaleDelta
    curmaxScaleDelta := c.MaxScaleDelta }

/-! ## The symmetric shift of the Green's function -/

/-- The callable `rightMultiply(output, input, band)` that `shiftGreenSymmetric` defines for
the checkerboard method `cb`; the result is the value assigned to `output`. -/
def shiftRightMultiply (cb : CheckerboardMethod) (P : Params R) (hp : Hopping R)
    (propK_half_inv : Band → MatCpx R P.N P.N) (input : MatCpx R P.N P.N) (band : Band) :
    MatCpx R P.N P.N :=
  match cb with
  | CheckerboardMethod.CB_NONE => input * propK_half_inv band
  | CheckerboardMethod.CB_SANTOS =>
    let o1 := cb_santos_applyBondFactorsRight P.L hp.bc input NeighDir.YPLUS 1
      (hp.coshHopVerHalf band) (hp.sinhHopVerHalf band)
    let o2 := cb_santos_applyBondFactorsRight P.L hp.bc o1 NeighDir.XPLUS 1
      (hp.coshHopHorHalf band) (hp.sinhHopHorHalf band)
    let o3 := cb_santos_applyBondFactorsRight P.L hp.bc o2 NeighDir.YPLUS 0
      (hp.coshHopVerHalf band) (hp.sinhHopVerHalf band)
    cb_santos_applyBondFactorsRight P.L hp.bc o3 NeighDir.XPLUS 0
      (hp.coshHopHorHalf band) (hp.sinhHopHorHalf band)
  | CheckerboardMethod.CB_ASSAAD =>
    let o1 := cb_assaad_applyBondFactorsRight P.L hp.bc input 1
      (hp.coshHopHorHalf band) (hp.sinhHopHorHalf band)
      (hp.coshHopVerHalf band) (hp.sinhHopVerHalf band)
    cb_assaad_applyBondFactorsRight P.L hp.bc o1 0
      (hp.coshHopHorHalf band) (hp.sinhHopHorHalf band)
      (hp.coshHopVerHalf band) (hp.sinhHopVerHalf band)
  | CheckerboardMethod.CB_ASSAAD_BERG =>
    let o1 := cb_assaad_applyBondFactorsRight P.L hp.bc input 1
      (hp.coshHopHorHalf band) (hp.sinhHopHorHalf band)
      (hp.coshHopVerHalf band) (hp.sinhHopVerHalf band)
    cb_assaad_applyBondFactorsRight P.L hp.bc o1 0
      (hp.coshHopHorHalf band) (hp.sinhHopHorHalf band)
      (hp.coshHopVerHalf band) (hp.sinhHopVerHalf band)

/-- The callable `leftMultiply(output, input, band)` that `shiftGreenSymmetric` defines for
the checkerboard method `cb`; the result is the value assigned to `output`. -/
def shiftLeftMultiply (cb : CheckerboardMethod) (P : Params R) (hp : Hopping R)
    (propK_half : Band → MatCpx R P.N P.N) (input : MatCpx R P.N P.N) (band : Band) :
    MatCpx R P.N P.N :=
  match cb with
  | CheckerboardMethod.CB_NONE => propK_half band * input
  | CheckerboardMethod.CB_SANTOS =>
    let o1 := cb_santos_applyBondFactorsLeft P.L hp.bc input NeighDir.XPLUS 0
      (hp.coshHopHorHalf band) (-hp.sinhHopHorHalf band)
    let o2 := cb_santos_applyBondFactorsLeft P.L hp.bc o1 NeighDir.YPLUS 0
      (hp.coshHopVerHalf band) (-hp.sinhHopVerHalf band)
    let o3 := cb_santos_applyBondFactorsLeft P.L hp.bc o2 NeighDir.XPLUS 1
      (hp.coshHopHorHalf band) (-hp.sinhHopHorHalf band)
    cb_santos_applyBondFactorsLeft P.L hp.bc o3 NeighDir.YPLUS 1
      (hp.coshHopVerHalf band) (-hp.sinhHopVerHalf band)
  | CheckerboardMethod.CB_ASSAAD =>
    let o1 := cb_assaad_applyBondFactorsLeft P.L hp.bc input 0
      (hp.coshHopHorHalf band) (-hp.sinhHopHorHalf band)
      (hp.coshHopVerHalf band) (-hp.sinhHopVerHalf band)
    cb_assaad_applyBondFactorsLeft P.L hp.bc o1 1
      (hp.coshHopHorHalf band) (-hp.sinhHopHorHalf band)
      (hp.coshHopVerHalf band) (-hp.sinhHopVerHalf band)
  | CheckerboardMethod.CB_ASSAAD_BERG =>
    let o1 := cb_assaad_applyBondFactorsLeft P.L hp.bc input 1
      (hp.coshHopHorHalf band) (-hp.sinhHopHorHalf band)
      (hp.coshHopVerHalf band) (-hp.sinhHopVerHalf band)
    cb_assaad_applyBondFactorsLeft P.L hp.bc o1 0
      (hp.coshHopHorHalf band) (-hp.sinhHopHorHalf band)
      (hp.coshHopVerHalf band) (-hp.sinhHopVerHalf band)

/-- The band of the flavour block `b` in `shiftGreenSymmetric_impl`: `XBAND` for the blocks 0
and 1, `YBAND` for the blocks 2 and 3. -/
def shiftBand (b : Fin 4) : Band :=
  if b.val < 2 then Band.XBAND else Band.YBAND

/-- The function `DetSDW::shiftGreenSymmetric_impl(rightMultiply, leftMultiply)`, applied to
the Green's function `g`. -/
def shiftGreenSymmetric_impl {N : Nat}
    (rightMultiply leftMultiply : MatCpx R N N → Band → MatCpx R N N)
    (g : MatCpx R (4 * N) (4 * N)) : MatCpx R (4 * N) (4 * N) :=
  let oldG := g
  let tempG : MatCpx R (4 * N) (4 * N) :=
    fromBlocks4 fun row col => rightMultiply (block oldG row col) (shiftBand col)
  let newG : MatCpx R (4 * N) (4 * N) :=
    fromBlocks4 fun row col => leftMultiply (block tempG row col) (shiftBand row)
  newG

/-- The function `DetSDW::shiftGreenSymmetric()` for the checkerboard method `cb`. -/
def shiftGreenSymmetric (cb : CheckerboardMethod) (P : Params R) (hp : Hopping R)
    (propK_half propK_half_inv : Band → MatCpx R P.N P.N)
    (g : MatCpx R (4 * P.N) (4 * P.N)) : MatCpx R (4 * P.N) (4 * P.N) :=
  shiftGreenSymmetric_impl (shiftRightMultiply cb P hp propK_half_inv)
    (shiftLeftMultiply cb P hp propK_half) g

/-! ## Averaging over boundary conditions (`maindetevalbc`) -/

/-- A `std::map` with string keys, as the list of its entries in the order of their first
assignment. The loops of `main` over a map add up its entries, which in exact arithmetic does
not depend on their order. -/
abbrev StrMap (V : Type) := List (String × V)

/-- The entry of `key`, if the map holds one. -/
def mapFind {V : Type} (m : StrMap V) (key : String) : Option V :=
  match m with
  | [] => none
  | e :: rest => if e.1 = key then some e.2 else mapFind rest key

/-- The assignment `m[key] = v`. -/
def mapAssign {V : Type} (m : StrMap V) (key : String) (v : V) : StrMap V :=
  match m with
  | [] => [(key, v)]
  | e :: rest => if e.1 = key then (key, v) :: rest else e :: mapAssign rest key v

/-- Modelled from the spec: the functions `average` and `jackknifeBlockEstimates` of
`statistics.h` (outside the given sources), each also in the variant that first applies a
function to every sample. -/
structure Statistics (R : Type) where
  average : List R → R
  averageOf : (R → R) → List R → R
  jackknifeBlockEstimates : List R → Nat → List R
  jackknifeBlockEstimatesOf : (R → R) → List R → Nat → List R

/-- One file `*.series` as `DoubleSeriesLoader` presents it: the number of columns, the
metadata entry `observable` and the samples left after discarding and subsampling. -/
structure SeriesFile (R : Type) where
  columns : Nat
  observable : String
  data : List R

/-- One input directory: the entries `bc`, `L`, `m`, `dtau` of its `info.dat` and its files
`*.series`. -/
structure InputDirectory (R : Type) where
  bc : String
  L : Nat
  m : Nat
  dtau : R
  files : List (SeriesFile R)

/-- The maps that `main` fills while it processes the directories. -/
structure EvalMaps (R : Type) where
  obs_bc_estimates : StrMap (StrMap R)
  obs_bc_jkBlockEstimates : StrMap (StrMap (List R))
  bc_evalSamples : StrMap Nat
  bc_L : StrMap Nat
  bc_N : StrMap Nat
  bc_m : StrMap Nat
  bc_dtau : StrMap R

/-- The two assignments `obs_bc_estimates[obsName][this_bc] = ...` and
`obs_bc_jkBlockEstimates[obsName][this_bc] = ...`. -/
def recordEstimate (maps : EvalMaps R) (obsName this_bc : String) (estimate : R)
    (blockEstimates : List R) : EvalMaps R :=
  { maps with
    obs_bc_estimates := mapAssign maps.obs_bc_estimates obsName
      (mapAssign ((mapFind maps.obs_bc_estimates obsName).getD []) this_bc estimate)
    obs_bc_jkBlockEstimates := mapAssign maps.obs_bc_jkBlockEstimates obsName
      (mapAssign ((mapFind maps.obs_bc_jkBlockEstimates obsName).getD []) this_bc
        blockEstimates) }

/-- The block `if (not noexp) { ... }` in the loop over the files: the estimates of the
observable are recorded and, for `normMeanPhi`, those of its second and fourth power. -/
def recordFile (stat : Statistics R) (tm : TrigMath R) (jkBlocks : Nat) (this_bc : String)
    (maps : EvalMaps R) (file : SeriesFile R) : EvalMaps R :=
  let obsName := file.observable
  let r1 := recordEstimate maps obsName this_bc (stat.average file.data)
    (stat.jackknifeBlockEstimates file.data jkBlocks)
  if obsName = "normMeanPhi" then
    let r2 := recordEstimate r1 "normMeanPhiSquared" this_bc
      (stat.averageOf (fun v => tm.pow v 2) file.data)
      (stat.jackknifeBlockEstimatesOf (fun v => tm.pow v 2) file.data jkBlocks)
    recordEstimate r2 "normMeanPhiFourth" this_bc
      (stat.averageOf (fun v => tm.pow v 4) file.data)
      (stat.jackknifeBlockEstimatesOf (fun v => tm.pow v 4) file.data jkBlocks)
  else r1

/-- The body of the loop over the files of one directory. -/
def processFile (stat : Statistics R) (tm : TrigMath R) (noexp : Bool) (jkBlocks : Nat)
    (this_bc : String) (maps : EvalMaps R) (file : SeriesFile R) :
    Except GeneralError (EvalMaps R) :=
  if file.columns ≠ 1 then
    Except.error { message := "File does not have exactly 1 column" }
  else
    let maps1 := if noexp = false then recordFile stat tm jkBlocks this_bc maps file else maps
    Except.ok { maps1 with
      bc_evalSamples := mapAssign maps1.bc_evalSamples this_bc file.data.length }

/-- The body of the loop over the input directories. -/
def processDirectory (stat : Statistics R) (tm : TrigMath R) (noexp : Bool) (jkBlocks : Nat)
    (maps : EvalMaps R) (dir : InputDirectory R) : Except GeneralError (EvalMaps R) :=
  let this_bc := dir.bc
  if (mapFind maps.bc_evalSamples this_bc).isSome then
    Except.error { message := "Boundary condition " ++ this_bc ++ " appears more than one time" }
  else
    let maps1 : EvalMaps R :=
      { maps with
        bc_L := mapAssign maps.bc_L this_bc dir.L
        bc_N := mapAssign maps.bc_N this_bc ((dir.L * dir.L) % 2 ^ 32)
        bc_m := mapAssign maps.bc_m this_bc dir.m
        bc_dtau := mapAssign maps.bc_dtau this_bc dir.dtau }
    dir.files.foldlM (processFile stat tm noexp jkBlocks this_bc) maps1

/-- The function `all_map_values_are_equal`. -/
def all_map_values_are_equal {V : Type} [DecidableEq V] (m : StrMap V) : Bool :=
  match m with
  | [] => true
  | e :: rest => rest.all fun t => decide (t.2 = e.2)

/-- The array `needed_bcs`. -/
def needed_bcs : List String := ["pbc", "apbc-x", "apbc-y", "apbc-xy"]

/-- The loop of `main` that fills `avg_estimates` from `obs_bc_estimates`. -/
def averageEstimates (obs_bc_estimates : StrMap (StrMap R)) : StrMap R :=
  obs_bc_estimates.foldl
    (fun avg_estimates obs_BcValMap_pair =>
      let obs := obs_BcValMap_pair.1
      let a0 := mapAssign avg_estimates obs 0
      let a1 := obs_BcValMap_pair.2.foldl
        (fun a bc_val_pair => mapAssign a obs ((mapFind a obs).getD 0 + bc_val_pair.2)) a0
      mapAssign a1 obs ((mapFind a1 obs).getD 0 / 4))
    []

/-- The loop `for (jb = 0; jb < jkBlocks; ++jb) v[jb] = f(jb, v[jb])` over a vector; an entry
outside the vector reads as zero. -/
def forEachBlock (jkBlocks : Nat) (f : Nat → R → R) (v : List R) : List R :=
  (List.range jkBlocks).foldl (fun w jb => w.set jb (f jb (w.getD jb 0))) v

/-- The loop of `main` that fills `avg_jkBlockEstimates` from `obs_bc_jkBlockEstimates`. -/
def averageBlockEstimates (jkBlocks : Nat) (obs_bc_jkBlockEstimates : StrMap (StrMap (List R))) :
    StrMap (List R) :=
  obs_bc_jkBlockEstimates.foldl
    (fun avg_jkBlockEstimates obs_BcVecMap_pair =>
      let obs := obs_BcVecMap_pair.1
      let a0 := mapAssign avg_jkBlockEstimates obs (List.replicate jkBlocks 0)
      let a1 := obs_BcVecMap_pair.2.foldl
        (fun a bc_blockVec_pair =>
          mapAssign a obs (forEachBlock jkBlocks
            (fun jb x => x + bc_blockVec_pair.2.getD jb 0) ((mapFind a obs).getD [])))
        a0
      mapAssign a1 obs (forEachBlock jkBlocks (fun _ x => x / 4) ((mapFind a1 obs).getD [])))
    []

/-- The maps before the first directory is processed. -/
def emptyEvalMaps : EvalMaps R :=
  { obs_bc_estimates := [], obs_bc_jkBlockEstimates := [], bc_evalSamples := [],
    bc_L := [], bc_N := [], bc_m := [], bc_dtau := [] }

/-- The function `main` of `maindetevalbc` from the check of the number of directories to the
end of the two averaging loops: the result is `(avg_estimates, avg_jkBlockEstimates)` as
these loops leave them, or the `GeneralError` thrown. -/
def evalbc (stat : Statistics R) (tm : TrigMath R) (noexp : Bool) (jkBlocks : Nat)
    (inputDirectories : List (InputDirectory R)) :
    Except GeneralError (StrMap R × StrMap (List R)) :=
  if inputDirectories.length ≠ 4 then
    Except.error { message := "Number of passed input directories is not 4." }
  else
    match inputDirectories.foldlM (processDirectory stat tm noexp jkBlocks) emptyEvalMaps with
    | Except.error e => Except.error e
    | Except.ok maps =>
      match needed_bcs.find? (fun bc => (mapFind maps.bc_L bc).isNone) with
      | some bc =>
        Except.error { message := "No data present for boundary condition: " ++ bc }
      | none =>
        if all_map_values_are_equal maps.bc_L = false then
          Except.error { message := "mismatch for parameter L" }
        else if all_map_values_are_equal maps.bc_N = false then
          Except.error { message := "mismatch for parameter N" }
        else if all_map_values_are_equal maps.bc_m = false then
          Except.error { message := "mismatch for parameter m" }
        else if all_map_values_are_equal maps.bc_dtau = false then
          Except.error { message := "mismatch for parameter dtau" }
        else
          Except.ok (averageEstimates maps.obs_bc_estimates,
            averageBlockEstimates jkBlocks maps.obs_bc_jkBlockEstimates)

/-! ## The update method of the local updates -/

/-- The enumeration `UpdateMethod`. -/
inductive UpdateMethod where
  | ITERATIVE | WOODBURY | DELAYED
deriving DecidableEq, Repr

/-- Modelled from the spec: the member template
`callUpdateInSlice_for_updateMethod(timeslice, proposeSpin)`, which is declared outside the
given sources: it runs the routine selected by `updateMethod`, one of
`updateInSlice_iterative`, `updateInSlice_woodbury` and `updateInSlice_delayed`, with the
proposal it is given. `dud` holds the scratch blocks of the delayed routine, which gets the
fuel `N`; `none` stands for an exception (and for a delayed routine that does not return,
which needs `delaySteps = 0`). -/
def callUpdateInSlice_for_updateMethod {G : Type} (sm : StdMath R) (rw : RngWrapper R G)
    {P : Params R} (updateMethod : UpdateMethod) (delaySteps : Nat)
    (dud : DelayedUpdatesData R P.N) (timeslice : Nat) (proposeSpin : ProposeSpin R G)
    (st : State R G P) : Option (State R G P) :=
  match updateMethod with
  | UpdateMethod.ITERATIVE => some (updateInSlice_iterative sm rw proposeSpin timeslice st)
  | UpdateMethod.WOODBURY => updateInSlice_woodbury sm rw proposeSpin timeslice st
  | UpdateMethod.DELAYED =>
    (updateInSlice_delayed sm rw proposeSpin timeslice delaySteps P.N st dud).join

/-! ## Auxiliary definitions used in the proofs -/

/-- The 4N x 4 selection matrix with a one at `(site + a*N, a)`. -/
def selCols (R : Type) [LinearOrderedField R] {N : Nat} (site : Fin N) : MatCpx R (4 * N) 4 :=
  fun i a => if i = siteIdx site a then 1 else 0

/-- The time-derivative part of one summand of `phiAction`. -/
def actionTime (P : Params R) (p q : Phi R) : R :=
  (P.dtau / (2 * P.c * P.c)) * dot (fun i => (p - q) i / P.dtau) (fun i => (p - q) i / P.dtau)

/-- A space-bond part of one summand of `phiAction`. -/
def actionBond (P : Params R) (p q : Phi R) : R :=
  (1 / 2) * P.dtau * dot (p - q) (p - q)

/-- The on-site part of one summand of `phiAction`. -/
def actionSite (P : Params R) (p : Phi R) : R :=
  (1 / 2) * P.dtau * P.r * dot p p + (1 / 4) * P.dtau * P.u * dot p p ^ 2

/-- The unit vector with a one at position `site + k*N`. -/
def unitVec {N : Nat} (site : Fin N) (k : Fin 4) : Fin (4 * N) → Cpx R :=
  fun i => if i = siteIdx site k then 1 else 0

/-- The matrix `I + Delta*(I - G)` restricted to its first `n` non-trivial rows: the identity
plus the rows `rows[k]`, `k < n`, at the positions `site + k*N`. -/
def partialTarget {N : Nat} (g : MatCpx R (4 * N) (4 * N)) (site : Fin N) (D : MatCpx R 4 4)
    (n : Nat) : MatCpx R (4 * N) (4 * N) :=
  1 + ∑ k ∈ Finset.univ.filter (fun k : Fin 4 => k.val < n),
    Matrix.vecMulVec (unitVec site k) (iterativeRows g site D k)

/-- The full matrix described by the vectors `rows[k]`, `k < n`: row `site + k*N` is `rows[k]`,
every other row is a row of the identity. -/
def rowsMatrix {N : Nat} (site : Fin N) (rows : Fin 4 → Fin (4 * N) → Cpx R) (n : Nat) :
    MatCpx R (4 * N) (4 * N) :=
  1 + ∑ k ∈ Finset.univ.filter (fun k : Fin 4 => k.val < n),
    Matrix.vecMulVec (unitVec site k) (rows k - unitVec site k)

/-- The invariant of the loop of the iterative scheme after `n` passes: the vectors `rows[k]`,
`k < n`, are the non-trivial rows of the inverse of `partialTarget n`, the vectors `rows[k]`,
`k >= n`, are untouched, and `det` is the determinant of `partialTarget n`. -/
def IterInv {N : Nat} (g : MatCpx R (4 * N) (4 * N)) (site : Fin N) (D : MatCpx R 4 4)
    (n : Nat) (s : (Fin 4 → Fin (4 * N) → Cpx R) × Cpx R) : Prop :=
  (∀ k : Fin 4, n ≤ k.val → s.1 k = iterativeRows g site D k) ∧
  rowsMatrix site s.1 n * partialTarget g site D n = 1 ∧
  s.2 = (partialTarget g site D n).det

/-- The state that a flush `g += dud.X*dud.Y` of the `j` pending blocks produces. -/
def flushD {G : Type} {P : Params R} (s : State R G P × DelayedUpdatesData R P.N × Nat) :
    State R G P :=
  { s.1 with g := s.1.g + delayedProduct s.2.1 s.2.2 }

/-- What the cluster growth leaves untouched: the backups in `gmd`, the counters and
`phiDelta`. -/
def SameBackup {G U : Type} {P : Params R} (s s' : GlobalState R G U P) : Prop :=
  s'.gmd.F = s.gmd.F ∧ s'.gmd.phiCosh = s.gmd.phiCosh ∧ s'.gmd.phiSinh = s.gmd.phiSinh ∧
  s'.gmd.g = s.gmd.g ∧ s'.gmd.UdVStorage = s.gmd.UdVStorage ∧
  s'.acceptedGlobalShifts = s.acceptedGlobalShifts ∧
  s'.attemptedGlobalShifts = s.attemptedGlobalShifts ∧
  s'.acceptedWolffClusterUpdates = s.acceptedWolffClusterUpdates ∧
  s'.attemptedWolffClusterUpdates = s.attemptedWolffClusterUpdates ∧
  s'.addedWolffClusterSize = s.addedWolffClusterSize ∧
  s'.phiDelta = s.phiDelta

/-! ## Auxiliary notions for the checkerboard round trips -/

/-- An operation on matrices that changes only the rows selected by `S` and reads only those
rows. -/
def LocalOn {n k : Nat} (S : Nat → Prop) (T : MatCpx R n k → MatCpx R n k) : Prop :=
  (∀ A (r : Fin n), ¬ S r.val → T A r = A r) ∧
  (∀ A B, (∀ r : Fin n, S r.val → A r = B r) → ∀ r : Fin n, S r.val → T A r = T B r)

/-- The four sites of the plaquette with lower left corner `(i1, i2)`. -/
def plaquetteSites (L i1 i2 : Nat) : Nat × Nat × Nat × Nat :=
  (coordsToSite L i1 i2,
   spaceNeigh L NeighDir.XPLUS (coordsToSite L i1 i2),
   spaceNeigh L NeighDir.YPLUS (coordsToSite L i1 i2),
   spaceNeigh L NeighDir.XPLUS (spaceNeigh L NeighDir.YPLUS (coordsToSite L i1 i2)))

/-- The bond factors of both bands satisfy `cosh^2 - sinh^2 = 1`, for the whole and for the
half time step. -/
def Hopping.Hyperbolic (hp : Hopping R) : Prop :=
  ∀ band : Band,
    hp.coshHopHor band ^ 2 - hp.sinhHopHor band ^ 2 = 1 ∧
    hp.coshHopVer band ^ 2 - hp.sinhHopVer band ^ 2 = 1 ∧
    hp.coshHopHorHalf band ^ 2 - hp.sinhHopHorHalf band ^ 2 = 1 ∧
    hp.coshHopVerHalf band ^ 2 - hp.sinhHopVerHalf band ^ 2 = 1

/-- The result of `cbLMultHoppingExp` for a method other than `CB_NONE`. -/
def cbLTotal {n k : Nat} (cb : CheckerboardMethod) (L : Nat) (hp : Hopping R)
    (band : Band) (sign : Int) (invertedCbOrder : Bool) (A : MatCpx R n k) : MatCpx R n k :=
  (cbLMultHoppingExp cb L hp A band sign invertedCbOrder).getD 0

/-- The caches `phiCosh`, `phiSinh` of slice `k` hold the values that `updatePhiCoshSinh`
computes from the field. -/
def SliceConsistent (sm : StdMath R) (P : Params R) (F : PhiField R)
    (phiCosh phiSinh : Nat → Nat → R) (k : Nat) : Prop :=
  ∀ site, site < P.N →
    phiCosh site k = sm.cosh (P.dtau * normPhi sm (F.getPhi site k)) ∧
    phiSinh site k = sm.sinh (P.dtau * normPhi sm (F.getPhi site k))
      / normPhi sm (F.getPhi site k)

/-- The library functions are exact at the arguments that slice `k` uses: `exp(x) exp(-x) = 1`
for the chemical potential term, and at every site a non-zero norm with `|phi|^2 = phi . phi`
and `cosh^2 - sinh^2 = 1`. -/
def ExactAtSlice (sm : StdMath R) (P : Params R) (F : PhiField R) (k : Nat) : Prop :=
  sm.exp (P.dtau * P.mu) * sm.exp (-P.dtau * P.mu) = 1 ∧
  ∀ site, site < P.N →
    normPhi sm (F.getPhi site k) ≠ 0 ∧
    normPhi sm (F.getPhi site k) ^ 2
      = F.phi0 site k ^ 2 + F.phi1 site k ^ 2 + F.phi2 site k ^ 2 ∧
    sm.cosh (P.dtau * normPhi sm (F.getPhi site k)) ^ 2
      - sm.sinh (P.dtau * normPhi sm (F.getPhi site k)) ^ 2 = 1

/-- The sixteen blocks that `leftMultiplyBk` assigns, for a total checkerboard routine `K`. -/
def leftBlocksFwd {N : Nat} (v : SliceVectors R N) (K : Band → MatCpx R N N → MatCpx R N N)
    (orig : MatCpx R (4 * N) (4 * N)) (row col : Fin 4) : MatCpx R N N :=
  match row with
  | 0 => diagTimes v.c (K Band.XBAND (block orig 0 col))
      + diagTimes v.max (K Band.YBAND (block orig 2 col))
      + diagTimes v.bx (K Band.YBAND (block orig 3 col))
  | 1 => diagTimes v.c (K Band.XBAND (block orig 1 col))
      + diagTimes v.bcx (K Band.YBAND (block orig 2 col))
      + diagTimes v.ax (K Band.YBAND (block orig 3 col))
  | 2 => diagTimes v.max (K Band.XBAND (block orig 0 col))
      + diagTimes v.bx (K Band.XBAND (block orig 1 col))
      + diagTimes v.c (K Band.YBAND (block orig 2 col))
  | 3 => diagTimes v.bcx (K Band.XBAND (block orig 0 col))
      + diagTimes v.ax (K Band.XBAND (block orig 1 col))
      + diagTimes v.c (K Band.YBAND (block orig 3 col))

/-- The sixteen blocks that `leftMultiplyBkInv` assigns, for a total checkerboard routine
`K`. -/
def leftBlocksInv {N : Nat} (v : SliceVectors R N) (K : Band → MatCpx R N N → MatCpx R N N)
    (orig : MatCpx R (4 * N) (4 * N)) (row col : Fin 4) : MatCpx R N N :=
  match row with
  | 0 => K Band.XBAND (diagTimes v.c (block orig 0 col))
      + K Band.XBAND (diagTimes v.ax (block orig 2 col))
      + K Band.XBAND (diagTimes v.bx (block orig 3 col))
  | 1 => K Band.XBAND (diagTimes v.c (block orig 1 col))
      + K Band.XBAND (diagTimes v.bcx (block orig 2 col))
      + K Band.XBAND (diagTimes v.max (block orig 3 col))
  | 2 => K Band.YBAND (diagTimes v.ax (block orig 0 col))
      + K Band.YBAND (diagTimes v.bx (block orig 1 col))
      + K Band.YBAND (diagTimes v.c (block orig 2 col))
  | 3 => K Band.YBAND (diagTimes v.bcx (block orig 0 col))
      + K Band.YBAND (diagTimes v.max (block orig 1 col))
      + K Band.YBAND (diagTimes v.c (block orig 3 col))

/-- The eight products of the forward and inverse slice vectors at one site that make
`e^(dtau V) e^(-dtau V)` the identity. -/
def SliceInverse {N : Nat} (v w : SliceVectors R N) : Prop :=
  ∀ i : Fin N,
    w.c i * v.c i + w.ax i * v.max i + w.bx i * v.bcx i = 1 ∧
    w.ax i * v.bx i + w.bx i * v.ax i = 0 ∧
    w.c i * v.max i + w.ax i * v.c i = 0 ∧
    w.c i * v.bx i + w.bx i * v.c i = 0 ∧
    w.bcx i * v.max i + w.max i * v.bcx i = 0 ∧
    w.c i * v.c i + w.bcx i * v.bx i + w.max i * v.ax i = 1 ∧
    w.c i * v.bcx i + w.bcx i * v.c i = 0 ∧
    w.c i * v.ax i + w.max i * v.c i = 0

/-! ## Auxiliary notions for the proposals, the construction, the hopping matrix and the
accumulators -/

/-- The value `cosTheta` that `proposeRotatedField` computes from its first uniform draw. -/
def rotationCosTheta {G : Type} (rw : RngWrapper R G) (angleDelta : R) (rng : G) : R :=
  (rw.rand01 rng).1 * (1 - angleDelta) + angleDelta

/-- The azimuth `phi` that `proposeRotatedField` computes from its second uniform draw. -/
def rotationAzimuth {G : Type} (tm : TrigMath R) (rw : RngWrapper R G) (rng : G) : R :=
  (rw.rand01 (rw.rand01 rng).2).1 * 2 * tm.M_PI

/-- The squared Euclidean length of a 3-vector. -/
def normSq3 (v : Phi R) : R := v 0 ^ 2 + v 1 ^ 2 + v 2 ^ 2

/-- The library functions are exact where `proposeRotatedField` calls them at
`(site, timeslice)`: `pow(v, 2) = v^2`, `sqrt(v)^2 = v` at the squared length and at
`1 - cosTheta^2`, and `cos^2 + sin^2 = 1` at the azimuth. -/
def ExactRotation {G : Type} (sm : StdMath R) (tm : TrigMath R) (rw : RngWrapper R G)
    (angleDelta : R) (F : PhiField R) (rng : G) (site timeslice : Nat) : Prop :=
  (∀ v : R, tm.pow v 2 = v ^ 2) ∧
  sm.sqrt (normSq3 (F.getPhi site timeslice)) ^ 2 = normSq3 (F.getPhi site timeslice) ∧
  sm.sqrt (1 - rotationCosTheta rw angleDelta rng ^ 2) ^ 2
    = 1 - rotationCosTheta rw angleDelta rng ^ 2 ∧
  tm.cos (rotationAzimuth tm rw rng) ^ 2 + tm.sin (rotationAzimuth tm rw rng) ^ 2 = 1

/-- All checks of `createDetSDW` pass for the parameter set `pars`. -/
def ChecksPass (pars : ModelParams) : Prop :=
  neededModelPars.find? (fun p => pars.specified.count p == 0) = none ∧
  (possibleBC.any fun bc => pars.bc == bc) = true ∧
  (possibleUpdateMethods.any fun um => pars.updateMethod == um) = true ∧
  checkDelaySteps pars = none ∧
  (possibleSpinProposalMethods.any fun sp => pars.spinProposalMethod == sp) = true ∧
  ¬ ((pars.globalShift = true ∨ pars.wolffClusterUpdate = true)
    ∧ pars.globalUpdateInterval = 0) ∧
  ¬ (pars.checkerboard = true ∧ pars.L % 2 ≠ 0) ∧
  ¬ (pars.specified.count "L" > 0 ∧ pars.L ≤ 0)

/-- The checks of `createDetSDW` that precede the check of `delaySteps`, apart from the one of
`updateMethod`: every needed parameter is specified and `bc` is one of the possible values. -/
def EarlierChecksPass (pars : ModelParams) : Prop :=
  neededModelPars.find? (fun p => pars.specified.count p == 0) = none ∧
  (possibleBC.any fun bc => pars.bc == bc) = true

/-- The pair `(name, value)` names a parameter of `pars` together with its value, and that
value is one that `createDetSDW` rejects. -/
def OffendingValue (pars : ModelParams) (name : String) (value : ParamValue) : Prop :=
  (name = "bc" ∧ value = ParamValue.text pars.bc ∧ pars.bc ∉ possibleBC) ∨
  (name = "updateMethod" ∧ value = ParamValue.text pars.updateMethod
    ∧ pars.updateMethod ∉ possibleUpdateMethods) ∨
  (name = "delaySteps" ∧ value = ParamValue.number pars.delaySteps
    ∧ (pars.delaySteps = 0 ∨ pars.delaySteps > toUInt32 (pars.L ^ 2))) ∨
  (name = "spinProposalMethod" ∧ value = ParamValue.text pars.spinProposalMethod
    ∧ pars.spinProposalMethod ∉ possibleSpinProposalMethods) ∨
  (name = "globalUpdateInterval" ∧ value = ParamValue.number pars.globalUpdateInterval
    ∧ pars.globalUpdateInterval = 0
    ∧ (pars.globalShift = true ∨ pars.wolffClusterUpdate = true)) ∨
  (name = "L" ∧ value = ParamValue.number pars.L ∧ pars.L = 0) ∨
  (name = "checkerboardMethod" ∧ value = ParamValue.text pars.checkerboardMethod
    ∧ pars.checkerboard = true
    ∧ pars.checkerboardMethod ∉ ["santos", "assaad", "assaad_berg"])

/-- The pair `(i, j)` is joined across the x-boundary: same row, one site at `x = L-1` and the
other at `x = 0`. -/
def CrossesXBoundary (L i j : Nat) : Prop :=
  i / L = j / L ∧ ((i % L = L - 1 ∧ j % L = 0) ∨ (i % L = 0 ∧ j % L = L - 1))

/-- The sum of all inserted values. -/
def sumValues (ins : List (R × Nat)) : R := (ins.map Prod.fst).sum

/-- The sum of the inserted values whose block index `curSweep / jkBlockSizeSweeps` differs
from `jb`. -/
def sumOtherBlocks (jkBlockSizeSweeps jb : Nat) (ins : List (R × Nat)) : R :=
  ((ins.filter fun p => p.2 / jkBlockSizeSweeps ≠ jb).map Prod.fst).sum

/-- The handler that results when the handler `h` is saved with `serializeContents` after the
calls `first`, the archive is loaded into a freshly constructed handler with the same
parameters, and the calls `rest` follow. -/
def resumedHandler {R : Type} [LinearOrderedField R] (mc : MCParams)
    (first rest : List (R × Nat)) : Option (ObservableHandlerCommon R) :=
  match (ObservableHandlerCommon.create mc (0 : R)).insertAll first with
  | none => none
  | some h => ((ObservableHandlerCommon.create mc (0 : R)).load h.save).insertAll rest

/-- The arguments `(jkBlockAverages, mean, zero)` with which `evaluateJackknife` calls
`jackknife`, or `none` when it does not call it and returns the error `zero`. -/
def jackknifeArguments {R : Type} [LinearOrderedField R] (h : ObservableHandlerCommon R) :
    Option (List R × R × R) :=
  if (h.mcparams.sweeps + 2 ^ 32 - h.lastSweepLogged) % 2 ^ 32 ≤ h.mcparams.measureInterval
      ∧ h.jkBlockCount > 1 then
    some ((List.range h.jkBlockCount).foldl
        (fun avgs jb => avgs.set jb
          (avgs.getD jb 0 / ((h.countValues - h.countValues / h.jkBlockCount : Nat) : R)))
        h.jkBlockValues,
      h.total / (h.countValues : R), h.zero)
  else none

/-- The property `p` holds for some reported value. -/
def SomeReported (p : NumQuotient R → Bool) (l : List (String × NumQuotient R)) : Prop :=
  ∃ e ∈ l, p e.2 = true

/-! ## Auxiliary notions for the sweeps -/

/-- The loop over `rep` with one and the same proposal in every repetition. -/
def repeatWithProposal {G : Type} {P : Params R} (env : SweepEnv R G P) (n timeslice : Nat)
    (proposeSpin : ProposeSpin R G) (st : State R G P) : Except SweepFailure (State R G P) :=
  (List.range n).foldlM
    (fun s _ => orException (env.callUpdateInSlice_for_updateMethod timeslice proposeSpin s)) st

/-- The bracket of the rotation step size:
`MinAngleDelta <= curminAngleDelta <= angleDelta <= curmaxAngleDelta <= MaxAngleDelta`. -/
def AngleBracket {A : Type} (c : ControllerConstants R) (sz : StepSizes R A) : Prop :=
  c.MinAngleDelta ≤ sz.curminAngleDelta ∧ sz.curminAngleDelta ≤ sz.angleDelta ∧
  sz.angleDelta ≤ sz.curmaxAngleDelta ∧ sz.curmaxAngleDelta ≤ c.MaxAngleDelta

/-- A sequence of calls of `updateInSliceThermalization`, each with the values of the members
read at that call (`performedSweeps` changes between sweeps) and its time slice. -/
def thermalizationCalls {G A : Type} (sm : StdMath R) (tm : TrigMath R)
    (rw : RngWrapper R G) (nd : NormalDistribution R G) {P : Params R} (env : SweepEnv R G P)
    (c : ControllerConstants R) (ra : RunningAverage R A)
    (calls : List (SweepMembers R × Nat)) (s : State R G P × StepSizes R A) :
    Except SweepFailure (State R G P × StepSizes R A) :=
  calls.foldlM
    (fun s call => updateInSliceThermalization sm tm rw nd env c ra call.1 call.2 s) s

/-- The failure of a call, if any. -/
def failureOf {α : Type} : Except SweepFailure α → Option SweepFailure
  | Except.error e => some e
  | Except.ok _ => none

/-- One pass over the sites `0, ..., N-1` in this order in which the move at every site is
drawn by `proposeSpin`: the site bodies of `updateInSlice_iterative` for the iterative update
method and those of `updateInSlice_woodbury` for the two others, between the reset of
`lastAccRatioLocal` and its division by `N`. -/
def sitesPass {G : Type} (sm : StdMath R) (rw : RngWrapper R G) {P : Params R}
    (updateMethod : UpdateMethod) (timeslice : Nat) (proposeSpin : ProposeSpin R G)
    (st : State R G P) : Option (State R G P) :=
  match updateMethod with
  | UpdateMethod.ITERATIVE =>
    some
      ((fun s : State R G P => { s with lastAccRatioLocal := s.lastAccRatioLocal / (P.N : R) })
        ((List.finRange P.N).foldl (updateInSlice_iterative_site sm rw proposeSpin timeslice)
          { st with lastAccRatioLocal := 0 }))
  | _ =>
    ((List.finRange P.N).foldlM (updateInSlice_woodbury_site sm rw proposeSpin timeslice)
        { st with lastAccRatioLocal := 0 }).map
      fun s => { s with lastAccRatioLocal := s.lastAccRatioLocal / (P.N : R) }

/-- The pass `sitesPass` made `n` times in a row with one and the same proposal. -/
def repeatedSitesPass {G : Type} (sm : StdMath R) (rw : RngWrapper R G) {P : Params R}
    (updateMethod : UpdateMethod) (n timeslice : Nat) (proposeSpin : ProposeSpin R G)
    (st : State R G P) : Except SweepFailure (State R G P) :=
  (List.range n).foldlM
    (fun s _ => orException (sitesPass sm rw updateMethod timeslice proposeSpin s)) st

/-- The keys of both maps of estimates are pairwise different. -/
def EvalMaps.KeysDistinct (maps : EvalMaps R) : Prop :=
  (maps.obs_bc_estimates.map Prod.fst).Nodup ∧
  (maps.obs_bc_jkBlockEstimates.map Prod.fst).Nodup

/-- The body of the loop that fills `avg_estimates`. -/
def estimateStep (avg_estimates : StrMap R) (obs_BcValMap_pair : String × StrMap R) :
    StrMap R :=
  let obs := obs_BcValMap_pair.1
  let a0 := mapAssign avg_estimates obs 0
  let a1 := obs_BcValMap_pair.2.foldl
    (fun a bc_val_pair => mapAssign a obs ((mapFind a obs).getD 0 + bc_val_pair.2)) a0
  mapAssign a1 obs ((mapFind a1 obs).getD 0 / 4)

/-- The body of the loop that fills `avg_jkBlockEstimates`. -/
def blockStep (jkBlocks : Nat) (avg_jkBlockEstimates : StrMap (List R))
    (obs_BcVecMap_pair : String × StrMap (List R)) : StrMap (List R) :=
  let obs := obs_BcVecMap_pair.1
  let a0 := mapAssign avg_jkBlockEstimates obs (List.replicate jkBlocks 0)
  let a1 := obs_BcVecMap_pair.2.foldl
    (fun a bc_blockVec_pair =>
      mapAssign a obs (forEachBlock jkBlocks
        (fun jb x => x + bc_blockVec_pair.2.getD jb 0) ((mapFind a obs).getD [])))
    a0
  mapAssign a1 obs (forEachBlock jkBlocks (fun _ x => x / 4) ((mapFind a1 obs).getD []))

/-- The number of space-time points (site below `N`, slice in `1..m`) that `visited` marks. -/
def visitedCount (P : Params R) (visited : Nat → Nat → Bool) : Nat :=
  ((Finset.range P.N ×ˢ Finset.Icc 1 P.m).filter fun p => visited p.1 p.2 = true).card

/-- The state in which `attemptWolffClusterUpdate` enters its `do ... while` loop when the
seed is `(site, timeslice)`: `visited` zeroed, the stack emptied, then the seed flipped, marked
and pushed. -/
def wolffSeed {G U : Type} (sm : StdMath R) {P : Params R} (rd : Phi R)
    (st : GlobalState R G U P) (site timeslice : Nat) : GlobalState R G U P :=
  let st2 : GlobalState R G U P :=
    { st with gmd := { st.gmd with visited := fun _ _ => false, next_sites := [] } }
  let st3 := flipPhi sm rd st2 site timeslice
  { st3 with gmd := { st3.gmd with
      visited := Function.update st3.gmd.visited site
        (Function.update (st3.gmd.visited site) timeslice true)
      next_sites := (site, timeslice) :: st3.gmd.next_sites } }

/-- The loop invariant of the cluster growth, relative to the field `F0` before the seed was
flipped: only points of the lattice are marked, `count` is their number, the stack holds
marked points without repetition, and the field is `F0` with exactly the marked points
reflected. -/
def WolffInv (P : Params R) (rd : Phi R) (F0 : PhiField R) (visited : Nat → Nat → Bool)
    (stack : List (Nat × Nat)) (F : PhiField R) (count : Nat) : Prop :=
  (∀ site k, visited site k = true → site < P.N ∧ 1 ≤ k ∧ k ≤ P.m) ∧
  count = visitedCount P visited ∧
  (∀ p ∈ stack, visited p.1 p.2 = true) ∧
  stack.Nodup ∧
  (∀ site k, F.getPhi site k
    = if visited site k = true then flippedPhi F0 rd site k else F0.getPhi site k)

/-- The invariant `WolffInv` for a loop state, with the potential `bound` that every
iteration lowers by one, and a lower bound `low` on the cluster size. -/
def WolffLoop {G U : Type} {P : Params R} (rd : Phi R) (F0 : PhiField R) (bound low : Nat)
    (s : GlobalState R G U P × Nat) : Prop :=
  WolffInv P rd F0 s.1.gmd.visited s.1.gmd.next_sites s.1.F s.2 ∧
  s.1.gmd.next_sites.length + (P.N * P.m - s.2) = bound ∧ low ≤ s.2

/-! ## Concrete inputs -/

/-- A 4 x 4 Green's matrix (N = 1) with rational entries. -/
def exG : MatCpx ℚ (4 * 1) (4 * 1) :=
  fun i j => if i = j then ⟨1 / 2, 0⟩ else if i.val + 1 = j.val then ⟨0, 1 / 3⟩ else 0

/-- A 4 x 4 matrix `Delta` with rational entries. -/
def exDelta : MatCpx ℚ 4 4 :=
  fun i j => if i = j then ⟨1 / 4, 0⟩ else if j.val + 2 = i.val then ⟨1, 1⟩ else 0

/-- Parameters of a 2 x 2 lattice with 2 time slices. -/
def exParams : Params ℚ :=
  { L := 2, m := 2, dtau := 1 / 3, r := 2 / 5, u := 7 / 3, c := 3 / 2, mu := 1 / 2 }

/-- A rational field configuration. -/
def exField : PhiField ℚ :=
  { phi0 := fun s k => ((s : ℚ) * s + 3 * k + 1) / 7
    phi1 := fun s k => ((s : ℚ) + k * k) / 3 - 1
    phi2 := fun s k => (2 * (s : ℚ) - k) / 5 }

/-- Rational stand-ins for the library functions. -/
def exMath : StdMath ℚ :=
  { exp := fun x => 1 / (1 + x * x), cosh := fun _ => 1, sinh := fun x => x, sqrt := fun _ => 1 }

/-- A generator whose state is a counter and whose uniform draws are all `1/2`. -/
def exRng : RngWrapper ℚ Nat :=
  { rand01 := fun n => (1 / 2, n + 1)
    randRange := fun lo _ n => (lo, n + 1)
    randInt := fun lo _ n => (lo, n + 1)
    randPointOnSphere := fun n => ((1, 0, 0), n + 1) }

/-- A generator whose state is a counter and whose uniform draws are all `0`. -/
def exRngLow : RngWrapper ℚ Nat :=
  { exRng with rand01 := fun n => (0, n + 1) }

/-- Parameters of a lattice with one site and two time slices. -/
def exParams1 : Params ℚ :=
  { L := 1, m := 2, dtau := 1, r := 1, u := 1, c := 1, mu := 0 }

/-- A proposal that adds one to the first field component and is always valid. -/
def exPropose : ProposeSpin ℚ Nat :=
  fun F n site timeslice =>
    ((true, ![F.phi0 site timeslice + 1, F.phi1 site timeslice, F.phi2 site timeslice]), n + 1)

/-- A state of the one-site lattice with vanishing field. -/
def exState : State ℚ Nat exParams1 :=
  { F := { phi0 := fun _ _ => 0, phi1 := fun _ _ => 0, phi2 := fun _ _ => 0 }
    phiCosh := fun _ _ => 1
    phiSinh := fun _ _ => 1
    g := fun i j => if i = j then ⟨1 / 2, 0⟩ else 0
    lastAccRatioLocal := 0
    rng := 0 }

/-- The only site of the one-site lattice. -/
def exSite : Fin exParams1.N := ⟨0, by decide⟩

/-- Scratch blocks of the delayed update, all zero. -/
def exDud : DelayedUpdatesData ℚ exParams1.N := { X := fun _ => 0, Y := fun _ => 0 }

/-- Stand-ins for the collaborators of the global moves: the diagonal of `g` in place of its
singular values, and a recomputation that yields twice the identity. -/
def exEnv : GlobalEnv ℚ Nat Nat exParams1 :=
  { svd := fun g i => (g i i).re
    setupUdVStorage_and_calculateGreen := fun st =>
      (fun i j => if i = j then ⟨2, 0⟩ else 0, st.UdVStorage + 1) }

/-- A state of the one-site lattice for the global moves. -/
def exGlobalState : GlobalState ℚ Nat Nat exParams1 :=
  { F := { phi0 := fun _ k => if k = 1 then 1 else -1, phi1 := fun _ _ => 0,
           phi2 := fun _ _ => 1 }
    phiCosh := fun _ _ => 1
    phiSinh := fun _ _ => 1
    g := fun i j => if i = j then ⟨1 / 2, 0⟩ else 0
    UdVStorage := 3
    gmd :=
      { F := { phi0 := fun _ _ => 0, phi1 := fun _ _ => 0, phi2 := fun _ _ => 0 }
        phiCosh := fun _ _ => 0
        phiSinh := fun _ _ => 0
        g := 0
        UdVStorage := 0
        visited := fun _ _ => false
        next_sites := [] }
    phiDelta := 1 / 2
    acceptedGlobalShifts := 0
    attemptedGlobalShifts := 0
    acceptedWolffClusterUpdates := 0
    attemptedWolffClusterUpdates := 0
    addedWolffClusterSize := 0
    rng := 0 }

/-- Stand-ins for the library functions with `exp(x) exp(-x) = 1` and
`cosh^2 - sinh^2 = 1` for every rational argument; `sqrt` is exact at 1. -/
def exMathCb : StdMath ℚ :=
  { exp := fun x => (1 + x + x ^ 2) / (1 - x + x ^ 2)
    cosh := fun x => ((1 + x + x ^ 2) / (1 - x + x ^ 2) + (1 - x + x ^ 2) / (1 + x + x ^ 2)) / 2
    sinh := fun x => ((1 + x + x ^ 2) / (1 - x + x ^ 2) - (1 - x + x ^ 2) / (1 + x + x ^ 2)) / 2
    sqrt := fun x => x }

/-- A 2 x 2 lattice with two time slices. -/
def exParamsCb : Params ℚ :=
  { L := 2, m := 2, dtau := 1, r := 1, u := 1, c := 1, mu := 1 / 2 }

/-- Bond factors with `cosh^2 - sinh^2 = 1`, antiperiodic in x. -/
def exHop : Hopping ℚ :=
  { bc := BC.APBC_X
    sinhHopHor := fun _ => -3 / 4
    sinhHopVer := fun _ => -4 / 3
    coshHopHor := fun _ => 5 / 4
    coshHopVer := fun _ => 5 / 3
    sinhHopHorHalf := fun _ => -5 / 12
    sinhHopVerHalf := fun _ => -3 / 4
    coshHopHorHalf := fun _ => 13 / 12
    coshHopVerHalf := fun _ => 5 / 4 }

/-- A field of unit vectors. -/
def exFieldCb : PhiField ℚ :=
  { phi0 := fun _ _ => 3 / 5, phi1 := fun _ _ => 4 / 5, phi2 := fun _ _ => 0 }

/-- A `16 x 16` matrix. -/
def exMatCb : MatCpx ℚ (4 * exParamsCb.N) (4 * exParamsCb.N) :=
  fun i j => ⟨(i.val : ℚ) + 2 * j.val, 1⟩

/-- Bond factors of a model with horizontal hopping only, periodic boundaries. -/
def exHopBug : Hopping ℚ :=
  { bc := BC.PBC
    sinhHopHor := fun _ => -3 / 4
    sinhHopVer := fun _ => 0
    coshHopHor := fun _ => 5 / 4
    coshHopVer := fun _ => 1
    sinhHopHorHalf := fun _ => -5 / 12
    sinhHopVerHalf := fun _ => 0
    coshHopHorHalf := fun _ => 13 / 12
    coshHopVerHalf := fun _ => 1 }

/-- A 6 x 6 lattice with two time slices and zero chemical potential. -/
def exParamsBug : Params ℚ :=
  { L := 6, m := 2, dtau := 1, r := 1, u := 1, c := 1, mu := 0 }

/-- The `36 x 36` block whose only non-zero entry is a 1 at `(0, 0)`. -/
def exBlockBug : MatCpx ℚ exParamsBug.N exParamsBug.N :=
  fun i j => if i.val = 0 ∧ j.val = 0 then 1 else 0

/-- The `144 x 144` matrix whose only non-zero entry is a 1 at `(0, 0)`. -/
def exMatBug : MatCpx ℚ (4 * exParamsBug.N) (4 * exParamsBug.N) :=
  fun i j => if i.val = 0 ∧ j.val = 0 then 1 else 0

/-- A parameter set with checkerboard decomposition on an odd lattice; all else is valid. -/
def exParsOdd : ModelParams :=
  { specified := neededModelPars
    bc := "pbc"
    updateMethod := "iterative"
    delaySteps := 0
    spinProposalMethod := "box"
    globalShift := false
    wolffClusterUpdate := false
    globalUpdateInterval := 0
    checkerboard := true
    checkerboardMethod := "santos"
    L := 3
    timedisplaced := false
    rescale := false
    rescaleInterval := 0
    repeatUpdateInSlice := 1
    adaptScaleVariance := false }

/-- A parameter set for the update method `delayed` with `delaySteps = 17 > L^2 = 16`. -/
def exParsDelayed : ModelParams :=
  { specified := "delaySteps" :: neededModelPars
    bc := "apbc-x"
    updateMethod := "delayed"
    delaySteps := 17
    spinProposalMethod := "box"
    globalShift := false
    wolffClusterUpdate := false
    globalUpdateInterval := 0
    checkerboard := false
    checkerboardMethod := ""
    L := 4
    timedisplaced := true
    rescale := false
    rescaleInterval := 0
    repeatUpdateInSlice := 1
    adaptScaleVariance := false }

/-- Stand-ins for `pow`, `cos`, `sin` and `M_PI`: `pow` is exact at the exponents 2 and 3, and
`cos^2 + sin^2 = 1` holds at every argument. -/
def exTrig : TrigMath ℚ :=
  { pow := fun v e => if e = 2 then v ^ 2 else if e = 3 then v ^ 3 else v
    cos := fun x => (1 - x ^ 2) / (1 + x ^ 2)
    sin := fun x => 2 * x / (1 + x ^ 2)
    M_PI := 22 / 7 }

/-- Stand-ins for the library functions with a square root that is exact at `1`, `16/25` and
`9/25`. -/
def exMathRot : StdMath ℚ :=
  { exMath with
    sqrt := fun v => if v = 16 / 25 then 4 / 5 else if v = 9 / 25 then 3 / 5 else 1 }

/-- A Gaussian sampler that returns its mean minus two. -/
def exNormalLow : NormalDistribution ℚ Nat :=
  { get := fun _ b n => (b - 2, n + 1) }

/-- A Gaussian sampler that returns its mean plus one. -/
def exNormalHigh : NormalDistribution ℚ Nat :=
  { get := fun _ b n => (b + 1, n + 1) }

/-- A field of unit length in the xy-plane at every site. -/
def exFieldRot : PhiField ℚ :=
  { phi0 := fun _ _ => 3 / 5, phi1 := fun _ _ => 4 / 5, phi2 := fun _ _ => 0 }

/-- Four sweeps in two jackknife blocks, measured at every sweep. -/
def exMC : MCParams :=
  { sweeps := 4, jkBlocks := 2, measureInterval := 1, timeseries := false }

/-- The measurement of sweep 1. -/
def exInsFirst : List (ℚ × Nat) := [(1, 1)]

/-- The measurements of the sweeps 2, 3 and 4. -/
def exInsRest : List (ℚ × Nat) := [(2, 2), (3, 3), (4, 4)]

/-- A stand-in for the function `jackknife` of `statistics.h`: the leave-one-out variance
estimate `(n-1)/n * sum (avg - mean)^2` over the `n` block averages. -/
def exJackknife (jkBlockAverages : List ℚ) (mean _zero : ℚ) : ℚ :=
  ((jkBlockAverages.length : ℚ) - 1) / jkBlockAverages.length
    * (jkBlockAverages.map fun a => (a - mean) ^ 2).sum

/-- Band-dependent hopping amplitudes. -/
def exHopHor : Band → ℚ := fun b => if b = Band.XBAND then 1 else 1 / 2

/-- Band-dependent hopping amplitudes. -/
def exHopVer : Band → ℚ := fun b => if b = Band.XBAND then 1 / 2 else 1

/-- A state of the 2 x 2 lattice whose Green's function couples all sites. -/
def exState4 : State ℚ Nat exParams :=
  { F := { phi0 := fun _ _ => 0, phi1 := fun _ _ => 0, phi2 := fun _ _ => 0 }
    phiCosh := fun _ _ => 1
    phiSinh := fun _ _ => 1
    g := fun i j => if i = j then ⟨1 / 2, 0⟩ else ⟨1 / 10, 0⟩
    lastAccRatioLocal := 0
    rng := 0 }

/-- Scratch blocks of the delayed update on the 2 x 2 lattice, all zero. -/
def exDud4 : DelayedUpdatesData ℚ exParams.N := { X := fun _ => 0, Y := fun _ => 0 }

/-- Scratch blocks with one pending correction: `X 0` has the entries `1/3` in its first
column, `Y 0` the entries `1/2` in its first row. -/
def exDudPending : DelayedUpdatesData ℚ exParams.N :=
  { X := fun _ _ c => if c = 0 then ⟨1 / 3, 0⟩ else 0
    Y := fun _ r _ => if r = 0 then ⟨1 / 2, 0⟩ else 0 }

/-- The first site of the 2 x 2 lattice. -/
def exSite0 : Fin exParams.N := ⟨0, by decide⟩

/-- The second site of the 2 x 2 lattice. -/
def exSite1 : Fin exParams.N := ⟨1, by decide⟩

/-! ## Concrete inputs for the sweeps -/

/-- Stand-ins for `pow` that are exact at the exponents 2 and 4. -/
def exPow : TrigMath ℚ :=
  { exTrig with pow := fun v e => if e = 2 then v ^ 2 else if e = 4 then v ^ 4 else v }

/-- Parameters of a 2 x 2 lattice with 2 time slices and `c = 1`. -/
def exParamsUnit : Params ℚ :=
  { L := 2, m := 2, dtau := 1 / 3, r := 2 / 5, u := 7 / 3, c := 1, mu := 1 / 2 }

/-- Constants of the controller: an adjustment after every second sample. -/
def exConstants : ControllerConstants ℚ :=
  { AccRatioAdjustmentSamples := 2
    phiDeltaShrinkFactor := 9 / 10
    phiDeltaGrowFactor := 11 / 10
    InitialPhiDelta := 1 / 2
    InitialAngleDelta := 1 / 5
    InitialScaleDelta := 1 / 2
    MinAngleDelta := 0
    MaxAngleDelta := 1
    MinScaleDelta := 1 / 10
    MaxScaleDelta := 1 }

/-- A running average that keeps all its samples in a list. -/
def exRunningAverage : RunningAverage ℚ (List ℚ) :=
  { create := fun _ => []
    addValue := fun a v => v :: a
    get := fun a => a.sum / a.length
    getSamplesAdded := fun a => a.length }

/-- The update of the sites by `updateInSlice_woodbury`, and a rescale move that changes
nothing. -/
def exSweepEnv : SweepEnv ℚ Nat exParams1 :=
  { callUpdateInSlice_for_updateMethod := fun timeslice proposeSpin st =>
      updateInSlice_woodbury exMath exRng proposeSpin timeslice st
    attemptTimesliceRescaleMove := fun _ _ st => some st }

/-- Members for `rotate_then_scale` in a sweep with an odd number: scale moves. -/
def exMembersScale : SweepMembers ℚ :=
  { spinProposalMethod := SpinProposalMethod.ROTATE_THEN_SCALE
    repeatUpdateInSlice := 1
    rescale := false
    rescaleInterval := 0
    rescaleGrowthFactor := 2
    globalShift := false
    wolffClusterUpdate := false
    globalMoveInterval := 1
    targetAccRatioLocal := 1 / 2
    adaptScaleDelta := true
    performedSweeps := 1 }

/-- Step sizes as the constructor sets them, with one sample `0` in the running average of the
scale moves. -/
def exStepSizes : StepSizes ℚ (List ℚ) :=
  { constructStepSizes exConstants exRunningAverage with accRatioLocal_scale_RA := [0] }

/-- A state of the one-site lattice with a field of unit length. -/
def exStateUnit : State ℚ Nat exParams1 :=
  { exState with F := exFieldRot }

/-- A parameter set that passes all checks of `createDetSDW`, with `rescale` on, a zero
`rescaleInterval`, no global move and a zero `globalUpdateInterval`. -/
def exParsIntervals : ModelParams :=
  { specified := neededModelPars
    bc := "pbc"
    updateMethod := "woodbury"
    delaySteps := 0
    spinProposalMethod := "rotate_and_scale"
    globalShift := false
    wolffClusterUpdate := false
    globalUpdateInterval := 0
    checkerboard := false
    checkerboardMethod := ""
    L := 4
    timedisplaced := false
    rescale := true
    rescaleInterval := 0
    repeatUpdateInSlice := 1
    adaptScaleVariance := true }
/-- Six sweeps in three jackknife blocks, measured at every sweep. -/
def exMC6 : MCParams :=
  { sweeps := 6, jkBlocks := 3, measureInterval := 1, timeseries := false }

/-- The value 1 measured at each of the sweeps 1, 2, ..., 6. -/
def exInsConst : List (ℚ × Nat) := [(1, 1), (1, 2), (1, 3), (1, 4), (1, 5), (1, 6)]

/-- Sample statistics: the mean, and the mean repeated for every block. -/
def exStatistics : Statistics ℚ :=
  { average := fun d => d.sum / d.length
    averageOf := fun f d => (d.map f).sum / d.length
    jackknifeBlockEstimates := fun d n => List.replicate n (d.sum / d.length)
    jackknifeBlockEstimatesOf := fun f d n => List.replicate n ((d.map f).sum / d.length) }

/-- Four directories, one for each boundary condition; the directory of `apbc-xy` holds no
series of the observable `occ`. -/
def exDirectories : List (InputDirectory ℚ) :=
  [ { bc := "pbc", L := 4, m := 10, dtau := 1 / 10,
      files := [{ columns := 1, observable := "occ", data := [3, 5] }] },
    { bc := "apbc-x", L := 4, m := 10, dtau := 1 / 10,
      files := [{ columns := 1, observable := "occ", data := [4, 4] }] },
    { bc := "apbc-y", L := 4, m := 10, dtau := 1 / 10,
      files := [{ columns := 1, observable := "occ", data := [5, 3] }] },
    { bc := "apbc-xy", L := 4, m := 10, dtau := 1 / 10,
      files := [{ columns := 1, observable := "normPhi", data := [1, 1] }] } ]

/-- A state of the 2 x 2 lattice with a field of unit length at every site. -/
def exState4Rot : State ℚ Nat exParams :=
  { exState4 with F := exFieldRot }

/-- The routines called by `updateInSlice` for the delayed update method with
`delaySteps = 2` on the 2 x 2 lattice, and a rescale move that changes nothing. -/
def exSweepEnvDelayed : SweepEnv ℚ Nat exParams :=
  { callUpdateInSlice_for_updateMethod :=
      callUpdateInSlice_for_updateMethod exMathRot exRng UpdateMethod.DELAYED 2 exDud4
    attemptTimesliceRescaleMove := fun _ _ st => some st }

/-! ## Theorems: the Woodbury update against the reference computation -/

theorem siteIdx_injective {N : Nat} (site : Fin N) : Function.Injective (siteIdx site) := by
  intro a b h
  have hN : 0 < N := Nat.lt_of_le_of_lt (Nat.zero_le _) site.isLt
  have h1 : site.val + a.val * N = site.val + b.val * N := congrArg Fin.val h
  have h2 : a.val * N = b.val * N := Nat.add_left_cancel h1
  exact Fin.ext (Nat.eq_of_mul_eq_mul_right hN h2)

theorem selCols_transpose_mul_self {N : Nat} (site : Fin N) :
    (selCols R site).transpose * selCols R site = 1 := by
  ext1 a b
  simp only [Matrix.mul_apply, Matrix.transpose_apply, selCols, Matrix.one_apply]
  rw [Finset.sum_eq_single (siteIdx site a)]
  · by_cases hab : a = b
    · simp [hab]
    · have : siteIdx site a ≠ siteIdx site b := fun h => hab (siteIdx_injective site h)
      simp [hab, this]
  · intro i _ hi
    simp [hi]
  · intro h
    exact absurd (Finset.mem_univ _) h

theorem g_sub_eq {N : Nat} (g : MatCpx R (4 * N) (4 * N)) (site : Fin N) :
    g_sub g site = (selCols R site).transpose * g * selCols R site := by
  ext1 a b
  simp only [g_sub, Matrix.mul_apply, Matrix.transpose_apply, selCols]
  simp [Finset.sum_ite_eq, Finset.mul_sum]

theorem deltaFull_eq {N : Nat} (site : Fin N) (D : MatCpx R 4 4) :
    deltaFull site D = selCols R site * D * (selCols R site).transpose := by
  ext1 i j
  simp only [deltaFull, Matrix.mul_apply, Matrix.transpose_apply, selCols]
  rw [Finset.sum_comm]
  refine Finset.sum_congr rfl fun b _ => ?_
  rw [Finset.sum_mul]
  refine Finset.sum_congr rfl fun a _ => ?_
  by_cases h1 : i = siteIdx site a <;> by_cases h2 : j = siteIdx site b <;> simp [h1, h2]

theorem deltaFull_apply {N : Nat} (site : Fin N) (D : MatCpx R 4 4) (a b : Fin 4) :
    deltaFull site D (siteIdx site a) (siteIdx site b) = D a b := by
  simp only [deltaFull]
  rw [Finset.sum_eq_single a, Finset.sum_eq_single b]
  · simp
  · intro b2 _ hb
    have : siteIdx site b ≠ siteIdx site b2 := fun h => hb (siteIdx_injective site h).symm
    simp [this]
  · intro h; exact absurd (Finset.mem_univ _) h
  · intro a2 _ ha
    have : siteIdx site a ≠ siteIdx site a2 := fun h => ha (siteIdx_injective site h).symm
    simp [this]
  · intro h; exact absurd (Finset.mem_univ _) h

theorem woodburyM_eq {N : Nat} (g : MatCpx R (4 * N) (4 * N)) (site : Fin N) (D : MatCpx R 4 4) :
    woodburyM g site D =
      1 + ((selCols R site).transpose * (1 - g)) * (selCols R site * D) := by
  unfold woodburyM
  rw [g_sub_eq]
  have h := selCols_transpose_mul_self (R := R) site
  rw [Matrix.mul_sub, Matrix.mul_one, ← Matrix.mul_assoc, Matrix.sub_mul, Matrix.sub_mul,
    Matrix.sub_mul, h]

theorem referenceTarget_eq {N : Nat} (g : MatCpx R (4 * N) (4 * N)) (site : Fin N)
    (D : MatCpx R 4 4) :
    referenceTarget g site D =
      1 + (selCols R site * D) * ((selCols R site).transpose * (1 - g)) := by
  unfold referenceTarget
  rw [deltaFull_eq, Matrix.mul_assoc]

/-- C1. The determinant that `updateInSlice_woodbury` uses as fermionic weight ratio,
`det(I4 + (I4 - G_sub) * Delta)`, equals the determinant of the full 4N x 4N reference matrix
`I + Delta_full * (I - G)`, for every Green's matrix, site and 4x4 matrix `Delta`. -/
theorem woodbury_det_eq_reference {N : Nat} (g : MatCpx R (4 * N) (4 * N)) (site : Fin N)
    (deltanonzero : MatCpx R 4 4) :
    (woodburyM g site deltanonzero).det = (referenceTarget g site deltanonzero).det := by
  rw [woodburyM_eq, referenceTarget_eq]
  exact (Matrix.det_one_add_mul_comm _ _).symm

theorem matInv_eq_inv {n : Nat} (A : MatCpx R n n) : matInv A = A⁻¹ := by
  rw [Matrix.inv_def, Ring.inverse_eq_inv]
  rfl

theorem mat_V_eq {N : Nat} (g : MatCpx R (4 * N) (4 * N)) (site : Fin N) :
    mat_V g site = -((selCols R site).transpose * (1 - g)) := by
  ext1 r col
  simp only [mat_V, Matrix.neg_apply, Matrix.mul_apply, Matrix.transpose_apply, selCols,
    Matrix.sub_apply, Matrix.one_apply]
  simp only [ite_mul, one_mul, zero_mul, Finset.sum_ite_eq', Finset.mem_univ, if_true]
  by_cases h : col = siteIdx site r
  · subst h
    simp
  · have h2 : siteIdx site r ≠ col := fun e => h e.symm
    simp [Function.update_noteq h, h2]

theorem g_times_mat_U_eq {N : Nat} (g : MatCpx R (4 * N) (4 * N)) (site : Fin N)
    (D : MatCpx R 4 4) : g_times_mat_U g site D = g * (selCols R site * D) := by
  unfold g_times_mat_U
  rw [← Matrix.mul_assoc]
  congr 1
  ext1 row c
  simp [Matrix.mul_apply, selCols]

/-- The Woodbury identity in the shape used by the update: if `M = 1 + B * A` is invertible
then `1 - A * M^-1 * B` is a right inverse of `1 + A * B`. -/
theorem one_add_mul_mul_one_sub {n k : Nat} (A : MatCpx R n k) (B : MatCpx R k n)
    (h : (1 + B * A).det ≠ 0) :
    (1 + A * B) * (1 - A * (1 + B * A)⁻¹ * B) = 1 := by
  have hu : IsUnit (1 + B * A).det := isUnit_iff_ne_zero.mpr h
  have hM : (1 + B * A) * (1 + B * A)⁻¹ = 1 := Matrix.mul_nonsing_inv _ hu
  calc (1 + A * B) * (1 - A * (1 + B * A)⁻¹ * B)
      = 1 + (A * B - A * ((1 + B * A) * (1 + B * A)⁻¹) * B) := by
        simp only [Matrix.add_mul, Matrix.mul_add, Matrix.mul_sub, Matrix.sub_mul,
          Matrix.mul_one, Matrix.one_mul, Matrix.mul_assoc]
        abel
    _ = 1 := by rw [hM, Matrix.mul_one, sub_self, add_zero]

theorem referenceTarget_inv {N : Nat} (g : MatCpx R (4 * N) (4 * N)) (site : Fin N)
    (D : MatCpx R 4 4) (h : (woodburyM g site D).det ≠ 0) :
    matInv (referenceTarget g site D) =
      1 - (selCols R site * D) * matInv (woodburyM g site D)
        * ((selCols R site).transpose * (1 - g)) := by
  rw [matInv_eq_inv, matInv_eq_inv]
  rw [woodburyM_eq] at h ⊢
  rw [referenceTarget_eq]
  exact Matrix.inv_eq_right_inv (one_add_mul_mul_one_sub _ _ h)

theorem woodburyGreen_eq {N : Nat} (g : MatCpx R (4 * N) (4 * N)) (site : Fin N)
    (D : MatCpx R 4 4) (h : (woodburyM g site D).det ≠ 0) :
    woodburyGreen g site D = some (g * matInv (referenceTarget g site D)) := by
  unfold woodburyGreen armaInv
  rw [if_neg h, Option.map_some', referenceTarget_inv g site D h, mat_V_eq, g_times_mat_U_eq]
  congr 1
  simp only [Matrix.mul_sub, Matrix.mul_one, Matrix.mul_neg, Matrix.mul_assoc]
  abel

/-- C2. If `M = I4 + (I4 - G_sub) * Delta` is invertible, the Green's function written by an
accepted step of `updateInSlice_woodbury`, `G + (G_cols * Delta) * (M^-1 * V)`, is returned and
equals the reference `G * (I + Delta_full * (I - G))^-1`. -/
theorem woodbury_green_eq_reference {N : Nat} (g : MatCpx R (4 * N) (4 * N)) (site : Fin N)
    (deltanonzero : MatCpx R 4 4) (hM : (woodburyM g site deltanonzero).det ≠ 0) :
    woodburyGreen g site deltanonzero
      = some (g * matInv (referenceTarget g site deltanonzero)) :=
  woodburyGreen_eq g site deltanonzero hM

theorem woodbury_green_eq_reference_witness :
    (woodburyM exG (0 : Fin 1) exDelta).det ≠ 0 ∧
    woodburyGreen exG (0 : Fin 1) exDelta
      = some (exG * matInv (referenceTarget exG 0 exDelta)) :=
  ⟨by decide!, woodbury_green_eq_reference _ _ _ (by decide!)⟩

/-! ## Theorems: the bosonic action difference -/

theorem setEntry_apply (a : Nat → Nat → R) (site timeslice : Nat) (v : R) (s k : Nat) :
    setEntry a site timeslice v s k = if s = site ∧ k = timeslice then v else a s k := by
  unfold setEntry
  by_cases hs : s = site
  · subst hs
    by_cases hk : k = timeslice
    · subst hk; simp
    · simp [Function.update_noteq hk, hk]
  · simp [Function.update_noteq hs, hs]

theorem getPhi_set (F : PhiField R) (site timeslice : Nat) (newphi : Phi R) (s k : Nat) :
    (F.set site timeslice newphi).getPhi s k
      = if s = site ∧ k = timeslice then newphi else F.getPhi s k := by
  funext i
  unfold PhiField.getPhi PhiField.set
  by_cases h : s = site ∧ k = timeslice
  · fin_cases i <;> simp [setEntry_apply, h]
  · fin_cases i <;> simp [setEntry_apply, h]

theorem getPhi_set_self (F : PhiField R) (site timeslice : Nat) (newphi : Phi R) :
    (F.set site timeslice newphi).getPhi site timeslice = newphi := by
  rw [getPhi_set]; simp

theorem getPhi_set_of_ne (F : PhiField R) (site timeslice : Nat) (newphi : Phi R) (s k : Nat)
    (h : ¬ (s = site ∧ k = timeslice)) :
    (F.set site timeslice newphi).getPhi s k = F.getPhi s k := by
  rw [getPhi_set, if_neg h]

/-! ### Arithmetic of the site numbering -/

theorem site_mod_lt {L s : Nat} (hs : s < L * L) : s % L < L := by
  have hL : 0 < L := by
    rcases Nat.eq_zero_or_pos L with h | h
    · subst h; simp at hs
    · exact h
  exact Nat.mod_lt _ hL

theorem site_div_lt {L s : Nat} (hs : s < L * L) : s / L < L :=
  Nat.div_lt_of_lt_mul hs

theorem coordsToSite_lt {L x y : Nat} (hx : x < L) (hy : y < L) : coordsToSite L x y < L * L := by
  unfold coordsToSite
  calc y * L + x < y * L + L := by omega
    _ = (y + 1) * L := by ring
    _ ≤ L * L := Nat.mul_le_mul_right L hy

theorem coordsToSite_mod {L x : Nat} (y : Nat) (hx : x < L) : coordsToSite L x y % L = x := by
  unfold coordsToSite
  rw [Nat.add_comm, Nat.add_mul_mod_self_right, Nat.mod_eq_of_lt hx]

theorem coordsToSite_div {L x : Nat} (y : Nat) (hx : x < L) : coordsToSite L x y / L = y := by
  unfold coordsToSite
  have hL : 0 < L := by omega
  rw [Nat.add_comm, Nat.add_mul_div_right _ _ hL, Nat.div_eq_of_lt hx, Nat.zero_add]

theorem coordsToSite_div_mod (L s : Nat) : coordsToSite L (s % L) (s / L) = s := by
  unfold coordsToSite
  rw [Nat.mul_comm]
  exact Nat.div_add_mod s L

theorem wrapPlus_lt {L x : Nat} (hx : x < L) : wrapPlus L x < L := by
  unfold wrapPlus; split <;> omega

theorem wrapMinus_lt {L x : Nat} (hx : x < L) : wrapMinus L x < L := by
  unfold wrapMinus; split <;> omega

theorem wrapPlus_wrapMinus {L x : Nat} (hx : x < L) : wrapPlus L (wrapMinus L x) = x := by
  unfold wrapPlus wrapMinus; split <;> split <;> omega

theorem wrapMinus_wrapPlus (L x : Nat) : wrapMinus L (wrapPlus L x) = x := by
  unfold wrapPlus wrapMinus; split <;> split <;> omega

theorem wrapMinus_ne {L x : Nat} (hL : 2 ≤ L) : wrapMinus L x ≠ x := by
  unfold wrapMinus; split <;> omega

theorem wrapPlus_ne {L x : Nat} (hL : 2 ≤ L) : wrapPlus L x ≠ x := by
  unfold wrapPlus; split <;> omega

theorem spaceNeigh_lt {L s : Nat} (dir : NeighDir) (hs : s < L * L) : spaceNeigh L dir s < L * L := by
  have hx := site_mod_lt hs
  have hy := site_div_lt hs
  cases dir <;> unfold spaceNeigh <;> simp only
  · exact coordsToSite_lt (wrapPlus_lt hx) hy
  · exact coordsToSite_lt (wrapMinus_lt hx) hy
  · exact coordsToSite_lt hx (wrapPlus_lt hy)
  · exact coordsToSite_lt hx (wrapMinus_lt hy)

theorem spaceNeigh_xplus_xminus {L s : Nat} (hs : s < L * L) :
    spaceNeigh L NeighDir.XPLUS (spaceNeigh L NeighDir.XMINUS s) = s := by
  have hx := site_mod_lt hs
  simp only [spaceNeigh]
  rw [coordsToSite_mod _ (wrapMinus_lt hx), coordsToSite_div _ (wrapMinus_lt hx),
    wrapPlus_wrapMinus hx, coordsToSite_div_mod]

theorem spaceNeigh_xminus_xplus {L s : Nat} (hs : s < L * L) :
    spaceNeigh L NeighDir.XMINUS (spaceNeigh L NeighDir.XPLUS s) = s := by
  have hx := site_mod_lt hs
  simp only [spaceNeigh]
  rw [coordsToSite_mod _ (wrapPlus_lt hx), coordsToSite_div _ (wrapPlus_lt hx),
    wrapMinus_wrapPlus, coordsToSite_div_mod]

theorem spaceNeigh_yminus_yplus {L s : Nat} (hs : s < L * L) :
    spaceNeigh L NeighDir.YMINUS (spaceNeigh L NeighDir.YPLUS s) = s := by
  have hx := site_mod_lt hs
  simp only [spaceNeigh]
  rw [coordsToSite_mod _ hx, coordsToSite_div _ hx,
    wrapMinus_wrapPlus, coordsToSite_div_mod]

theorem spaceNeigh_yplus_yminus {L s : Nat} (hs : s < L * L) :
    spaceNeigh L NeighDir.YPLUS (spaceNeigh L NeighDir.YMINUS s) = s := by
  have hx := site_mod_lt hs
  have hy := site_div_lt hs
  simp only [spaceNeigh]
  rw [coordsToSite_mod _ hx, coordsToSite_div _ hx,
    wrapPlus_wrapMinus hy, coordsToSite_div_mod]

theorem spaceNeigh_xminus_ne {L s : Nat} (hL : 2 ≤ L) (hs : s < L * L) :
    spaceNeigh L NeighDir.XMINUS s ≠ s := by
  have hx := site_mod_lt hs
  intro h
  have := congrArg (· % L) h
  simp only [spaceNeigh] at this
  rw [coordsToSite_mod _ (wrapMinus_lt hx)] at this
  exact wrapMinus_ne hL this

theorem spaceNeigh_xplus_ne {L s : Nat} (hL : 2 ≤ L) (hs : s < L * L) :
    spaceNeigh L NeighDir.XPLUS s ≠ s := by
  have hx := site_mod_lt hs
  intro h
  have := congrArg (· % L) h
  simp only [spaceNeigh] at this
  rw [coordsToSite_mod _ (wrapPlus_lt hx)] at this
  exact wrapPlus_ne hL this

theorem spaceNeigh_yminus_ne {L s : Nat} (hL : 2 ≤ L) (hs : s < L * L) :
    spaceNeigh L NeighDir.YMINUS s ≠ s := by
  have hx := site_mod_lt hs
  have hy := site_div_lt hs
  intro h
  have := congrArg (· / L) h
  simp only [spaceNeigh] at this
  rw [coordsToSite_div _ hx] at this
  exact wrapMinus_ne hL this

theorem spaceNeigh_yplus_ne {L s : Nat} (hL : 2 ≤ L) (hs : s < L * L) :
    spaceNeigh L NeighDir.YPLUS s ≠ s := by
  have hx := site_mod_lt hs
  have hy := site_div_lt hs
  intro h
  have := congrArg (· / L) h
  simp only [spaceNeigh] at this
  rw [coordsToSite_div _ hx] at this
  exact wrapPlus_ne hL this

theorem timeNeigh_mem {m k : Nat} (dir : ChainDir) (hk : k ∈ Finset.Icc 1 m) :
    timeNeigh m dir k ∈ Finset.Icc 1 m := by
  rw [Finset.mem_Icc] at hk ⊢
  cases dir <;> unfold timeNeigh <;> simp only <;> split <;> omega

theorem timeNeigh_minus_plus {m k : Nat} (hk : k ∈ Finset.Icc 1 m) :
    timeNeigh m ChainDir.MINUS (timeNeigh m ChainDir.PLUS k) = k := by
  rw [Finset.mem_Icc] at hk
  unfold timeNeigh; simp only; split <;> split <;> omega

theorem timeNeigh_plus_minus {m k : Nat} (hk : k ∈ Finset.Icc 1 m) :
    timeNeigh m ChainDir.PLUS (timeNeigh m ChainDir.MINUS k) = k := by
  rw [Finset.mem_Icc] at hk
  unfold timeNeigh; simp only; split <;> split <;> omega

theorem timeNeigh_ne {m k : Nat} (hm : 2 ≤ m) (dir : ChainDir) (hk : k ∈ Finset.Icc 1 m) :
    timeNeigh m dir k ≠ k := by
  rw [Finset.mem_Icc] at hk
  cases dir <;> unfold timeNeigh <;> simp only <;> split <;> omega

/-! ### Change of a double sum under a local change of the summand -/

theorem dsum_sub_two (m N : Nat) (f f' : Nat → Nat → R) (k1 s1 k2 s2 : Nat)
    (h1 : k1 ∈ Finset.Icc 1 m) (h1s : s1 < N) (h2 : k2 ∈ Finset.Icc 1 m) (h2s : s2 < N)
    (hne : ¬ (k1 = k2 ∧ s1 = s2))
    (hsame : ∀ k ∈ Finset.Icc 1 m, ∀ s, s < N → ¬ (k = k1 ∧ s = s1) → ¬ (k = k2 ∧ s = s2) →
      f' k s = f k s) :
    (∑ k ∈ Finset.Icc 1 m, ∑ s ∈ Finset.range N, f' k s)
      - (∑ k ∈ Finset.Icc 1 m, ∑ s ∈ Finset.range N, f k s)
      = (f' k1 s1 - f k1 s1) + (f' k2 s2 - f k2 s2) := by
  rw [← Finset.sum_sub_distrib]
  simp only [← Finset.sum_sub_distrib]
  rw [← Finset.sum_product' (Finset.Icc 1 m) (Finset.range N) (fun k s => f' k s - f k s)]
  refine Finset.sum_eq_add_of_mem (k1, s1) (k2, s2) ?_ ?_ ?_ ?_
  · exact Finset.mem_product.mpr ⟨h1, Finset.mem_range.mpr h1s⟩
  · exact Finset.mem_product.mpr ⟨h2, Finset.mem_range.mpr h2s⟩
  · intro h
    exact hne ⟨congrArg Prod.fst h, congrArg Prod.snd h⟩
  · rintro ⟨k, s⟩ hmem ⟨hc1, hc2⟩
    rw [Finset.mem_product] at hmem
    have e := hsame k hmem.1 s (Finset.mem_range.mp hmem.2)
      (fun h => hc1 (by rw [h.1, h.2])) (fun h => hc2 (by rw [h.1, h.2]))
    simp only [e, sub_self]

theorem dsum_sub_one (m N : Nat) (f f' : Nat → Nat → R) (k1 s1 : Nat)
    (h1 : k1 ∈ Finset.Icc 1 m) (h1s : s1 < N)
    (hsame : ∀ k ∈ Finset.Icc 1 m, ∀ s, s < N → ¬ (k = k1 ∧ s = s1) → f' k s = f k s) :
    (∑ k ∈ Finset.Icc 1 m, ∑ s ∈ Finset.range N, f' k s)
      - (∑ k ∈ Finset.Icc 1 m, ∑ s ∈ Finset.range N, f k s)
      = f' k1 s1 - f k1 s1 := by
  rw [← Finset.sum_sub_distrib]
  simp only [← Finset.sum_sub_distrib]
  rw [← Finset.sum_product' (Finset.Icc 1 m) (Finset.range N) (fun k s => f' k s - f k s)]
  refine Finset.sum_eq_single_of_mem (k1, s1) ?_ ?_
  · exact Finset.mem_product.mpr ⟨h1, Finset.mem_range.mpr h1s⟩
  · rintro ⟨k, s⟩ hmem hc1
    rw [Finset.mem_product] at hmem
    have e := hsame k hmem.1 s (Finset.mem_range.mp hmem.2)
      (fun h => hc1 (by rw [h.1, h.2]))
    simp only [e, sub_self]

theorem phiAction_split (P : Params R) (F : PhiField R) :
    phiAction P F =
      (∑ k ∈ Finset.Icc 1 P.m, ∑ s ∈ Finset.range P.N,
        actionTime P (F.getPhi s k) (F.getPhi s (timeNeigh P.m ChainDir.MINUS k)))
      + (∑ k ∈ Finset.Icc 1 P.m, ∑ s ∈ Finset.range P.N,
        actionBond P (F.getPhi s k) (F.getPhi (spaceNeigh P.L NeighDir.XPLUS s) k))
      + (∑ k ∈ Finset.Icc 1 P.m, ∑ s ∈ Finset.range P.N,
        actionBond P (F.getPhi s k) (F.getPhi (spaceNeigh P.L NeighDir.YPLUS s) k))
      + (∑ k ∈ Finset.Icc 1 P.m, ∑ s ∈ Finset.range P.N, actionSite P (F.getPhi s k)) := by
  simp only [phiAction, phiActionTerm, ← Finset.sum_add_distrib, actionTime, actionBond,
    actionSite]
  refine Finset.sum_congr rfl fun k _ => Finset.sum_congr rfl fun s _ => ?_
  ring

theorem actionTime_diff (P : Params R) (F : PhiField R) (site timeslice : Nat) (newphi : Phi R)
    (hm : 2 ≤ P.m) (hs : site < P.N) (hk : timeslice ∈ Finset.Icc 1 P.m) :
    (∑ k ∈ Finset.Icc 1 P.m, ∑ s ∈ Finset.range P.N,
        actionTime P ((F.set site timeslice newphi).getPhi s k)
          ((F.set site timeslice newphi).getPhi s (timeNeigh P.m ChainDir.MINUS k)))
      - (∑ k ∈ Finset.Icc 1 P.m, ∑ s ∈ Finset.range P.N,
        actionTime P (F.getPhi s k) (F.getPhi s (timeNeigh P.m ChainDir.MINUS k)))
      = (actionTime P newphi (F.getPhi site (timeNeigh P.m ChainDir.MINUS timeslice))
          - actionTime P (F.getPhi site timeslice)
              (F.getPhi site (timeNeigh P.m ChainDir.MINUS timeslice)))
        + (actionTime P (F.getPhi site (timeNeigh P.m ChainDir.PLUS timeslice)) newphi
          - actionTime P (F.getPhi site (timeNeigh P.m ChainDir.PLUS timeslice))
              (F.getPhi site timeslice)) := by
  have hplus := timeNeigh_ne hm ChainDir.PLUS hk
  have hminus := timeNeigh_ne hm ChainDir.MINUS hk
  rw [dsum_sub_two P.m P.N _ _ timeslice site (timeNeigh P.m ChainDir.PLUS timeslice) site hk hs
    (timeNeigh_mem _ hk) hs (fun h => hplus h.1.symm)]
  · rw [getPhi_set_self, getPhi_set_of_ne _ _ _ _ _ _ (fun h => hminus h.2),
      getPhi_set_of_ne _ _ _ _ _ _ (fun h => hplus h.2), timeNeigh_minus_plus hk,
      getPhi_set_self]
  · intro k hkk s _ hn1 hn2
    rw [getPhi_set_of_ne _ _ _ _ _ _ (fun h => hn1 ⟨h.2, h.1⟩)]
    rw [getPhi_set_of_ne]
    rintro ⟨e1, e2⟩
    apply hn2
    refine ⟨?_, e1⟩
    rw [← e2, timeNeigh_plus_minus hkk]

theorem actionBond_diff (P : Params R) (F : PhiField R) (site timeslice : Nat) (newphi : Phi R)
    (dp dm : NeighDir) (hs : site < P.N) (hk : timeslice ∈ Finset.Icc 1 P.m)
    (hpm : ∀ s, s < P.N → spaceNeigh P.L dp (spaceNeigh P.L dm s) = s)
    (hinj : ∀ s, s < P.N → spaceNeigh P.L dp s = site → s = spaceNeigh P.L dm site)
    (hlt : spaceNeigh P.L dm site < P.N)
    (hnem : spaceNeigh P.L dm site ≠ site) (hnep : spaceNeigh P.L dp site ≠ site) :
    (∑ k ∈ Finset.Icc 1 P.m, ∑ s ∈ Finset.range P.N,
        actionBond P ((F.set site timeslice newphi).getPhi s k)
          ((F.set site timeslice newphi).getPhi (spaceNeigh P.L dp s) k))
      - (∑ k ∈ Finset.Icc 1 P.m, ∑ s ∈ Finset.range P.N,
        actionBond P (F.getPhi s k) (F.getPhi (spaceNeigh P.L dp s) k))
      = (actionBond P newphi (F.getPhi (spaceNeigh P.L dp site) timeslice)
          - actionBond P (F.getPhi site timeslice) (F.getPhi (spaceNeigh P.L dp site) timeslice))
        + (actionBond P (F.getPhi (spaceNeigh P.L dm site) timeslice) newphi
          - actionBond P (F.getPhi (spaceNeigh P.L dm site) timeslice)
              (F.getPhi site timeslice)) := by
  rw [dsum_sub_two P.m P.N _ _ timeslice site timeslice (spaceNeigh P.L dm site) hk hs
    hk hlt (fun h => hnem h.2.symm)]
  · rw [getPhi_set_self, getPhi_set_of_ne _ _ _ _ _ _ (fun h => hnep h.1),
      getPhi_set_of_ne _ _ _ _ _ _ (fun h => hnem h.1), hpm site hs, getPhi_set_self]
  · intro k _ s hsN hn1 hn2
    rw [getPhi_set_of_ne _ _ _ _ _ _ (fun h => hn1 ⟨h.2, h.1⟩)]
    rw [getPhi_set_of_ne]
    rintro ⟨e1, e2⟩
    exact hn2 ⟨e2, hinj s hsN e1⟩

theorem actionSite_diff (P : Params R) (F : PhiField R) (site timeslice : Nat) (newphi : Phi R)
    (hs : site < P.N) (hk : timeslice ∈ Finset.Icc 1 P.m) :
    (∑ k ∈ Finset.Icc 1 P.m, ∑ s ∈ Finset.range P.N,
        actionSite P ((F.set site timeslice newphi).getPhi s k))
      - (∑ k ∈ Finset.Icc 1 P.m, ∑ s ∈ Finset.range P.N, actionSite P (F.getPhi s k))
      = actionSite P newphi - actionSite P (F.getPhi site timeslice) := by
  rw [dsum_sub_one P.m P.N _ _ timeslice site hk hs]
  · rw [getPhi_set_self]
  · intro k _ s _ hn1
    rw [getPhi_set_of_ne _ _ _ _ _ _ (fun h => hn1 ⟨h.2, h.1⟩)]

theorem actionTime_eq (P : Params R) (p q : Phi R) :
    actionTime P p q = (1 / (P.c * P.c * P.dtau)) * ((1 / 2) * dot (p - q) (p - q)) := by
  simp only [actionTime, dot]
  by_cases hd : P.dtau = 0
  · simp [hd]
  by_cases hc : P.c = 0
  · simp [hc]
  field_simp
  ring

theorem deltaSPhi_eq (P : Params R) (F : PhiField R) (site timeslice : Nat) (newphi : Phi R)
    (hL : 2 ≤ P.L) (hm : 2 ≤ P.m) (hs : site < P.N) (hk : timeslice ∈ Finset.Icc 1 P.m) :
    deltaSPhi P F site timeslice newphi
      = phiAction P (F.set site timeslice newphi) - phiAction P F := by
  have hs2 : site < P.L * P.L := hs
  have hT := actionTime_diff P F site timeslice newphi hm hs hk
  have hX := actionBond_diff P F site timeslice newphi NeighDir.XPLUS NeighDir.XMINUS hs hk
    (fun s h => spaceNeigh_xplus_xminus h)
    (fun s h e => by rw [← e, spaceNeigh_xminus_xplus h])
    (spaceNeigh_lt _ hs2) (spaceNeigh_xminus_ne hL hs2) (spaceNeigh_xplus_ne hL hs2)
  have hY := actionBond_diff P F site timeslice newphi NeighDir.YPLUS NeighDir.YMINUS hs hk
    (fun s h => spaceNeigh_yplus_yminus h)
    (fun s h e => by rw [← e, spaceNeigh_yminus_yplus h])
    (spaceNeigh_lt _ hs2) (spaceNeigh_yminus_ne hL hs2) (spaceNeigh_yplus_ne hL hs2)
  have hV := actionSite_diff P F site timeslice newphi hs hk
  rw [phiAction_split, phiAction_split]
  rw [add_sub_add_comm, add_sub_add_comm, add_sub_add_comm, hT, hX, hY, hV]
  simp only [actionTime_eq, deltaSPhi, neighbors, List.foldl, z, actionBond, actionSite]
  generalize F.getPhi site timeslice = a
  generalize F.getPhi site (timeNeigh P.m ChainDir.MINUS timeslice) = e
  generalize F.getPhi site (timeNeigh P.m ChainDir.PLUS timeslice) = l
  generalize F.getPhi (spaceNeigh P.L NeighDir.XPLUS site) timeslice = xp
  generalize F.getPhi (spaceNeigh P.L NeighDir.XMINUS site) timeslice = xm
  generalize F.getPhi (spaceNeigh P.L NeighDir.YPLUS site) timeslice = yp
  generalize F.getPhi (spaceNeigh P.L NeighDir.YMINUS site) timeslice = ym
  generalize (1 / (P.c * P.c * P.dtau)) = w
  simp only [dot, Pi.sub_apply, Pi.add_apply, Matrix.cons_val_zero, Matrix.cons_val_one,
    Matrix.head_cons, Matrix.cons_val_two, Matrix.tail_cons, Nat.cast_ofNat]
  ring

/-- C6. On the periodic L x L lattice with m time slices (L >= 2, m >= 2, z = 4), for every
field configuration, site, time slice in 1..m and proposed value `newphi`,
`deltaSPhi(site, timeslice, newphi)` equals `phiAction` of the configuration with
`phi(site, timeslice)` replaced by `newphi` minus `phiAction` of the current configuration. -/
theorem deltaSPhi_eq_phiAction_diff (P : Params R) (F : PhiField R) (site timeslice : Nat)
    (newphi : Phi R) (hL : 2 ≤ P.L) (hm : 2 ≤ P.m) (hs : site < P.N)
    (hk1 : 1 ≤ timeslice) (hk2 : timeslice ≤ P.m) :
    deltaSPhi P F site timeslice newphi
      = phiAction P (F.set site timeslice newphi) - phiAction P F :=
  deltaSPhi_eq P F site timeslice newphi hL hm hs (Finset.mem_Icc.mpr ⟨hk1, hk2⟩)

theorem deltaSPhi_eq_phiAction_diff_witness :
    deltaSPhi exParams exField 3 2 ![1 / 2, 3, -2]
      = phiAction exParams (exField.set 3 2 ![1 / 2, 3, -2]) - phiAction exParams exField :=
  deltaSPhi_eq_phiAction_diff exParams exField 3 2 ![1 / 2, 3, -2]
    (by decide) (by decide) (by decide) (by decide) (by decide)

/-! ## Theorems: the iterative scheme against the Woodbury update -/

/-! ### Rank-one updates of an inverse (Sherman-Morrison) -/

theorem mul_vecMulVec {n : Nat} (M : MatCpx R n n) (a b : Fin n → Cpx R) :
    M * Matrix.vecMulVec a b = Matrix.vecMulVec (M.mulVec a) b := by
  ext1 i j
  simp only [Matrix.mul_apply, Matrix.vecMulVec_apply, Matrix.mulVec, Matrix.dotProduct,
    Finset.sum_mul, mul_assoc]

theorem vecMulVec_mul {n : Nat} (a b : Fin n → Cpx R) (M : MatCpx R n n) :
    Matrix.vecMulVec a b * M = Matrix.vecMulVec a (Matrix.vecMul b M) := by
  ext1 i j
  simp only [Matrix.mul_apply, Matrix.vecMulVec_apply, Matrix.vecMul, Matrix.dotProduct,
    Finset.mul_sum, mul_assoc]

theorem vecMulVec_mul_vecMulVec {n : Nat} (a b c e : Fin n → Cpx R) :
    Matrix.vecMulVec a b * Matrix.vecMulVec c e
      = (Matrix.dotProduct b c) • Matrix.vecMulVec a e := by
  ext1 i j
  simp only [Matrix.mul_apply, Matrix.vecMulVec_apply, Matrix.dotProduct, Matrix.smul_apply,
    smul_eq_mul, Finset.sum_mul, Finset.mul_sum]
  refine Finset.sum_congr rfl fun x _ => ?_
  ring

theorem sherman_morrison_inv {n : Nat} (F A : MatCpx R n n) (u v : Fin n → Cpx R)
    (hFA : F * A = 1) (d : Cpx R) (hd : d = 1 + Matrix.dotProduct v (F.mulVec u))
    (hd0 : d ≠ 0) :
    (F - d⁻¹ • Matrix.vecMulVec (F.mulVec u) (Matrix.vecMul v F))
      * (A + Matrix.vecMulVec u v) = 1 := by
  have h1 : F * Matrix.vecMulVec u v = Matrix.vecMulVec (F.mulVec u) v := mul_vecMulVec F u v
  have h2 : Matrix.vecMulVec (F.mulVec u) (Matrix.vecMul v F) * A
      = Matrix.vecMulVec (F.mulVec u) v := by
    rw [vecMulVec_mul, Matrix.vecMul_vecMul, hFA, Matrix.vecMul_one]
  have h3 : Matrix.vecMulVec (F.mulVec u) (Matrix.vecMul v F) * Matrix.vecMulVec u v
      = (d - 1) • Matrix.vecMulVec (F.mulVec u) v := by
    rw [vecMulVec_mul_vecMulVec, ← Matrix.dotProduct_mulVec, hd, add_sub_cancel_left]
  rw [Matrix.sub_mul, Matrix.mul_add, Matrix.mul_add, hFA, h1, Matrix.smul_mul, Matrix.smul_mul,
    h2, h3, smul_smul]
  have hc : d⁻¹ * (d - 1) = 1 - d⁻¹ := by
    rw [mul_sub, inv_mul_cancel₀ hd0, mul_one]
  rw [hc, sub_smul, one_smul]
  abel

theorem sherman_morrison_det {n : Nat} (F A : MatCpx R n n) (u v : Fin n → Cpx R)
    (hFA : F * A = 1) :
    (A + Matrix.vecMulVec u v).det = A.det * (1 + Matrix.dotProduct v (F.mulVec u)) := by
  have hAF : A * F = 1 := Matrix.mul_eq_one_comm.mp hFA
  have h : A + Matrix.vecMulVec u v = A * (1 + Matrix.vecMulVec (F.mulVec u) v) := by
    rw [Matrix.mul_add, Matrix.mul_one, ← mul_vecMulVec, ← Matrix.mul_assoc, hAF,
      Matrix.one_mul]
  rw [h, Matrix.det_mul, Matrix.vecMulVec_eq Unit, Matrix.det_one_add_col_mul_row]

/-! ### The loops of the iterative scheme in closed form -/

theorem mem_downFrom (l k : Fin 4) : k ∈ downFrom l ↔ k < l := by
  unfold downFrom
  simp [List.mem_filter, List.mem_finRange]

theorem nodup_downFrom (l : Fin 4) : (downFrom l).Nodup := by
  unfold downFrom
  exact List.nodup_reverse.mpr ((List.nodup_finRange 4).filter _)

theorem sum_downFrom {M : Type} [AddCommMonoid M] (l : Fin 4) (f : Fin 4 → M) :
    ((downFrom l).map f).sum = ∑ k ∈ Finset.univ.filter (fun k : Fin 4 => k.val < l.val), f k := by
  rw [← List.sum_toFinset f (nodup_downFrom l)]
  refine Finset.sum_congr ?_ fun _ _ => rfl
  ext k
  rw [List.mem_toFinset, mem_downFrom, Finset.mem_filter, Fin.lt_def]
  exact ⟨fun h => ⟨Finset.mem_univ _, h⟩, fun h => h.2⟩

theorem foldl_zero_eq {N : Nat} (site : Fin N) (ks : List (Fin 4)) :
    ∀ row : Fin (4 * N) → Cpx R,
      ks.foldl (fun row k => Function.update row (siteIdx site k) 0) row
        = fun j => if ∃ k ∈ ks, j = siteIdx site k then 0 else row j := by
  induction ks with
  | nil => intro row; simp
  | cons k ks ih =>
    intro row
    rw [List.foldl_cons, ih]
    funext j
    by_cases h1 : ∃ k' ∈ ks, j = siteIdx site k'
    · have h2 : ∃ k' ∈ k :: ks, j = siteIdx site k' := by
        obtain ⟨k', hk', e⟩ := h1
        exact ⟨k', List.mem_cons_of_mem _ hk', e⟩
      simp only [if_pos h1, if_pos h2]
    · simp only [if_neg h1]
      by_cases h3 : j = siteIdx site k
      · have h2 : ∃ k' ∈ k :: ks, j = siteIdx site k' := ⟨k, List.mem_cons_self _ _, h3⟩
        rw [if_pos h2, h3, Function.update_same]
      · have h2 : ¬ ∃ k' ∈ k :: ks, j = siteIdx site k' := by
          rintro ⟨k', hk', e⟩
          rcases List.mem_cons.mp hk' with rfl | hk'
          · exact h3 e
          · exact h1 ⟨k', hk', e⟩
        simp only [if_neg h2, Function.update_noteq h3]

theorem foldl_add_eq {N : Nat} (c : Fin 4 → Cpx R) (rows : Fin 4 → Fin (4 * N) → Cpx R)
    (ks : List (Fin 4)) :
    ∀ row : Fin (4 * N) → Cpx R,
      ks.foldl (fun row k => row + c k • rows k) row
        = row + (ks.map (fun k => c k • rows k)).sum := by
  induction ks with
  | nil => intro row; simp
  | cons k ks ih =>
    intro row
    rw [List.foldl_cons, ih, List.map_cons, List.sum_cons, add_assoc]

theorem foldl_update_eq {α β : Type} [DecidableEq α] (h : β → β) (ks : List α)
    (hnd : ks.Nodup) :
    ∀ rs : α → β,
      ks.foldl (fun rs k => Function.update rs k (h (rs k))) rs
        = fun k => if k ∈ ks then h (rs k) else rs k := by
  induction ks with
  | nil => intro rs; simp
  | cons k ks ih =>
    intro rs
    rw [List.foldl_cons, ih (List.nodup_cons.mp hnd).2]
    funext k'
    have hk : k ∉ ks := (List.nodup_cons.mp hnd).1
    by_cases h1 : k' ∈ ks
    · have hne : k' ≠ k := fun e => hk (e ▸ h1)
      simp only [if_pos h1, List.mem_cons, h1, or_true, if_true, Function.update_noteq hne]
    · by_cases h2 : k' = k
      · subst h2
        simp only [if_neg h1, List.mem_cons, true_or, if_true, Function.update_same]
      · simp only [if_neg h1, List.mem_cons, h1, h2, or_self, if_false,
          Function.update_noteq h2]

theorem unitVec_apply_ne {N : Nat} (site : Fin N) {k l : Fin 4} (h : k ≠ l) :
    unitVec (R := R) site k (siteIdx site l) = 0 := by
  unfold unitVec
  have : siteIdx site l ≠ siteIdx site k := fun e => h (siteIdx_injective site e).symm
  rw [if_neg this]

theorem unitVec_apply_self {N : Nat} (site : Fin N) (k : Fin 4) :
    unitVec (R := R) site k (siteIdx site k) = 1 := by
  unfold unitVec
  rw [if_pos rfl]

theorem vecMul_unit_sum {N : Nat} (site : Fin N) (v : Fin (4 * N) → Cpx R)
    (w : Fin 4 → Fin (4 * N) → Cpx R) (S : Finset (Fin 4)) :
    Matrix.vecMul v (∑ k ∈ S, Matrix.vecMulVec (unitVec site k) (w k))
      = ∑ k ∈ S, v (siteIdx site k) • w k := by
  funext j
  simp only [Matrix.vecMul, Matrix.dotProduct, Matrix.sum_apply, Matrix.vecMulVec_apply,
    Finset.sum_apply, Pi.smul_apply, smul_eq_mul, Finset.mul_sum]
  rw [Finset.sum_comm]
  refine Finset.sum_congr rfl fun k _ => ?_
  rw [Finset.sum_eq_single (siteIdx site k)]
  · rw [unitVec_apply_self, one_mul]
  · intro i _ hi
    simp [unitVec, hi]
  · intro h; exact absurd (Finset.mem_univ _) h

theorem mulVec_unit_sum {N : Nat} (site : Fin N) (l : Fin 4)
    (w : Fin 4 → Fin (4 * N) → Cpx R) (S : Finset (Fin 4)) :
    (∑ k ∈ S, Matrix.vecMulVec (unitVec site k) (w k)).mulVec (unitVec site l)
      = ∑ k ∈ S, w k (siteIdx site l) • unitVec site k := by
  funext i
  simp only [Matrix.mulVec, Matrix.dotProduct, Matrix.sum_apply, Matrix.vecMulVec_apply,
    Finset.sum_apply, Pi.smul_apply, smul_eq_mul, Finset.sum_mul]
  rw [Finset.sum_comm]
  refine Finset.sum_congr rfl fun k _ => ?_
  rw [Finset.sum_eq_single (siteIdx site l)]
  · rw [unitVec_apply_self, mul_one, mul_comm]
  · intro j _ hj
    simp [unitVec, hj]
  · intro h; exact absurd (Finset.mem_univ _) h

theorem iterativeRow_eq {N : Nat} (site : Fin N) (rows : Fin 4 → Fin (4 * N) → Cpx R)
    (l : Fin 4) :
    iterativeRow site rows l = Matrix.vecMul (rows l) (rowsMatrix site rows l.val) := by
  unfold iterativeRow rowsMatrix
  rw [foldl_add_eq (fun k => rows l (siteIdx site k)) rows, foldl_zero_eq, sum_downFrom,
    Matrix.vecMul_add, Matrix.vecMul_one, vecMul_unit_sum]
  funext j
  simp only [Pi.add_apply, Finset.sum_apply, Pi.smul_apply, Pi.sub_apply, smul_eq_mul, mul_sub,
    Finset.sum_sub_distrib]
  by_cases h : ∃ k ∈ downFrom l, j = siteIdx site k
  · obtain ⟨k0, hk0, e⟩ := h
    have hmem : k0 ∈ Finset.univ.filter (fun k : Fin 4 => k.val < l.val) := by
      simp only [Finset.mem_filter, Finset.mem_univ, true_and]
      exact (mem_downFrom l k0).mp hk0
    rw [if_pos ⟨k0, hk0, e⟩]
    have hs : ∑ k ∈ Finset.univ.filter (fun k : Fin 4 => k.val < l.val),
        rows l (siteIdx site k) * unitVec site k j = rows l j := by
      rw [Finset.sum_eq_single_of_mem k0 hmem]
      · rw [e, unitVec_apply_self, mul_one]
      · intro k _ hk
        rw [e, unitVec_apply_ne site hk, mul_zero]
    rw [hs]
    ring
  · rw [if_neg h]
    have hs : ∑ k ∈ Finset.univ.filter (fun k : Fin 4 => k.val < l.val),
        rows l (siteIdx site k) * unitVec site k j = 0 := by
      refine Finset.sum_eq_zero fun k hk => ?_
      have hk' : k ∈ downFrom l := by
        rw [mem_downFrom]
        simpa using hk
      have : j ≠ siteIdx site k := fun e => h ⟨k, hk', e⟩
      simp [unitVec, this]
    rw [hs]
    ring

theorem iterativeStep_rows {N : Nat} (site : Fin N)
    (s : (Fin 4 → Fin (4 * N) → Cpx R) × Cpx R) (l k : Fin 4) :
    (iterativeStep site s l).1 k =
      if k < l then
        s.1 k - (s.1 k (siteIdx site l) / iterativeDivisor site s.1 l) • iterativeRow site s.1 l
      else if k = l then
        (-1 / iterativeDivisor site s.1 l) • iterativeRow site s.1 l + unitVec site l
      else s.1 k := by
  unfold iterativeStep
  simp only
  rw [foldl_update_eq (fun r => r - (r (siteIdx site l) / iterativeDivisor site s.1 l)
    • iterativeRow site s.1 l) (downFrom l) (nodup_downFrom l)]
  simp only [mem_downFrom]
  by_cases h1 : k < l
  · have hne : k ≠ l := ne_of_lt h1
    simp only [if_pos h1, Function.update_noteq hne]
  · simp only [if_neg h1]
    by_cases h2 : k = l
    · subst h2
      simp only [if_true, Function.update_same]
      funext j
      by_cases hj : j = siteIdx site k
      · subst hj
        simp [unitVec]
      · simp [unitVec, hj, Function.update_noteq hj]
    · simp only [if_neg h2, Function.update_noteq h2]

theorem filter_lt_succ (n : Nat) (h : n < 4) :
    Finset.univ.filter (fun k : Fin 4 => k.val < n + 1)
      = insert (⟨n, h⟩ : Fin 4) (Finset.univ.filter (fun k : Fin 4 => k.val < n)) := by
  ext k
  simp only [Finset.mem_filter, Finset.mem_univ, true_and, Finset.mem_insert, Fin.ext_iff]
  omega

theorem not_mem_filter_lt (n : Nat) (h : n < 4) :
    (⟨n, h⟩ : Fin 4) ∉ Finset.univ.filter (fun k : Fin 4 => k.val < n) := by
  simp

theorem mulVec_unitVec {N : Nat} (site : Fin N) (F : MatCpx R (4 * N) (4 * N)) (l : Fin 4) :
    F.mulVec (unitVec site l) = fun i => F i (siteIdx site l) := by
  funext i
  simp only [Matrix.mulVec, Matrix.dotProduct, unitVec, mul_ite, mul_one, mul_zero,
    Finset.sum_ite_eq', Finset.mem_univ, if_true]

theorem rowsMatrix_mulVec_unitVec {N : Nat} (site : Fin N)
    (rows : Fin 4 → Fin (4 * N) → Cpx R) (l : Fin 4) :
    (rowsMatrix site rows l.val).mulVec (unitVec site l)
      = unitVec site l + ∑ k ∈ Finset.univ.filter (fun k : Fin 4 => k.val < l.val),
          rows k (siteIdx site l) • unitVec site k := by
  unfold rowsMatrix
  rw [Matrix.add_mulVec, Matrix.one_mulVec, mulVec_unit_sum]
  congr 1
  refine Finset.sum_congr rfl fun k hk => ?_
  have hne : k ≠ l := by
    intro e
    rw [e] at hk
    simp at hk
  rw [Pi.sub_apply, unitVec_apply_ne site hne, sub_zero]

theorem rowsMatrix_step {N : Nat} (site : Fin N)
    (s : (Fin 4 → Fin (4 * N) → Cpx R) × Cpx R) (l : Fin 4) :
    rowsMatrix site (iterativeStep site s l).1 (l.val + 1)
      = rowsMatrix site s.1 l.val
        - (iterativeDivisor site s.1 l)⁻¹ •
          Matrix.vecMulVec ((rowsMatrix site s.1 l.val).mulVec (unitVec site l))
            (iterativeRow site s.1 l) := by
  rw [rowsMatrix_mulVec_unitVec]
  unfold rowsMatrix
  have hl : (⟨l.val, l.isLt⟩ : Fin 4) = l := rfl
  rw [filter_lt_succ l.val l.isLt, Finset.sum_insert (not_mem_filter_lt l.val l.isLt), hl]
  ext1 i j
  simp only [Matrix.add_apply, Matrix.sub_apply, Matrix.smul_apply, Matrix.sum_apply,
    Matrix.vecMulVec_apply, Pi.add_apply, Pi.sub_apply, Finset.sum_apply, Pi.smul_apply,
    smul_eq_mul]
  have hsum : ∑ k ∈ Finset.univ.filter (fun k : Fin 4 => k.val < l.val),
      unitVec site k i * ((iterativeStep site s l).1 k j - unitVec site k j)
      = ∑ k ∈ Finset.univ.filter (fun k : Fin 4 => k.val < l.val),
          unitVec site k i * (s.1 k j - unitVec site k j)
        - (iterativeDivisor site s.1 l)⁻¹ *
          ((∑ k ∈ Finset.univ.filter (fun k : Fin 4 => k.val < l.val),
            s.1 k (siteIdx site l) * unitVec site k i) * iterativeRow site s.1 l j) := by
    rw [Finset.sum_mul, Finset.mul_sum, ← Finset.sum_sub_distrib]
    refine Finset.sum_congr rfl fun k hk => ?_
    have hlt : k < l := by
      simp only [Finset.mem_filter, Finset.mem_univ, true_and] at hk
      exact hk
    rw [iterativeStep_rows, if_pos hlt]
    simp only [Pi.sub_apply, Pi.smul_apply, smul_eq_mul, div_eq_mul_inv]
    ring
  have hl2 : (iterativeStep site s l).1 l j - unitVec site l j
      = -((iterativeDivisor site s.1 l)⁻¹ * iterativeRow site s.1 l j) := by
    rw [iterativeStep_rows, if_neg (lt_irrefl l), if_pos rfl]
    simp only [Pi.add_apply, Pi.smul_apply, smul_eq_mul, div_eq_mul_inv]
    ring
  rw [hsum, hl2]
  ring

theorem iterInv_zero {N : Nat} (g : MatCpx R (4 * N) (4 * N)) (site : Fin N)
    (D : MatCpx R 4 4) : IterInv g site D 0 (iterativeRows g site D, 1) := by
  refine ⟨fun _ _ => rfl, ?_, ?_⟩
  · simp [rowsMatrix, partialTarget]
  · simp [partialTarget]

theorem partialTarget_succ {N : Nat} (g : MatCpx R (4 * N) (4 * N)) (site : Fin N)
    (D : MatCpx R 4 4) (l : Fin 4) :
    partialTarget g site D (l.val + 1)
      = partialTarget g site D l.val
        + Matrix.vecMulVec (unitVec site l) (iterativeRows g site D l) := by
  unfold partialTarget
  have hl : (⟨l.val, l.isLt⟩ : Fin 4) = l := rfl
  rw [filter_lt_succ l.val l.isLt, Finset.sum_insert (not_mem_filter_lt l.val l.isLt), hl]
  abel

theorem iterativeDivisor_eq {N : Nat} (site : Fin N) (rows : Fin 4 → Fin (4 * N) → Cpx R)
    (l : Fin 4) :
    iterativeDivisor site rows l
      = 1 + Matrix.dotProduct (rows l)
          ((rowsMatrix site rows l.val).mulVec (unitVec site l)) := by
  unfold iterativeDivisor
  rw [iterativeRow_eq, mulVec_unitVec]
  rfl

theorem iterInv_step {N : Nat} (g : MatCpx R (4 * N) (4 * N)) (site : Fin N)
    (D : MatCpx R 4 4) (l : Fin 4) (s : (Fin 4 → Fin (4 * N) → Cpx R) × Cpx R)
    (h : IterInv g site D l.val s) (hd : iterativeDivisor site s.1 l ≠ 0) :
    IterInv g site D (l.val + 1) (iterativeStep site s l) := by
  obtain ⟨h1, h2, h3⟩ := h
  have hrl : s.1 l = iterativeRows g site D l := h1 l (le_refl _)
  refine ⟨?_, ?_, ?_⟩
  · intro k hk
    have hk1 : ¬ k < l := by rw [Fin.lt_def]; omega
    have hk2 : k ≠ l := by intro e; rw [e] at hk; omega
    rw [iterativeStep_rows, if_neg hk1, if_neg hk2]
    exact h1 k (by omega)
  · rw [rowsMatrix_step, partialTarget_succ, iterativeRow_eq, ← hrl]
    exact sherman_morrison_inv _ _ _ _ h2 _ (iterativeDivisor_eq site s.1 l) hd
  · have hdet : (iterativeStep site s l).2 = s.2 * iterativeDivisor site s.1 l := rfl
    rw [hdet, partialTarget_succ, sherman_morrison_det _ _ _ _ h2, h3, ← hrl,
      ← iterativeDivisor_eq]

theorem iterativeLoop_succ {N : Nat} (g : MatCpx R (4 * N) (4 * N)) (site : Fin N)
    (D : MatCpx R 4 4) (l : Fin 4) :
    iterativeLoop g site D (l.val + 1) = iterativeStep site (iterativeLoop g site D l.val) l := by
  unfold iterativeLoop
  have : (List.finRange 4).take (l.val + 1) = (List.finRange 4).take l.val ++ [l] := by
    fin_cases l <;> rfl
  rw [this, List.foldl_append]
  rfl

theorem iterInv_loop {N : Nat} (g : MatCpx R (4 * N) (4 * N)) (site : Fin N)
    (D : MatCpx R 4 4) (hdiv : ∀ l : Fin 4, iterativeDivisorAt g site D l ≠ 0) :
    ∀ n : Nat, n ≤ 4 → IterInv g site D n (iterativeLoop g site D n) := by
  intro n
  induction n with
  | zero => intro _; exact iterInv_zero g site D
  | succ n ih =>
    intro hn
    have h := ih (by omega)
    have hl := iterativeLoop_succ g site D ⟨n, by omega⟩
    simp only at hl
    rw [hl]
    exact iterInv_step g site D ⟨n, by omega⟩ _ h (hdiv ⟨n, by omega⟩)

theorem iterativeRows_eq {N : Nat} (g : MatCpx R (4 * N) (4 * N)) (site : Fin N)
    (D : MatCpx R 4 4) (r : Fin 4) :
    iterativeRows g site D r
      = (D * ((selCols R site).transpose * (1 - g)) : MatCpx R 4 (4 * N)) r := by
  funext col
  have hsel : ∀ dc : Fin 4,
      ((selCols R site).transpose * (1 - g) : MatCpx R 4 (4 * N)) dc col
      = (if col = siteIdx site dc then 1 else 0) - g (siteIdx site dc) col := by
    intro dc
    simp only [Matrix.mul_apply, Matrix.transpose_apply, selCols, ite_mul, one_mul, zero_mul,
      Finset.sum_ite_eq', Finset.mem_univ, if_true, Matrix.sub_apply, Matrix.one_apply]
    by_cases h : col = siteIdx site dc
    · rw [if_pos h, if_pos h.symm]
    · rw [if_neg h, if_neg (fun e => h e.symm)]
  rw [Matrix.mul_apply, Fin.sum_univ_four, hsel, hsel, hsel, hsel]
  simp only [iterativeRows, List.foldl_cons, List.foldl_nil, Function.update_apply]
  have h01 : siteIdx site 0 ≠ siteIdx site 1 := fun e => by
    have := siteIdx_injective site e; revert this; decide
  have h02 : siteIdx site 0 ≠ siteIdx site 2 := fun e => by
    have := siteIdx_injective site e; revert this; decide
  have h03 : siteIdx site 0 ≠ siteIdx site 3 := fun e => by
    have := siteIdx_injective site e; revert this; decide
  have h12 : siteIdx site 1 ≠ siteIdx site 2 := fun e => by
    have := siteIdx_injective site e; revert this; decide
  have h13 : siteIdx site 1 ≠ siteIdx site 3 := fun e => by
    have := siteIdx_injective site e; revert this; decide
  have h23 : siteIdx site 2 ≠ siteIdx site 3 := fun e => by
    have := siteIdx_injective site e; revert this; decide
  by_cases c0 : col = siteIdx site 0
  · subst c0
    simp only [h01, h02, h03, if_true, if_false]
    ring
  by_cases c1 : col = siteIdx site 1
  · subst c1
    simp only [h01.symm, h12, h13, if_true, if_false]
    ring
  by_cases c2 : col = siteIdx site 2
  · subst c2
    simp only [h02.symm, h12.symm, h23, if_true, if_false]
    ring
  by_cases c3 : col = siteIdx site 3
  · subst c3
    simp only [h03.symm, h13.symm, h23.symm, if_true, if_false]
    ring
  simp only [c0, c1, c2, c3, if_false]
  ring

theorem sum_unit_vecMulVec {N : Nat} (site : Fin N) (W : MatCpx R 4 (4 * N)) :
    ∑ k : Fin 4, Matrix.vecMulVec (unitVec site k) (W k) = selCols R site * W := by
  ext1 i j
  simp only [Matrix.sum_apply, Matrix.vecMulVec_apply, Matrix.mul_apply, selCols, unitVec]

theorem filter_lt_four : Finset.univ.filter (fun k : Fin 4 => k.val < 4) = Finset.univ := by
  ext k
  simp [k.isLt]

theorem partialTarget_four {N : Nat} (g : MatCpx R (4 * N) (4 * N)) (site : Fin N)
    (D : MatCpx R 4 4) : partialTarget g site D 4 = referenceTarget g site D := by
  unfold partialTarget
  rw [filter_lt_four, referenceTarget_eq, Matrix.mul_assoc]
  congr 1
  rw [← sum_unit_vecMulVec]
  refine Finset.sum_congr rfl fun k _ => ?_
  rw [iterativeRows_eq]

theorem iterativeDet_eq {N : Nat} (g : MatCpx R (4 * N) (4 * N)) (site : Fin N)
    (D : MatCpx R 4 4) (hdiv : ∀ l : Fin 4, iterativeDivisorAt g site D l ≠ 0) :
    iterativeDet g site D = (woodburyM g site D).det := by
  have h := (iterInv_loop g site D hdiv 4 (le_refl _)).2.2
  unfold iterativeDet
  rw [h, partialTarget_four, woodburyM_eq, referenceTarget_eq]
  exact Matrix.det_one_add_mul_comm _ _

theorem iterativeDet_eq_prod {N : Nat} (g : MatCpx R (4 * N) (4 * N)) (site : Fin N)
    (D : MatCpx R 4 4) :
    iterativeDet g site D = ∏ l : Fin 4, iterativeDivisorAt g site D l := by
  unfold iterativeDet
  have e3 : iterativeLoop g site D 4 = iterativeStep site (iterativeLoop g site D 3) 3 :=
    iterativeLoop_succ g site D 3
  have e2 : iterativeLoop g site D 3 = iterativeStep site (iterativeLoop g site D 2) 2 :=
    iterativeLoop_succ g site D 2
  have e1 : iterativeLoop g site D 2 = iterativeStep site (iterativeLoop g site D 1) 1 :=
    iterativeLoop_succ g site D 1
  have e0 : iterativeLoop g site D 1 = iterativeStep site (iterativeLoop g site D 0) 0 :=
    iterativeLoop_succ g site D 0
  have hs : ∀ (s : (Fin 4 → Fin (4 * N) → Cpx R) × Cpx R) (l : Fin 4),
      (iterativeStep site s l).2 = s.2 * iterativeDivisor site s.1 l := fun _ _ => rfl
  have e : (iterativeLoop g site D 0).2 = 1 := rfl
  rw [Fin.prod_univ_four, e3, hs, e2, hs, e1, hs, e0, hs, e, one_mul]
  unfold iterativeDivisorAt
  rw [← e0, ← e1, ← e2]
  rfl

theorem g_mul_selCols {N : Nat} (g : MatCpx R (4 * N) (4 * N)) (site : Fin N)
    (row : Fin (4 * N)) (k : Fin 4) : (g * selCols R site) row k = g row (siteIdx site k) := by
  simp [Matrix.mul_apply, selCols]

theorem iterativeGreen_eq {N : Nat} (g : MatCpx R (4 * N) (4 * N)) (site : Fin N)
    (D : MatCpx R 4 4) :
    iterativeGreen g site D = g * rowsMatrix site (iterativeLoop g site D 4).1 4 := by
  unfold iterativeGreen rowsMatrix
  rw [filter_lt_four, Matrix.mul_add, Matrix.mul_one,
    sum_unit_vecMulVec site
      (fun k => (iterativeLoop g site D 4).1 k - unitVec site k),
    ← Matrix.mul_assoc]
  ext1 row col
  simp only [Matrix.add_apply]
  congr 1
  rw [Matrix.mul_apply, Fin.sum_univ_four]
  simp only [g_mul_selCols, Pi.sub_apply]
  have hupd : ∀ r : Fin 4, Function.update ((iterativeLoop g site D 4).1 r) (siteIdx site r)
      ((iterativeLoop g site D 4).1 r (siteIdx site r) - 1) col
      = (iterativeLoop g site D 4).1 r col - unitVec site r col := by
    intro r
    by_cases h : col = siteIdx site r
    · subst h
      simp [unitVec]
    · simp [unitVec, h, Function.update_noteq h]
  rw [hupd, hupd, hupd, hupd]

theorem rowsMatrix_four_eq {N : Nat} (g : MatCpx R (4 * N) (4 * N)) (site : Fin N)
    (D : MatCpx R 4 4) (hdiv : ∀ l : Fin 4, iterativeDivisorAt g site D l ≠ 0) :
    rowsMatrix site (iterativeLoop g site D 4).1 4 = matInv (referenceTarget g site D) := by
  have h := (iterInv_loop g site D hdiv 4 (le_refl _)).2.1
  rw [partialTarget_four] at h
  rw [matInv_eq_inv]
  exact (Matrix.inv_eq_left_inv h).symm

theorem woodburyM_det_ne_zero {N : Nat} (g : MatCpx R (4 * N) (4 * N)) (site : Fin N)
    (D : MatCpx R 4 4) (hdiv : ∀ l : Fin 4, iterativeDivisorAt g site D l ≠ 0) :
    (woodburyM g site D).det ≠ 0 := by
  rw [← iterativeDet_eq g site D hdiv, iterativeDet_eq_prod]
  exact Finset.prod_ne_zero_iff.mpr fun l _ => hdiv l

theorem woodburyGreen_eq_iterativeGreen {N : Nat} (g : MatCpx R (4 * N) (4 * N))
    (site : Fin N) (D : MatCpx R 4 4)
    (hdiv : ∀ l : Fin 4, iterativeDivisorAt g site D l ≠ 0) :
    woodburyGreen g site D = some (iterativeGreen g site D) := by
  rw [woodburyGreen_eq g site D (woodburyM_det_ne_zero g site D hdiv), iterativeGreen_eq,
    rowsMatrix_four_eq g site D hdiv]

theorem iterativeProb_eq {G : Type} (sm : StdMath R) {P : Params R} (st : State R G P)
    (timeslice : Nat) (site : Fin P.N) (newphi : Phi R)
    (hdiv : ∀ l : Fin 4, iterativeDivisorAt st.g site
      (get_deltanonzero sm st newphi timeslice site) l ≠ 0) :
    iterativeProb sm st timeslice site newphi = woodburyProb sm st timeslice site newphi := by
  unfold iterativeProb woodburyProb
  rw [iterativeDet_eq _ _ _ hdiv]

theorem woodbury_site_eq_iterative_site {G : Type} (sm : StdMath R) (rw : RngWrapper R G)
    {P : Params R} (proposeSpin : ProposeSpin R G) (timeslice : Nat)
    (st : State R G P) (site : Fin P.N)
    (hdiv : ∀ l : Fin 4, iterativeDivisorAt st.g site
      (get_deltanonzero sm st (proposeSpin st.F st.rng site timeslice).1.2 timeslice site) l
        ≠ 0) :
    updateInSlice_woodbury_site sm rw proposeSpin timeslice st site
      = some (updateInSlice_iterative_site sm rw proposeSpin timeslice st site) := by
  unfold updateInSlice_woodbury_site updateInSlice_iterative_site
  by_cases hv : (proposeSpin st.F st.rng site timeslice).1.1 = false
  · rw [if_pos hv, if_pos hv]
  · rw [if_neg hv, if_neg hv]
    simp only
    rw [iterativeProb_eq sm st timeslice site _ hdiv,
      woodburyGreen_eq_iterativeGreen _ _ _ hdiv]
    split
    · rfl
    · rfl

/-- C3. For the same state, site and proposed field value, if every divisor met by the
iterative scheme is non-zero, then the product of the four Sherman-Morrison divisors, which is
the value `det` of `updateInSlice_iterative`, equals `det(I4 + (I4 - G_sub) * Delta)`, the two
routines compute the same acceptance probability, an accepted step writes the same new Green's
function, and the whole step of `updateInSlice_woodbury` at that site returns the state that
the step of `updateInSlice_iterative` returns. -/
theorem iterative_eq_woodbury {G : Type} (sm : StdMath R) (rw : RngWrapper R G)
    {P : Params R} (proposeSpin : ProposeSpin R G) (timeslice : Nat)
    (st : State R G P) (site : Fin P.N)
    (hdiv : ∀ l : Fin 4, iterativeDivisorAt st.g site
      (get_deltanonzero sm st (proposeSpin st.F st.rng site timeslice).1.2 timeslice site) l
        ≠ 0) :
    (∏ l : Fin 4, iterativeDivisorAt st.g site
        (get_deltanonzero sm st (proposeSpin st.F st.rng site timeslice).1.2 timeslice site) l)
      = (woodburyM st.g site
        (get_deltanonzero sm st (proposeSpin st.F st.rng site timeslice).1.2
          timeslice site)).det ∧
    iterativeDet st.g site
        (get_deltanonzero sm st (proposeSpin st.F st.rng site timeslice).1.2 timeslice site)
      = (woodburyM st.g site
        (get_deltanonzero sm st (proposeSpin st.F st.rng site timeslice).1.2
          timeslice site)).det ∧
    iterativeProb sm st timeslice site (proposeSpin st.F st.rng site timeslice).1.2
      = woodburyProb sm st timeslice site (proposeSpin st.F st.rng site timeslice).1.2 ∧
    woodburyGreen st.g site
        (get_deltanonzero sm st (proposeSpin st.F st.rng site timeslice).1.2 timeslice site)
      = some (iterativeGreen st.g site
        (get_deltanonzero sm st (proposeSpin st.F st.rng site timeslice).1.2
          timeslice site)) ∧
    updateInSlice_woodbury_site sm rw proposeSpin timeslice st site
      = some (updateInSlice_iterative_site sm rw proposeSpin timeslice st site) := by
  refine ⟨?_, iterativeDet_eq _ _ _ hdiv, iterativeProb_eq sm st timeslice site _ hdiv,
    woodburyGreen_eq_iterativeGreen _ _ _ hdiv,
    woodbury_site_eq_iterative_site sm rw proposeSpin timeslice st site hdiv⟩
  rw [← iterativeDet_eq_prod]
  exact iterativeDet_eq _ _ _ hdiv

theorem iterative_eq_woodbury_witness :
    (∀ l : Fin 4, iterativeDivisorAt exState.g exSite
      (get_deltanonzero exMath exState (exPropose exState.F exState.rng exSite 1).1.2 1 exSite) l
        ≠ 0) ∧
    updateInSlice_woodbury_site exMath exRngLow exPropose 1 exState exSite
      = some (updateInSlice_iterative_site exMath exRngLow exPropose 1 exState exSite) :=
  ⟨by decide!,
   (iterative_eq_woodbury exMath exRngLow exPropose 1 exState exSite (by decide!)).2.2.2.2⟩

/-! ## Theorems: delayed updates against Woodbury updates -/

theorem take4rows_add {N k : Nat} (A B : MatCpx R (4 * N) k) (site : Fin N) :
    take4rows (A + B) site = take4rows A site + take4rows B site := rfl

theorem take4cols_add {N k : Nat} (A B : MatCpx R k (4 * N)) (site : Fin N) :
    take4cols (A + B) site = take4cols A site + take4cols B site := rfl

theorem take4rows_mul {N k n : Nat} (A : MatCpx R (4 * N) k) (B : MatCpx R k n) (site : Fin N) :
    take4rows (A * B) site = take4rows A site * B := rfl

theorem take4cols_mul {N k n : Nat} (A : MatCpx R n k) (B : MatCpx R k (4 * N)) (site : Fin N) :
    take4cols (A * B) site = A * take4cols B site := rfl

theorem delayedProduct_succ {N : Nat} (dud : DelayedUpdatesData R N) (j : Nat) :
    delayedProduct dud (j + 1) = delayedProduct dud j + dud.X j * dud.Y j := by
  unfold delayedProduct
  rw [Finset.sum_range_succ]

theorem delayedProduct_zero {N : Nat} (dud : DelayedUpdatesData R N) :
    delayedProduct dud 0 = 0 := by
  unfold delayedProduct
  simp

theorem delayedRj_eq {N : Nat} (g : MatCpx R (4 * N) (4 * N)) (dud : DelayedUpdatesData R N)
    (j : Nat) (site : Fin N) :
    delayedRj g dud j site = take4rows (g + delayedProduct dud j) site := by
  unfold delayedRj
  induction j with
  | zero => simp [delayedProduct_zero]
  | succ j ih =>
    rw [List.range_succ, List.foldl_append, ih, delayedProduct_succ]
    simp only [List.foldl_cons, List.foldl_nil, take4rows_add, take4rows_mul, add_assoc]

theorem delayedCj_eq {N : Nat} (g : MatCpx R (4 * N) (4 * N)) (dud : DelayedUpdatesData R N)
    (j : Nat) (site : Fin N) :
    delayedCj g dud j site = take4cols (g + delayedProduct dud j) site := by
  unfold delayedCj
  induction j with
  | zero => simp [delayedProduct_zero]
  | succ j ih =>
    rw [List.range_succ, List.foldl_append, ih, delayedProduct_succ]
    simp only [List.foldl_cons, List.foldl_nil, take4cols_add, take4cols_mul, add_assoc]

theorem delayedMj_eq {N : Nat} (g : MatCpx R (4 * N) (4 * N)) (dud : DelayedUpdatesData R N)
    (j : Nat) (site : Fin N) (D : MatCpx R 4 4) :
    delayedMj g dud j site D = woodburyM (g + delayedProduct dud j) site D := by
  unfold delayedMj woodburyM
  rw [delayedRj_eq]
  have : take4cols (take4rows (g + delayedProduct dud j) site) site
      = g_sub (g + delayedProduct dud j) site := rfl
  rw [this, Matrix.sub_mul, Matrix.one_mul]
  abel

theorem delayedProduct_update {N : Nat} (dud : DelayedUpdatesData R N) (j : Nat)
    (x : MatCpx R (4 * N) 4) (y : MatCpx R 4 (4 * N)) :
    delayedProduct { X := Function.update dud.X j x, Y := Function.update dud.Y j y } (j + 1)
      = delayedProduct dud j + x * y := by
  rw [delayedProduct_succ]
  simp only [Function.update_same]
  congr 1
  unfold delayedProduct
  refine Finset.sum_congr rfl fun l hl => ?_
  have hne : l ≠ j := Nat.ne_of_lt (Finset.mem_range.mp hl)
  simp only [Function.update_noteq hne]

theorem get_deltanonzero_congr {G : Type} (sm : StdMath R) {P : Params R} (st st' : State R G P)
    (hF : st'.F = st.F) (hc : st'.phiCosh = st.phiCosh) (hs : st'.phiSinh = st.phiSinh)
    (newphi : Phi R) (timeslice site : Nat) :
    get_deltanonzero sm st' newphi timeslice site = get_deltanonzero sm st newphi timeslice site := by
  unfold get_deltanonzero
  rw [hF, hc, hs]

theorem delayedProb_eq {G : Type} (sm : StdMath R) {P : Params R}
    (s : State R G P × DelayedUpdatesData R P.N × Nat) (timeslice : Nat) (site : Fin P.N)
    (newphi : Phi R) :
    delayedProb sm s.1 s.2.1 s.2.2 timeslice site newphi
      = woodburyProb sm (flushD s) timeslice site newphi := by
  unfold delayedProb woodburyProb
  rw [delayedMj_eq, get_deltanonzero_congr sm s.1 (flushD s) rfl rfl rfl]
  rfl

theorem delayed_site_sim {G : Type} (sm : StdMath R) (rw : RngWrapper R G) {P : Params R}
    (proposeSpin : ProposeSpin R G) (timeslice : Nat)
    (s : State R G P × DelayedUpdatesData R P.N × Nat) (site : Fin P.N) :
    (updateInSlice_delayed_site sm rw proposeSpin timeslice s site).map flushD
      = updateInSlice_woodbury_site sm rw proposeSpin timeslice (flushD s) site := by
  unfold updateInSlice_delayed_site updateInSlice_woodbury_site
  have hF : (flushD s).F = s.1.F := rfl
  have hrng : (flushD s).rng = s.1.rng := rfl
  simp only [hF, hrng]
  by_cases hv : (proposeSpin s.1.F s.1.rng site timeslice).1.1 = false
  · rw [if_pos hv, if_pos hv]
    rfl
  · rw [if_neg hv, if_neg hv]
    rw [delayedProb_eq]
    have hD : get_deltanonzero sm (flushD s) (proposeSpin s.1.F s.1.rng site timeslice).1.2
        timeslice site = get_deltanonzero sm s.1 (proposeSpin s.1.F s.1.rng site timeslice).1.2
        timeslice site := get_deltanonzero_congr sm s.1 (flushD s) rfl rfl rfl _ _ _
    rw [hD]
    by_cases ht : (acceptTest rw (woodburyProb sm (flushD s) timeslice site
        (proposeSpin s.1.F s.1.rng site timeslice).1.2)
        (proposeSpin s.1.F s.1.rng site timeslice).2).1 = true
    · rw [if_pos ht, if_pos ht]
      unfold woodburyGreen
      rw [delayedMj_eq]
      have hg : (flushD s).g = s.1.g + delayedProduct s.2.1 s.2.2 := rfl
      rw [hg]
      cases hinv : armaInv (woodburyM (s.1.g + delayedProduct s.2.1 s.2.2) site
          (get_deltanonzero sm s.1 (proposeSpin s.1.F s.1.rng site timeslice).1.2
            timeslice site)) with
      | none => rfl
      | some Minv =>
        simp only [Option.map_some']
        congr 1
        unfold flushD
        simp only [delayedProduct_update, delayedCj_eq, delayedRj_eq]
        unfold acceptField
        simp only
        congr 1
        rw [add_assoc]
        rfl
    · rw [if_neg ht, if_neg ht]
      rfl

theorem finRange_drop {N site : Nat} (h : site < N) :
    (List.finRange N).drop site = ⟨site, h⟩ :: (List.finRange N).drop (site + 1) := by
  have hl : site < (List.finRange N).length := by simpa using h
  rw [List.drop_eq_getElem_cons hl]
  congr 1
  simp

theorem finRange_drop_of_le {N site : Nat} (h : N ≤ site) : (List.finRange N).drop site = [] := by
  apply List.drop_of_length_le
  simpa using h

theorem flushD_zero {G : Type} {P : Params R} (st : State R G P)
    (dud : DelayedUpdatesData R P.N) : flushD (st, dud, 0) = st := by
  unfold flushD
  simp [delayedProduct_zero]

/-- What the inner loop of `updateInSlice_delayed` returns, in terms of the site loop of
`updateInSlice_woodbury` run on the flushed state. -/
theorem delayedInner_spec {G : Type} (sm : StdMath R) (rw : RngWrapper R G) {P : Params R}
    (proposeSpin : ProposeSpin R G) (timeslice delayStepsNow : Nat) :
    ∀ (fuel site : Nat) (s : State R G P × DelayedUpdatesData R P.N × Nat),
      P.N - site ≤ fuel →
      (delayedInner sm rw proposeSpin timeslice delayStepsNow fuel site s = some none ∧
        ((List.finRange P.N).drop site).foldlM
          (updateInSlice_woodbury_site sm rw proposeSpin timeslice) (flushD s) = none) ∨
      ∃ site' s', delayedInner sm rw proposeSpin timeslice delayStepsNow fuel site s
          = some (some (site', s')) ∧ site ≤ site' ∧
        (s.2.2 < delayStepsNow → site < P.N → site < site') ∧
        ((List.finRange P.N).drop site).foldlM
          (updateInSlice_woodbury_site sm rw proposeSpin timeslice) (flushD s)
        = ((List.finRange P.N).drop site').foldlM
          (updateInSlice_woodbury_site sm rw proposeSpin timeslice) (flushD s') := by
  intro fuel
  induction fuel with
  | zero =>
    intro site s hfuel
    right
    refine ⟨site, s, ?_, le_refl _, ?_, rfl⟩
    · unfold delayedInner
      have : ¬ (s.2.2 < delayStepsNow ∧ site < P.N) := fun h => by omega
      rw [dif_neg this]
    · intro _ h
      omega
  | succ fuel ih =>
    intro site s hfuel
    by_cases hc : s.2.2 < delayStepsNow ∧ site < P.N
    · have hsim := delayed_site_sim sm rw proposeSpin timeslice s ⟨site, hc.2⟩
      cases hstep : updateInSlice_delayed_site sm rw proposeSpin timeslice s ⟨site, hc.2⟩ with
      | none =>
        left
        constructor
        · unfold delayedInner
          rw [dif_pos hc]
          simp only [hstep]
        · rw [finRange_drop hc.2, List.foldlM_cons, ← hsim, hstep]
          rfl
      | some s1 =>
        have hw : updateInSlice_woodbury_site sm rw proposeSpin timeslice (flushD s) ⟨site, hc.2⟩
            = some (flushD s1) := by rw [← hsim, hstep]; rfl
        have hunf : delayedInner sm rw proposeSpin timeslice delayStepsNow (fuel + 1) site s
            = delayedInner sm rw proposeSpin timeslice delayStepsNow fuel (site + 1) s1 := by
          conv_lhs => unfold delayedInner
          rw [dif_pos hc]
          simp only [hstep]
        have hfold : ((List.finRange P.N).drop site).foldlM
            (updateInSlice_woodbury_site sm rw proposeSpin timeslice) (flushD s)
            = ((List.finRange P.N).drop (site + 1)).foldlM
            (updateInSlice_woodbury_site sm rw proposeSpin timeslice) (flushD s1) := by
          rw [finRange_drop hc.2, List.foldlM_cons, hw]
          rfl
        rcases ih (site + 1) s1 (by omega) with ⟨h1, h2⟩ | ⟨site', s', h1, h2, _, h4⟩
        · left
          exact ⟨hunf.trans h1, hfold.trans h2⟩
        · right
          exact ⟨site', s', hunf.trans h1, by omega, fun _ _ => by omega, hfold.trans h4⟩
    · right
      refine ⟨site, s, ?_, le_refl _, ?_, rfl⟩
      · unfold delayedInner
        rw [dif_neg hc]
      · intro h1 h2
        exact absurd ⟨h1, h2⟩ hc

theorem delayedOuter_spec {G : Type} (sm : StdMath R) (rw : RngWrapper R G) {P : Params R}
    (proposeSpin : ProposeSpin R G) (timeslice delaySteps : Nat) (hd : 1 ≤ delaySteps) :
    ∀ (fuel site : Nat) (st : State R G P) (dud : DelayedUpdatesData R P.N),
      P.N - site ≤ fuel →
      delayedOuter sm rw proposeSpin timeslice delaySteps fuel site (st, dud)
        = some (((List.finRange P.N).drop site).foldlM
            (updateInSlice_woodbury_site sm rw proposeSpin timeslice) st) := by
  intro fuel
  induction fuel with
  | zero =>
    intro site st dud hfuel
    have hN : ¬ site < P.N := by omega
    unfold delayedOuter
    rw [if_neg hN, finRange_drop_of_le (by omega)]
    rfl
  | succ fuel ih =>
    intro site st dud hfuel
    by_cases hN : site < P.N
    · unfold delayedOuter
      rw [if_pos hN]
      simp only
      have hdsn : 0 < min delaySteps (P.N - site) := by
        rw [Nat.lt_min]; omega
      rcases delayedInner_spec sm rw proposeSpin timeslice (min delaySteps (P.N - site))
          (fuel + 1) site (st, dud, 0) (by omega) with ⟨h1, h2⟩ | ⟨site', s', h1, _, h3, h4⟩
      · rw [h1]
        simp only
        rw [flushD_zero] at h2
        rw [h2]
      · rw [h1]
        simp only
        have hlt : site < site' := h3 hdsn hN
        have hst : (if 0 < s'.2.2 then { s'.1 with g := s'.1.g + delayedProduct s'.2.1 s'.2.2 }
            else s'.1) = flushD s' := by
          by_cases hj : 0 < s'.2.2
          · rw [if_pos hj]; rfl
          · rw [if_neg hj]
            have hj0 : s'.2.2 = 0 := by omega
            have : s' = (s'.1, s'.2.1, 0) := by rw [← hj0]
            rw [this, flushD_zero]
        rw [hst, ih site' (flushD s') s'.2.1 (by omega)]
        rw [flushD_zero] at h4
        rw [h4]
    · unfold delayedOuter
      rw [if_neg hN, finRange_drop_of_le (by omega)]
      rfl

theorem updateInSlice_delayed_eq {G : Type} (sm : StdMath R) (rw : RngWrapper R G)
    {P : Params R} (proposeSpin : ProposeSpin R G) (timeslice delaySteps fuel : Nat)
    (st : State R G P) (dud : DelayedUpdatesData R P.N)
    (hd : 1 ≤ delaySteps) (hfuel : P.N ≤ fuel) :
    updateInSlice_delayed sm rw proposeSpin timeslice delaySteps fuel st dud
      = some (updateInSlice_woodbury sm rw proposeSpin timeslice st) := by
  unfold updateInSlice_delayed updateInSlice_woodbury
  rw [delayedOuter_spec sm rw proposeSpin timeslice delaySteps hd fuel 0 _ dud (by omega)]
  rfl

/-- C4. For every state, time slice, `delaySteps >= 1` and proposal callable/random stream,
`updateInSlice_delayed` evaluates at each site the acceptance probability that
`updateInSlice_woodbury` evaluates on the Green's function with all pending `X*Y` corrections
added, takes the same decision and makes the same writes there (also throwing exactly when
`arma::inv` throws in the other), and, run with enough fuel, ends the slice in the same state
(phi, cosh/sinh caches, `g`, `lastAccRatioLocal`, generator) as `updateInSlice_woodbury`. -/
theorem delayed_eq_woodbury {G : Type} (sm : StdMath R) (rw : RngWrapper R G)
    {P : Params R} (proposeSpin : ProposeSpin R G) (timeslice delaySteps fuel : Nat)
    (st : State R G P) (dud : DelayedUpdatesData R P.N)
    (hd : 1 ≤ delaySteps) (hfuel : P.N ≤ fuel) :
    (∀ (s : State R G P × DelayedUpdatesData R P.N × Nat) (site : Fin P.N) (newphi : Phi R),
      delayedProb sm s.1 s.2.1 s.2.2 timeslice site newphi
        = woodburyProb sm (flushD s) timeslice site newphi) ∧
    (∀ (s : State R G P × DelayedUpdatesData R P.N × Nat) (site : Fin P.N),
      (updateInSlice_delayed_site sm rw proposeSpin timeslice s site).map flushD
        = updateInSlice_woodbury_site sm rw proposeSpin timeslice (flushD s) site) ∧
    updateInSlice_delayed sm rw proposeSpin timeslice delaySteps fuel st dud
      = some (updateInSlice_woodbury sm rw proposeSpin timeslice st) :=
  ⟨fun s site newphi => delayedProb_eq sm s timeslice site newphi,
   fun s site => delayed_site_sim sm rw proposeSpin timeslice s site,
   updateInSlice_delayed_eq sm rw proposeSpin timeslice delaySteps fuel st dud hd hfuel⟩

theorem delayed_eq_woodbury_witness :
    (1 ≤ 2 ∧ exParams.N ≤ 4) ∧
    updateInSlice_delayed exMath exRngLow exPropose 1 2 4 exState4 exDud4
      = some (updateInSlice_woodbury exMath exRngLow exPropose 1 exState4) ∧
    (updateInSlice_delayed_site exMath exRngLow exPropose 1 (exState4, exDud4, 0)
      exSite0).map (fun s => s.2.2) = some 1 ∧
    delayedProb exMath exState4 exDudPending 1 1 exSite1 ![1, 0, 0]
      = woodburyProb exMath (flushD (exState4, exDudPending, 1)) 1 exSite1 ![1, 0, 0] ∧
    delayedProb exMath exState4 exDudPending 1 1 exSite1 ![1, 0, 0]
      ≠ woodburyProb exMath exState4 1 exSite1 ![1, 0, 0] :=
  ⟨by decide,
   (delayed_eq_woodbury exMath exRngLow exPropose 1 2 4 exState4 exDud4
    (by decide) (by decide)).2.2,
   by decide!,
   (delayed_eq_woodbury exMath exRngLow exPropose 1 2 4 exState4 exDud4
    (by decide) (by decide)).1 (exState4, exDudPending, 1) exSite1 ![1, 0, 0],
   by decide!⟩

/-! ### Rejected and accepted proposals -/

theorem acceptTest_eq_false {G : Type} (rw : RngWrapper R G) (prob : R) (rng : G)
    (h1 : prob ≤ 1) (h2 : ¬ (rw.rand01 rng).1 < prob) : (acceptTest rw prob rng).1 = false := by
  unfold acceptTest
  rw [if_neg (not_lt.mpr h1)]
  simp [h2]

theorem woodbury_site_rejected {G : Type} (sm : StdMath R) (rw : RngWrapper R G)
    {P : Params R} (proposeSpin : ProposeSpin R G) (timeslice : Nat)
    (st : State R G P) (site : Fin P.N)
    (hrej : (proposeSpin st.F st.rng site timeslice).1.1 = false ∨
      (woodburyProb sm st timeslice site (proposeSpin st.F st.rng site timeslice).1.2 ≤ 1 ∧
        ¬ (rw.rand01 (proposeSpin st.F st.rng site timeslice).2).1
          < woodburyProb sm st timeslice site (proposeSpin st.F st.rng site timeslice).1.2)) :
    ∃ st', updateInSlice_woodbury_site sm rw proposeSpin timeslice st site = some st' ∧
      st'.F = st.F ∧ st'.phiCosh = st.phiCosh ∧ st'.phiSinh = st.phiSinh ∧ st'.g = st.g := by
  unfold updateInSlice_woodbury_site
  by_cases hv : (proposeSpin st.F st.rng site timeslice).1.1 = false
  · rw [if_pos hv]
    exact ⟨_, rfl, rfl, rfl, rfl, rfl⟩
  · rw [if_neg hv]
    rcases hrej with h | ⟨h1, h2⟩
    · exact absurd h hv
    · have ht := acceptTest_eq_false rw _ _ h1 h2
      simp only [ht]
      exact ⟨_, rfl, rfl, rfl, rfl, rfl⟩

theorem iterative_site_rejected {G : Type} (sm : StdMath R) (rw : RngWrapper R G)
    {P : Params R} (proposeSpin : ProposeSpin R G) (timeslice : Nat)
    (st : State R G P) (site : Fin P.N)
    (hrej : (proposeSpin st.F st.rng site timeslice).1.1 = false ∨
      (iterativeProb sm st timeslice site (proposeSpin st.F st.rng site timeslice).1.2 ≤ 1 ∧
        ¬ (rw.rand01 (proposeSpin st.F st.rng site timeslice).2).1
          < iterativeProb sm st timeslice site (proposeSpin st.F st.rng site timeslice).1.2)) :
    (updateInSlice_iterative_site sm rw proposeSpin timeslice st site).F = st.F ∧
    (updateInSlice_iterative_site sm rw proposeSpin timeslice st site).phiCosh = st.phiCosh ∧
    (updateInSlice_iterative_site sm rw proposeSpin timeslice st site).phiSinh = st.phiSinh ∧
    (updateInSlice_iterative_site sm rw proposeSpin timeslice st site).g = st.g := by
  unfold updateInSlice_iterative_site
  by_cases hv : (proposeSpin st.F st.rng site timeslice).1.1 = false
  · rw [if_pos hv]
    exact ⟨rfl, rfl, rfl, rfl⟩
  · rw [if_neg hv]
    rcases hrej with h | ⟨h1, h2⟩
    · exact absurd h hv
    · have ht := acceptTest_eq_false rw _ _ h1 h2
      simp only [ht]
      exact ⟨rfl, rfl, rfl, rfl⟩

theorem delayed_site_rejected {G : Type} (sm : StdMath R) (rw : RngWrapper R G)
    {P : Params R} (proposeSpin : ProposeSpin R G) (timeslice : Nat)
    (s : State R G P × DelayedUpdatesData R P.N × Nat) (site : Fin P.N)
    (hrej : (proposeSpin s.1.F s.1.rng site timeslice).1.1 = false ∨
      (delayedProb sm s.1 s.2.1 s.2.2 timeslice site
          (proposeSpin s.1.F s.1.rng site timeslice).1.2 ≤ 1 ∧
        ¬ (rw.rand01 (proposeSpin s.1.F s.1.rng site timeslice).2).1
          < delayedProb sm s.1 s.2.1 s.2.2 timeslice site
              (proposeSpin s.1.F s.1.rng site timeslice).1.2)) :
    ∃ s', updateInSlice_delayed_site sm rw proposeSpin timeslice s site = some s' ∧
      s'.1.F = s.1.F ∧ s'.1.phiCosh = s.1.phiCosh ∧ s'.1.phiSinh = s.1.phiSinh ∧
      s'.1.g = s.1.g ∧ s'.2 = s.2 := by
  unfold updateInSlice_delayed_site
  by_cases hv : (proposeSpin s.1.F s.1.rng site timeslice).1.1 = false
  · simp only [if_pos hv]
    exact ⟨_, rfl, rfl, rfl, rfl, rfl, rfl⟩
  · simp only [if_neg hv]
    rcases hrej with h | ⟨h1, h2⟩
    · exact absurd h hv
    · have ht := acceptTest_eq_false rw _ _ h1 h2
      simp only [ht]
      exact ⟨_, rfl, rfl, rfl, rfl, rfl, rfl⟩

/-- C5. In each of `updateInSlice_iterative`, `updateInSlice_woodbury` and
`updateInSlice_delayed`, processing a site whose proposal is rejected (flagged invalid, or
`prob <= 1` and the uniform draw not below `prob`) returns normally and leaves `phi0`, `phi1`,
`phi2`, `phiCosh`, `phiSinh` and the Green's function `g` equal to their previous values
(for the delayed method also the pending blocks and their count). -/
theorem rejected_site_frame {G : Type} (sm : StdMath R) (rw : RngWrapper R G)
    {P : Params R} (proposeSpin : ProposeSpin R G) (timeslice : Nat) :
    (∀ (st : State R G P) (site : Fin P.N),
      ((proposeSpin st.F st.rng site timeslice).1.1 = false ∨
        (iterativeProb sm st timeslice site (proposeSpin st.F st.rng site timeslice).1.2 ≤ 1 ∧
          ¬ (rw.rand01 (proposeSpin st.F st.rng site timeslice).2).1
            < iterativeProb sm st timeslice site
                (proposeSpin st.F st.rng site timeslice).1.2)) →
      (updateInSlice_iterative_site sm rw proposeSpin timeslice st site).F = st.F ∧
      (updateInSlice_iterative_site sm rw proposeSpin timeslice st site).phiCosh = st.phiCosh ∧
      (updateInSlice_iterative_site sm rw proposeSpin timeslice st site).phiSinh = st.phiSinh ∧
      (updateInSlice_iterative_site sm rw proposeSpin timeslice st site).g = st.g) ∧
    (∀ (st : State R G P) (site : Fin P.N),
      ((proposeSpin st.F st.rng site timeslice).1.1 = false ∨
        (woodburyProb sm st timeslice site (proposeSpin st.F st.rng site timeslice).1.2 ≤ 1 ∧
          ¬ (rw.rand01 (proposeSpin st.F st.rng site timeslice).2).1
            < woodburyProb sm st timeslice site
                (proposeSpin st.F st.rng site timeslice).1.2)) →
      ∃ st', updateInSlice_woodbury_site sm rw proposeSpin timeslice st site = some st' ∧
        st'.F = st.F ∧ st'.phiCosh = st.phiCosh ∧ st'.phiSinh = st.phiSinh ∧ st'.g = st.g) ∧
    (∀ (s : State R G P × DelayedUpdatesData R P.N × Nat) (site : Fin P.N),
      ((proposeSpin s.1.F s.1.rng site timeslice).1.1 = false ∨
        (delayedProb sm s.1 s.2.1 s.2.2 timeslice site
            (proposeSpin s.1.F s.1.rng site timeslice).1.2 ≤ 1 ∧
          ¬ (rw.rand01 (proposeSpin s.1.F s.1.rng site timeslice).2).1
            < delayedProb sm s.1 s.2.1 s.2.2 timeslice site
                (proposeSpin s.1.F s.1.rng site timeslice).1.2)) →
      ∃ s', updateInSlice_delayed_site sm rw proposeSpin timeslice s site = some s' ∧
        s'.1.F = s.1.F ∧ s'.1.phiCosh = s.1.phiCosh ∧ s'.1.phiSinh = s.1.phiSinh ∧
        s'.1.g = s.1.g ∧ s'.2 = s.2) :=
  ⟨fun st site h => iterative_site_rejected sm rw proposeSpin timeslice st site h,
   fun st site h => woodbury_site_rejected sm rw proposeSpin timeslice st site h,
   fun s site h => delayed_site_rejected sm rw proposeSpin timeslice s site h⟩

theorem rejected_site_frame_witness :
    (woodburyProb exMath exState 1 exSite (exPropose exState.F exState.rng exSite 1).1.2 ≤ 1 ∧
      ¬ (exRng.rand01 (exPropose exState.F exState.rng exSite 1).2).1
        < woodburyProb exMath exState 1 exSite (exPropose exState.F exState.rng exSite 1).1.2) ∧
    ∃ st', updateInSlice_woodbury_site exMath exRng exPropose 1 exState exSite = some st' ∧
      st'.F = exState.F ∧ st'.phiCosh = exState.phiCosh ∧ st'.phiSinh = exState.phiSinh ∧
      st'.g = exState.g :=
  ⟨by decide!,
   (rejected_site_frame exMath exRng exPropose 1).2.1 exState exSite (Or.inr (by decide!))⟩

/-! ### Accepted proposals and the cosh/sinh caches -/

theorem acceptTest_eq_true {G : Type} (rw : RngWrapper R G) (prob : R) (rng : G)
    (h : 1 < prob ∨ (rw.rand01 rng).1 < prob) : (acceptTest rw prob rng).1 = true := by
  unfold acceptTest
  by_cases h1 : 1 < prob
  · rw [if_pos h1]
  · rw [if_neg h1]
    rcases h with h | h
    · exact absurd h h1
    · simp [h]

theorem woodbury_site_accepted {G : Type} (sm : StdMath R) (rw : RngWrapper R G)
    {P : Params R} (proposeSpin : ProposeSpin R G) (timeslice : Nat)
    (st st' : State R G P) (site : Fin P.N)
    (hv : (proposeSpin st.F st.rng site timeslice).1.1 = true)
    (hacc : 1 < woodburyProb sm st timeslice site (proposeSpin st.F st.rng site timeslice).1.2 ∨
      (rw.rand01 (proposeSpin st.F st.rng site timeslice).2).1
        < woodburyProb sm st timeslice site (proposeSpin st.F st.rng site timeslice).1.2)
    (hst : updateInSlice_woodbury_site sm rw proposeSpin timeslice st site = some st') :
    st'.F = st.F.set site timeslice (proposeSpin st.F st.rng site timeslice).1.2 ∧
    st'.phiCosh = setEntry st.phiCosh site timeslice
      (sm.cosh (P.dtau * normPhi sm (proposeSpin st.F st.rng site timeslice).1.2)) ∧
    st'.phiSinh = setEntry st.phiSinh site timeslice
      (sm.sinh (P.dtau * normPhi sm (proposeSpin st.F st.rng site timeslice).1.2)
        / normPhi sm (proposeSpin st.F st.rng site timeslice).1.2) := by
  unfold updateInSlice_woodbury_site at hst
  have hv' : ¬ (proposeSpin st.F st.rng site timeslice).1.1 = false := by simp [hv]
  rw [if_neg hv'] at hst
  have ht := acceptTest_eq_true rw _ _ hacc
  simp only [ht, if_true] at hst
  cases hg : woodburyGreen st.g site
      (get_deltanonzero sm st (proposeSpin st.F st.rng site timeslice).1.2 timeslice site) with
  | none => rw [hg] at hst; simp at hst
  | some g' =>
    rw [hg] at hst
    simp only [Option.map_some', Option.some.injEq] at hst
    subst hst
    exact ⟨rfl, rfl, rfl⟩

theorem iterative_site_accepted {G : Type} (sm : StdMath R) (rw : RngWrapper R G)
    {P : Params R} (proposeSpin : ProposeSpin R G) (timeslice : Nat)
    (st : State R G P) (site : Fin P.N)
    (hv : (proposeSpin st.F st.rng site timeslice).1.1 = true)
    (hacc : 1 < iterativeProb sm st timeslice site (proposeSpin st.F st.rng site timeslice).1.2 ∨
      (rw.rand01 (proposeSpin st.F st.rng site timeslice).2).1
        < iterativeProb sm st timeslice site (proposeSpin st.F st.rng site timeslice).1.2) :
    (updateInSlice_iterative_site sm rw proposeSpin timeslice st site).F
      = st.F.set site timeslice (proposeSpin st.F st.rng site timeslice).1.2 ∧
    (updateInSlice_iterative_site sm rw proposeSpin timeslice st site).phiCosh
      = setEntry st.phiCosh site timeslice
        (sm.cosh (P.dtau * normPhi sm (proposeSpin st.F st.rng site timeslice).1.2)) ∧
    (updateInSlice_iterative_site sm rw proposeSpin timeslice st site).phiSinh
      = setEntry st.phiSinh site timeslice
        (sm.sinh (P.dtau * normPhi sm (proposeSpin st.F st.rng site timeslice).1.2)
          / normPhi sm (proposeSpin st.F st.rng site timeslice).1.2) := by
  unfold updateInSlice_iterative_site
  have hv' : ¬ (proposeSpin st.F st.rng site timeslice).1.1 = false := by simp [hv]
  rw [if_neg hv']
  have ht := acceptTest_eq_true rw _ _ hacc
  simp only [ht, if_true]
  exact ⟨rfl, rfl, rfl⟩

theorem delayed_site_accepted {G : Type} (sm : StdMath R) (rw : RngWrapper R G)
    {P : Params R} (proposeSpin : ProposeSpin R G) (timeslice : Nat)
    (s s' : State R G P × DelayedUpdatesData R P.N × Nat) (site : Fin P.N)
    (hv : (proposeSpin s.1.F s.1.rng site timeslice).1.1 = true)
    (hacc : 1 < delayedProb sm s.1 s.2.1 s.2.2 timeslice site
          (proposeSpin s.1.F s.1.rng site timeslice).1.2 ∨
      (rw.rand01 (proposeSpin s.1.F s.1.rng site timeslice).2).1
        < delayedProb sm s.1 s.2.1 s.2.2 timeslice site
            (proposeSpin s.1.F s.1.rng site timeslice).1.2)
    (hst : updateInSlice_delayed_site sm rw proposeSpin timeslice s site = some s') :
    s'.1.F = s.1.F.set site timeslice (proposeSpin s.1.F s.1.rng site timeslice).1.2 ∧
    s'.1.phiCosh = setEntry s.1.phiCosh site timeslice
      (sm.cosh (P.dtau * normPhi sm (proposeSpin s.1.F s.1.rng site timeslice).1.2)) ∧
    s'.1.phiSinh = setEntry s.1.phiSinh site timeslice
      (sm.sinh (P.dtau * normPhi sm (proposeSpin s.1.F s.1.rng site timeslice).1.2)
        / normPhi sm (proposeSpin s.1.F s.1.rng site timeslice).1.2) := by
  unfold updateInSlice_delayed_site at hst
  have hv' : ¬ (proposeSpin s.1.F s.1.rng site timeslice).1.1 = false := by simp [hv]
  simp only [if_neg hv'] at hst
  have ht := acceptTest_eq_true rw _ _ hacc
  simp only [ht, if_true] at hst
  cases hg : armaInv (delayedMj s.1.g s.2.1 s.2.2 site
      (get_deltanonzero sm s.1 (proposeSpin s.1.F s.1.rng site timeslice).1.2 timeslice site)) with
  | none => rw [hg] at hst; simp at hst
  | some Minv =>
    rw [hg] at hst
    simp only [Option.map_some', Option.some.injEq] at hst
    subst hst
    exact ⟨rfl, rfl, rfl⟩

theorem cacheConsistent_of_eq {G : Type} (sm : StdMath R) {P : Params R} (st st' : State R G P)
    (hF : st'.F = st.F) (hc : st'.phiCosh = st.phiCosh) (hs : st'.phiSinh = st.phiSinh)
    (h : CacheConsistent sm st) : CacheConsistent sm st' := by
  intro site hsite k hk
  rw [hF, hc, hs]
  exact h site hsite k hk

theorem cacheConsistent_acceptField {G : Type} (sm : StdMath R) {P : Params R}
    (st : State R G P) (site timeslice : Nat) (newphi : Phi R) (h : CacheConsistent sm st) :
    CacheConsistent sm (acceptField sm st site timeslice newphi) := by
  intro s hs k hk
  unfold acceptField
  simp only [setEntry_apply, getPhi_set]
  by_cases hc : s = site ∧ k = timeslice
  · simp only [if_pos hc, and_self]
  · simp only [if_neg hc]
    exact h s hs k hk

theorem woodbury_site_consistent {G : Type} (sm : StdMath R) (rw : RngWrapper R G)
    {P : Params R} (proposeSpin : ProposeSpin R G) (timeslice : Nat)
    (st st' : State R G P) (site : Fin P.N) (h : CacheConsistent sm st)
    (hst : updateInSlice_woodbury_site sm rw proposeSpin timeslice st site = some st') :
    CacheConsistent sm st' := by
  unfold updateInSlice_woodbury_site at hst
  by_cases hv : (proposeSpin st.F st.rng site timeslice).1.1 = false
  · rw [if_pos hv] at hst
    simp only [Option.some.injEq] at hst
    subst hst
    exact cacheConsistent_of_eq sm st _ rfl rfl rfl h
  · rw [if_neg hv] at hst
    simp only at hst
    split at hst
    · cases hg : woodburyGreen st.g site
          (get_deltanonzero sm st (proposeSpin st.F st.rng site timeslice).1.2
            timeslice site) with
      | none => rw [hg] at hst; simp at hst
      | some g' =>
        rw [hg] at hst
        simp only [Option.map_some', Option.some.injEq] at hst
        subst hst
        refine cacheConsistent_of_eq sm (acceptField sm st site timeslice
          (proposeSpin st.F st.rng site timeslice).1.2) _ rfl rfl rfl ?_
        exact cacheConsistent_acceptField sm st _ _ _ h
    · simp only [Option.some.injEq] at hst
      subst hst
      exact cacheConsistent_of_eq sm st _ rfl rfl rfl h

theorem iterative_site_consistent {G : Type} (sm : StdMath R) (rw : RngWrapper R G)
    {P : Params R} (proposeSpin : ProposeSpin R G) (timeslice : Nat)
    (st : State R G P) (site : Fin P.N) (h : CacheConsistent sm st) :
    CacheConsistent sm (updateInSlice_iterative_site sm rw proposeSpin timeslice st site) := by
  unfold updateInSlice_iterative_site
  by_cases hv : (proposeSpin st.F st.rng site timeslice).1.1 = false
  · rw [if_pos hv]
    exact cacheConsistent_of_eq sm st _ rfl rfl rfl h
  · rw [if_neg hv]
    simp only
    split
    · refine cacheConsistent_of_eq sm (acceptField sm st site timeslice
        (proposeSpin st.F st.rng site timeslice).1.2) _ rfl rfl rfl ?_
      exact cacheConsistent_acceptField sm st _ _ _ h
    · exact cacheConsistent_of_eq sm st _ rfl rfl rfl h

theorem delayed_site_consistent {G : Type} (sm : StdMath R) (rw : RngWrapper R G)
    {P : Params R} (proposeSpin : ProposeSpin R G) (timeslice : Nat)
    (s s' : State R G P × DelayedUpdatesData R P.N × Nat) (site : Fin P.N)
    (h : CacheConsistent sm s.1)
    (hst : updateInSlice_delayed_site sm rw proposeSpin timeslice s site = some s') :
    CacheConsistent sm s'.1 := by
  unfold updateInSlice_delayed_site at hst
  by_cases hv : (proposeSpin s.1.F s.1.rng site timeslice).1.1 = false
  · simp only [if_pos hv, Option.some.injEq] at hst
    subst hst
    exact cacheConsistent_of_eq sm s.1 _ rfl rfl rfl h
  · simp only [if_neg hv] at hst
    split at hst
    · cases hg : armaInv (delayedMj s.1.g s.2.1 s.2.2 site
          (get_deltanonzero sm s.1 (proposeSpin s.1.F s.1.rng site timeslice).1.2
            timeslice site)) with
      | none => rw [hg] at hst; simp at hst
      | some Minv =>
        rw [hg] at hst
        simp only [Option.map_some', Option.some.injEq] at hst
        subst hst
        refine cacheConsistent_of_eq sm (acceptField sm s.1 site timeslice
          (proposeSpin s.1.F s.1.rng site timeslice).1.2) _ rfl rfl rfl ?_
        exact cacheConsistent_acceptField sm s.1 _ _ _ h
    · simp only [Option.some.injEq] at hst
      subst hst
      exact cacheConsistent_of_eq sm s.1 _ rfl rfl rfl h

theorem foldlM_consistent {G : Type} (sm : StdMath R) {P : Params R} {α : Type}
    (f : State R G P → α → Option (State R G P))
    (hf : ∀ st st' a, CacheConsistent sm st → f st a = some st' → CacheConsistent sm st') :
    ∀ (l : List α) (st st' : State R G P), CacheConsistent sm st →
      l.foldlM f st = some st' → CacheConsistent sm st' := by
  intro l
  induction l with
  | nil =>
    intro st st' h hst
    simp only [List.foldlM_nil] at hst
    cases hst
    exact h
  | cons a l ih =>
    intro st st' h hst
    rw [List.foldlM_cons] at hst
    cases hfa : f st a with
    | none => rw [hfa] at hst; cases hst
    | some st1 =>
      rw [hfa] at hst
      exact ih st1 st' (hf st st1 a h hfa) hst

theorem foldl_consistent {G : Type} (sm : StdMath R) {P : Params R} {α : Type}
    (f : State R G P → α → State R G P)
    (hf : ∀ st a, CacheConsistent sm st → CacheConsistent sm (f st a)) :
    ∀ (l : List α) (st : State R G P), CacheConsistent sm st →
      CacheConsistent sm (l.foldl f st) := by
  intro l
  induction l with
  | nil => intro st h; exact h
  | cons a l ih => intro st h; exact ih (f st a) (hf st a h)

theorem updateInSlice_woodbury_consistent {G : Type} (sm : StdMath R) (rw : RngWrapper R G)
    {P : Params R} (proposeSpin : ProposeSpin R G) (timeslice : Nat)
    (st st' : State R G P) (h : CacheConsistent sm st)
    (hst : updateInSlice_woodbury sm rw proposeSpin timeslice st = some st') :
    CacheConsistent sm st' := by
  unfold updateInSlice_woodbury at hst
  cases hf : (List.finRange P.N).foldlM
      (updateInSlice_woodbury_site sm rw proposeSpin timeslice)
      { st with lastAccRatioLocal := 0 } with
  | none => rw [hf] at hst; cases hst
  | some s1 =>
    rw [hf] at hst
    simp only [Option.map_some', Option.some.injEq] at hst
    subst hst
    have h0 : CacheConsistent sm ({ st with lastAccRatioLocal := 0 } : State R G P) :=
      cacheConsistent_of_eq sm st _ rfl rfl rfl h
    have h1 := foldlM_consistent sm _
      (fun a b c hc hs => woodbury_site_consistent sm rw proposeSpin timeslice a b c hc hs)
      _ _ _ h0 hf
    exact cacheConsistent_of_eq sm s1 _ rfl rfl rfl h1

theorem updateInSlice_iterative_consistent {G : Type} (sm : StdMath R) (rw : RngWrapper R G)
    {P : Params R} (proposeSpin : ProposeSpin R G) (timeslice : Nat)
    (st : State R G P) (h : CacheConsistent sm st) :
    CacheConsistent sm (updateInSlice_iterative sm rw proposeSpin timeslice st) := by
  unfold updateInSlice_iterative
  have h0 : CacheConsistent sm ({ st with lastAccRatioLocal := 0 } : State R G P) :=
    cacheConsistent_of_eq sm st _ rfl rfl rfl h
  have h1 := foldl_consistent sm _
    (fun a c hc => iterative_site_consistent sm rw proposeSpin timeslice a c hc)
    (List.finRange P.N) _ h0
  exact cacheConsistent_of_eq sm _ _ rfl rfl rfl h1

theorem delayedInner_consistent {G : Type} (sm : StdMath R) (rw : RngWrapper R G)
    {P : Params R} (proposeSpin : ProposeSpin R G) (timeslice delayStepsNow : Nat) :
    ∀ (fuel site : Nat) (s : State R G P × DelayedUpdatesData R P.N × Nat)
      (site' : Nat) (s' : State R G P × DelayedUpdatesData R P.N × Nat),
      CacheConsistent sm s.1 →
      delayedInner sm rw proposeSpin timeslice delayStepsNow fuel site s
        = some (some (site', s')) →
      CacheConsistent sm s'.1 := by
  intro fuel
  induction fuel with
  | zero =>
    intro site s site' s' h hst
    unfold delayedInner at hst
    split at hst
    · cases hst
    · simp only [Option.some.injEq, Prod.mk.injEq] at hst
      rw [← hst.2]
      exact h
  | succ fuel ih =>
    intro site s site' s' h hst
    unfold delayedInner at hst
    split at hst
    · rename_i hc
      simp only at hst
      cases hstep : updateInSlice_delayed_site sm rw proposeSpin timeslice s ⟨site, hc.2⟩ with
      | none => rw [hstep] at hst; simp at hst
      | some s1 =>
        rw [hstep] at hst
        exact ih (site + 1) s1 site' s'
          (delayed_site_consistent sm rw proposeSpin timeslice s s1 _ h hstep) hst
    · simp only [Option.some.injEq, Prod.mk.injEq] at hst
      rw [← hst.2]
      exact h

theorem delayedOuter_consistent {G : Type} (sm : StdMath R) (rw : RngWrapper R G)
    {P : Params R} (proposeSpin : ProposeSpin R G) (timeslice delaySteps : Nat) :
    ∀ (fuel site : Nat) (s : State R G P × DelayedUpdatesData R P.N) (st' : State R G P),
      CacheConsistent sm s.1 →
      delayedOuter sm rw proposeSpin timeslice delaySteps fuel site s = some (some st') →
      CacheConsistent sm st' := by
  intro fuel
  induction fuel with
  | zero =>
    intro site s st' h hst
    unfold delayedOuter at hst
    split at hst
    · cases hst
    · simp only [Option.some.injEq] at hst
      rw [← hst]
      exact h
  | succ fuel ih =>
    intro site s st' h hst
    unfold delayedOuter at hst
    split at hst
    · simp only at hst
      cases hin : delayedInner sm rw proposeSpin timeslice (min delaySteps (P.N - site))
          (fuel + 1) site (s.1, s.2, 0) with
      | none => rw [hin] at hst; simp at hst
      | some r =>
        cases r with
        | none => rw [hin] at hst; simp at hst
        | some r1 =>
          obtain ⟨site1, s1⟩ := r1
          rw [hin] at hst
          simp only at hst
          have h1 : CacheConsistent sm s1.1 :=
            delayedInner_consistent sm rw proposeSpin timeslice _ _ _ _ _ _ h hin
          refine ih site1 _ st' ?_ hst
          simp only
          split
          · exact cacheConsistent_of_eq sm s1.1 _ rfl rfl rfl h1
          · exact h1
    · simp only [Option.some.injEq] at hst
      rw [← hst]
      exact h

theorem updateInSlice_delayed_consistent {G : Type} (sm : StdMath R) (rw : RngWrapper R G)
    {P : Params R} (proposeSpin : ProposeSpin R G) (timeslice delaySteps fuel : Nat)
    (st st' : State R G P) (dud : DelayedUpdatesData R P.N) (h : CacheConsistent sm st)
    (hst : updateInSlice_delayed sm rw proposeSpin timeslice delaySteps fuel st dud
      = some (some st')) :
    CacheConsistent sm st' := by
  unfold updateInSlice_delayed at hst
  cases hf : delayedOuter sm rw proposeSpin timeslice delaySteps fuel 0
      ({ st with lastAccRatioLocal := 0 }, dud) with
  | none => rw [hf] at hst; cases hst
  | some r =>
    cases r with
    | none => rw [hf] at hst; simp at hst
    | some s1 =>
      rw [hf] at hst
      simp only [Option.map_some', Option.some.injEq] at hst
      subst hst
      have h0 : CacheConsistent sm ({ st with lastAccRatioLocal := 0 } : State R G P) :=
        cacheConsistent_of_eq sm st _ rfl rfl rfl h
      have h1 := delayedOuter_consistent sm rw proposeSpin timeslice delaySteps fuel 0
        ({ st with lastAccRatioLocal := 0 }, dud) s1 h0 hf
      exact cacheConsistent_of_eq sm s1 _ rfl rfl rfl h1

/-- C8. After a proposal `newphi` is accepted at `(site, timeslice)` by any of the three update
methods, `phi0/phi1/phi2(site, timeslice)` are the components of `newphi`,
`phiCosh(site, timeslice) = cosh(dtau*|newphi|)`,
`phiSinh(site, timeslice) = sinh(dtau*|newphi|)/|newphi|`, and every other entry of the five
arrays is unchanged; and if the caches are consistent with the field before
`updateInSlice_iterative`, `updateInSlice_woodbury` or `updateInSlice_delayed`, they are
consistent in the state the routine returns. -/
theorem accepted_update_cache_consistent {G : Type} (sm : StdMath R) (rw : RngWrapper R G)
    {P : Params R} (proposeSpin : ProposeSpin R G) (timeslice : Nat) :
    (∀ (st : State R G P) (site : Fin P.N),
      (proposeSpin st.F st.rng site timeslice).1.1 = true →
      (1 < iterativeProb sm st timeslice site (proposeSpin st.F st.rng site timeslice).1.2 ∨
        (rw.rand01 (proposeSpin st.F st.rng site timeslice).2).1
          < iterativeProb sm st timeslice site (proposeSpin st.F st.rng site timeslice).1.2) →
      (updateInSlice_iterative_site sm rw proposeSpin timeslice st site).F
        = st.F.set site timeslice (proposeSpin st.F st.rng site timeslice).1.2 ∧
      (updateInSlice_iterative_site sm rw proposeSpin timeslice st site).phiCosh
        = setEntry st.phiCosh site timeslice
          (sm.cosh (P.dtau * normPhi sm (proposeSpin st.F st.rng site timeslice).1.2)) ∧
      (updateInSlice_iterative_site sm rw proposeSpin timeslice st site).phiSinh
        = setEntry st.phiSinh site timeslice
          (sm.sinh (P.dtau * normPhi sm (proposeSpin st.F st.rng site timeslice).1.2)
            / normPhi sm (proposeSpin st.F st.rng site timeslice).1.2)) ∧
    (∀ (st st' : State R G P) (site : Fin P.N),
      (proposeSpin st.F st.rng site timeslice).1.1 = true →
      (1 < woodburyProb sm st timeslice site (proposeSpin st.F st.rng site timeslice).1.2 ∨
        (rw.rand01 (proposeSpin st.F st.rng site timeslice).2).1
          < woodburyProb sm st timeslice site (proposeSpin st.F st.rng site timeslice).1.2) →
      updateInSlice_woodbury_site sm rw proposeSpin timeslice st site = some st' →
      st'.F = st.F.set site timeslice (proposeSpin st.F st.rng site timeslice).1.2 ∧
      st'.phiCosh = setEntry st.phiCosh site timeslice
        (sm.cosh (P.dtau * normPhi sm (proposeSpin st.F st.rng site timeslice).1.2)) ∧
      st'.phiSinh = setEntry st.phiSinh site timeslice
        (sm.sinh (P.dtau * normPhi sm (proposeSpin st.F st.rng site timeslice).1.2)
          / normPhi sm (proposeSpin st.F st.rng site timeslice).1.2)) ∧
    (∀ (s s' : State R G P × DelayedUpdatesData R P.N × Nat) (site : Fin P.N),
      (proposeSpin s.1.F s.1.rng site timeslice).1.1 = true →
      (1 < delayedProb sm s.1 s.2.1 s.2.2 timeslice site
            (proposeSpin s.1.F s.1.rng site timeslice).1.2 ∨
        (rw.rand01 (proposeSpin s.1.F s.1.rng site timeslice).2).1
          < delayedProb sm s.1 s.2.1 s.2.2 timeslice site
              (proposeSpin s.1.F s.1.rng site timeslice).1.2) →
      updateInSlice_delayed_site sm rw proposeSpin timeslice s site = some s' →
      s'.1.F = s.1.F.set site timeslice (proposeSpin s.1.F s.1.rng site timeslice).1.2 ∧
      s'.1.phiCosh = setEntry s.1.phiCosh site timeslice
        (sm.cosh (P.dtau * normPhi sm (proposeSpin s.1.F s.1.rng site timeslice).1.2)) ∧
      s'.1.phiSinh = setEntry s.1.phiSinh site timeslice
        (sm.sinh (P.dtau * normPhi sm (proposeSpin s.1.F s.1.rng site timeslice).1.2)
          / normPhi sm (proposeSpin s.1.F s.1.rng site timeslice).1.2)) ∧
    (∀ st : State R G P, CacheConsistent sm st →
      CacheConsistent sm (updateInSlice_iterative sm rw proposeSpin timeslice st)) ∧
    (∀ st st' : State R G P, CacheConsistent sm st →
      updateInSlice_woodbury sm rw proposeSpin timeslice st = some st' →
      CacheConsistent sm st') ∧
    (∀ (delaySteps fuel : Nat) (st st' : State R G P) (dud : DelayedUpdatesData R P.N),
      CacheConsistent sm st →
      updateInSlice_delayed sm rw proposeSpin timeslice delaySteps fuel st dud
        = some (some st') →
      CacheConsistent sm st') :=
  ⟨fun st site hv hacc => iterative_site_accepted sm rw proposeSpin timeslice st site hv hacc,
   fun st st' site hv hacc hst =>
     woodbury_site_accepted sm rw proposeSpin timeslice st st' site hv hacc hst,
   fun s s' site hv hacc hst =>
     delayed_site_accepted sm rw proposeSpin timeslice s s' site hv hacc hst,
   fun st h => updateInSlice_iterative_consistent sm rw proposeSpin timeslice st h,
   fun st st' h hst => updateInSlice_woodbury_consistent sm rw proposeSpin timeslice st st' h hst,
   fun delaySteps fuel st st' dud h hst =>
     updateInSlice_delayed_consistent sm rw proposeSpin timeslice delaySteps fuel st st' dud
       h hst⟩

theorem accepted_update_cache_consistent_witness :
    ((exPropose exState.F exState.rng exSite 1).1.1 = true ∧
      (exRngLow.rand01 (exPropose exState.F exState.rng exSite 1).2).1
        < iterativeProb exMath exState 1 exSite
            (exPropose exState.F exState.rng exSite 1).1.2) ∧
    (updateInSlice_iterative_site exMath exRngLow exPropose 1 exState exSite).F
        = exState.F.set exSite 1 (exPropose exState.F exState.rng exSite 1).1.2 ∧
    (updateInSlice_iterative_site exMath exRngLow exPropose 1 exState exSite).phiCosh
        = setEntry exState.phiCosh exSite 1
          (exMath.cosh (exParams1.dtau
            * normPhi exMath (exPropose exState.F exState.rng exSite 1).1.2)) ∧
    (updateInSlice_iterative_site exMath exRngLow exPropose 1 exState exSite).phiSinh
        = setEntry exState.phiSinh exSite 1
          (exMath.sinh (exParams1.dtau
              * normPhi exMath (exPropose exState.F exState.rng exSite 1).1.2)
            / normPhi exMath (exPropose exState.F exState.rng exSite 1).1.2) :=
  ⟨by decide!,
   (accepted_update_cache_consistent exMath exRngLow exPropose 1).1 exState exSite
     (by decide) (Or.inr (by decide!))⟩

/-! ## Theorems: roll-back of rejected global moves -/

theorem sameBackup_refl {G U : Type} {P : Params R} (s : GlobalState R G U P) :
    SameBackup s s :=
  ⟨rfl, rfl, rfl, rfl, rfl, rfl, rfl, rfl, rfl, rfl, rfl⟩

theorem sameBackup_trans {G U : Type} {P : Params R} {a b c : GlobalState R G U P}
    (h1 : SameBackup a b) (h2 : SameBackup b c) : SameBackup a c := by
  obtain ⟨a1, a2, a3, a4, a5, a6, a7, a8, a9, a10, a11⟩ := h1
  obtain ⟨b1, b2, b3, b4, b5, b6, b7, b8, b9, b10, b11⟩ := h2
  exact ⟨b1.trans a1, b2.trans a2, b3.trans a3, b4.trans a4, b5.trans a5, b6.trans a6,
    b7.trans a7, b8.trans a8, b9.trans a9, b10.trans a10, b11.trans a11⟩

theorem wolffTryNeighbor_sameBackup {G U : Type} (sm : StdMath R) (rw : RngWrapper R G)
    {P : Params R} (rd : Phi R) (factor : R) (site timeslice : Nat)
    (s : GlobalState R G U P × Nat) (neigh : Nat × Nat) :
    SameBackup s.1 (wolffTryNeighbor sm rw rd factor site timeslice s neigh).1 := by
  unfold wolffTryNeighbor
  simp only
  split
  · split
    · split
      · exact ⟨rfl, rfl, rfl, rfl, rfl, rfl, rfl, rfl, rfl, rfl, rfl⟩
      · exact ⟨rfl, rfl, rfl, rfl, rfl, rfl, rfl, rfl, rfl, rfl, rfl⟩
    · exact sameBackup_refl _
  · exact sameBackup_refl _

theorem foldl_sameBackup {G U : Type} {P : Params R} {α : Type}
    (f : GlobalState R G U P × Nat → α → GlobalState R G U P × Nat)
    (hf : ∀ s a, SameBackup s.1 (f s a).1) :
    ∀ (l : List α) (s : GlobalState R G U P × Nat), SameBackup s.1 (l.foldl f s).1 := by
  intro l
  induction l with
  | nil => intro s; exact sameBackup_refl _
  | cons a l ih => intro s; exact sameBackup_trans (hf s a) (ih (f s a))

theorem wolffVisit_sameBackup {G U : Type} (sm : StdMath R) (rw : RngWrapper R G)
    {P : Params R} (rd : Phi R) (site timeslice : Nat) (s : GlobalState R G U P × Nat) :
    SameBackup s.1 (wolffVisit sm rw rd site timeslice s).1 := by
  unfold wolffVisit
  exact sameBackup_trans
    (foldl_sameBackup _ (fun s a => wolffTryNeighbor_sameBackup sm rw rd _ site timeslice s a) _ s)
    (foldl_sameBackup _ (fun s a => wolffTryNeighbor_sameBackup sm rw rd _ site timeslice s a) _ _)

theorem wolffGrow_sameBackup {G U : Type} (sm : StdMath R) (rw : RngWrapper R G)
    {P : Params R} (rd : Phi R) :
    ∀ (fuel : Nat) (s s' : GlobalState R G U P × Nat),
      wolffGrow sm rw rd fuel s = some s' → SameBackup s.1 s'.1 := by
  intro fuel
  induction fuel with
  | zero => intro s s' h; simp [wolffGrow] at h
  | succ fuel ih =>
    intro s s' h
    unfold wolffGrow at h
    split at h
    · simp only [Option.some.injEq] at h
      rw [← h]
      exact sameBackup_refl _
    · rename_i top rest hns
      simp only at h
      have h1 : SameBackup s.1
          (({ s.1 with gmd := { s.1.gmd with next_sites := rest } } : GlobalState R G U P)) :=
        ⟨rfl, rfl, rfl, rfl, rfl, rfl, rfl, rfl, rfl, rfl, rfl⟩
      have h2 := wolffVisit_sameBackup sm rw rd top.1 top.2
        (({ s.1 with gmd := { s.1.gmd with next_sites := rest } }, s.2) :
          GlobalState R G U P × Nat)
      split at h
      · simp only [Option.some.injEq] at h
        rw [← h]
        exact sameBackup_trans h1 h2
      · exact sameBackup_trans (sameBackup_trans h1 h2) (ih _ _ h)

theorem flipPhi_sameBackup {G U : Type} (sm : StdMath R) {P : Params R} (rd : Phi R)
    (st : GlobalState R G U P) (site timeslice : Nat) :
    SameBackup st (flipPhi sm rd st site timeslice) ∧
    (flipPhi sm rd st site timeslice).g = st.g ∧
    (flipPhi sm rd st site timeslice).UdVStorage = st.UdVStorage :=
  ⟨⟨rfl, rfl, rfl, rfl, rfl, rfl, rfl, rfl, rfl, rfl, rfl⟩, rfl, rfl⟩

theorem attemptGlobalShiftMove_rejected {G U : Type} (sm : StdMath R) (rw : RngWrapper R G)
    {P : Params R} (env : GlobalEnv R G U P) (st : GlobalState R G U P)
    (hrej : (attemptGlobalShiftMove sm rw env st).1 = false) :
    (attemptGlobalShiftMove sm rw env st).2.F = st.F ∧
    (attemptGlobalShiftMove sm rw env st).2.phiCosh = st.phiCosh ∧
    (attemptGlobalShiftMove sm rw env st).2.phiSinh = st.phiSinh ∧
    (attemptGlobalShiftMove sm rw env st).2.g = st.g ∧
    (attemptGlobalShiftMove sm rw env st).2.UdVStorage = st.UdVStorage ∧
    (attemptGlobalShiftMove sm rw env st).2.acceptedGlobalShifts = st.acceptedGlobalShifts ∧
    (attemptGlobalShiftMove sm rw env st).2.attemptedGlobalShifts
      = st.attemptedGlobalShifts + 1 ∧
    (attemptGlobalShiftMove sm rw env st).2.acceptedWolffClusterUpdates
      = st.acceptedWolffClusterUpdates ∧
    (attemptGlobalShiftMove sm rw env st).2.attemptedWolffClusterUpdates
      = st.attemptedWolffClusterUpdates ∧
    (attemptGlobalShiftMove sm rw env st).2.addedWolffClusterSize
      = st.addedWolffClusterSize := by
  unfold attemptGlobalShiftMove at hrej ⊢
  simp only at hrej ⊢
  split
  · rename_i h
    rw [if_pos h] at hrej
    cases hrej
  · exact ⟨rfl, rfl, rfl, rfl, rfl, rfl, rfl, rfl, rfl, rfl⟩

theorem attemptWolffClusterUpdate_rejected {G U : Type} (sm : StdMath R) (rw : RngWrapper R G)
    {P : Params R} (env : GlobalEnv R G U P) (fuel : Nat) (st st' : GlobalState R G U P)
    (hrej : attemptWolffClusterUpdate sm rw env fuel st = some (false, st')) :
    st'.F = st.F ∧ st'.phiCosh = st.phiCosh ∧ st'.phiSinh = st.phiSinh ∧ st'.g = st.g ∧
    st'.UdVStorage = st.UdVStorage ∧
    st'.acceptedWolffClusterUpdates = st.acceptedWolffClusterUpdates ∧
    st'.attemptedWolffClusterUpdates = st.attemptedWolffClusterUpdates + 1 ∧
    st'.acceptedGlobalShifts = st.acceptedGlobalShifts ∧
    st'.attemptedGlobalShifts = st.attemptedGlobalShifts ∧
    st'.addedWolffClusterSize = st.addedWolffClusterSize := by
  unfold attemptWolffClusterUpdate at hrej
  simp only at hrej
  split at hrej
  · cases hrej
  · rename_i st5 cluster_size hgrow
    have hsb := wolffGrow_sameBackup sm rw _ fuel _ _ hgrow
    obtain ⟨b1, b2, b3, b4, b5, b6, b7, b8, b9, b10, _⟩ := hsb
    simp only at b1 b2 b3 b4 b5 b6 b7 b8 b9 b10
    split at hrej
    · simp at hrej
    · simp only [Option.some.injEq, Prod.mk.injEq, true_and] at hrej
      rw [← hrej]
      unfold restoreFromBackup
      simp only
      refine ⟨b1, b2, b3, b4, b5, ?_, ?_, ?_, ?_, ?_⟩
      · exact b8
      · exact congrArg (· + 1) b9
      · exact b6
      · exact b7
      · exact b10

/-- C7. Whenever `attemptGlobalShiftMove` or `attemptWolffClusterUpdate` rejects the move,
`phi0`, `phi1`, `phi2`, `phiCosh`, `phiSinh`, the Green's function `g` and `UdVStorage` are on
return equal to their values on entry; of the counters only the attempted-counter of the move
has changed (by one). -/
theorem rejected_global_move_frame {G U : Type} (sm : StdMath R) (rw : RngWrapper R G)
    {P : Params R} (env : GlobalEnv R G U P) :
    (∀ st : GlobalState R G U P, (attemptGlobalShiftMove sm rw env st).1 = false →
      (attemptGlobalShiftMove sm rw env st).2.F = st.F ∧
      (attemptGlobalShiftMove sm rw env st).2.phiCosh = st.phiCosh ∧
      (attemptGlobalShiftMove sm rw env st).2.phiSinh = st.phiSinh ∧
      (attemptGlobalShiftMove sm rw env st).2.g = st.g ∧
      (attemptGlobalShiftMove sm rw env st).2.UdVStorage = st.UdVStorage ∧
      (attemptGlobalShiftMove sm rw env st).2.acceptedGlobalShifts = st.acceptedGlobalShifts ∧
      (attemptGlobalShiftMove sm rw env st).2.attemptedGlobalShifts
        = st.attemptedGlobalShifts + 1 ∧
      (attemptGlobalShiftMove sm rw env st).2.acceptedWolffClusterUpdates
        = st.acceptedWolffClusterUpdates ∧
      (attemptGlobalShiftMove sm rw env st).2.attemptedWolffClusterUpdates
        = st.attemptedWolffClusterUpdates ∧
      (attemptGlobalShiftMove sm rw env st).2.addedWolffClusterSize
        = st.addedWolffClusterSize) ∧
    (∀ (fuel : Nat) (st st' : GlobalState R G U P),
      attemptWolffClusterUpdate sm rw env fuel st = some (false, st') →
      st'.F = st.F ∧ st'.phiCosh = st.phiCosh ∧ st'.phiSinh = st.phiSinh ∧ st'.g = st.g ∧
      st'.UdVStorage = st.UdVStorage ∧
      st'.acceptedWolffClusterUpdates = st.acceptedWolffClusterUpdates ∧
      st'.attemptedWolffClusterUpdates = st.attemptedWolffClusterUpdates + 1 ∧
      st'.acceptedGlobalShifts = st.acceptedGlobalShifts ∧
      st'.attemptedGlobalShifts = st.attemptedGlobalShifts ∧
      st'.addedWolffClusterSize = st.addedWolffClusterSize) :=
  ⟨fun st h => attemptGlobalShiftMove_rejected sm rw env st h,
   fun fuel st st' h => attemptWolffClusterUpdate_rejected sm rw env fuel st st' h⟩

theorem rejected_global_move_frame_witness :
    ((attemptGlobalShiftMove exMath exRng exEnv exGlobalState).1 = false ∧
      (attemptGlobalShiftMove exMath exRng exEnv exGlobalState).2.F = exGlobalState.F ∧
      (attemptGlobalShiftMove exMath exRng exEnv exGlobalState).2.g = exGlobalState.g ∧
      (attemptGlobalShiftMove exMath exRng exEnv exGlobalState).2.UdVStorage
        = exGlobalState.UdVStorage) ∧
    ∃ st', attemptWolffClusterUpdate exMath exRng exEnv 5 exGlobalState = some (false, st') ∧
      st'.F = exGlobalState.F ∧ st'.g = exGlobalState.g ∧
      st'.UdVStorage = exGlobalState.UdVStorage := by
  have hs : (attemptGlobalShiftMove exMath exRng exEnv exGlobalState).1 = false := by decide!
  have hw : (attemptWolffClusterUpdate exMath exRng exEnv 5 exGlobalState).map Prod.fst
      = some false := by decide!
  have h := (rejected_global_move_frame exMath exRng exEnv).1 exGlobalState hs
  refine ⟨⟨hs, h.1, h.2.2.2.1, h.2.2.2.2.1⟩, ?_⟩
  obtain ⟨⟨b, st'⟩, h1, h2⟩ := Option.map_eq_some'.1 hw
  have hb : b = false := h2
  subst hb
  have k := (rejected_global_move_frame exMath exRng exEnv).2 5 exGlobalState st' h1
  exact ⟨st', h1, k.1, k.2.2.2.1, k.2.2.2.2.1⟩

/-! ## Theorems: checkerboard round trips -/

theorem foldl_comm_of_forall {α ι : Type} (f : α → ι → α) (g : α → α) (l : List ι)
    (h : ∀ a ∈ l, ∀ x, g (f x a) = f (g x) a) (x : α) :
    g (l.foldl f x) = l.foldl f (g x) := by
  induction l generalizing x with
  | nil => rfl
  | cons a t ih =>
    simp only [List.foldl_cons]
    rw [ih (fun b hb => h b (List.mem_cons_of_mem _ hb)), h a (List.mem_cons_self _ _)]

theorem foldl_round_trip {α ι : Type} (f g : α → ι → α) (l : List ι) (hn : l.Nodup)
    (hinv : ∀ a ∈ l, ∀ x, g (f x a) a = x)
    (hcomm : ∀ a ∈ l, ∀ b ∈ l, a ≠ b → ∀ x, g (f x b) a = f (g x a) b) (x : α) :
    l.foldl g (l.foldl f x) = x := by
  induction l generalizing x with
  | nil => rfl
  | cons a t ih =>
    have hnd := List.nodup_cons.1 hn
    simp only [List.foldl_cons]
    rw [foldl_comm_of_forall f (fun y => g y a) t
      (fun b hb y => hcomm a (List.mem_cons_self _ _) b (List.mem_cons_of_mem _ hb)
        (fun hab => hnd.1 (hab ▸ hb)) y),
      hinv a (List.mem_cons_self _ _)]
    exact ih hnd.2 (fun b hb => hinv b (List.mem_cons_of_mem _ hb))
      (fun b hb c hc => hcomm b (List.mem_cons_of_mem _ hb) c (List.mem_cons_of_mem _ hc)) x

theorem foldl_nested {α ι κ : Type} (f : α → ι → κ → α) (l1 : List ι) (l2 : List κ) (x : α) :
    l1.foldl (fun r a => l2.foldl (fun r2 b => f r2 a b) r) x
      = (l1.product l2).foldl (fun r p => f r p.1 p.2) x := by
  induction l1 generalizing x with
  | nil => rfl
  | cons a t ih =>
    rw [List.foldl_cons, ih,
      show (a :: t).product l2 = _ from List.product_cons a t l2,
      List.foldl_append, List.foldl_map]
    rfl

theorem foldl_add {α ι : Type} [Add α] (f : α → ι → α) (l : List ι)
    (h : ∀ a ∈ l, ∀ x y, f (x + y) a = f x a + f y a) (x y : α) :
    l.foldl f (x + y) = l.foldl f x + l.foldl f y := by
  induction l generalizing x y with
  | nil => rfl
  | cons a t ih =>
    simp only [List.foldl_cons]
    rw [h a (List.mem_cons_self _ _), ih (fun b hb => h b (List.mem_cons_of_mem _ hb))]

theorem LocalOn.comm {n k : Nat} {S S' : Nat → Prop} {T1 T2 : MatCpx R n k → MatCpx R n k}
    (h1 : LocalOn S T1) (h2 : LocalOn S' T2) (hd : ∀ x, S x → S' x → False)
    (A : MatCpx R n k) : T1 (T2 A) = T2 (T1 A) := by
  funext r
  by_cases hS : S r.val
  · have hS' : ¬ S' r.val := fun h => hd _ hS h
    rw [h2.1 (T1 A) r hS']
    exact h1.2 (T2 A) A (fun r' hr' => h2.1 A r' (fun h => hd _ hr' h)) r hS
  · rw [h1.1 (T2 A) r hS]
    by_cases hS' : S' r.val
    · exact (h2.2 (T1 A) A (fun r' hr' => h1.1 A r' (fun h => hd _ h hr')) r hS').symm
    · rw [h2.1 (T1 A) r hS', h2.1 A r hS', h1.1 A r hS]

theorem matRow_congr {n k : Nat} (A B : MatCpx R n k) (i : Nat)
    (h : ∀ r : Fin n, r.val = i → A r = B r) : matRow A i = matRow B i := by
  funext c
  unfold matRow
  by_cases hi : i < n
  · rw [dif_pos hi, dif_pos hi, h ⟨i, hi⟩ rfl]
  · rw [dif_neg hi, dif_neg hi]

theorem matRow_of_lt {n k : Nat} (A : MatCpx R n k) (r : Fin n) : matRow A r.val = A r := by
  funext c
  unfold matRow
  rw [dif_pos r.isLt]

theorem cb_santos_bondLeft_local {n k : Nat} (L : Nat) (bc : BC) (neigh : NeighDir)
    (ch sh : R) (i1 i2 : Nat) :
    LocalOn (fun x => x = santos_site L neigh i1 i2
        ∨ x = spaceNeigh L neigh (santos_site L neigh i1 i2))
      (fun A : MatCpx R n k => cb_santos_bondLeft L bc neigh ch sh A i1 i2) := by
  constructor
  · intro A r hr
    have h1 : r.val ≠ santos_site L neigh i1 i2 := fun h => hr (Or.inl h)
    have h2 : r.val ≠ spaceNeigh L neigh (santos_site L neigh i1 i2) := fun h => hr (Or.inr h)
    simp only [cb_santos_bondLeft, setRow, if_neg h1, if_neg h2]
  · intro A B hAB r hr
    have e1 := matRow_congr A B (santos_site L neigh i1 i2)
      (fun r hr => hAB r (Or.inl hr))
    have e2 := matRow_congr A B (spaceNeigh L neigh (santos_site L neigh i1 i2))
      (fun r hr => hAB r (Or.inr hr))
    simp only [cb_santos_bondLeft, setRow, e1, e2]
    by_cases h1 : r.val = santos_site L neigh i1 i2
    · simp only [if_pos h1]
    · simp only [if_neg h1]
      by_cases h2 : r.val = spaceNeigh L neigh (santos_site L neigh i1 i2)
      · simp only [if_pos h2]
      · simp only [if_neg h2]
        exact hAB r (by tauto)

theorem matRow_setRow_self {n k : Nat} (A : MatCpx R n k) {i : Nat} (hi : i < n)
    (v : Fin k → Cpx R) : matRow (setRow A i v) i = v := by
  funext c
  simp only [matRow, dif_pos hi, setRow, if_true]

theorem matRow_setRow_ne {n k : Nat} (A : MatCpx R n k) {i j : Nat} (h : i ≠ j)
    (v : Fin k → Cpx R) : matRow (setRow A j v) i = matRow A i := by
  funext c
  unfold matRow
  by_cases hi : i < n
  · simp only [dif_pos hi, setRow, if_neg h]
  · simp only [dif_neg hi]

theorem ofReal_mul' (x y : R) : Cpx.ofReal (x * y) = Cpx.ofReal x * Cpx.ofReal y := by
  ext <;> simp

theorem ofReal_neg' (x : R) : Cpx.ofReal (-x) = -Cpx.ofReal x := by
  ext <;> simp

theorem ofReal_one' : Cpx.ofReal (1 : R) = 1 := by
  ext <;> simp

theorem ofReal_sub' (x y : R) : Cpx.ofReal (x - y) = Cpx.ofReal x - Cpx.ofReal y := by
  ext <;> simp

theorem santos_b_sh_neg (L : Nat) (bc : BC) (neigh : NeighDir) (i1 : Nat) (sh : R) :
    santos_b_sh L bc neigh i1 (-sh) = -santos_b_sh L bc neigh i1 sh := by
  unfold santos_b_sh
  split_ifs <;> rfl

theorem santos_b_sh_sq (L : Nat) (bc : BC) (neigh : NeighDir) (i1 : Nat) (sh : R) :
    santos_b_sh L bc neigh i1 sh ^ 2 = sh ^ 2 := by
  unfold santos_b_sh
  split_ifs <;> ring

theorem cb_santos_bondLeft_inv {n k : Nat} (L : Nat) (bc : BC) (neigh : NeighDir)
    (ch sh : R) (i1 i2 : Nat) (hch : ch ^ 2 - sh ^ 2 = 1)
    (hi : santos_site L neigh i1 i2 < n)
    (hj : spaceNeigh L neigh (santos_site L neigh i1 i2) < n)
    (hij : santos_site L neigh i1 i2 ≠ spaceNeigh L neigh (santos_site L neigh i1 i2))
    (A : MatCpx R n k) :
    cb_santos_bondLeft L bc neigh ch (-sh) (cb_santos_bondLeft L bc neigh ch sh A i1 i2) i1 i2
      = A := by
  have hb : Cpx.ofReal ch * Cpx.ofReal ch
      - Cpx.ofReal (santos_b_sh L bc neigh i1 sh) * Cpx.ofReal (santos_b_sh L bc neigh i1 sh)
      = 1 := by
    rw [← ofReal_mul', ← ofReal_mul', ← ofReal_sub', ← ofReal_one']
    congr 1
    have := santos_b_sh_sq L bc neigh i1 sh
    linear_combination hch - this
  funext r
  funext c
  unfold cb_santos_bondLeft
  simp only [santos_b_sh_neg]
  generalize santos_b_sh L bc neigh i1 sh = b at hb
  generalize santos_site L neigh i1 i2 = i at hi hj hij
  generalize spaceNeigh L neigh i = j at hj hij
  rw [matRow_setRow_self _ hi, matRow_setRow_ne _ hij.symm, matRow_setRow_self _ hj]
  unfold setRow
  by_cases h1 : r.val = i
  · simp only [if_pos h1, rmul, ofReal_neg']
    have e : matRow A i c = A r c := by
      rw [← h1, matRow_of_lt]
    rw [e]
    linear_combination (A r c) * hb
  · simp only [if_neg h1]
    by_cases h2 : r.val = j
    · simp only [if_pos h2, rmul, ofReal_neg']
      have e : matRow A j c = A r c := by
        rw [← h2, matRow_of_lt]
      rw [e]
      linear_combination (A r c) * hb
    · simp only [if_neg h2]

theorem cb_santos_bondLeft_add {n k : Nat} (L : Nat) (bc : BC) (neigh : NeighDir)
    (ch sh : R) (i1 i2 : Nat) (A B : MatCpx R n k) :
    cb_santos_bondLeft L bc neigh ch sh (A + B) i1 i2
      = cb_santos_bondLeft L bc neigh ch sh A i1 i2
        + cb_santos_bondLeft L bc neigh ch sh B i1 i2 := by
  have hrow : ∀ i : Nat, ∀ c, matRow (A + B) i c = matRow A i c + matRow B i c := by
    intro i c
    unfold matRow
    by_cases hi : i < n
    · simp only [dif_pos hi, Matrix.add_apply]
    · simp only [dif_neg hi, add_zero]
  funext r
  funext c
  simp only [cb_santos_bondLeft, setRow, Matrix.add_apply, hrow, rmul]
  split_ifs
  · ring
  · ring
  · rfl

theorem assaad_b_sh_hor_neg (L : Nat) (bc : BC) (i1 : Nat) (sh : R) :
    assaad_b_sh_hor L bc i1 (-sh) = -assaad_b_sh_hor L bc i1 sh := by
  unfold assaad_b_sh_hor
  split_ifs <;> rfl

theorem assaad_b_sh_ver_neg (L : Nat) (bc : BC) (i2 : Nat) (sh : R) :
    assaad_b_sh_ver L bc i2 (-sh) = -assaad_b_sh_ver L bc i2 sh := by
  unfold assaad_b_sh_ver
  split_ifs <;> rfl

theorem assaad_b_sh_hor_sq (L : Nat) (bc : BC) (i1 : Nat) (sh : R) :
    assaad_b_sh_hor L bc i1 sh ^ 2 = sh ^ 2 := by
  unfold assaad_b_sh_hor
  split_ifs <;> ring

theorem assaad_b_sh_ver_sq (L : Nat) (bc : BC) (i2 : Nat) (sh : R) :
    assaad_b_sh_ver L bc i2 sh ^ 2 = sh ^ 2 := by
  unfold assaad_b_sh_ver
  split_ifs <;> ring

theorem ofReal_sq_sub_sq {ch b : R} (h : ch ^ 2 - b ^ 2 = 1) :
    Cpx.ofReal ch * Cpx.ofReal ch - Cpx.ofReal b * Cpx.ofReal b = (1 : Cpx R) := by
  rw [← ofReal_mul', ← ofReal_mul', ← ofReal_sub', ← ofReal_one']
  congr 1
  linear_combination h

theorem cb_assaad_plaquetteLeft_local {n k : Nat} (L : Nat) (bc : BC)
    (ch_hor sh_hor ch_ver sh_ver : R) (i1 i2 : Nat) :
    LocalOn (fun x => x = (plaquetteSites L i1 i2).1 ∨ x = (plaquetteSites L i1 i2).2.1
        ∨ x = (plaquetteSites L i1 i2).2.2.1 ∨ x = (plaquetteSites L i1 i2).2.2.2)
      (fun A : MatCpx R n k =>
        cb_assaad_plaquetteLeft L bc ch_hor sh_hor ch_ver sh_ver A i1 i2) := by
  unfold plaquetteSites
  constructor
  · intro A r hr
    simp only [not_or] at hr
    simp only [cb_assaad_plaquetteLeft, setRow, if_neg hr.1, if_neg hr.2.1, if_neg hr.2.2.1,
      if_neg hr.2.2.2]
  · intro A B hAB r hr
    have e1 := matRow_congr A B (coordsToSite L i1 i2) (fun r hr => hAB r (Or.inl hr))
    have e2 := matRow_congr A B (spaceNeigh L NeighDir.XPLUS (coordsToSite L i1 i2))
      (fun r hr => hAB r (Or.inr (Or.inl hr)))
    have e3 := matRow_congr A B (spaceNeigh L NeighDir.YPLUS (coordsToSite L i1 i2))
      (fun r hr => hAB r (Or.inr (Or.inr (Or.inl hr))))
    have e4 := matRow_congr A B
      (spaceNeigh L NeighDir.XPLUS (spaceNeigh L NeighDir.YPLUS (coordsToSite L i1 i2)))
      (fun r hr => hAB r (Or.inr (Or.inr (Or.inr hr))))
    simp only [cb_assaad_plaquetteLeft, setRow, e1, e2, e3, e4]
    split_ifs with h1 h2 h3 h4
    · rfl
    · rfl
    · rfl
    · rfl
    · exact absurd hr (by simp only [not_or]; exact ⟨h3, h2, h1, h4⟩)

theorem cb_assaad_plaquetteLeft_add {n k : Nat} (L : Nat) (bc : BC)
    (ch_hor sh_hor ch_ver sh_ver : R) (i1 i2 : Nat) (A B : MatCpx R n k) :
    cb_assaad_plaquetteLeft L bc ch_hor sh_hor ch_ver sh_ver (A + B) i1 i2
      = cb_assaad_plaquetteLeft L bc ch_hor sh_hor ch_ver sh_ver A i1 i2
        + cb_assaad_plaquetteLeft L bc ch_hor sh_hor ch_ver sh_ver B i1 i2 := by
  have hrow : ∀ i : Nat, ∀ c, matRow (A + B) i c = matRow A i c + matRow B i c := by
    intro i c
    unfold matRow
    by_cases hi : i < n
    · simp only [dif_pos hi, Matrix.add_apply]
    · simp only [dif_neg hi, add_zero]
  funext r
  funext c
  simp only [cb_assaad_plaquetteLeft, setRow, Matrix.add_apply, hrow, rmul]
  split_ifs
  · ring
  · ring
  · ring
  · ring
  · rfl

theorem cb_assaad_plaquetteLeft_inv {n k : Nat} (L : Nat) (bc : BC)
    (ch_hor sh_hor ch_ver sh_ver : R) (i1 i2 : Nat)
    (hh : ch_hor ^ 2 - sh_hor ^ 2 = 1) (hv : ch_ver ^ 2 - sh_ver ^ 2 = 1)
    (hi : (plaquetteSites L i1 i2).1 < n) (hj : (plaquetteSites L i1 i2).2.1 < n)
    (hk : (plaquetteSites L i1 i2).2.2.1 < n) (hl : (plaquetteSites L i1 i2).2.2.2 < n)
    (hij : (plaquetteSites L i1 i2).1 ≠ (plaquetteSites L i1 i2).2.1)
    (hik : (plaquetteSites L i1 i2).1 ≠ (plaquetteSites L i1 i2).2.2.1)
    (hil : (plaquetteSites L i1 i2).1 ≠ (plaquetteSites L i1 i2).2.2.2)
    (hjk : (plaquetteSites L i1 i2).2.1 ≠ (plaquetteSites L i1 i2).2.2.1)
    (hjl : (plaquetteSites L i1 i2).2.1 ≠ (plaquetteSites L i1 i2).2.2.2)
    (hkl : (plaquetteSites L i1 i2).2.2.1 ≠ (plaquetteSites L i1 i2).2.2.2)
    (A : MatCpx R n k) :
    cb_assaad_plaquetteLeft L bc ch_hor (-sh_hor) ch_ver (-sh_ver)
      (cb_assaad_plaquetteLeft L bc ch_hor sh_hor ch_ver sh_ver A i1 i2) i1 i2 = A := by
  have eh := ofReal_sq_sub_sq (show ch_hor ^ 2 - assaad_b_sh_hor L bc i1 sh_hor ^ 2 = 1 by
    rw [assaad_b_sh_hor_sq]; exact hh)
  have ev := ofReal_sq_sub_sq (show ch_ver ^ 2 - assaad_b_sh_ver L bc i2 sh_ver ^ 2 = 1 by
    rw [assaad_b_sh_ver_sq]; exact hv)
  unfold plaquetteSites at hi hj hk hl hij hik hil hjk hjl hkl
  simp only at hi hj hk hl hij hik hil hjk hjl hkl
  funext r
  funext c
  unfold cb_assaad_plaquetteLeft
  simp only [assaad_b_sh_hor_neg, assaad_b_sh_ver_neg]
  generalize assaad_b_sh_hor L bc i1 sh_hor = bh at eh
  generalize assaad_b_sh_ver L bc i2 sh_ver = bv at ev
  generalize spaceNeigh L NeighDir.XPLUS (spaceNeigh L NeighDir.YPLUS (coordsToSite L i1 i2))
    = l at hl hil hjl hkl
  generalize spaceNeigh L NeighDir.YPLUS (coordsToSite L i1 i2) = k' at hk hik hjk hkl
  generalize spaceNeigh L NeighDir.XPLUS (coordsToSite L i1 i2) = j at hj hij hjk hjl
  generalize coordsToSite L i1 i2 = i at hi hij hik hil
  rw [matRow_setRow_ne _ hik, matRow_setRow_ne _ hij, matRow_setRow_self _ hi,
    matRow_setRow_ne _ hjk, matRow_setRow_self _ hj, matRow_setRow_self _ hk,
    matRow_setRow_ne _ hkl.symm, matRow_setRow_ne _ hjl.symm, matRow_setRow_ne _ hil.symm,
    matRow_setRow_self _ hl]
  unfold setRow
  have key : ∀ x : Nat, r.val = x → matRow A x c = A r c := by
    intro x hx
    rw [← hx, matRow_of_lt]
  by_cases h1 : r.val = k'
  · have hr2 : r.val ≠ j := fun h => hjk (h.symm.trans h1)
    have hr3 : r.val ≠ i := fun h => hik (h.symm.trans h1)
    have hr4 : r.val ≠ l := fun h => hkl (h1.symm.trans h)
    simp only [if_pos h1, rmul, ofReal_neg', ofReal_mul']
    rw [key k' h1]
    linear_combination (A r c * (Cpx.ofReal ch_ver * Cpx.ofReal ch_ver
      - Cpx.ofReal bv * Cpx.ofReal bv)) * eh + (A r c) * ev
  · simp only [if_neg h1]
    by_cases h2 : r.val = j
    · simp only [if_pos h2, rmul, ofReal_neg', ofReal_mul']
      rw [key j h2]
      linear_combination (A r c * (Cpx.ofReal ch_ver * Cpx.ofReal ch_ver
        - Cpx.ofReal bv * Cpx.ofReal bv)) * eh + (A r c) * ev
    · simp only [if_neg h2]
      by_cases h3 : r.val = i
      · simp only [if_pos h3, rmul, ofReal_neg', ofReal_mul']
        rw [key i h3]
        linear_combination (A r c * (Cpx.ofReal ch_ver * Cpx.ofReal ch_ver
          - Cpx.ofReal bv * Cpx.ofReal bv)) * eh + (A r c) * ev
      · simp only [if_neg h3]
        by_cases h4 : r.val = l
        · simp only [if_pos h4, rmul, ofReal_neg', ofReal_mul']
          rw [key l h4]
          linear_combination (A r c * (Cpx.ofReal ch_ver * Cpx.ofReal ch_ver
            - Cpx.ofReal bv * Cpx.ofReal bv)) * eh + (A r c) * ev
        · simp only [if_neg h4]

theorem mem_stepTwo {s L x : Nat} (h : x ∈ stepTwo s L) : x < L ∧ x % 2 = s % 2 := by
  unfold stepTwo at h
  rw [List.mem_map] at h
  obtain ⟨t, ht, rfl⟩ := h
  rw [List.mem_range] at ht
  have := Nat.div_mul_le_self (L - s + 1) 2
  constructor <;> omega

theorem stepTwo_nodup (s L : Nat) : (stepTwo s L).Nodup := by
  unfold stepTwo
  refine List.Nodup.map ?_ (List.nodup_range _)
  intro a b hab
  simp only at hab
  omega

theorem coordsToSite_inj {L x y x' y' : Nat} (hx : x < L) (hx' : x' < L)
    (h : coordsToSite L x y = coordsToSite L x' y') : x = x' ∧ y = y' := by
  constructor
  · have := congrArg (· % L) h
    simp only [coordsToSite_mod _ hx, coordsToSite_mod _ hx'] at this
    exact this
  · have := congrArg (· / L) h
    simp only [coordsToSite_div _ hx, coordsToSite_div _ hx'] at this
    exact this

theorem spaceNeigh_xplus_coords {L x : Nat} (y : Nat) (hx : x < L) :
    spaceNeigh L NeighDir.XPLUS (coordsToSite L x y) = coordsToSite L (wrapPlus L x) y := by
  simp only [spaceNeigh, coordsToSite_mod _ hx, coordsToSite_div _ hx]

theorem spaceNeigh_yplus_coords {L x : Nat} (y : Nat) (hx : x < L) :
    spaceNeigh L NeighDir.YPLUS (coordsToSite L x y) = coordsToSite L x (wrapPlus L y) := by
  simp only [spaceNeigh, coordsToSite_mod _ hx, coordsToSite_div _ hx]

theorem santos_bond_disjoint {L s : Nat} (hL : L % 2 = 0) {neigh : NeighDir}
    (hn : neigh = NeighDir.XPLUS ∨ neigh = NeighDir.YPLUS) {a b : Nat × Nat}
    (ha : a ∈ (stepTwo s L).product (List.range L))
    (hb : b ∈ (stepTwo s L).product (List.range L)) (hab : a ≠ b) (x : Nat)
    (hxa : x = santos_site L neigh a.1 a.2
      ∨ x = spaceNeigh L neigh (santos_site L neigh a.1 a.2))
    (hxb : x = santos_site L neigh b.1 b.2
      ∨ x = spaceNeigh L neigh (santos_site L neigh b.1 b.2)) : False := by
  obtain ⟨a1, a2⟩ := a
  obtain ⟨b1, b2⟩ := b
  replace ha := List.mem_product.1 ha
  replace hb := List.mem_product.1 hb
  obtain ⟨ha1, ha1'⟩ := mem_stepTwo ha.1
  obtain ⟨hb1, hb1'⟩ := mem_stepTwo hb.1
  have ha2 := List.mem_range.1 ha.2
  have hb2 := List.mem_range.1 hb.2
  simp only at ha1 ha1' hb1 hb1' ha2 hb2 hxa hxb
  have hw : ∀ z, z < L → wrapPlus L z < L ∧ wrapPlus L z % 2 ≠ z % 2 ∧
      (wrapPlus L z = z + 1 ∨ (wrapPlus L z = 0 ∧ z + 1 = L)) := by
    intro z hz
    unfold wrapPlus
    split_ifs <;> omega
  have wa := hw a1 ha1
  have wb := hw b1 hb1
  apply hab
  rcases hn with rfl | rfl
  · simp only [santos_site, spaceNeigh_xplus_coords _ ha1, spaceNeigh_xplus_coords _ hb1]
      at hxa hxb
    rcases hxa with rfl | rfl <;> rcases hxb with h | h
    · have := coordsToSite_inj ha1 hb1 h
      rw [this.1, this.2]
    · have := coordsToSite_inj ha1 wb.1 h
      omega
    · have := coordsToSite_inj wa.1 hb1 h
      omega
    · have := coordsToSite_inj wa.1 wb.1 h
      have e : a1 = b1 := by omega
      rw [e, this.2]
  · simp only [santos_site, spaceNeigh_yplus_coords _ ha2, spaceNeigh_yplus_coords _ hb2]
      at hxa hxb
    rcases hxa with rfl | rfl <;> rcases hxb with h | h
    · have := coordsToSite_inj ha2 hb2 h
      rw [this.1, this.2]
    · have := coordsToSite_inj ha2 hb2 h
      omega
    · have := coordsToSite_inj ha2 hb2 h
      omega
    · have := coordsToSite_inj ha2 hb2 h
      have e : a1 = b1 := by omega
      rw [e, this.1]

theorem santos_bond_sites {L : Nat} (hL : L % 2 = 0) {neigh : NeighDir}
    (hn : neigh = NeighDir.XPLUS ∨ neigh = NeighDir.YPLUS) {i1 i2 : Nat}
    (h1 : i1 < L) (h2 : i2 < L) :
    santos_site L neigh i1 i2 < L * L ∧
    spaceNeigh L neigh (santos_site L neigh i1 i2) < L * L ∧
    santos_site L neigh i1 i2 ≠ spaceNeigh L neigh (santos_site L neigh i1 i2) := by
  have hL2 : 2 ≤ L := by omega
  have hs : santos_site L neigh i1 i2 < L * L := by
    rcases hn with rfl | rfl
    · exact coordsToSite_lt h1 h2
    · exact coordsToSite_lt h2 h1
  refine ⟨hs, spaceNeigh_lt _ hs, ?_⟩
  rcases hn with rfl | rfl
  · exact (spaceNeigh_xplus_ne hL2 hs).symm
  · exact (spaceNeigh_yplus_ne hL2 hs).symm

theorem cb_santos_pass_inv {k : Nat} {L : Nat} (hL : L % 2 = 0) (bc : BC) {neigh : NeighDir}
    (hn : neigh = NeighDir.XPLUS ∨ neigh = NeighDir.YPLUS) (subgroup : Nat) (ch sh : R)
    (hch : ch ^ 2 - sh ^ 2 = 1) (A : MatCpx R (L * L) k) :
    cb_santos_applyBondFactorsLeft L bc
      (cb_santos_applyBondFactorsLeft L bc A neigh subgroup ch sh) neigh subgroup ch (-sh)
      = A := by
  unfold cb_santos_applyBondFactorsLeft
  rw [foldl_nested (fun r i1 i2 => cb_santos_bondLeft L bc neigh ch sh r i1 i2),
    foldl_nested (fun r i1 i2 => cb_santos_bondLeft L bc neigh ch (-sh) r i1 i2)]
  refine foldl_round_trip _ _ _ ((stepTwo_nodup subgroup L).product (List.nodup_range L))
    ?_ ?_ A
  · intro a ha x
    replace ha := List.mem_product.1 ha
    have h1 := (mem_stepTwo ha.1).1
    have h2 := List.mem_range.1 ha.2
    obtain ⟨hi, hj, hij⟩ := santos_bond_sites hL hn h1 h2
    exact cb_santos_bondLeft_inv L bc neigh ch sh a.1 a.2 hch hi hj hij x
  · intro a ha b hb hab x
    exact LocalOn.comm (cb_santos_bondLeft_local L bc neigh ch (-sh) a.1 a.2)
      (cb_santos_bondLeft_local L bc neigh ch sh b.1 b.2)
      (fun y hya hyb => santos_bond_disjoint hL hn ha hb hab y hya hyb) x

theorem plaquetteSites_eq {L i1 i2 : Nat} (h1 : i1 < L) :
    plaquetteSites L i1 i2 = (coordsToSite L i1 i2, coordsToSite L (wrapPlus L i1) i2,
      coordsToSite L i1 (wrapPlus L i2), coordsToSite L (wrapPlus L i1) (wrapPlus L i2)) := by
  unfold plaquetteSites
  rw [spaceNeigh_xplus_coords _ h1, spaceNeigh_yplus_coords _ h1, spaceNeigh_xplus_coords _ h1]

theorem plaquette_mem {L i1 i2 x : Nat} (h1 : i1 < L)
    (hx : x = (plaquetteSites L i1 i2).1 ∨ x = (plaquetteSites L i1 i2).2.1
      ∨ x = (plaquetteSites L i1 i2).2.2.1 ∨ x = (plaquetteSites L i1 i2).2.2.2) :
    ∃ u v, (u = i1 ∨ u = wrapPlus L i1) ∧ (v = i2 ∨ v = wrapPlus L i2)
      ∧ x = coordsToSite L u v := by
  rw [plaquetteSites_eq h1] at hx
  rcases hx with h | h | h | h
  · exact ⟨_, _, Or.inl rfl, Or.inl rfl, h⟩
  · exact ⟨_, _, Or.inr rfl, Or.inl rfl, h⟩
  · exact ⟨_, _, Or.inl rfl, Or.inr rfl, h⟩
  · exact ⟨_, _, Or.inr rfl, Or.inr rfl, h⟩

theorem wrapPlus_facts {L : Nat} (hL : L % 2 = 0) {z : Nat} (hz : z < L) :
    wrapPlus L z < L ∧ wrapPlus L z % 2 ≠ z % 2 ∧
      (wrapPlus L z = z + 1 ∨ (wrapPlus L z = 0 ∧ z + 1 = L)) := by
  unfold wrapPlus
  split_ifs <;> omega

theorem wrapPlus_parity_eq {L a b u u' : Nat} (hL : L % 2 = 0) (ha : a < L) (hb : b < L)
    (hpar : a % 2 = b % 2) (hu : u = a ∨ u = wrapPlus L a) (hu' : u' = b ∨ u' = wrapPlus L b)
    (h : u = u') : a = b := by
  unfold wrapPlus at hu hu'
  split_ifs at hu hu' <;> omega

theorem plaquette_disjoint {L s : Nat} (hL : L % 2 = 0) {a b : Nat × Nat}
    (ha : a ∈ (stepTwo s L).product (stepTwo s L))
    (hb : b ∈ (stepTwo s L).product (stepTwo s L)) (hab : a ≠ b) (x : Nat)
    (hxa : x = (plaquetteSites L a.1 a.2).1 ∨ x = (plaquetteSites L a.1 a.2).2.1
      ∨ x = (plaquetteSites L a.1 a.2).2.2.1 ∨ x = (plaquetteSites L a.1 a.2).2.2.2)
    (hxb : x = (plaquetteSites L b.1 b.2).1 ∨ x = (plaquetteSites L b.1 b.2).2.1
      ∨ x = (plaquetteSites L b.1 b.2).2.2.1 ∨ x = (plaquetteSites L b.1 b.2).2.2.2) :
    False := by
  obtain ⟨a1, a2⟩ := a
  obtain ⟨b1, b2⟩ := b
  replace ha := List.mem_product.1 ha
  replace hb := List.mem_product.1 hb
  obtain ⟨ha1, ha1'⟩ := mem_stepTwo ha.1
  obtain ⟨hb1, hb1'⟩ := mem_stepTwo hb.1
  obtain ⟨ha2, ha2'⟩ := mem_stepTwo ha.2
  obtain ⟨hb2, hb2'⟩ := mem_stepTwo hb.2
  simp only at ha1 ha1' hb1 hb1' ha2 ha2' hb2 hb2' hxa hxb
  obtain ⟨u, v, hu, hv, rfl⟩ := plaquette_mem ha1 hxa
  obtain ⟨u', v', hu', hv', h⟩ := plaquette_mem hb1 hxb
  have wa1 := wrapPlus_facts hL ha1
  have wa2 := wrapPlus_facts hL ha2
  have wb1 := wrapPlus_facts hL hb1
  have wb2 := wrapPlus_facts hL hb2
  have hul : u < L := by
    rcases hu with rfl | rfl
    · exact ha1
    · exact wa1.1
  have hul' : u' < L := by
    rcases hu' with rfl | rfl
    · exact hb1
    · exact wb1.1
  have := coordsToSite_inj hul hul' h
  apply hab
  rw [wrapPlus_parity_eq hL ha1 hb1 (ha1'.trans hb1'.symm) hu hu' this.1,
    wrapPlus_parity_eq hL ha2 hb2 (ha2'.trans hb2'.symm) hv hv' this.2]

theorem plaquette_sites {L : Nat} (hL : L % 2 = 0) {i1 i2 : Nat} (h1 : i1 < L) (h2 : i2 < L) :
    ((plaquetteSites L i1 i2).1 < L * L ∧ (plaquetteSites L i1 i2).2.1 < L * L ∧
      (plaquetteSites L i1 i2).2.2.1 < L * L ∧ (plaquetteSites L i1 i2).2.2.2 < L * L) ∧
    (plaquetteSites L i1 i2).1 ≠ (plaquetteSites L i1 i2).2.1 ∧
    (plaquetteSites L i1 i2).1 ≠ (plaquetteSites L i1 i2).2.2.1 ∧
    (plaquetteSites L i1 i2).1 ≠ (plaquetteSites L i1 i2).2.2.2 ∧
    (plaquetteSites L i1 i2).2.1 ≠ (plaquetteSites L i1 i2).2.2.1 ∧
    (plaquetteSites L i1 i2).2.1 ≠ (plaquetteSites L i1 i2).2.2.2 ∧
    (plaquetteSites L i1 i2).2.2.1 ≠ (plaquetteSites L i1 i2).2.2.2 := by
  have w1 := wrapPlus_facts hL h1
  have w2 := wrapPlus_facts hL h2
  rw [plaquetteSites_eq h1]
  refine ⟨⟨coordsToSite_lt h1 h2, coordsToSite_lt w1.1 h2, coordsToSite_lt h1 w2.1,
    coordsToSite_lt w1.1 w2.1⟩, ?_, ?_, ?_, ?_, ?_, ?_⟩
  · intro h
    have := coordsToSite_inj h1 w1.1 h
    omega
  · intro h
    have := coordsToSite_inj h1 h1 h
    omega
  · intro h
    have := coordsToSite_inj h1 w1.1 h
    omega
  · intro h
    have := coordsToSite_inj w1.1 h1 h
    omega
  · intro h
    have := coordsToSite_inj w1.1 w1.1 h
    omega
  · intro h
    have := coordsToSite_inj h1 w1.1 h
    omega

theorem cb_assaad_pass_inv {k : Nat} {L : Nat} (hL : L % 2 = 0) (bc : BC) (subgroup : Nat)
    (ch_hor sh_hor ch_ver sh_ver : R) (hh : ch_hor ^ 2 - sh_hor ^ 2 = 1)
    (hv : ch_ver ^ 2 - sh_ver ^ 2 = 1) (A : MatCpx R (L * L) k) :
    cb_assaad_applyBondFactorsLeft L bc
      (cb_assaad_applyBondFactorsLeft L bc A subgroup ch_hor sh_hor ch_ver sh_ver)
      subgroup ch_hor (-sh_hor) ch_ver (-sh_ver) = A := by
  unfold cb_assaad_applyBondFactorsLeft
  rw [foldl_nested
      (fun r i1 i2 => cb_assaad_plaquetteLeft L bc ch_hor sh_hor ch_ver sh_ver r i1 i2),
    foldl_nested
      (fun r i1 i2 => cb_assaad_plaquetteLeft L bc ch_hor (-sh_hor) ch_ver (-sh_ver) r i1 i2)]
  refine foldl_round_trip _ _ _ ((stepTwo_nodup subgroup L).product (stepTwo_nodup subgroup L))
    ?_ ?_ A
  · intro a ha x
    replace ha := List.mem_product.1 ha
    have h1 := (mem_stepTwo ha.1).1
    have h2 := (mem_stepTwo ha.2).1
    obtain ⟨⟨hi, hj, hk, hl⟩, hij, hik, hil, hjk, hjl, hkl⟩ := plaquette_sites hL h1 h2
    exact cb_assaad_plaquetteLeft_inv L bc ch_hor sh_hor ch_ver sh_ver a.1 a.2 hh hv
      hi hj hk hl hij hik hil hjk hjl hkl x
  · intro a ha b hb hab x
    exact LocalOn.comm
      (cb_assaad_plaquetteLeft_local L bc ch_hor (-sh_hor) ch_ver (-sh_ver) a.1 a.2)
      (cb_assaad_plaquetteLeft_local L bc ch_hor sh_hor ch_ver sh_ver b.1 b.2)
      (fun y hya hyb => plaquette_disjoint hL ha hb hab y hya hyb) x

theorem cb_santos_pass_add {n k : Nat} (L : Nat) (bc : BC) (neigh : NeighDir) (subgroup : Nat)
    (ch sh : R) (A B : MatCpx R n k) :
    cb_santos_applyBondFactorsLeft L bc (A + B) neigh subgroup ch sh
      = cb_santos_applyBondFactorsLeft L bc A neigh subgroup ch sh
        + cb_santos_applyBondFactorsLeft L bc B neigh subgroup ch sh := by
  unfold cb_santos_applyBondFactorsLeft
  refine foldl_add _ _ (fun i1 _ x y => ?_) A B
  exact foldl_add _ _ (fun i2 _ x' y' => cb_santos_bondLeft_add L bc neigh ch sh i1 i2 x' y') x y

theorem cb_assaad_pass_add {n k : Nat} (L : Nat) (bc : BC) (subgroup : Nat)
    (ch_hor sh_hor ch_ver sh_ver : R) (A B : MatCpx R n k) :
    cb_assaad_applyBondFactorsLeft L bc (A + B) subgroup ch_hor sh_hor ch_ver sh_ver
      = cb_assaad_applyBondFactorsLeft L bc A subgroup ch_hor sh_hor ch_ver sh_ver
        + cb_assaad_applyBondFactorsLeft L bc B subgroup ch_hor sh_hor ch_ver sh_ver := by
  unfold cb_assaad_applyBondFactorsLeft
  refine foldl_add _ _ (fun i1 _ x y => ?_) A B
  exact foldl_add _ _
    (fun i2 _ x' y' => cb_assaad_plaquetteLeft_add L bc ch_hor sh_hor ch_ver sh_ver i1 i2 x' y')
    x y

theorem cb_santos_pass_inv' {k : Nat} {L : Nat} (hL : L % 2 = 0) (bc : BC) {neigh : NeighDir}
    (hn : neigh = NeighDir.XPLUS ∨ neigh = NeighDir.YPLUS) (subgroup : Nat) (ch sh : R)
    (hch : ch ^ 2 - sh ^ 2 = 1) (A : MatCpx R (L * L) k) :
    cb_santos_applyBondFactorsLeft L bc
      (cb_santos_applyBondFactorsLeft L bc A neigh subgroup ch (((-1 : Int) : R) * sh))
      neigh subgroup ch (((1 : Int) : R) * sh) = A := by
  have h := cb_santos_pass_inv hL bc hn subgroup ch (-sh)
    (by rw [neg_sq]; exact hch) A
  rw [neg_neg] at h
  simpa only [Int.cast_neg, Int.cast_one, neg_mul, one_mul] using h

theorem cb_assaad_pass_inv' {k : Nat} {L : Nat} (hL : L % 2 = 0) (bc : BC) (subgroup : Nat)
    (ch_hor sh_hor ch_ver sh_ver : R) (hh : ch_hor ^ 2 - sh_hor ^ 2 = 1)
    (hv : ch_ver ^ 2 - sh_ver ^ 2 = 1) (A : MatCpx R (L * L) k) :
    cb_assaad_applyBondFactorsLeft L bc
      (cb_assaad_applyBondFactorsLeft L bc A subgroup ch_hor (((-1 : Int) : R) * sh_hor)
        ch_ver (((-1 : Int) : R) * sh_ver))
      subgroup ch_hor (((1 : Int) : R) * sh_hor) ch_ver (((1 : Int) : R) * sh_ver) = A := by
  have h := cb_assaad_pass_inv hL bc subgroup ch_hor (-sh_hor) ch_ver (-sh_ver)
    (by rw [neg_sq]; exact hh) (by rw [neg_sq]; exact hv) A
  rw [neg_neg, neg_neg] at h
  simpa only [Int.cast_neg, Int.cast_one, neg_mul, one_mul] using h

theorem cbLMultHoppingExp_santos_round_trip {k : Nat} {L : Nat} (hL : L % 2 = 0)
    (hp : Hopping R) (hhop : hp.Hyperbolic) (band : Band) (A : MatCpx R (L * L) k) :
    cbLMultHoppingExp_santos L hp (cbLMultHoppingExp_santos L hp A band (-1) false) band 1 true
      = A := by
  obtain ⟨h1, h2, -, -⟩ := hhop band
  unfold cbLMultHoppingExp_santos
  simp only [if_true, Bool.true_eq_false, if_false]
  rw [cb_santos_pass_inv' hL hp.bc (Or.inr rfl) 1 _ _ h2,
    cb_santos_pass_inv' hL hp.bc (Or.inl rfl) 1 _ _ h1,
    cb_santos_pass_inv' hL hp.bc (Or.inr rfl) 0 _ _ h2,
    cb_santos_pass_inv' hL hp.bc (Or.inl rfl) 0 _ _ h1]

theorem cbLMultHoppingExp_assaad_round_trip {k : Nat} {L : Nat} (hL : L % 2 = 0)
    (hp : Hopping R) (hhop : hp.Hyperbolic) (band : Band) (A : MatCpx R (L * L) k) :
    cbLMultHoppingExp_assaad L hp (cbLMultHoppingExp_assaad L hp A band (-1) false) band 1 true
      = A := by
  obtain ⟨h1, h2, -, -⟩ := hhop band
  unfold cbLMultHoppingExp_assaad
  simp only [if_true, Bool.true_eq_false, if_false]
  rw [cb_assaad_pass_inv' hL hp.bc 1 _ _ _ _ h1 h2, cb_assaad_pass_inv' hL hp.bc 0 _ _ _ _ h1 h2]

theorem cbLMultHoppingExp_assaad_berg_round_trip {k : Nat} {L : Nat} (hL : L % 2 = 0)
    (hp : Hopping R) (hhop : hp.Hyperbolic) (band : Band) (A : MatCpx R (L * L) k) :
    cbLMultHoppingExp_assaad_berg L hp (cbLMultHoppingExp_assaad_berg L hp A band (-1)) band 1
      = A := by
  obtain ⟨h1, h2, h3, h4⟩ := hhop band
  unfold cbLMultHoppingExp_assaad_berg
  simp only
  rw [cb_assaad_pass_inv' hL hp.bc 1 _ _ _ _ h3 h4, cb_assaad_pass_inv' hL hp.bc 0 _ _ _ _ h1 h2,
    cb_assaad_pass_inv' hL hp.bc 1 _ _ _ _ h3 h4]

theorem cbLMultHoppingExp_eq_some {n k : Nat} {cb : CheckerboardMethod}
    (hcb : cb ≠ CheckerboardMethod.CB_NONE) (L : Nat) (hp : Hopping R) (A : MatCpx R n k)
    (band : Band) (sign : Int) (invertedCbOrder : Bool) :
    cbLMultHoppingExp cb L hp A band sign invertedCbOrder
      = some (cbLTotal cb L hp band sign invertedCbOrder A) := by
  cases cb
  · exact absurd rfl hcb
  · rfl
  · rfl
  · rfl

theorem cbLTotal_round_trip {k : Nat} {cb : CheckerboardMethod} {L : Nat} (hL : L % 2 = 0)
    (hp : Hopping R) (hhop : hp.Hyperbolic) (band : Band) (A : MatCpx R (L * L) k) :
    cb ≠ CheckerboardMethod.CB_NONE →
    cbLTotal cb L hp band 1 true (cbLTotal cb L hp band (-1) false A) = A := by
  intro hcb
  cases cb
  · exact absurd rfl hcb
  · exact cbLMultHoppingExp_santos_round_trip hL hp hhop band A
  · exact cbLMultHoppingExp_assaad_round_trip hL hp hhop band A
  · exact cbLMultHoppingExp_assaad_berg_round_trip hL hp hhop band A

theorem cbLTotal_add {n k : Nat} (cb : CheckerboardMethod) (L : Nat) (hp : Hopping R)
    (band : Band) (sign : Int) (invertedCbOrder : Bool) (A B : MatCpx R n k) :
    cb ≠ CheckerboardMethod.CB_NONE →
    cbLTotal cb L hp band sign invertedCbOrder (A + B)
      = cbLTotal cb L hp band sign invertedCbOrder A
        + cbLTotal cb L hp band sign invertedCbOrder B := by
  intro hcb
  cases cb
  · exact absurd rfl hcb
  · show cbLMultHoppingExp_santos L hp (A + B) band sign invertedCbOrder
      = cbLMultHoppingExp_santos L hp A band sign invertedCbOrder
        + cbLMultHoppingExp_santos L hp B band sign invertedCbOrder
    unfold cbLMultHoppingExp_santos
    split_ifs <;> simp only [cb_santos_pass_add]
  · show cbLMultHoppingExp_assaad L hp (A + B) band sign invertedCbOrder
      = cbLMultHoppingExp_assaad L hp A band sign invertedCbOrder
        + cbLMultHoppingExp_assaad L hp B band sign invertedCbOrder
    unfold cbLMultHoppingExp_assaad
    split_ifs <;> simp only [cb_assaad_pass_add]
  · show cbLMultHoppingExp_assaad_berg L hp (A + B) band sign
      = cbLMultHoppingExp_assaad_berg L hp A band sign
        + cbLMultHoppingExp_assaad_berg L hp B band sign
    unfold cbLMultHoppingExp_assaad_berg
    simp only [cb_assaad_pass_add]

theorem blockOf_siteIdx {N : Nat} (i : Fin N) (a : Fin 4) : blockOf (siteIdx i a) = a := by
  apply Fin.ext
  simp only [blockOf, siteIdx]
  have hN : 0 < N := Nat.lt_of_le_of_lt (Nat.zero_le _) i.isLt
  rw [Nat.add_mul_div_right _ _ hN, Nat.div_eq_of_lt i.isLt, Nat.zero_add]

theorem posOf_siteIdx {N : Nat} (i : Fin N) (a : Fin 4) : posOf (siteIdx i a) = i := by
  apply Fin.ext
  simp only [posOf, siteIdx]
  rw [Nat.add_mul_mod_self_right, Nat.mod_eq_of_lt i.isLt]

theorem siteIdx_posOf_blockOf {N : Nat} (x : Fin (4 * N)) :
    siteIdx (posOf x) (blockOf x) = x := by
  apply Fin.ext
  simp only [posOf, blockOf, siteIdx]
  exact Nat.mod_add_div' x.val N

theorem block_fromBlocks4 {N : Nat} (blk : Fin 4 → Fin 4 → MatCpx R N N) (row col : Fin 4) :
    block (fromBlocks4 blk) row col = blk row col := by
  funext i j
  simp only [block, fromBlocks4, blockOf_siteIdx, posOf_siteIdx]

theorem fromBlocks4_block {N : Nat} (A : MatCpx R (4 * N) (4 * N)) :
    fromBlocks4 (block A) = A := by
  funext x y
  simp only [block, fromBlocks4, siteIdx_posOf_blockOf]

theorem assignBlocks_some {N : Nat} (blk : Fin 4 → Fin 4 → MatCpx R N N) :
    assignBlocks (fun row col => some (blk row col)) = some (fromBlocks4 blk) := by
  simp only [assignBlocks, Option.isSome_some, implies_true, dite_true, Option.get_some]

theorem leftMultiplyBk_eq (sm : StdMath R) {cb : CheckerboardMethod}
    (hcb : cb ≠ CheckerboardMethod.CB_NONE) (P : Params R) (hp : Hopping R) (F : PhiField R)
    (phiCosh phiSinh : Nat → Nat → R) (orig : MatCpx R (4 * P.N) (4 * P.N)) (k : Nat) :
    leftMultiplyBk sm cb P hp F phiCosh phiSinh orig k
      = some (fromBlocks4 (leftBlocksFwd (sliceVectorsFwd sm P F phiCosh phiSinh k)
          (fun band => cbLTotal cb P.L hp band (-1) false) orig)) := by
  rw [← assignBlocks_some]
  dsimp only [leftMultiplyBk]
  congr 1
  funext row col
  fin_cases row <;>
    simp only [cbLMultHoppingExp_eq_some hcb, Option.map_some', add3, Option.some_bind,
      leftBlocksFwd]

theorem leftMultiplyBkInv_eq (sm : StdMath R) {cb : CheckerboardMethod}
    (hcb : cb ≠ CheckerboardMethod.CB_NONE) (P : Params R) (hp : Hopping R) (F : PhiField R)
    (phiCosh phiSinh : Nat → Nat → R) (orig : MatCpx R (4 * P.N) (4 * P.N)) (k : Nat) :
    leftMultiplyBkInv sm cb P hp F phiCosh phiSinh orig k
      = some (fromBlocks4 (leftBlocksInv (sliceVectorsInv sm P F phiCosh phiSinh k)
          (fun band => cbLTotal cb P.L hp band 1 true) orig)) := by
  rw [← assignBlocks_some]
  dsimp only [leftMultiplyBkInv]
  congr 1
  funext row col
  fin_cases row <;>
    simp only [cbLMultHoppingExp_eq_some hcb, add3, Option.some_bind,
      leftBlocksInv]

theorem slice_cosh_sinh (sm : StdMath R) (P : Params R) (F : PhiField R)
    (phiCosh phiSinh : Nat → Nat → R) (k : Nat)
    (hcons : SliceConsistent sm P F phiCosh phiSinh k) (hex : ExactAtSlice sm P F k)
    (site : Nat) (hs : site < P.N) :
    phiCosh site k ^ 2
      - (F.phi0 site k ^ 2 + F.phi1 site k ^ 2 + F.phi2 site k ^ 2) * phiSinh site k ^ 2
      = 1 := by
  obtain ⟨h1, h2⟩ := hcons site hs
  obtain ⟨hne, hn, hcs⟩ := hex.2 site hs
  rw [h1, h2, ← hn, div_pow, mul_div_cancel₀ _ (pow_ne_zero 2 hne)]
  exact hcs

theorem sliceInverse_of_consistent (sm : StdMath R) (P : Params R) (F : PhiField R)
    (phiCosh phiSinh : Nat → Nat → R) (k : Nat)
    (hcons : SliceConsistent sm P F phiCosh phiSinh k) (hex : ExactAtSlice sm P F k) :
    SliceInverse (sliceVectorsFwd sm P F phiCosh phiSinh k)
      (sliceVectorsInv sm P F phiCosh phiSinh k) := by
  intro i
  have hC := slice_cosh_sinh sm P F phiCosh phiSinh k hcons hex i.val i.isLt
  have hmu := hex.1
  simp only [sliceVectorsFwd, sliceVectorsInv]
  generalize sm.exp (P.dtau * P.mu) = mu at hmu
  generalize sm.exp (-P.dtau * P.mu) = nu at hmu
  generalize phiCosh i.val k = C at hC
  generalize phiSinh i.val k = S at hC
  generalize F.phi0 i.val k = p0 at hC
  generalize F.phi1 i.val k = p1 at hC
  generalize F.phi2 i.val k = p2 at hC
  refine ⟨?_, ?_, ?_, ?_, ?_, ?_, ?_, ?_⟩ <;> ext <;>
    simp only [Cpx.mul_re, Cpx.mul_im, Cpx.add_re, Cpx.add_im, Cpx.neg_re, Cpx.neg_im,
      Cpx.ofReal_re, Cpx.ofReal_im, Cpx.one_re, Cpx.one_im, Cpx.zero_re, Cpx.zero_im] <;>
    first
    | ring1
    | linear_combination (mu * nu) * hC + hmu

theorem leftBlocks_round_trip {N : Nat} (v w : SliceVectors R N) (hI : SliceInverse v w)
    (K Ki : Band → MatCpx R N N → MatCpx R N N)
    (hadd : ∀ b X Y, Ki b (X + Y) = Ki b X + Ki b Y) (hinv : ∀ b X, Ki b (K b X) = X)
    (A : MatCpx R (4 * N) (4 * N)) (row col : Fin 4) :
    leftBlocksInv w Ki (fromBlocks4 (leftBlocksFwd v K A)) row col = block A row col := by
  fin_cases row
  · simp only [leftBlocksInv, block_fromBlocks4, leftBlocksFwd]
    rw [← hadd, ← hadd]
    have e : diagTimes w.c (diagTimes v.c (K Band.XBAND (block A 0 col))
          + diagTimes v.max (K Band.YBAND (block A 2 col))
          + diagTimes v.bx (K Band.YBAND (block A 3 col)))
        + diagTimes w.ax (diagTimes v.max (K Band.XBAND (block A 0 col))
          + diagTimes v.bx (K Band.XBAND (block A 1 col))
          + diagTimes v.c (K Band.YBAND (block A 2 col)))
        + diagTimes w.bx (diagTimes v.bcx (K Band.XBAND (block A 0 col))
          + diagTimes v.ax (K Band.XBAND (block A 1 col))
          + diagTimes v.c (K Band.YBAND (block A 3 col)))
        = K Band.XBAND (block A 0 col) := by
      funext i j
      obtain ⟨h1, h2, h3, h4, -, -, -, -⟩ := hI i
      simp only [Matrix.add_apply, diagTimes]
      linear_combination (K Band.XBAND (block A 0 col) i j) * h1
        + (K Band.XBAND (block A 1 col) i j) * h2
        + (K Band.YBAND (block A 2 col) i j) * h3
        + (K Band.YBAND (block A 3 col) i j) * h4
    rw [e, hinv]
    rfl
  · simp only [leftBlocksInv, block_fromBlocks4, leftBlocksFwd]
    rw [← hadd, ← hadd]
    have e : diagTimes w.c (diagTimes v.c (K Band.XBAND (block A 1 col))
          + diagTimes v.bcx (K Band.YBAND (block A 2 col))
          + diagTimes v.ax (K Band.YBAND (block A 3 col)))
        + diagTimes w.bcx (diagTimes v.max (K Band.XBAND (block A 0 col))
          + diagTimes v.bx (K Band.XBAND (block A 1 col))
          + diagTimes v.c (K Band.YBAND (block A 2 col)))
        + diagTimes w.max (diagTimes v.bcx (K Band.XBAND (block A 0 col))
          + diagTimes v.ax (K Band.XBAND (block A 1 col))
          + diagTimes v.c (K Band.YBAND (block A 3 col)))
        = K Band.XBAND (block A 1 col) := by
      funext i j
      obtain ⟨-, -, -, -, h5, h6, h7, h8⟩ := hI i
      simp only [Matrix.add_apply, diagTimes]
      linear_combination (K Band.XBAND (block A 0 col) i j) * h5
        + (K Band.XBAND (block A 1 col) i j) * h6
        + (K Band.YBAND (block A 2 col) i j) * h7
        + (K Band.YBAND (block A 3 col) i j) * h8
    rw [e, hinv]
    rfl
  · simp only [leftBlocksInv, block_fromBlocks4, leftBlocksFwd]
    rw [← hadd, ← hadd]
    have e : diagTimes w.ax (diagTimes v.c (K Band.XBAND (block A 0 col))
          + diagTimes v.max (K Band.YBAND (block A 2 col))
          + diagTimes v.bx (K Band.YBAND (block A 3 col)))
        + diagTimes w.bx (diagTimes v.c (K Band.XBAND (block A 1 col))
          + diagTimes v.bcx (K Band.YBAND (block A 2 col))
          + diagTimes v.ax (K Band.YBAND (block A 3 col)))
        + diagTimes w.c (diagTimes v.max (K Band.XBAND (block A 0 col))
          + diagTimes v.bx (K Band.XBAND (block A 1 col))
          + diagTimes v.c (K Band.YBAND (block A 2 col)))
        = K Band.YBAND (block A 2 col) := by
      funext i j
      obtain ⟨h1, h2, h3, h4, -, -, -, -⟩ := hI i
      simp only [Matrix.add_apply, diagTimes]
      linear_combination (K Band.XBAND (block A 0 col) i j) * h3
        + (K Band.XBAND (block A 1 col) i j) * h4
        + (K Band.YBAND (block A 2 col) i j) * h1
        + (K Band.YBAND (block A 3 col) i j) * h2
    rw [e, hinv]
    rfl
  · simp only [leftBlocksInv, block_fromBlocks4, leftBlocksFwd]
    rw [← hadd, ← hadd]
    have e : diagTimes w.bcx (diagTimes v.c (K Band.XBAND (block A 0 col))
          + diagTimes v.max (K Band.YBAND (block A 2 col))
          + diagTimes v.bx (K Band.YBAND (block A 3 col)))
        + diagTimes w.max (diagTimes v.c (K Band.XBAND (block A 1 col))
          + diagTimes v.bcx (K Band.YBAND (block A 2 col))
          + diagTimes v.ax (K Band.YBAND (block A 3 col)))
        + diagTimes w.c (diagTimes v.bcx (K Band.XBAND (block A 0 col))
          + diagTimes v.ax (K Band.XBAND (block A 1 col))
          + diagTimes v.c (K Band.YBAND (block A 3 col)))
        = K Band.YBAND (block A 3 col) := by
      funext i j
      obtain ⟨-, -, -, -, h5, h6, h7, h8⟩ := hI i
      simp only [Matrix.add_apply, diagTimes]
      linear_combination (K Band.XBAND (block A 0 col) i j) * h7
        + (K Band.XBAND (block A 1 col) i j) * h8
        + (K Band.YBAND (block A 2 col) i j) * h5
        + (K Band.YBAND (block A 3 col) i j) * h6
    rw [e, hinv]
    rfl

/-- C9. For each checkerboard method other than `CB_NONE`, even `L`, every slice `k` and every
`4N x 4N` matrix `A`: `leftMultiplyBkInv(leftMultiplyBk(A, k), k)` returns `A`, given bond
factors with `cosh^2 - sinh^2 = 1`, caches of slice `k` consistent with the field and exact
library functions; and `cbLMultHoppingExp(., band, +1, true)` undoes
`cbLMultHoppingExp(., band, -1, false)`. -/
theorem checkerboard_left_round_trip (sm : StdMath R) (cb : CheckerboardMethod)
    (hcb : cb ≠ CheckerboardMethod.CB_NONE) (P : Params R) (hL : P.L % 2 = 0)
    (hp : Hopping R) (hhop : hp.Hyperbolic) (F : PhiField R)
    (phiCosh phiSinh : Nat → Nat → R) (k : Nat)
    (hcons : SliceConsistent sm P F phiCosh phiSinh k) (hex : ExactAtSlice sm P F k)
    (A : MatCpx R (4 * P.N) (4 * P.N)) :
    ((leftMultiplyBk sm cb P hp F phiCosh phiSinh A k).bind
        (fun X => leftMultiplyBkInv sm cb P hp F phiCosh phiSinh X k) = some A) ∧
    ∀ (band : Band) (M : MatCpx R P.N P.N),
      (cbLMultHoppingExp cb P.L hp M band (-1) false).bind
        (fun X => cbLMultHoppingExp cb P.L hp X band 1 true) = some M := by
  have hrt : ∀ (band : Band) (M : MatCpx R P.N P.N),
      cbLTotal cb P.L hp band 1 true (cbLTotal cb P.L hp band (-1) false M) = M :=
    fun band M => cbLTotal_round_trip (k := P.L * P.L) hL hp hhop band M hcb
  constructor
  · rw [leftMultiplyBk_eq sm hcb, Option.some_bind, leftMultiplyBkInv_eq sm hcb]
    have e := funext fun row => funext fun col => leftBlocks_round_trip _ _
      (sliceInverse_of_consistent sm P F phiCosh phiSinh k hcons hex) _ _
      (fun b X Y => cbLTotal_add cb P.L hp b 1 true X Y hcb) hrt A row col
    rw [e, fromBlocks4_block]
  · intro band M
    rw [cbLMultHoppingExp_eq_some hcb, Option.some_bind, cbLMultHoppingExp_eq_some hcb, hrt]

theorem checkerboard_left_round_trip_witness :
    (exParamsCb.L % 2 = 0 ∧ exHop.Hyperbolic ∧
      SliceConsistent exMathCb exParamsCb exFieldCb (fun _ _ => 5 / 3) (fun _ _ => 4 / 3) 1 ∧
      ExactAtSlice exMathCb exParamsCb exFieldCb 1) ∧
    (leftMultiplyBk exMathCb CheckerboardMethod.CB_SANTOS exParamsCb exHop exFieldCb
        (fun _ _ => 5 / 3) (fun _ _ => 4 / 3) exMatCb 1).bind
      (fun X => leftMultiplyBkInv exMathCb CheckerboardMethod.CB_SANTOS exParamsCb exHop
        exFieldCb (fun _ _ => 5 / 3) (fun _ _ => 4 / 3) X 1) = some exMatCb :=
  have h1 : exParamsCb.L % 2 = 0 := by decide
  have h2 : exHop.Hyperbolic := by
    intro band
    cases band <;> decide!
  have h3 : SliceConsistent exMathCb exParamsCb exFieldCb (fun _ _ => 5 / 3)
      (fun _ _ => 4 / 3) 1 := by
    unfold SliceConsistent
    decide!
  have h4 : ExactAtSlice exMathCb exParamsCb exFieldCb 1 := by
    unfold ExactAtSlice
    decide!
  ⟨⟨h1, h2, h3, h4⟩,
    (checkerboard_left_round_trip exMathCb CheckerboardMethod.CB_SANTOS (by decide) exParamsCb
      h1 exHop h2 exFieldCb _ _ 1 h3 h4 exMatCb).1⟩

theorem option_ne_of_map_ne {α β : Type} (f : α → β) (b : β) {x : Option α} {a : α}
    (h : x.map f ≠ some b) (hb : f a = b) : x ≠ some a := by
  intro e
  apply h
  rw [e, Option.map_some', hb]

theorem exBug_hypotheses :
    exParamsBug.L % 2 = 0 ∧ exHopBug.Hyperbolic ∧
      SliceConsistent exMathCb exParamsBug exFieldCb (fun _ _ => 5 / 3) (fun _ _ => 4 / 3) 1 ∧
      ExactAtSlice exMathCb exParamsBug exFieldCb 1 := by
  refine ⟨by decide, ?_, ?_, ?_⟩
  · intro band
    cases band <;> decide!
  · unfold SliceConsistent
    decide!
  · unfold ExactAtSlice
    decide!

theorem exBug_full_entry :
    ((rightMultiplyBk exMathCb CheckerboardMethod.CB_ASSAAD exParamsBug exHopBug
        exFieldCb (fun _ _ => 5 / 3) (fun _ _ => 4 / 3) exMatBug 1).bind
      (fun X => rightMultiplyBkInv exMathCb CheckerboardMethod.CB_ASSAAD exParamsBug exHopBug
        exFieldCb (fun _ _ => 5 / 3) (fun _ _ => 4 / 3) X 1)).map
      (fun X => X ⟨0, by decide⟩ ⟨0, by decide⟩) ≠ some 1 := by
  decide!

theorem exBug_block_entry :
    ((cbRMultHoppingExp CheckerboardMethod.CB_ASSAAD exParamsBug.L exHopBug
        exBlockBug Band.XBAND (-1) false).bind
      (fun X => cbRMultHoppingExp CheckerboardMethod.CB_ASSAAD exParamsBug.L exHopBug X
        Band.XBAND 1 true)).map
      (fun X => X ⟨0, by decide⟩ ⟨0, by decide⟩) ≠ some 1 := by
  decide!

/-- C10. The right round trip fails for `CB_ASSAAD`: on the 6 x 6 lattice, with bond factors
that satisfy `cosh^2 - sinh^2 = 1`, consistent caches and exact library functions,
`rightMultiplyBkInv(rightMultiplyBk(A, k), k)` differs from `A`, and
`cbRMultHoppingExp(., band, +1, true)` does not undo `cbRMultHoppingExp(., band, -1, false)`;
both branches of `cbRMultHoppingExp_impl` for `CB_ASSAAD` apply subgroup 1 before
subgroup 0. -/
theorem checkerboard_right_round_trip_assaad_fails :
    (exParamsBug.L % 2 = 0 ∧ exHopBug.Hyperbolic ∧
      SliceConsistent exMathCb exParamsBug exFieldCb (fun _ _ => 5 / 3) (fun _ _ => 4 / 3) 1 ∧
      ExactAtSlice exMathCb exParamsBug exFieldCb 1) ∧
    (rightMultiplyBk exMathCb CheckerboardMethod.CB_ASSAAD exParamsBug exHopBug exFieldCb
        (fun _ _ => 5 / 3) (fun _ _ => 4 / 3) exMatBug 1).bind
      (fun X => rightMultiplyBkInv exMathCb CheckerboardMethod.CB_ASSAAD exParamsBug exHopBug
        exFieldCb (fun _ _ => 5 / 3) (fun _ _ => 4 / 3) X 1) ≠ some exMatBug ∧
    (cbRMultHoppingExp CheckerboardMethod.CB_ASSAAD exParamsBug.L exHopBug exBlockBug
        Band.XBAND (-1) false).bind
      (fun X => cbRMultHoppingExp CheckerboardMethod.CB_ASSAAD exParamsBug.L exHopBug X
        Band.XBAND 1 true) ≠ some exBlockBug ∧
    (∀ (A : MatCpx ℚ exParamsBug.N exParamsBug.N) (band : Band) (sign : Int),
      cbRMultHoppingExp_assaad exParamsBug.L exHopBug A band sign true
        = cbRMultHoppingExp_assaad exParamsBug.L exHopBug A band sign false) :=
  ⟨exBug_hypotheses,
    option_ne_of_map_ne
      (fun X : MatCpx ℚ (4 * exParamsBug.N) (4 * exParamsBug.N) => X ⟨0, by decide⟩ ⟨0, by decide⟩)
      1 exBug_full_entry (by decide!),
    option_ne_of_map_ne
      (fun X : MatCpx ℚ exParamsBug.N exParamsBug.N => X ⟨0, by decide⟩ ⟨0, by decide⟩)
      1 exBug_block_entry (by decide!),
    fun _ _ _ => rfl⟩

/-- C11. `proposeScaledField` and `proposeRotatedScaledField` return `valid = false` exactly
when the Gaussian sample `new_r3` is `<= 0`; in that case the returned vector is the current
field at `(site, timeslice)` and `proposeRotatedScaledField` has drawn nothing after the
Gaussian sample; for `new_r3 > 0` both return `valid = true`. -/
theorem scaled_proposals_valid_iff {G : Type} (sm : StdMath R) (tm : TrigMath R)
    (rw : RngWrapper R G) (nd : NormalDistribution R G) (angleDelta scaleDelta : R)
    (F : PhiField R) (rng : G) (site timeslice : Nat) :
    (((proposeScaledField tm nd scaleDelta F rng site timeslice).1.1 = false ↔
        (scaledDraw tm nd scaleDelta F rng site timeslice).1 ≤ 0) ∧
      ((scaledDraw tm nd scaleDelta F rng site timeslice).1 ≤ 0 →
        (proposeScaledField tm nd scaleDelta F rng site timeslice).1.2
          = F.getPhi site timeslice) ∧
      (0 < (scaledDraw tm nd scaleDelta F rng site timeslice).1 →
        (proposeScaledField tm nd scaleDelta F rng site timeslice).1.1 = true)) ∧
    (((proposeRotatedScaledField sm tm rw nd angleDelta scaleDelta F rng site timeslice).1.1
          = false ↔
        (rotatedScaledDraw sm tm nd scaleDelta F rng site timeslice).1 ≤ 0) ∧
      ((rotatedScaledDraw sm tm nd scaleDelta F rng site timeslice).1 ≤ 0 →
        (proposeRotatedScaledField sm tm rw nd angleDelta scaleDelta F rng site timeslice).1.2
          = F.getPhi site timeslice ∧
        (proposeRotatedScaledField sm tm rw nd angleDelta scaleDelta F rng site timeslice).2
          = (rotatedScaledDraw sm tm nd scaleDelta F rng site timeslice).2) ∧
      (0 < (rotatedScaledDraw sm tm nd scaleDelta F rng site timeslice).1 →
        (proposeRotatedScaledField sm tm rw nd angleDelta scaleDelta F rng site timeslice).1.1
          = true)) := by
  refine ⟨⟨?_, ?_, ?_⟩, ⟨?_, ?_, ?_⟩⟩
  · by_cases h : (scaledDraw tm nd scaleDelta F rng site timeslice).1 ≤ 0
    · simp only [proposeScaledField, if_pos h]
      exact ⟨fun _ => h, fun _ => trivial⟩
    · simp only [proposeScaledField, if_neg h, Bool.true_eq_false]
      exact ⟨fun x => x.elim, fun x => h x⟩
  · intro h
    simp only [proposeScaledField, if_pos h, mul_one]
    rfl
  · intro h
    simp only [proposeScaledField, if_neg (not_le.2 h)]
  · by_cases h : (rotatedScaledDraw sm tm nd scaleDelta F rng site timeslice).1 ≤ 0
    · simp only [proposeRotatedScaledField, if_pos h]
      exact ⟨fun _ => h, fun _ => trivial⟩
    · simp only [proposeRotatedScaledField, if_neg h, Bool.true_eq_false]
      exact ⟨fun x => x.elim, fun x => h x⟩
  · intro h
    simp only [proposeRotatedScaledField, if_pos h, and_true]
    rfl
  · intro h
    simp only [proposeRotatedScaledField, if_neg (not_le.2 h)]

theorem rotated_unit_norm (a b c s t p q : R) (hn : a ^ 2 + b ^ 2 + c ^ 2 = 1)
    (hs : s ^ 2 + t ^ 2 = 1) (hp : p ^ 2 + q ^ 2 = 1) (hD : a ^ 2 + b ^ 2 ≠ 0) :
    ((s / (a ^ 2 + b ^ 2)) * ((a ^ 2 * c + b ^ 2) * p + (c - 1) * a * b * q) + a * t) ^ 2
      + ((s / (a ^ 2 + b ^ 2)) * ((c - 1) * a * b * p + (a ^ 2 + b ^ 2 * c) * q) + b * t) ^ 2
      + (-s * (a * p + b * q) + c * t) ^ 2 = 1 := by
  have e : ((s / (a ^ 2 + b ^ 2)) * ((a ^ 2 * c + b ^ 2) * p + (c - 1) * a * b * q) + a * t) ^ 2
      + ((s / (a ^ 2 + b ^ 2)) * ((c - 1) * a * b * p + (a ^ 2 + b ^ 2 * c) * q) + b * t) ^ 2
      + (-s * (a * p + b * q) + c * t) ^ 2
      = ((s * ((a ^ 2 * c + b ^ 2) * p + (c - 1) * a * b * q) + a * t * (a ^ 2 + b ^ 2)) ^ 2
        + (s * ((c - 1) * a * b * p + (a ^ 2 + b ^ 2 * c) * q) + b * t * (a ^ 2 + b ^ 2)) ^ 2
        + (a ^ 2 + b ^ 2) ^ 2 * (-s * (a * p + b * q) + c * t) ^ 2) / (a ^ 2 + b ^ 2) ^ 2 := by
    field_simp
    ring
  rw [e, div_eq_one_iff_eq (pow_ne_zero 2 hD)]
  linear_combination
    (s ^ 2 * (a ^ 2 + b ^ 2) * (a * p + b * q) ^ 2 + (a ^ 2 + b ^ 2) ^ 2 * t ^ 2) * hn
    + (a ^ 2 + b ^ 2) ^ 2 * hs + (s ^ 2 * (a ^ 2 + b ^ 2) ^ 2) * hp

theorem rotatedSpin_normSq (x y z r2 r t s p q : R) (hr : r ^ 2 = r2)
    (hr2 : r2 = x ^ 2 + y ^ 2 + z ^ 2) (hxy : x ^ 2 + y ^ 2 ≠ 0)
    (hs : s ^ 2 = 1 - t ^ 2) (hp : p ^ 2 + q ^ 2 = 1) :
    normSq3 (rotatedSpin x y z (x ^ 2) (y ^ 2) r2 r t s p q r) = x ^ 2 + y ^ 2 + z ^ 2 := by
  have hr2ne : r2 ≠ 0 := by
    rw [hr2]
    have h1 : 0 ≤ x ^ 2 + y ^ 2 := by positivity
    have h2 : 0 < x ^ 2 + y ^ 2 := lt_of_le_of_ne h1 (Ne.symm hxy)
    have h3 : 0 ≤ z ^ 2 := by positivity
    exact ne_of_gt (by linarith)
  have hrne : r ≠ 0 := by
    intro h0
    apply hr2ne
    rw [← hr, h0]
    ring
  have ex : x ^ 2 / r2 = (x / r) ^ 2 := by rw [div_pow, hr]
  have ey : y ^ 2 / r2 = (y / r) ^ 2 := by rw [div_pow, hr]
  have hn : (x / r) ^ 2 + (y / r) ^ 2 + (z / r) ^ 2 = 1 := by
    rw [div_pow, div_pow, div_pow, hr, ← add_div, ← add_div, ← hr2]
    exact div_self hr2ne
  have hD : (x / r) ^ 2 + (y / r) ^ 2 ≠ 0 := by
    rw [div_pow, div_pow, hr, ← add_div]
    exact div_ne_zero hxy hr2ne
  have key := rotated_unit_norm (x / r) (y / r) (z / r) s t p q hn
    (by rw [hs]; ring) hp hD
  simp only [normSq3, rotatedSpin, Matrix.cons_val_zero, Matrix.cons_val_one, Matrix.head_cons,
    Matrix.cons_val_two, Matrix.tail_cons, ex, ey]
  rw [← hr2, ← hr]
  linear_combination r ^ 2 * key

/-- Away from the z-axis: when `phi0` and `phi1` at `(site, timeslice)` are not both zero and
the library functions are exact where the routine calls them, `proposeRotatedField` returns
`valid = true` and a vector of the same Euclidean length as the current field, for every pair
of uniform draws. -/
theorem proposeRotatedField_preserves_norm {G : Type} (sm : StdMath R) (tm : TrigMath R)
    (rw : RngWrapper R G) (angleDelta : R) (F : PhiField R) (rng : G) (site timeslice : Nat)
    (hex : ExactRotation sm tm rw angleDelta F rng site timeslice)
    (hxy : F.phi0 site timeslice ^ 2 + F.phi1 site timeslice ^ 2 ≠ 0) :
    (proposeRotatedField sm tm rw angleDelta F rng site timeslice).1.1 = true ∧
    normSq3 (proposeRotatedField sm tm rw angleDelta F rng site timeslice).1.2
      = normSq3 (F.getPhi site timeslice) ∧
    normPhi sm (proposeRotatedField sm tm rw angleDelta F rng site timeslice).1.2
      = normPhi sm (F.getPhi site timeslice) := by
  obtain ⟨hpow, hsq1, hsq2, htrig⟩ := hex
  have hN : normSq3 (proposeRotatedField sm tm rw angleDelta F rng site timeslice).1.2
      = normSq3 (F.getPhi site timeslice) := by
    simp only [proposeRotatedField, hpow]
    exact rotatedSpin_normSq _ _ _ _ _ _ _ _ _ hsq1 rfl hxy
      (by simpa only [rotationCosTheta, hpow] using hsq2) htrig
  refine ⟨rfl, hN, ?_⟩
  unfold normPhi
  exact congrArg sm.sqrt hN

theorem scaled_proposals_valid_iff_witness :
    ((proposeScaledField exTrig exNormalLow 1 exFieldRot 0 0 1).1.1 = false ∧
      (proposeScaledField exTrig exNormalLow 1 exFieldRot 0 0 1).1.2 = exFieldRot.getPhi 0 1) ∧
    (proposeScaledField exTrig exNormalHigh 1 exFieldRot 0 0 1).1.1 = true ∧
    ((proposeRotatedScaledField exMathRot exTrig exRng exNormalLow (1 / 5) 1
        exFieldRot 0 0 1).1.2 = exFieldRot.getPhi 0 1 ∧
      (proposeRotatedScaledField exMathRot exTrig exRng exNormalLow (1 / 5) 1
        exFieldRot 0 0 1).2 = 1) ∧
    (proposeRotatedScaledField exMathRot exTrig exRng exNormalHigh (1 / 5) 1
        exFieldRot 0 0 1).1.1 = true :=
  ⟨⟨(scaled_proposals_valid_iff exMathRot exTrig exRng exNormalLow (1 / 5) 1
        exFieldRot 0 0 1).1.1.2 (by decide!),
    (scaled_proposals_valid_iff exMathRot exTrig exRng exNormalLow (1 / 5) 1
        exFieldRot 0 0 1).1.2.1 (by decide!)⟩,
   (scaled_proposals_valid_iff exMathRot exTrig exRng exNormalHigh (1 / 5) 1
        exFieldRot 0 0 1).1.2.2 (by decide!),
   (scaled_proposals_valid_iff exMathRot exTrig exRng exNormalLow (1 / 5) 1
        exFieldRot 0 0 1).2.2.1 (by decide!),
   (scaled_proposals_valid_iff exMathRot exTrig exRng exNormalHigh (1 / 5) 1
        exFieldRot 0 0 1).2.2.2 (by decide!)⟩

theorem exTrig_pow_two (v : ℚ) : exTrig.pow v 2 = v ^ 2 := by
  show (if (2 : ℚ) = 2 then v ^ 2 else if (2 : ℚ) = 3 then v ^ 3 else v) = v ^ 2
  rw [if_pos rfl]

theorem proposeRotatedField_preserves_norm_witness :
    (ExactRotation exMathRot exTrig exRng (1 / 5) exFieldRot 0 0 1 ∧
      exFieldRot.phi0 0 1 ^ 2 + exFieldRot.phi1 0 1 ^ 2 ≠ 0) ∧
    ((proposeRotatedField exMathRot exTrig exRng (1 / 5) exFieldRot 0 0 1).1.1 = true ∧
    normSq3 (proposeRotatedField exMathRot exTrig exRng (1 / 5) exFieldRot 0 0 1).1.2
      = normSq3 (exFieldRot.getPhi 0 1) ∧
    normPhi exMathRot (proposeRotatedField exMathRot exTrig exRng (1 / 5) exFieldRot 0 0 1).1.2
      = normPhi exMathRot (exFieldRot.getPhi 0 1)) :=
  ⟨⟨⟨exTrig_pow_two, by decide!, by decide!, by decide!⟩, by decide!⟩,
    proposeRotatedField_preserves_norm exMathRot exTrig exRng (1 / 5) exFieldRot 0 0 1
      ⟨exTrig_pow_two, by decide!, by decide!, by decide!⟩ (by decide!)⟩

theorem createDetSDW_ok {upd : ModelParams → ModelParams} {pars : ModelParams}
    {v : Bool × CheckerboardMethod} (h : createDetSDW upd pars = Except.ok v) :
    ChecksPass (upd pars) ∧ chooseCheckerboardMethod (upd pars) = Except.ok v.2
      ∧ v.1 = (upd pars).timedisplaced := by
  unfold createDetSDW at h
  simp only at h
  split at h
  · cases h
  · rename_i hfind
    split at h
    · cases h
    · rename_i h1
      split at h
      · cases h
      · rename_i h2
        split at h
        · cases h
        · rename_i hds
          split at h
          · cases h
          · rename_i h3
            split at h
            · cases h
            · rename_i h4
              split at h
              · cases h
              · rename_i h5
                split at h
                · cases h
                · rename_i h6
                  split at h
                  · cases h
                  · rename_i cbm hcbm
                    cases h
                    exact ⟨⟨hfind, not_not.1 h1, not_not.1 h2, hds, not_not.1 h3, h4, h5, h6⟩,
                      hcbm, rfl⟩

/-- C13. For every parameter set with checkerboard enabled and an odd `L`, `createDetSDW`
throws a configuration error and constructs no model. -/
theorem createDetSDW_odd_checkerboard (updateTemperatureParameters : ModelParams → ModelParams)
    (pars : ModelParams)
    (hcb : (updateTemperatureParameters pars).checkerboard = true)
    (hodd : (updateTemperatureParameters pars).L % 2 = 1) :
    ∃ e : ConfigError, createDetSDW updateTemperatureParameters pars = Except.error e := by
  cases hres : createDetSDW updateTemperatureParameters pars with
  | error e => exact ⟨e, rfl⟩
  | ok v =>
    have h := (createDetSDW_ok hres).1
    exact absurd ⟨hcb, by omega⟩ h.2.2.2.2.2.2.1

theorem createDetSDW_error {upd : ModelParams → ModelParams} {pars : ModelParams}
    {e : ConfigError} (h : createDetSDW upd pars = Except.error e) :
    (∃ p, neededModelPars.find? (fun p => (upd pars).specified.count p == 0) = some p
      ∧ e = ConfigError.ParameterMissing p) ∨
    (¬ (possibleBC.any fun bc => (upd pars).bc == bc) = true
      ∧ e = ConfigError.ParameterWrong "bc" (ParamValue.text (upd pars).bc)) ∨
    (¬ (possibleUpdateMethods.any fun um => (upd pars).updateMethod == um) = true
      ∧ e = ConfigError.ParameterWrong "updateMethod" (ParamValue.text (upd pars).updateMethod)) ∨
    checkDelaySteps (upd pars) = some e ∨
    (¬ (possibleSpinProposalMethods.any fun sp => (upd pars).spinProposalMethod == sp) = true
      ∧ e = ConfigError.ParameterWrong "spinProposalMethod"
        (ParamValue.text (upd pars).spinProposalMethod)) ∨
    (((upd pars).globalShift = true ∨ (upd pars).wolffClusterUpdate = true)
      ∧ (upd pars).globalUpdateInterval = 0
      ∧ e = ConfigError.ParameterWrong "globalUpdateInterval"
        (ParamValue.number (upd pars).globalUpdateInterval)) ∨
    ((upd pars).checkerboard = true ∧ (upd pars).L % 2 ≠ 0
      ∧ e = ConfigError.ParameterWrongMessage oddLatticeMessage) ∨
    ((upd pars).specified.count "L" > 0 ∧ (upd pars).L ≤ 0
      ∧ e = ConfigError.ParameterWrong "L" (ParamValue.number (upd pars).L)) ∨
    chooseCheckerboardMethod (upd pars) = Except.error e := by
  unfold createDetSDW at h
  simp only at h
  split at h
  · rename_i p hfind
    cases h
    exact Or.inl ⟨p, hfind, rfl⟩
  · split at h
    · rename_i h1
      cases h
      exact Or.inr (Or.inl ⟨h1, rfl⟩)
    · split at h
      · rename_i h2
        cases h
        exact Or.inr (Or.inr (Or.inl ⟨h2, rfl⟩))
      · split at h
        · rename_i e' hds
          cases h
          exact Or.inr (Or.inr (Or.inr (Or.inl hds)))
        · split at h
          · rename_i h3
            cases h
            exact Or.inr (Or.inr (Or.inr (Or.inr (Or.inl ⟨h3, rfl⟩))))
          · split at h
            · rename_i h4
              cases h
              exact Or.inr (Or.inr (Or.inr (Or.inr (Or.inr (Or.inl ⟨h4.1, h4.2, rfl⟩)))))
            · split at h
              · rename_i h5
                cases h
                exact Or.inr (Or.inr (Or.inr (Or.inr (Or.inr (Or.inr
                  (Or.inl ⟨h5.1, h5.2, rfl⟩))))))
              · split at h
                · rename_i h6
                  cases h
                  exact Or.inr (Or.inr (Or.inr (Or.inr (Or.inr (Or.inr (Or.inr
                    (Or.inl ⟨h6.1, h6.2, rfl⟩)))))))
                · split at h
                  · rename_i e' hcbm
                    cases h
                    exact Or.inr (Or.inr (Or.inr (Or.inr (Or.inr (Or.inr (Or.inr
                      (Or.inr hcbm)))))))
                  · cases h

theorem checkDelaySteps_some {pars : ModelParams} {e : ConfigError}
    (h : checkDelaySteps pars = some e) :
    pars.updateMethod = "delayed" ∧
    ((pars.specified.count "delaySteps" = 0 ∧ e = ConfigError.ParameterMissing "delaySteps") ∨
     (pars.specified.count "delaySteps" ≠ 0
      ∧ (pars.delaySteps ≤ 0 ∨ pars.delaySteps > toUInt32 (pars.L ^ 2))
      ∧ e = ConfigError.ParameterWrong "delaySteps" (ParamValue.number pars.delaySteps))) := by
  unfold checkDelaySteps at h
  split at h
  · rename_i hd
    refine ⟨hd.2, ?_⟩
    split at h
    · rename_i hc
      cases h
      exact Or.inl ⟨hc, rfl⟩
    · rename_i hc
      simp only at h
      split at h
      · rename_i hr
        cases h
        exact Or.inr ⟨hc, hr, rfl⟩
      · cases h
  · cases h

theorem chooseCheckerboardMethod_error {pars : ModelParams} {e : ConfigError}
    (h : chooseCheckerboardMethod pars = Except.error e) :
    pars.checkerboard = true ∧ pars.checkerboardMethod ≠ "santos"
      ∧ pars.checkerboardMethod ≠ "assaad" ∧ pars.checkerboardMethod ≠ "assaad_berg"
      ∧ e = ConfigError.ParameterWrong "checkerboardMethod"
        (ParamValue.text pars.checkerboardMethod) := by
  unfold chooseCheckerboardMethod at h
  split at h
  · rename_i hcb
    split at h
    · cases h
    · rename_i c1
      split at h
      · cases h
      · rename_i c2
        split at h
        · cases h
        · rename_i c3
          cases h
          exact ⟨hcb, c1, c2, c3, rfl⟩
  · cases h

theorem any_beq_eq_true_iff (l : List String) (s : String) :
    (l.any fun x => s == x) = true ↔ s ∈ l := by
  rw [List.any_eq_true]
  constructor
  · rintro ⟨x, hx, hsx⟩
    rw [beq_iff_eq] at hsx
    rw [hsx]
    exact hx
  · intro h
    exact ⟨s, h, beq_self_eq_true s⟩

theorem needed_specified {pars : ModelParams}
    (h : neededModelPars.find? (fun p => pars.specified.count p == 0) = none) {p : String}
    (hp : p ∈ neededModelPars) : pars.specified.count p ≠ 0 := by
  rw [List.find?_eq_none] at h
  have := h p hp
  simpa using this

theorem find_needed_ne_delaySteps {pars : ModelParams} {p : String}
    (h : neededModelPars.find? (fun p => pars.specified.count p == 0) = some p) :
    p ≠ "delaySteps" ∧ pars.specified.count p = 0 := by
  have hm := List.mem_of_find?_eq_some h
  have hc := List.find?_some h
  refine ⟨?_, by simpa using hc⟩
  intro hp
  rw [hp] at hm
  revert hm
  decide

theorem checkDelaySteps_of_not_delayed {pars : ModelParams}
    (h : pars.updateMethod ≠ "delayed") : checkDelaySteps pars = none := by
  unfold checkDelaySteps
  rw [if_neg (fun hc => h hc.2)]

theorem createDetSDW_congr_delaySteps (upd : ModelParams → ModelParams) (pars : ModelParams)
    (h : (upd pars).updateMethod ≠ "delayed") (d : Nat) :
    createDetSDW (fun _ => { upd pars with delaySteps := d }) pars = createDetSDW upd pars := by
  unfold createDetSDW
  have h2 : checkDelaySteps { upd pars with delaySteps := d } = none :=
    checkDelaySteps_of_not_delayed h
  simp only [checkDelaySteps_of_not_delayed h, h2]
  rfl

/-- C14. For the update method `delayed`, `createDetSDW` returns a model only if `delaySteps`
is specified and `1 <= delaySteps <= L^2`; with the earlier checks passing, an unspecified
`delaySteps` raises `ParameterMissing("delaySteps")` and a `delaySteps` of 0 or greater than
`L^2` raises `ParameterWrong("delaySteps", value)`. For the other update methods `delaySteps`
is not checked: no error names it and its value does not influence the result. -/
theorem createDetSDW_delaySteps (upd : ModelParams → ModelParams) (pars : ModelParams) :
    ((upd pars).updateMethod = "delayed" →
      (∀ v, createDetSDW upd pars = Except.ok v →
        (upd pars).specified.count "delaySteps" ≠ 0 ∧ 1 ≤ (upd pars).delaySteps
          ∧ (upd pars).delaySteps ≤ (upd pars).L ^ 2) ∧
      (EarlierChecksPass (upd pars) → (upd pars).specified.count "delaySteps" = 0 →
        createDetSDW upd pars = Except.error (ConfigError.ParameterMissing "delaySteps")) ∧
      (EarlierChecksPass (upd pars) → (upd pars).specified.count "delaySteps" ≠ 0 →
        (upd pars).L ^ 2 < 2 ^ 32 →
        ((upd pars).delaySteps = 0 ∨ (upd pars).L ^ 2 < (upd pars).delaySteps) →
        createDetSDW upd pars = Except.error
          (ConfigError.ParameterWrong "delaySteps" (ParamValue.number (upd pars).delaySteps)))) ∧
    ((upd pars).updateMethod ≠ "delayed" →
      (∀ e, createDetSDW upd pars = Except.error e →
        e ≠ ConfigError.ParameterMissing "delaySteps"
          ∧ ∀ val, e ≠ ConfigError.ParameterWrong "delaySteps" val) ∧
      ∀ d, createDetSDW (fun _ => { upd pars with delaySteps := d }) pars
        = createDetSDW upd pars) := by
  constructor
  · intro hum
    have hany : (possibleUpdateMethods.any fun um => (upd pars).updateMethod == um) = true := by
      rw [hum]
      decide
    refine ⟨?_, ?_, ?_⟩
    · intro v hv
      obtain ⟨hfind, -, -, hds, -⟩ := (createDetSDW_ok hv).1
      have hspec : (upd pars).specified.count "updateMethod" ≠ 0 :=
        needed_specified hfind (by decide)
      unfold checkDelaySteps at hds
      rw [if_pos ⟨hspec, hum⟩] at hds
      split at hds
      · cases hds
      · rename_i hc
        simp only at hds
        split at hds
        · cases hds
        · rename_i hr
          have hle : toUInt32 ((upd pars).L ^ 2) ≤ (upd pars).L ^ 2 := Nat.mod_le _ _
          refine ⟨hc, ?_, ?_⟩ <;> omega
    · intro hearlier hc
      have hspec : (upd pars).specified.count "updateMethod" ≠ 0 :=
        needed_specified hearlier.1 (by decide)
      have hds : checkDelaySteps (upd pars)
          = some (ConfigError.ParameterMissing "delaySteps") := by
        unfold checkDelaySteps
        rw [if_pos ⟨hspec, hum⟩, if_pos hc]
      unfold createDetSDW
      simp only [hearlier.1, hearlier.2, hany, hds, not_true_eq_false, if_false]
    · intro hearlier hc hL hr
      have hspec : (upd pars).specified.count "updateMethod" ≠ 0 :=
        needed_specified hearlier.1 (by decide)
      have hN : toUInt32 ((upd pars).L ^ 2) = (upd pars).L ^ 2 := Nat.mod_eq_of_lt hL
      have hds : checkDelaySteps (upd pars) = some (ConfigError.ParameterWrong "delaySteps"
          (ParamValue.number (upd pars).delaySteps)) := by
        unfold checkDelaySteps
        rw [if_pos ⟨hspec, hum⟩, if_neg hc]
        simp only
        rw [if_pos]
        rw [hN]
        omega
      unfold createDetSDW
      simp only [hearlier.1, hearlier.2, hany, hds, not_true_eq_false, if_false]
  · intro hum
    refine ⟨?_, createDetSDW_congr_delaySteps upd pars hum⟩
    intro e he
    rcases createDetSDW_error he with ⟨p, hp, rfl⟩ | ⟨-, rfl⟩ | ⟨-, rfl⟩ | hds | ⟨-, rfl⟩
      | ⟨-, -, rfl⟩ | ⟨-, -, rfl⟩ | ⟨-, -, rfl⟩ | hcb
    · have := (find_needed_ne_delaySteps hp).1
      exact ⟨fun h => this (ConfigError.ParameterMissing.inj h), (fun val h => nomatch h)⟩
    · exact ⟨(fun h => nomatch h),
        fun val h => absurd (ConfigError.ParameterWrong.inj h).1 (by decide)⟩
    · exact ⟨(fun h => nomatch h),
        fun val h => absurd (ConfigError.ParameterWrong.inj h).1 (by decide)⟩
    · rw [checkDelaySteps_of_not_delayed hum] at hds
      cases hds
    · exact ⟨(fun h => nomatch h),
        fun val h => absurd (ConfigError.ParameterWrong.inj h).1 (by decide)⟩
    · exact ⟨(fun h => nomatch h),
        fun val h => absurd (ConfigError.ParameterWrong.inj h).1 (by decide)⟩
    · exact ⟨(fun h => nomatch h), (fun val h => nomatch h)⟩
    · exact ⟨(fun h => nomatch h),
        fun val h => absurd (ConfigError.ParameterWrong.inj h).1 (by decide)⟩
    · obtain ⟨-, -, -, -, rfl⟩ := chooseCheckerboardMethod_error hcb
      exact ⟨(fun h => nomatch h),
        fun val h => absurd (ConfigError.ParameterWrong.inj h).1 (by decide)⟩

/-- C15. Every error that `createDetSDW` raises is a `ParameterMissing` for an unspecified
parameter, or a `ParameterWrong` that carries the name of the offending parameter and its
offending value, or, for an odd `L` with checkerboard enabled, a `ParameterWrong` that carries
only a fixed message. -/
theorem createDetSDW_error_content (upd : ModelParams → ModelParams) (pars : ModelParams)
    (e : ConfigError) (h : createDetSDW upd pars = Except.error e) :
    (∃ p, e = ConfigError.ParameterMissing p ∧ (upd pars).specified.count p = 0) ∨
    (∃ name value, e = ConfigError.ParameterWrong name value
      ∧ OffendingValue (upd pars) name value) ∨
    (e = ConfigError.ParameterWrongMessage oddLatticeMessage
      ∧ (upd pars).checkerboard = true ∧ (upd pars).L % 2 = 1) := by
  rcases createDetSDW_error h with ⟨p, hp, rfl⟩ | ⟨h1, rfl⟩ | ⟨h2, rfl⟩ | hds | ⟨h3, rfl⟩
    | ⟨h4, h4', rfl⟩ | ⟨h5, h5', rfl⟩ | ⟨h6, h6', rfl⟩ | hcb
  · exact Or.inl ⟨p, rfl, (find_needed_ne_delaySteps hp).2⟩
  · rw [any_beq_eq_true_iff] at h1
    exact Or.inr (Or.inl ⟨_, _, rfl, Or.inl ⟨rfl, rfl, h1⟩⟩)
  · rw [any_beq_eq_true_iff] at h2
    exact Or.inr (Or.inl ⟨_, _, rfl, Or.inr (Or.inl ⟨rfl, rfl, h2⟩)⟩)
  · obtain ⟨-, ⟨hc, rfl⟩ | ⟨-, hr, rfl⟩⟩ := checkDelaySteps_some hds
    · exact Or.inl ⟨_, rfl, hc⟩
    · refine Or.inr (Or.inl ⟨_, _, rfl, Or.inr (Or.inr (Or.inl ⟨rfl, rfl, ?_⟩))⟩)
      rcases hr with hr | hr
      · exact Or.inl (by omega)
      · exact Or.inr hr
  · rw [any_beq_eq_true_iff] at h3
    exact Or.inr (Or.inl ⟨_, _, rfl, Or.inr (Or.inr (Or.inr (Or.inl ⟨rfl, rfl, h3⟩)))⟩)
  · exact Or.inr (Or.inl ⟨_, _, rfl,
      Or.inr (Or.inr (Or.inr (Or.inr (Or.inl ⟨rfl, rfl, h4', h4⟩))))⟩)
  · exact Or.inr (Or.inr ⟨rfl, h5, by omega⟩)
  · exact Or.inr (Or.inl ⟨_, _, rfl,
      Or.inr (Or.inr (Or.inr (Or.inr (Or.inr (Or.inl ⟨rfl, rfl, by omega⟩)))))⟩)
  · obtain ⟨c0, c1, c2, c3, rfl⟩ := chooseCheckerboardMethod_error hcb
    refine Or.inr (Or.inl ⟨_, _, rfl,
      Or.inr (Or.inr (Or.inr (Or.inr (Or.inr (Or.inr ⟨rfl, rfl, c0, ?_⟩)))))⟩)
    simp only [List.mem_cons, List.mem_singleton, List.mem_nil_iff, or_false, not_or]
    exact ⟨c1, c2, c3⟩

theorem createDetSDW_odd_checkerboard_witness :
    (exParsOdd.checkerboard = true ∧ exParsOdd.L % 2 = 1) ∧
    ∃ e : ConfigError, createDetSDW (fun p => p) exParsOdd = Except.error e :=
  ⟨⟨by decide, by decide⟩,
    createDetSDW_odd_checkerboard (fun p => p) exParsOdd (by decide) (by decide)⟩

theorem createDetSDW_delaySteps_witness :
    (exParsDelayed.updateMethod = "delayed" ∧ EarlierChecksPass exParsDelayed ∧
      exParsDelayed.specified.count "delaySteps" ≠ 0 ∧ exParsDelayed.L ^ 2 < 2 ^ 32 ∧
      exParsDelayed.L ^ 2 < exParsDelayed.delaySteps) ∧
    createDetSDW (fun p => p) exParsDelayed = Except.error
      (ConfigError.ParameterWrong "delaySteps" (ParamValue.number 17)) :=
  have h1 : exParsDelayed.updateMethod = "delayed" := by decide
  have h2 : EarlierChecksPass exParsDelayed := by
    unfold EarlierChecksPass
    decide
  have h3 : exParsDelayed.specified.count "delaySteps" ≠ 0 := by decide
  have h4 : exParsDelayed.L ^ 2 < 2 ^ 32 := by decide
  have h5 : exParsDelayed.L ^ 2 < exParsDelayed.delaySteps := by decide
  ⟨⟨h1, h2, h3, h4, h5⟩,
    ((createDetSDW_delaySteps (fun p => p) exParsDelayed).1 h1).2.2 h2 h3 h4 (Or.inr h5)⟩

theorem createDetSDW_odd_error_without_name :
    createDetSDW (fun p => p) exParsOdd
      = Except.error (ConfigError.ParameterWrongMessage oddLatticeMessage) ∧
    ¬ ∃ name value, createDetSDW (fun p => p) exParsOdd
      = Except.error (ConfigError.ParameterWrong name value) := by
  have h : createDetSDW (fun p => p) exParsOdd
      = Except.error (ConfigError.ParameterWrongMessage oddLatticeMessage) := by rfl
  refine ⟨h, ?_⟩
  rintro ⟨name, value, h'⟩
  rw [h] at h'
  cases h'

theorem createDetSDW_error_content_witness :
    createDetSDW (fun p => p) exParsDelayed
      = Except.error (ConfigError.ParameterWrong "delaySteps" (ParamValue.number 17)) ∧
    ((∃ p, ConfigError.ParameterWrong "delaySteps" (ParamValue.number 17)
        = ConfigError.ParameterMissing p ∧ exParsDelayed.specified.count p = 0) ∨
      (∃ name value, ConfigError.ParameterWrong "delaySteps" (ParamValue.number 17)
        = ConfigError.ParameterWrong name value ∧ OffendingValue exParsDelayed name value) ∨
      (ConfigError.ParameterWrong "delaySteps" (ParamValue.number 17)
        = ConfigError.ParameterWrongMessage oddLatticeMessage
        ∧ exParsDelayed.checkerboard = true ∧ exParsDelayed.L % 2 = 1)) :=
  have h : createDetSDW (fun p => p) exParsDelayed
      = Except.error (ConfigError.ParameterWrong "delaySteps" (ParamValue.number 17)) := by
    rfl
  ⟨h, createDetSDW_error_content (fun p => p) exParsDelayed _ h⟩

theorem forEachOrThrow_error_iff {α ε : Type} (l : List α) (body : α → Except ε Unit) :
    (∃ e, forEachOrThrow l body = Except.error e) ↔ ∃ a ∈ l, ∃ e, body a = Except.error e := by
  induction l with
  | nil =>
    constructor
    · rintro ⟨e, he⟩
      cases he
    · rintro ⟨a, ha, -⟩
      cases ha
  | cons a t ih =>
    unfold forEachOrThrow
    cases hb : body a with
    | error e =>
      constructor
      · intro _
        exact ⟨a, List.mem_cons_self _ _, e, hb⟩
      · intro _
        exact ⟨e, rfl⟩
    | ok u =>
      simp only
      rw [ih]
      constructor
      · rintro ⟨x, hx, e, he⟩
        exact ⟨x, List.mem_cons_of_mem _ hx, e, he⟩
      · rintro ⟨x, hx, e, he⟩
        rcases List.mem_cons.1 hx with rfl | hx'
        · rw [hb] at he
          cases he
        · exact ⟨x, hx', e, he⟩

theorem numQuotient_abs_numDiv (a b : R) :
    NumQuotient.abs (numDiv a b) = numDiv |a| |b| := by
  unfold numDiv
  by_cases hb : b = 0
  · by_cases ha : a = 0
    · simp [hb, ha, NumQuotient.abs]
    · have h1 : ¬ |a| < 0 := not_lt.2 (abs_nonneg a)
      simp [hb, ha, NumQuotient.abs, h1]
  · simp [hb, NumQuotient.abs, abs_div]

theorem numQuotient_abs_divBy (q : NumQuotient R) (b : R) :
    NumQuotient.abs (q.divBy b) = (NumQuotient.abs q).divBy |b| := by
  cases q with
  | finite x => exact numQuotient_abs_numDiv x b
  | infinite negative =>
    have h1 : ¬ |b| < 0 := not_lt.2 (abs_nonneg b)
    simp [NumQuotient.divBy, NumQuotient.abs, h1]
  | nan => rfl

theorem numDiv_gt_of_ne_zero (a b t : R) (hb : b ≠ 0) :
    (numDiv a b).gt t = true ↔ a / b > t := by
  simp [numDiv, hb, NumQuotient.gt]

theorem consistencyCheckAt_error_iff {G : Type} (sm : StdMath R) {P : Params R}
    (st : State R G P) (k site : Nat) :
    (∃ e, consistencyCheckAt sm st k site = Except.error e) ↔
      ((relDiffCosh sm st k site).gt (1 / 10 ^ 10) = true ∨
        (relDiffSinh sm st k site).gt (1 / 10 ^ 10) = true) := by
  unfold consistencyCheckAt
  by_cases h1 : (relDiffCosh sm st k site).gt (1 / 10 ^ 10) = true
  · rw [if_pos h1]
    exact ⟨fun _ => Or.inl h1, fun _ => ⟨_, rfl⟩⟩
  · rw [if_neg h1]
    by_cases h2 : (relDiffSinh sm st k site).gt (1 / 10 ^ 10) = true
    · rw [if_pos h2]
      exact ⟨fun _ => Or.inr h2, fun _ => ⟨_, rfl⟩⟩
    · rw [if_neg h2]
      constructor
      · rintro ⟨e, he⟩
        cases he
      · rintro (h | h)
        · exact absurd h h1
        · exact absurd h h2

theorem consistencyCheck_error_iff {G : Type} (sm : StdMath R) {P : Params R}
    (st : State R G P) :
    (∃ e, (consistencyCheck sm st).1 = Except.error e) ↔
      ∃ k site, 1 ≤ k ∧ k ≤ P.m ∧ site < P.N ∧
        ((relDiffCosh sm st k site).gt (1 / 10 ^ 10) = true ∨
          (relDiffSinh sm st k site).gt (1 / 10 ^ 10) = true) := by
  unfold consistencyCheck
  simp only
  rw [forEachOrThrow_error_iff]
  constructor
  · rintro ⟨k, hk, hkerr⟩
    rw [forEachOrThrow_error_iff] at hkerr
    obtain ⟨site, hs, herr⟩ := hkerr
    rw [consistencyCheckAt_error_iff] at herr
    rw [List.mem_range'_1] at hk
    rw [List.mem_range] at hs
    exact ⟨k, site, hk.1, by omega, hs, herr⟩
  · rintro ⟨k, site, hk1, hk2, hs, herr⟩
    refine ⟨k, List.mem_range'_1.2 ⟨hk1, by omega⟩, ?_⟩
    rw [forEachOrThrow_error_iff]
    refine ⟨site, List.mem_range.2 hs, ?_⟩
    rw [consistencyCheckAt_error_iff]
    exact herr

theorem relDiffCosh_eq {G : Type} (sm : StdMath R) {P : Params R} (st : State R G P)
    (k site : Nat) :
    relDiffCosh sm st k site
      = numDiv |st.phiCosh site k - sm.cosh (P.dtau * normPhi sm (st.F.getPhi site k))|
          |st.phiCosh site k| := by
  unfold relDiffCosh
  simp only
  rw [numQuotient_abs_numDiv]
  rfl

theorem relDiffSinh_eq {G : Type} (sm : StdMath R) {P : Params R} (st : State R G P)
    (k site : Nat) :
    relDiffSinh sm st k site
      = (NumQuotient.abs (NumQuotient.subFrom (st.phiSinh site k)
          (numDiv (sm.sinh (P.dtau * normPhi sm (st.F.getPhi site k)))
            (normPhi sm (st.F.getPhi site k))))).divBy |st.phiSinh site k| := by
  unfold relDiffSinh
  simp only
  rw [numQuotient_abs_divBy]
  rfl

/-- C16. `consistencyCheck` raises a `GeneralError` if and only if at some slice `k` in `1..m`
and some site in `0..N-1` the relative deviation `|phiCosh - cosh(dtau*|phi|)| / |phiCosh|` or
`|phiSinh - sinh(dtau*|phi|)/|phi|| / |phiSinh|`, evaluated in the floating-point type (a zero
divisor gives an infinity, or not-a-number for a zero dividend), exceeds `1e-10`; an infinity
exceeds it and not-a-number does not. Where no divisor vanishes in the range of the loops this
is the comparison of the real quotients. At a cell with `|phi| = 0` and `sinh(0) = 0` the
value `relDiffSinh` is not-a-number, and a cache entry `phiCosh = 0` that differs from the
hyperbolic cosine makes the check raise. The object is the same after the call. -/
theorem consistencyCheck_raises_iff {G : Type} (sm : StdMath R) {P : Params R}
    (st : State R G P) :
    ((∃ e, (consistencyCheck sm st).1 = Except.error e) ↔
      ∃ k site, 1 ≤ k ∧ k ≤ P.m ∧ site < P.N ∧
        ((numDiv |st.phiCosh site k - sm.cosh (P.dtau * normPhi sm (st.F.getPhi site k))|
            |st.phiCosh site k|).gt (1 / 10 ^ 10) = true ∨
         ((NumQuotient.abs (NumQuotient.subFrom (st.phiSinh site k)
            (numDiv (sm.sinh (P.dtau * normPhi sm (st.F.getPhi site k)))
              (normPhi sm (st.F.getPhi site k))))).divBy |st.phiSinh site k|).gt
            (1 / 10 ^ 10) = true)) ∧
    ((∀ k site, 1 ≤ k → k ≤ P.m → site < P.N →
        st.phiCosh site k ≠ 0 ∧ st.phiSinh site k ≠ 0 ∧
          normPhi sm (st.F.getPhi site k) ≠ 0) →
      ((∃ e, (consistencyCheck sm st).1 = Except.error e) ↔
        ∃ k site, 1 ≤ k ∧ k ≤ P.m ∧ site < P.N ∧
          (|st.phiCosh site k - sm.cosh (P.dtau * normPhi sm (st.F.getPhi site k))|
              / |st.phiCosh site k| > 1 / 10 ^ 10 ∨
           |st.phiSinh site k - sm.sinh (P.dtau * normPhi sm (st.F.getPhi site k))
                / normPhi sm (st.F.getPhi site k)|
              / |st.phiSinh site k| > 1 / 10 ^ 10))) ∧
    (∀ k site, normPhi sm (st.F.getPhi site k) = 0 → sm.sinh (P.dtau * 0) = 0 →
      relDiffSinh sm st k site = NumQuotient.nan) ∧
    (∀ k site, 1 ≤ k → k ≤ P.m → site < P.N → st.phiCosh site k = 0 →
      sm.cosh (P.dtau * normPhi sm (st.F.getPhi site k)) ≠ 0 →
      ∃ e, (consistencyCheck sm st).1 = Except.error e) ∧
    (consistencyCheck sm st).2 = st := by
  refine ⟨?_, ?_, ?_, ?_, rfl⟩
  · rw [consistencyCheck_error_iff]
    simp only [relDiffCosh_eq, relDiffSinh_eq]
  · intro hne
    rw [consistencyCheck_error_iff]
    constructor
    · rintro ⟨k, site, hk1, hk2, hs, h⟩
      obtain ⟨hc, hsn, hn⟩ := hne k site hk1 hk2 hs
      refine ⟨k, site, hk1, hk2, hs, ?_⟩
      rw [relDiffCosh_eq, relDiffSinh_eq] at h
      rcases h with h | h
      · exact Or.inl ((numDiv_gt_of_ne_zero _ _ _ (abs_ne_zero.2 hc)).1 h)
      · right
        have e : numDiv (sm.sinh (P.dtau * normPhi sm (st.F.getPhi site k)))
            (normPhi sm (st.F.getPhi site k))
            = NumQuotient.finite (sm.sinh (P.dtau * normPhi sm (st.F.getPhi site k))
              / normPhi sm (st.F.getPhi site k)) := by
          simp [numDiv, hn]
        rw [e] at h
        exact (numDiv_gt_of_ne_zero _ _ _ (abs_ne_zero.2 hsn)).1 h
    · rintro ⟨k, site, hk1, hk2, hs, h⟩
      obtain ⟨hc, hsn, hn⟩ := hne k site hk1 hk2 hs
      refine ⟨k, site, hk1, hk2, hs, ?_⟩
      rw [relDiffCosh_eq, relDiffSinh_eq]
      rcases h with h | h
      · exact Or.inl ((numDiv_gt_of_ne_zero _ _ _ (abs_ne_zero.2 hc)).2 h)
      · right
        have e : numDiv (sm.sinh (P.dtau * normPhi sm (st.F.getPhi site k)))
            (normPhi sm (st.F.getPhi site k))
            = NumQuotient.finite (sm.sinh (P.dtau * normPhi sm (st.F.getPhi site k))
              / normPhi sm (st.F.getPhi site k)) := by
          simp [numDiv, hn]
        rw [e]
        exact (numDiv_gt_of_ne_zero _ _ _ (abs_ne_zero.2 hsn)).2 h
  · intro k site hn hs
    rw [relDiffSinh_eq, hn, hs]
    simp [numDiv, NumQuotient.subFrom, NumQuotient.abs, NumQuotient.divBy]
  · intro k site hk1 hk2 hsite hc hcosh
    rw [consistencyCheck_error_iff]
    refine ⟨k, site, hk1, hk2, hsite, Or.inl ?_⟩
    rw [relDiffCosh_eq, hc]
    have h1 : ¬ |0 - sm.cosh (P.dtau * normPhi sm (st.F.getPhi site k))| < 0 :=
      not_lt.2 (abs_nonneg _)
    simp [numDiv, NumQuotient.gt, hcosh, h1]

theorem foldl_subtract_row (ds : List NeighDir) (site : Nat) (nb : NeighDir → Nat)
    (h : NeighDir → R) (k : Nat → Nat → R) (s t : Nat) :
    (ds.foldl (fun k2 dir => setEntry k2 site (nb dir) (k2 site (nb dir) - h dir)) k) s t
      = k s t - if s = site then (ds.map fun dir => if nb dir = t then h dir else 0).sum
          else 0 := by
  induction ds generalizing k with
  | nil => simp
  | cons d ds ih =>
    rw [List.foldl_cons, ih, setEntry_apply, List.map_cons, List.sum_cons]
    by_cases hs : s = site
    · subst hs
      by_cases ht : nb d = t
      · subst ht
        simp only [true_and, if_true, and_self]
        ring
      · have ht' : ¬ t = nb d := fun e => ht e.symm
        simp only [true_and, if_true, ht, ht', if_false]
        ring
    · simp only [hs, false_and, if_false]

theorem setupPropK_k_apply (L : Nat) (mu : R) (bc : BC) (hopHor hopVer : Band → R)
    (band : Band) (s t : Nat) :
    setupPropK_k L mu bc hopHor hopVer band s t
      = -mu * (if s = t then 1 else 0)
        - if s < L * L then
            (allDirs.map fun dir => if spaceNeigh L dir s = t
              then boundaryHop L bc (hopTable hopHor hopVer band) s dir else 0).sum
          else 0 := by
  unfold setupPropK_k
  generalize L * L = n
  induction n with
  | zero => simp
  | succ n ih =>
    rw [List.range_succ, List.foldl_append, List.foldl_cons, List.foldl_nil]
    rw [foldl_subtract_row allDirs n (fun dir => spaceNeigh L dir n)
      (fun dir => boundaryHop L bc (hopTable hopHor hopVer band) n dir), ih]
    by_cases h1 : s = n
    · subst h1
      simp only [lt_self_iff_false, if_false, if_true, Nat.lt_succ_self, sub_zero]
    · by_cases h2 : s < n
      · have h3 : s < n + 1 := by omega
        simp only [h1, h2, h3, if_true, if_false, sub_zero]
      · have h3 : ¬ s < n + 1 := by omega
        simp only [h1, h2, h3, if_false, sub_zero]

theorem boundaryHop_pbc (L : Nat) (t : NeighDir → R) (site : Nat) (dir : NeighDir) :
    boundaryHop L BC.PBC t site dir = t dir := by
  simp [boundaryHop]

theorem boundaryHop_apbc_x (L : Nat) (t : NeighDir → R) (site : Nat) (dir : NeighDir) :
    boundaryHop L BC.APBC_X t site dir
      = if (site % L = 0 ∧ dir = NeighDir.XMINUS) ∨ (site % L = L - 1 ∧ dir = NeighDir.XPLUS)
        then -t dir else t dir := by
  simp [boundaryHop]

theorem coordsToSite_eq_iff {L a b j : Nat} (ha : a < L) :
    coordsToSite L a b = j ↔ a = j % L ∧ b = j / L := by
  constructor
  · intro h
    rw [← h, coordsToSite_mod _ ha, coordsToSite_div _ ha]
    exact ⟨rfl, rfl⟩
  · rintro ⟨rfl, rfl⟩
    exact coordsToSite_div_mod L j

/-- The four neighbours of a site and the sites across the x-boundary, for `L >= 3`, in
terms of the coordinates of the target `j`. -/
theorem neighbour_facts {L i j : Nat} (hL : 3 ≤ L) (hi : i < L * L) :
    (CrossesXBoundary L i j →
      i ≠ j ∧ spaceNeigh L NeighDir.YPLUS i ≠ j ∧ spaceNeigh L NeighDir.YMINUS i ≠ j ∧
      ((i % L = L - 1 ∧ spaceNeigh L NeighDir.XPLUS i = j
          ∧ spaceNeigh L NeighDir.XMINUS i ≠ j) ∨
       (i % L = 0 ∧ spaceNeigh L NeighDir.XMINUS i = j
          ∧ spaceNeigh L NeighDir.XPLUS i ≠ j))) ∧
    (spaceNeigh L NeighDir.XPLUS i = j → i % L = L - 1 → CrossesXBoundary L i j) ∧
    (spaceNeigh L NeighDir.XMINUS i = j → i % L = 0 → CrossesXBoundary L i j) := by
  have hx := site_mod_lt hi
  have hy := site_div_lt hi
  have hwp : wrapPlus L (i % L) < L := wrapPlus_lt hx
  have hwm : wrapMinus L (i % L) < L := wrapMinus_lt hx
  have hij : i = j ↔ i % L = j % L ∧ i / L = j / L := by
    rw [← coordsToSite_eq_iff hx, coordsToSite_div_mod]
  simp only [spaceNeigh, ne_eq, coordsToSite_eq_iff hwp, coordsToSite_eq_iff hwm,
    coordsToSite_eq_iff hx, hij, CrossesXBoundary]
  generalize i % L = x at hx hwp hwm
  generalize i / L = y at hy
  generalize j % L = jx
  generalize j / L = jy
  unfold wrapPlus wrapMinus at *
  refine ⟨?_, ?_, ?_⟩
  · rintro ⟨rfl, h | h⟩
    · refine ⟨by omega, by omega, by omega, Or.inl ⟨h.1, ?_, ?_⟩⟩
      · split_ifs <;> omega
      · split_ifs <;> omega
    · refine ⟨by omega, by omega, by omega, Or.inr ⟨h.1, ?_, ?_⟩⟩
      · split_ifs <;> omega
      · split_ifs <;> omega
  · intro h1 h2
    split_ifs at h1 <;> omega
  · intro h1 h2
    split_ifs at h1
    omega

/-- C17. For `L >= 3` and each band, the hopping matrix `k` that `setupPropK` assembles under
`apbc-x` is the one assembled under `pbc` with the sign flipped at the entries `k(i, j)` of the
pairs joined across the x-boundary; every other entry is the same. -/
theorem setupPropK_apbc_x_sign (L : Nat) (hL : 3 ≤ L) (mu : R) (hopHor hopVer : Band → R)
    (band : Band) (i j : Nat) (hi : i < L * L) :
    (CrossesXBoundary L i j →
      setupPropK_k L mu BC.APBC_X hopHor hopVer band i j
        = -setupPropK_k L mu BC.PBC hopHor hopVer band i j) ∧
    (¬ CrossesXBoundary L i j →
      setupPropK_k L mu BC.APBC_X hopHor hopVer band i j
        = setupPropK_k L mu BC.PBC hopHor hopVer band i j) := by
  obtain ⟨f1, f2, f3⟩ := neighbour_facts (j := j) hL hi
  rw [setupPropK_k_apply, setupPropK_k_apply]
  simp only [if_pos hi, allDirs, List.map_cons, List.map_nil, List.sum_cons, List.sum_nil,
    boundaryHop_pbc, boundaryHop_apbc_x, hopTable, add_zero]
  constructor
  · intro hc
    obtain ⟨g0, g1, g2, g3⟩ := f1 hc
    rcases g3 with ⟨gx, g4, g5⟩ | ⟨gx, g4, g5⟩
    · simp [g0, g1, g2, g4, g5, gx]
    · have gx' : i % L ≠ L - 1 := by omega
      simp [g0, g1, g2, g4, g5, gx, gx']
  · intro hc
    have e1 : spaceNeigh L NeighDir.XPLUS i = j → i % L ≠ L - 1 := fun a b => hc (f2 a b)
    have e2 : spaceNeigh L NeighDir.XMINUS i = j → i % L ≠ 0 := fun a b => hc (f3 a b)
    by_cases a1 : spaceNeigh L NeighDir.XPLUS i = j <;>
      by_cases a2 : spaceNeigh L NeighDir.XMINUS i = j <;>
      simp [a1, a2, e1, e2]

theorem setupPropK_apbc_x_sign_witness :
    (3 ≤ 3 ∧ 2 < 3 * 3 ∧ CrossesXBoundary 3 2 0) ∧
    setupPropK_k 3 (1 / 2 : ℚ) BC.APBC_X exHopHor exHopVer Band.XBAND 2 0
      = -setupPropK_k 3 (1 / 2 : ℚ) BC.PBC exHopHor exHopVer Band.XBAND 2 0 :=
  ⟨⟨by decide, by decide, by unfold CrossesXBoundary; decide⟩,
    (setupPropK_apbc_x_sign 3 (by decide) (1 / 2 : ℚ) exHopHor exHopVer Band.XBAND 2 0
      (by decide)).1 (by unfold CrossesXBoundary; decide)⟩

theorem addToOtherBlocks_spec (n cur : Nat) (value : R) (vals : List R) :
    (addToOtherBlocks n cur value vals).length = vals.length ∧
    ∀ j, j < vals.length →
      (addToOtherBlocks n cur value vals).getD j 0
        = if j < n ∧ j ≠ cur then vals.getD j 0 + value else vals.getD j 0 := by
  unfold addToOtherBlocks
  induction n with
  | zero =>
    refine ⟨rfl, fun j _ => ?_⟩
    simp
  | succ n ih =>
    rw [List.range_succ, List.foldl_append, List.foldl_cons, List.foldl_nil]
    obtain ⟨ih1, ih2⟩ := ih
    by_cases hc : n ≠ cur
    · rw [if_pos hc]
      refine ⟨by rw [List.length_set, ih1], fun j hj => ?_⟩
      rw [List.getD_eq_getElem?_getD, List.getElem?_set, ih1]
      by_cases hnj : n = j
      · subst hnj
        rw [if_pos rfl, if_pos hj, Option.getD_some, ih2 n hj,
          if_neg (fun h => Nat.lt_irrefl _ h.1), if_pos ⟨Nat.lt_succ_self _, hc⟩]
      · rw [if_neg hnj, ← List.getD_eq_getElem?_getD, ih2 j hj]
        by_cases hjn : j < n
        · have : j < n + 1 := by omega
          simp only [hjn, this, true_and]
        · have : ¬ j < n + 1 := by omega
          simp only [hjn, this, false_and]
    · rw [if_neg hc]
      refine ⟨ih1, fun j hj => ?_⟩
      rw [ih2 j hj]
      have hc' : n = cur := not_not.1 hc
      by_cases hjn : j < n
      · have : j < n + 1 := by omega
        simp only [hjn, this, true_and]
      · by_cases hjn' : j = n
        · subst hjn'
          simp only [hjn, false_and, if_false, hc', ne_eq, not_true_eq_false, and_false]
        · have : ¬ j < n + 1 := by omega
          simp only [hjn, this, false_and]

theorem foldl_last_sweep (ins : List (R × Nat)) (d : Nat) :
    ins.foldl (fun _ p => p.2) d = ((ins.getLast?).map Prod.snd).getD d := by
  induction ins generalizing d with
  | nil => rfl
  | cons p rest ih =>
    rw [List.foldl_cons, ih]
    cases rest with
    | nil => rfl
    | cons q rest' =>
      rw [List.getLast?_cons_cons]
      cases hq : (q :: rest').getLast? with
      | none => exact absurd (List.getLast?_eq_none_iff.1 hq) (List.cons_ne_nil _ _)
      | some x => rfl

theorem insertAll_spec (ins : List (R × Nat)) :
    ∀ h0 : ObservableHandlerCommon R, 0 < h0.jkBlockSizeSweeps →
      h0.jkBlockValues.length = h0.jkBlockCount →
      ∃ h, h0.insertAll ins = some h ∧
        h.total = h0.total + sumValues ins ∧
        h.countValues % 2 ^ 32 = (h0.countValues + ins.length) % 2 ^ 32 ∧
        (h0.countValues < 2 ^ 32 → h.countValues < 2 ^ 32) ∧
        h.lastSweepLogged = ins.foldl (fun _ p => p.2) h0.lastSweepLogged ∧
        h.jkBlockCount = h0.jkBlockCount ∧ h.jkBlockSizeSweeps = h0.jkBlockSizeSweeps ∧
        h.mcparams = h0.mcparams ∧ h.zero = h0.zero ∧
        h.jkBlockValues.length = h0.jkBlockCount ∧
        ∀ jb, jb < h0.jkBlockCount →
          h.jkBlockValues.getD jb 0
            = h0.jkBlockValues.getD jb 0 + sumOtherBlocks h0.jkBlockSizeSweeps jb ins := by
  induction ins with
  | nil =>
    intro h0 _ hlen
    exact ⟨h0, rfl, by simp [sumValues], by simp, fun hc => hc, rfl, rfl, rfl, rfl, rfl, hlen,
      fun jb _ => by simp [sumOtherBlocks]⟩
  | cons p rest ih =>
    intro h0 hpos hlen
    obtain ⟨value, curSweep⟩ := p
    have hne : h0.jkBlockSizeSweeps ≠ 0 := by omega
    obtain ⟨a1, a2⟩ := addToOtherBlocks_spec h0.jkBlockCount
      (curSweep / h0.jkBlockSizeSweeps) value h0.jkBlockValues
    obtain ⟨h, e, t1, t2, tc, t3, t4, t5, t6, t7, t8, t9⟩ :=
      ih { h0 with
        jkBlockValues := addToOtherBlocks h0.jkBlockCount (curSweep / h0.jkBlockSizeSweeps)
          value h0.jkBlockValues
        total := h0.total + value
        countValues := (h0.countValues + 1) % 2 ^ 32
        lastSweepLogged := curSweep } hpos (by rw [a1]; exact hlen)
    refine ⟨h, ?_, ?_, ?_, ?_, t3, t4, t5, t6, t7, t8, ?_⟩
    · simp only [ObservableHandlerCommon.insertAll, ObservableHandlerCommon.insertValue,
        if_neg hne]
      exact e
    · rw [t1]
      simp only [sumValues, List.map_cons, List.sum_cons]
      ring
    · rw [t2]
      simp only [List.length_cons]
      omega
    · intro _
      exact tc (Nat.mod_lt _ (by decide))
    · intro jb hjb
      rw [t9 jb hjb, a2 jb (by rw [hlen]; exact hjb)]
      simp only [sumOtherBlocks, List.filter_cons]
      by_cases hb : curSweep / h0.jkBlockSizeSweeps = jb
      · have : ¬ (jb < h0.jkBlockCount ∧ jb ≠ curSweep / h0.jkBlockSizeSweeps) :=
          fun h => h.2 hb.symm
        simp [hb]
      · have : jb < h0.jkBlockCount ∧ jb ≠ curSweep / h0.jkBlockSizeSweeps :=
          ⟨hjb, fun h => hb h.symm⟩
        simp only [this, and_self, if_true, ne_eq, hb, not_false_eq_true, decide_True,
          List.map_cons, List.sum_cons]
        ring

/-- C18. After any sequence of `insertValue` calls on a freshly constructed handler with
`jkBlockSizeSweeps > 0` (fewer than `2^32` calls): `total` is the sum of all inserted values,
`countValues` the number of calls, `lastSweepLogged` the last `curSweep`, and for every block
`jb < jkBlockCount` the entry `jkBlockValues[jb]` is the sum of the inserted values whose
block index `curSweep / jkBlockSizeSweeps` differs from `jb`. -/
theorem insertValue_accumulation (mc : MCParams) (ins : List (R × Nat))
    (hsize : 0 < mc.sweeps / mc.jkBlocks) (hcalls : ins.length < 2 ^ 32) :
    ∃ h, (ObservableHandlerCommon.create mc (0 : R)).insertAll ins = some h ∧
      h.total = sumValues ins ∧
      h.countValues = ins.length ∧
      h.lastSweepLogged = ((ins.getLast?).map Prod.snd).getD 0 ∧
      h.jkBlockCount = mc.jkBlocks ∧
      h.jkBlockValues.length = mc.jkBlocks ∧
      ∀ jb, jb < h.jkBlockCount →
        h.jkBlockValues.getD jb 0 = sumOtherBlocks (mc.sweeps / mc.jkBlocks) jb ins := by
  obtain ⟨h, e, t1, t2, tc, t3, t4, t5, -, -, t8, t9⟩ :=
    insertAll_spec ins (ObservableHandlerCommon.create mc (0 : R)) hsize
      (by simp [ObservableHandlerCommon.create])
  have hcv : h.countValues < 2 ^ 32 := tc (by simp [ObservableHandlerCommon.create])
  rw [foldl_last_sweep] at t3
  refine ⟨h, e, ?_, ?_, t3, t4, t8, ?_⟩
  · rw [t1]
    simp [ObservableHandlerCommon.create]
  · simp only [ObservableHandlerCommon.create, Nat.zero_add] at t2
    rw [Nat.mod_eq_of_lt hcalls, Nat.mod_eq_of_lt hcv] at t2
    exact t2
  · intro jb hjb
    rw [t4] at hjb
    rw [t9 jb hjb]
    simp [ObservableHandlerCommon.create, List.getD_eq_getElem?_getD, hjb]

theorem insertValue_accumulation_witness :
    (0 < exMC.sweeps / exMC.jkBlocks ∧ (exInsFirst ++ exInsRest).length < 2 ^ 32) ∧
    ∃ h, (ObservableHandlerCommon.create exMC (0 : ℚ)).insertAll (exInsFirst ++ exInsRest)
        = some h ∧
      h.total = sumValues (exInsFirst ++ exInsRest) ∧
      h.countValues = (exInsFirst ++ exInsRest).length ∧
      h.lastSweepLogged = (((exInsFirst ++ exInsRest).getLast?).map Prod.snd).getD 0 ∧
      h.jkBlockCount = exMC.jkBlocks ∧
      h.jkBlockValues.length = exMC.jkBlocks ∧
      ∀ jb, jb < h.jkBlockCount →
        h.jkBlockValues.getD jb 0
          = sumOtherBlocks (exMC.sweeps / exMC.jkBlocks) jb (exInsFirst ++ exInsRest) :=
  ⟨⟨by decide, by decide⟩,
    insertValue_accumulation exMC (exInsFirst ++ exInsRest) (by decide) (by decide)⟩

theorem evaluateJackknife_eq_arguments {R : Type} [LinearOrderedField R]
    (jackknife : List R → R → R → R) (h : ObservableHandlerCommon R) :
    h.evaluateJackknife jackknife
      = (h.total / (h.countValues : R),
        match jackknifeArguments h with
        | some (avgs, mean, zero) => jackknife avgs mean zero
        | none => h.zero) := by
  unfold ObservableHandlerCommon.evaluateJackknife jackknifeArguments
  by_cases h1 : (h.mcparams.sweeps + 2 ^ 32 - h.lastSweepLogged) % 2 ^ 32
      ≤ h.mcparams.measureInterval
  · by_cases h2 : h.jkBlockCount > 1
    · simp only [if_pos h1, if_pos h2, h1, h2, and_self, if_true]
    · simp only [if_pos h1, if_neg h2, h1, h2, and_false, if_false, ite_self]
  · simp only [if_neg h1, h1, false_and, if_false]

/-- C19. Four sweeps in two jackknife blocks, one value per sweep: the handler is saved after
the first call and the archive loaded into a fresh handler. After the three remaining calls
the resumed handler agrees with the uninterrupted one in `total`, `countValues` and
`lastSweepLogged`, but its `jkBlockValues` differ, since `serializeContents` does not archive
them: `evaluateJackknife` hands other block averages to `jackknife`, and with the leave-one-out
variance in its place it returns another error. -/
theorem snapshot_round_trip_loses_block_sums :
    (((ObservableHandlerCommon.create exMC (0 : ℚ)).insertAll (exInsFirst ++ exInsRest)).map
        fun h => (h.total, h.countValues, h.lastSweepLogged, h.jkBlockValues))
      = some (10, 4, 4, [9, 5]) ∧
    ((resumedHandler exMC exInsFirst exInsRest).map
        fun h => (h.total, h.countValues, h.lastSweepLogged, h.jkBlockValues))
      = some (10, 4, 4, [9, 4]) ∧
    (((ObservableHandlerCommon.create exMC (0 : ℚ)).insertAll (exInsFirst ++ exInsRest)).map
        jackknifeArguments) = some (some ([9 / 2, 5 / 2], 5 / 2, 0)) ∧
    ((resumedHandler exMC exInsFirst exInsRest).map jackknifeArguments)
      = some (some ([9 / 2, 2], 5 / 2, 0)) ∧
    (((ObservableHandlerCommon.create exMC (0 : ℚ)).insertAll (exInsFirst ++ exInsRest)).map
        fun h => h.evaluateJackknife exJackknife) = some (5 / 2, 2) ∧
    ((resumedHandler exMC exInsFirst exInsRest).map
        fun h => h.evaluateJackknife exJackknife) = some (5 / 2, 17 / 8) := by
  refine ⟨?_, ?_, ?_, ?_, ?_, ?_⟩ <;> decide!

theorem numDiv_zero_not_finite (a : R) : (numDiv a 0).isFinite = false := by
  unfold numDiv
  rw [if_pos rfl]
  split <;> rfl

/-- C20 (amended). The reports of the global-move statistics divide without a guard: when
`globalShift` is enabled and `attemptedGlobalShifts = 0`, or `wolffClusterUpdate` is enabled and
`attemptedWolffClusterUpdates = 0` or `acceptedWolffClusterUpdates = 0`, both
`prepareModelMetadataMap` and `thermalizationOver` report a quotient with a zero divisor, which
is not-a-number or an infinity. -/
theorem global_move_statistics_unguarded {G U : Type} {P : Params R}
    (globalShift wolffClusterUpdate : Bool) (st : GlobalState R G U P)
    (h : (globalShift = true ∧ st.attemptedGlobalShifts = 0) ∨
      (wolffClusterUpdate = true ∧
        (st.attemptedWolffClusterUpdates = 0 ∨ st.acceptedWolffClusterUpdates = 0))) :
    SomeReported (fun v => !v.isFinite)
      (prepareModelMetadataMap_globalMoves globalShift wolffClusterUpdate st) ∧
    SomeReported (fun v => !v.isFinite)
      (thermalizationOver_globalMoves globalShift wolffClusterUpdate st) := by
  rcases h with ⟨hg, h0⟩ | ⟨hw, h0 | h0⟩
  · constructor
    · refine ⟨("globalShiftAccRatio", numDiv (st.acceptedGlobalShifts : R) 0), ?_, ?_⟩
      · cases wolffClusterUpdate <;>
          simp [prepareModelMetadataMap_globalMoves, hg, h0]
      · simp [numDiv_zero_not_finite]
    · refine ⟨("globalShiftMove acceptance ratio = ",
        numDiv (st.acceptedGlobalShifts : R) 0), ?_, ?_⟩
      · cases wolffClusterUpdate <;>
          simp [thermalizationOver_globalMoves, hg, h0]
      · simp [numDiv_zero_not_finite]
  · constructor
    · refine ⟨("wolffClusterUpdateAccRatio",
        numDiv (st.acceptedWolffClusterUpdates : R) 0), ?_, ?_⟩
      · simp [prepareModelMetadataMap_globalMoves, hw, h0]
      · simp [numDiv_zero_not_finite]
    · refine ⟨("wolffClusterUpdate acceptance ratio = ",
        numDiv (st.acceptedWolffClusterUpdates : R) 0), ?_, ?_⟩
      · simp [thermalizationOver_globalMoves, hw, h0]
      · simp [numDiv_zero_not_finite]
  · constructor
    · refine ⟨("averageAcceptedWolffClusterSize", numDiv st.addedWolffClusterSize 0), ?_, ?_⟩
      · simp [prepareModelMetadataMap_globalMoves, hw, h0]
      · simp [numDiv_zero_not_finite]
    · refine ⟨(", average accepted size = ", numDiv st.addedWolffClusterSize 0), ?_, ?_⟩
      · simp [thermalizationOver_globalMoves, hw, h0]
      · simp [numDiv_zero_not_finite]

/-- C20 (counterexample). On a freshly constructed object (all counters zero) with
`globalShift` enabled, `prepareModelMetadataMap` stores the quotient `0 / 0` under
`globalShiftAccRatio` and `thermalizationOver` prints it: not-a-number is reported. -/
theorem global_move_statistics_report_nan :
    prepareModelMetadataMap_globalMoves true false exGlobalState
      = [("globalShiftAccRatio", NumQuotient.nan)] ∧
    thermalizationOver_globalMoves true false exGlobalState
      = [("globalShiftMove acceptance ratio = ", NumQuotient.nan)] := by
  constructor <;> decide!

theorem global_move_statistics_unguarded_witness :
    ((true = true ∧ exGlobalState.attemptedGlobalShifts = 0) ∨
      (true = true ∧
        (exGlobalState.attemptedWolffClusterUpdates = 0
          ∨ exGlobalState.acceptedWolffClusterUpdates = 0))) ∧
    (SomeReported (fun v => !v.isFinite)
      (prepareModelMetadataMap_globalMoves true true exGlobalState) ∧
    SomeReported (fun v => !v.isFinite)
      (thermalizationOver_globalMoves true true exGlobalState)) :=
  ⟨Or.inl ⟨rfl, rfl⟩, global_move_statistics_unguarded true true exGlobalState
    (Or.inl ⟨rfl, rfl⟩)⟩

theorem foldl_range_sum (g : R → Nat → R) (f : Nat → R) (hg : ∀ d i, g d i = d + f i)
    (n : Nat) (d0 : R) :
    (List.range n).foldl g d0 = d0 + ∑ i ∈ Finset.range n, f i := by
  induction n with
  | zero => simp
  | succ n ih =>
    rw [List.range_succ, List.foldl_append, ih, Finset.sum_range_succ]
    simp only [List.foldl_cons, List.foldl_nil, hg]
    ring

theorem sum_sub_single (S : Finset Nat) (g g' : Nat → R) (a : Nat) (ha : a ∈ S)
    (hsame : ∀ k ∈ S, k ≠ a → g' k = g k) :
    (∑ k ∈ S, g' k) - (∑ k ∈ S, g k) = g' a - g a := by
  rw [← Finset.sum_sub_distrib]
  refine Finset.sum_eq_single_of_mem a ha ?_
  intro k hk hne
  rw [hsame k hk hne, sub_self]

theorem sum_sub_pair (S : Finset Nat) (g g' : Nat → R) (a b : Nat) (ha : a ∈ S) (hb : b ∈ S)
    (hab : a ≠ b) (hsame : ∀ k ∈ S, k ≠ a → k ≠ b → g' k = g k) :
    (∑ k ∈ S, g' k) - (∑ k ∈ S, g k) = (g' a - g a) + (g' b - g b) := by
  rw [← Finset.sum_sub_distrib]
  refine Finset.sum_eq_add_of_mem a b ha hb hab ?_
  intro k hk hne
  rw [hsame k hk hne.1 hne.2, sub_self]

theorem getPhi_rescaleSlice (F : PhiField R) (N timeslice : Nat) (factor : R) (s k : Nat) :
    (F.rescaleSlice N timeslice factor).getPhi s k
      = if k = timeslice ∧ s < N then factor • F.getPhi s k else F.getPhi s k := by
  funext i
  unfold PhiField.getPhi PhiField.rescaleSlice
  by_cases h : k = timeslice ∧ s < N
  · fin_cases i <;> simp [h]
  · fin_cases i <;> simp [h]

/-- C27. For every field configuration, every time slice in `1..m` (`m >= 2`) and every
factor, `deltaSPhiTimesliceRescale(timeslice, factor)` equals `phiAction` of the configuration
in which the `N` field vectors of that slice are multiplied by `factor` minus `phiAction` of
the current configuration, with the constant `c = 1` of the constructor and exact powers. -/
theorem deltaSPhiTimesliceRescale_eq_phiAction_diff (tm : TrigMath R) (P : Params R)
    (F : PhiField R) (timeslice : Nat) (factor : R)
    (hpow2 : ∀ v : R, tm.pow v 2 = v ^ 2) (hpow4 : ∀ v : R, tm.pow v 4 = v ^ 4)
    (hc : P.c = 1) (hm : 2 ≤ P.m) (hk1 : 1 ≤ timeslice) (hk2 : timeslice ≤ P.m) :
    deltaSPhiTimesliceRescale tm P F timeslice factor
      = phiAction P (F.rescaleSlice P.N timeslice factor) - phiAction P F := by
  have hk : timeslice ∈ Finset.Icc 1 P.m := Finset.mem_Icc.mpr ⟨hk1, hk2⟩
  have hplus := timeNeigh_ne hm ChainDir.PLUS hk
  have hminus := timeNeigh_ne hm ChainDir.MINUS hk
  have hkp := timeNeigh_mem ChainDir.PLUS hk
  -- the four parts of the action
  have hT : (∑ k ∈ Finset.Icc 1 P.m, ∑ s ∈ Finset.range P.N,
        actionTime P ((F.rescaleSlice P.N timeslice factor).getPhi s k)
          ((F.rescaleSlice P.N timeslice factor).getPhi s (timeNeigh P.m ChainDir.MINUS k)))
      - (∑ k ∈ Finset.Icc 1 P.m, ∑ s ∈ Finset.range P.N,
        actionTime P (F.getPhi s k) (F.getPhi s (timeNeigh P.m ChainDir.MINUS k)))
      = ∑ s ∈ Finset.range P.N,
          ((actionTime P (factor • F.getPhi s timeslice)
              (F.getPhi s (timeNeigh P.m ChainDir.MINUS timeslice))
            - actionTime P (F.getPhi s timeslice)
              (F.getPhi s (timeNeigh P.m ChainDir.MINUS timeslice)))
          + (actionTime P (F.getPhi s (timeNeigh P.m ChainDir.PLUS timeslice))
              (factor • F.getPhi s timeslice)
            - actionTime P (F.getPhi s (timeNeigh P.m ChainDir.PLUS timeslice))
              (F.getPhi s timeslice))) := by
    rw [sum_sub_pair (Finset.Icc 1 P.m) _ _ timeslice (timeNeigh P.m ChainDir.PLUS timeslice)
      hk hkp (fun h => hplus h.symm)]
    · rw [← Finset.sum_sub_distrib, ← Finset.sum_sub_distrib, ← Finset.sum_add_distrib]
      refine Finset.sum_congr rfl fun s hs => ?_
      have hsN := Finset.mem_range.mp hs
      rw [getPhi_rescaleSlice, getPhi_rescaleSlice, getPhi_rescaleSlice, getPhi_rescaleSlice,
        timeNeigh_minus_plus hk, if_pos ⟨rfl, hsN⟩, if_neg (fun h => hminus h.1),
        if_neg (fun h => hplus h.1)]
    · intro k hkk hn1 hn2
      refine Finset.sum_congr rfl fun s _ => ?_
      rw [getPhi_rescaleSlice, getPhi_rescaleSlice, if_neg (fun h => hn1 h.1), if_neg]
      rintro ⟨e1, -⟩
      apply hn2
      rw [← e1, timeNeigh_plus_minus hkk]
  have hB : ∀ dir : NeighDir,
      (∑ k ∈ Finset.Icc 1 P.m, ∑ s ∈ Finset.range P.N,
        actionBond P ((F.rescaleSlice P.N timeslice factor).getPhi s k)
          ((F.rescaleSlice P.N timeslice factor).getPhi (spaceNeigh P.L dir s) k))
      - (∑ k ∈ Finset.Icc 1 P.m, ∑ s ∈ Finset.range P.N,
        actionBond P (F.getPhi s k) (F.getPhi (spaceNeigh P.L dir s) k))
      = ∑ s ∈ Finset.range P.N,
          (actionBond P (factor • F.getPhi s timeslice)
              (factor • F.getPhi (spaceNeigh P.L dir s) timeslice)
            - actionBond P (F.getPhi s timeslice)
              (F.getPhi (spaceNeigh P.L dir s) timeslice)) := by
    intro dir
    rw [sum_sub_single (Finset.Icc 1 P.m) _ _ timeslice hk]
    · rw [← Finset.sum_sub_distrib]
      refine Finset.sum_congr rfl fun s hs => ?_
      have hsN : s < P.N := Finset.mem_range.mp hs
      have hnN : spaceNeigh P.L dir s < P.N := spaceNeigh_lt dir hsN
      rw [getPhi_rescaleSlice, getPhi_rescaleSlice, if_pos ⟨rfl, hsN⟩, if_pos ⟨rfl, hnN⟩]
    · intro k _ hn1
      refine Finset.sum_congr rfl fun s _ => ?_
      rw [getPhi_rescaleSlice, getPhi_rescaleSlice, if_neg (fun h => hn1 h.1),
        if_neg (fun h => hn1 h.1)]
  have hV : (∑ k ∈ Finset.Icc 1 P.m, ∑ s ∈ Finset.range P.N,
        actionSite P ((F.rescaleSlice P.N timeslice factor).getPhi s k))
      - (∑ k ∈ Finset.Icc 1 P.m, ∑ s ∈ Finset.range P.N, actionSite P (F.getPhi s k))
      = ∑ s ∈ Finset.range P.N,
          (actionSite P (factor • F.getPhi s timeslice)
            - actionSite P (F.getPhi s timeslice)) := by
    rw [sum_sub_single (Finset.Icc 1 P.m) _ _ timeslice hk]
    · rw [← Finset.sum_sub_distrib]
      refine Finset.sum_congr rfl fun s hs => ?_
      rw [getPhi_rescaleSlice, if_pos ⟨rfl, Finset.mem_range.mp hs⟩]
    · intro k _ hn1
      refine Finset.sum_congr rfl fun s _ => ?_
      rw [getPhi_rescaleSlice, if_neg (fun h => hn1 h.1)]
  rw [phiAction_split, phiAction_split]
  rw [add_sub_add_comm, add_sub_add_comm, add_sub_add_comm, hT, hB, hB, hV]
  -- the loops of the routine as sums
  unfold deltaSPhiTimesliceRescale
  simp only [hpow2, hpow4]
  rw [foldl_range_sum _ (fun site_i =>
      ((F.phi0 site_i timeslice - F.phi0 (spaceNeigh P.L NeighDir.XPLUS site_i) timeslice) ^ 2
        + (F.phi1 site_i timeslice - F.phi1 (spaceNeigh P.L NeighDir.XPLUS site_i) timeslice) ^ 2
        + (F.phi2 site_i timeslice - F.phi2 (spaceNeigh P.L NeighDir.XPLUS site_i) timeslice) ^ 2)
      + ((F.phi0 site_i timeslice - F.phi0 (spaceNeigh P.L NeighDir.YPLUS site_i) timeslice) ^ 2
        + (F.phi1 site_i timeslice - F.phi1 (spaceNeigh P.L NeighDir.YPLUS site_i) timeslice) ^ 2
        + (F.phi2 site_i timeslice - F.phi2 (spaceNeigh P.L NeighDir.YPLUS site_i) timeslice) ^ 2))
      (fun d i => by simp only [List.foldl_cons, List.foldl_nil]; ring),
    foldl_range_sum _ (fun site_i => F.phi0 site_i timeslice ^ 2 + F.phi1 site_i timeslice ^ 2
      + F.phi2 site_i timeslice ^ 2) (fun d i => rfl),
    foldl_range_sum _ (fun site_i => (F.phi0 site_i timeslice ^ 2 + F.phi1 site_i timeslice ^ 2
      + F.phi2 site_i timeslice ^ 2) ^ 2) (fun d i => rfl),
    foldl_range_sum _ (fun site_i => (factor ^ 2 - 1) * (F.phi0 site_i timeslice ^ 2
        + F.phi1 site_i timeslice ^ 2 + F.phi2 site_i timeslice ^ 2)
      - (factor - 1) * (
          F.phi0 site_i timeslice
            * (F.phi0 site_i (timeNeigh P.m ChainDir.MINUS timeslice)
              + F.phi0 site_i (timeNeigh P.m ChainDir.PLUS timeslice))
        + F.phi1 site_i timeslice
            * (F.phi1 site_i (timeNeigh P.m ChainDir.MINUS timeslice)
              + F.phi1 site_i (timeNeigh P.m ChainDir.PLUS timeslice))
        + F.phi2 site_i timeslice
            * (F.phi2 site_i (timeNeigh P.m ChainDir.MINUS timeslice)
              + F.phi2 site_i (timeNeigh P.m ChainDir.PLUS timeslice))))
      (fun d i => by ring)]
  simp only [zero_add, Finset.mul_sum, ← Finset.sum_add_distrib]
  refine Finset.sum_congr rfl fun s _ => ?_
  simp only [actionTime_eq, actionBond, actionSite, hc, mul_one, PhiField.getPhi, dot,
    Pi.sub_apply, Pi.smul_apply, smul_eq_mul, Matrix.cons_val_zero, Matrix.cons_val_one,
    Matrix.head_cons, Matrix.cons_val_two, Matrix.tail_cons]
  generalize (1 / P.dtau) = w
  ring

theorem addToRunningAverage_sizes {A : Type} (ra : RunningAverage R A) (what : AdaptingWhat)
    (v : R) (sz : StepSizes R A) :
    (addToRunningAverage ra what v sz).phiDelta = sz.phiDelta ∧
    (addToRunningAverage ra what v sz).angleDelta = sz.angleDelta ∧
    (addToRunningAverage ra what v sz).scaleDelta = sz.scaleDelta ∧
    (addToRunningAverage ra what v sz).curminAngleDelta = sz.curminAngleDelta ∧
    (addToRunningAverage ra what v sz).curmaxAngleDelta = sz.curmaxAngleDelta ∧
    (addToRunningAverage ra what v sz).curminScaleDelta = sz.curminScaleDelta ∧
    (addToRunningAverage ra what v sz).curmaxScaleDelta = sz.curmaxScaleDelta := by
  cases what <;> exact ⟨rfl, rfl, rfl, rfl, rfl, rfl, rfl⟩

theorem adjustStepSize_averages {A : Type} (c : ControllerConstants R) (mem : SweepMembers R)
    (what : AdaptingWhat) (avg : R) (sz : StepSizes R A) :
    (adjustStepSize c mem what avg sz).accRatioLocal_box_RA = sz.accRatioLocal_box_RA ∧
    (adjustStepSize c mem what avg sz).accRatioLocal_rotate_RA = sz.accRatioLocal_rotate_RA ∧
    (adjustStepSize c mem what avg sz).accRatioLocal_scale_RA = sz.accRatioLocal_scale_RA := by
  cases what <;> simp only [adjustStepSize] <;> split_ifs <;> exact ⟨rfl, rfl, rfl⟩

theorem adjustStepSize_bracket {A : Type} (c : ControllerConstants R) (mem : SweepMembers R)
    (what : AdaptingWhat) (avg : R) (sz : StepSizes R A) (h : AngleBracket c sz) :
    AngleBracket c (adjustStepSize c mem what avg sz) ∧
    (adjustStepSize c mem what avg sz).curmaxAngleDelta
        - (adjustStepSize c mem what avg sz).curminAngleDelta
      ≤ sz.curmaxAngleDelta - sz.curminAngleDelta := by
  obtain ⟨h1, h2, h3, h4⟩ := h
  cases what
  · simp only [adjustStepSize]
    split_ifs <;> exact ⟨⟨h1, h2, h3, h4⟩, le_refl _⟩
  · simp only [adjustStepSize]
    split_ifs
    · refine ⟨⟨?_, ?_, ?_, ?_⟩, ?_⟩ <;> simp only <;> linarith
    · refine ⟨⟨?_, ?_, ?_, ?_⟩, ?_⟩ <;> simp only <;> linarith
    · exact ⟨⟨h1, h2, h3, h4⟩, le_refl _⟩
  · simp only [adjustStepSize]
    split_ifs <;> exact ⟨⟨h1, h2, h3, h4⟩, le_refl _⟩

theorem adaptStepSizes_ok {A : Type} (c : ControllerConstants R) (ra : RunningAverage R A)
    (mem : SweepMembers R) (v : R) (sz sz1 : StepSizes R A)
    (h : adaptStepSizes c ra mem v sz = Except.ok sz1) :
    ∃ what, adaptingWhat c mem = Except.ok what ∧
      (sz1 = addToRunningAverage ra what v sz ∨
        sz1 = adjustStepSize c mem what
          (ra.get (chosenRunningAverage what (addToRunningAverage ra what v sz)))
          (addToRunningAverage ra what v sz)) := by
  unfold adaptStepSizes at h
  split at h
  · cases h
  · rename_i what hw
    refine ⟨what, hw, ?_⟩
    simp only at h
    split_ifs at h
    · exact Or.inr (Except.ok.inj h).symm
    · exact Or.inl (Except.ok.inj h).symm

theorem adaptStepSizes_returns {A : Type} (c : ControllerConstants R) (ra : RunningAverage R A)
    (mem : SweepMembers R) (v : R) (sz : StepSizes R A)
    (hc : c.AccRatioAdjustmentSamples ≠ 0) :
    ∃ sz1, adaptStepSizes c ra mem v sz = Except.ok sz1 := by
  have hw : ∃ what, adaptingWhat c mem = Except.ok what := by
    unfold adaptingWhat
    split
    · exact ⟨_, rfl⟩
    · split_ifs <;> exact ⟨_, rfl⟩
    · rw [if_neg (by omega)]
      split_ifs <;> exact ⟨_, rfl⟩
  obtain ⟨what, hw⟩ := hw
  unfold adaptStepSizes
  rw [hw]
  simp only [if_neg hc]
  split_ifs <;> exact ⟨_, rfl⟩

theorem updateInSliceThermalization_ok {G A : Type} (sm : StdMath R) (tm : TrigMath R)
    (rw : RngWrapper R G) (nd : NormalDistribution R G) {P : Params R} (env : SweepEnv R G P)
    (c : ControllerConstants R) (ra : RunningAverage R A)
    (mem : SweepMembers R) (timeslice : Nat) (s r : State R G P × StepSizes R A)
    (h : updateInSliceThermalization sm tm rw nd env c ra mem timeslice s = Except.ok r) :
    updateInSlice sm tm rw nd env mem s.2 timeslice s.1 = Except.ok r.1 ∧
    adaptStepSizes c ra mem r.1.lastAccRatioLocal s.2 = Except.ok r.2 := by
  unfold updateInSliceThermalization at h
  split at h
  · cases h
  · rename_i st1 h1
    split at h
    · cases h
    · rename_i sz1 h2
      cases h
      exact ⟨h1, h2⟩

theorem updateInSliceThermalization_returns {G A : Type} (sm : StdMath R) (tm : TrigMath R)
    (rw : RngWrapper R G) (nd : NormalDistribution R G) {P : Params R} (env : SweepEnv R G P)
    (c : ControllerConstants R) (ra : RunningAverage R A)
    (mem : SweepMembers R) (timeslice : Nat) (s : State R G P × StepSizes R A)
    (st1 : State R G P)
    (h : updateInSlice sm tm rw nd env mem s.2 timeslice s.1 = Except.ok st1)
    (hc : c.AccRatioAdjustmentSamples ≠ 0) :
    ∃ sz1, updateInSliceThermalization sm tm rw nd env c ra mem timeslice s
      = Except.ok (st1, sz1) := by
  obtain ⟨sz1, h2⟩ := adaptStepSizes_returns c ra mem st1.lastAccRatioLocal s.2 hc
  refine ⟨sz1, ?_⟩
  unfold updateInSliceThermalization
  rw [h]
  simp only [h2]

theorem updateInSliceThermalization_bracket {G A : Type} (sm : StdMath R) (tm : TrigMath R)
    (rw : RngWrapper R G) (nd : NormalDistribution R G) {P : Params R} (env : SweepEnv R G P)
    (c : ControllerConstants R) (ra : RunningAverage R A)
    (mem : SweepMembers R) (timeslice : Nat) (s r : State R G P × StepSizes R A)
    (hb : AngleBracket c s.2)
    (h : updateInSliceThermalization sm tm rw nd env c ra mem timeslice s = Except.ok r) :
    AngleBracket c r.2 ∧
    r.2.curmaxAngleDelta - r.2.curminAngleDelta
      ≤ s.2.curmaxAngleDelta - s.2.curminAngleDelta := by
  obtain ⟨-, h2⟩ := updateInSliceThermalization_ok sm tm rw nd env c ra mem timeslice s r h
  obtain ⟨what, -, e | e⟩ := adaptStepSizes_ok c ra mem _ _ _ h2
  · obtain ⟨-, e2, -, e4, e5, -, -⟩ :=
      addToRunningAverage_sizes ra what r.1.lastAccRatioLocal s.2
    rw [e]
    unfold AngleBracket
    rw [e2, e4, e5]
    exact ⟨hb, le_refl _⟩
  · have hb1 : AngleBracket c (addToRunningAverage ra what r.1.lastAccRatioLocal s.2) := by
      obtain ⟨-, e2, -, e4, e5, -, -⟩ :=
        addToRunningAverage_sizes ra what r.1.lastAccRatioLocal s.2
      unfold AngleBracket
      rw [e2, e4, e5]
      exact hb
    obtain ⟨k1, k2⟩ := adjustStepSize_bracket c mem what
      (ra.get (chosenRunningAverage what (addToRunningAverage ra what r.1.lastAccRatioLocal s.2)))
      _ hb1
    obtain ⟨-, -, -, e4, e5, -, -⟩ :=
      addToRunningAverage_sizes ra what r.1.lastAccRatioLocal s.2
    rw [e]
    refine ⟨k1, ?_⟩
    rw [e4, e5] at k2
    exact k2

theorem thermalizationCalls_bracket {G A : Type} (sm : StdMath R) (tm : TrigMath R)
    (rw : RngWrapper R G) (nd : NormalDistribution R G) {P : Params R} (env : SweepEnv R G P)
    (c : ControllerConstants R) (ra : RunningAverage R A)
    (calls : List (SweepMembers R × Nat)) :
    ∀ (s r : State R G P × StepSizes R A), AngleBracket c s.2 →
      thermalizationCalls sm tm rw nd env c ra calls s = Except.ok r →
      AngleBracket c r.2 ∧
      r.2.curmaxAngleDelta - r.2.curminAngleDelta
        ≤ s.2.curmaxAngleDelta - s.2.curminAngleDelta := by
  induction calls with
  | nil =>
    intro s r hb h
    cases h
    exact ⟨hb, le_refl _⟩
  | cons call rest ih =>
    intro s r hb h
    unfold thermalizationCalls at h
    rw [List.foldlM_cons] at h
    cases h1 : updateInSliceThermalization sm tm rw nd env c ra call.1 call.2 s with
    | error e =>
      rw [h1] at h
      cases h
    | ok s1 =>
      rw [h1] at h
      obtain ⟨k1, k2⟩ :=
        updateInSliceThermalization_bracket sm tm rw nd env c ra call.1 call.2 s s1 hb h1
      obtain ⟨k3, k4⟩ := ih s1 r k1 h
      exact ⟨k3, le_trans k4 k2⟩

/-- C30. If `MinAngleDelta <= curminAngleDelta <= angleDelta <= curmaxAngleDelta <=
MaxAngleDelta` holds before a call of `updateInSliceThermalization`, then, for a positive
`AccRatioAdjustmentSamples`, the call returns whenever its `updateInSlice` does, the bracket
holds after it and its width has not grown; the same holds after any sequence of calls, so
that `angleDelta` stays in `[MinAngleDelta, MaxAngleDelta]`. The state set up by the
constructor satisfies the bracket when `MinAngleDelta <= InitialAngleDelta <= MaxAngleDelta`. -/
theorem angle_bracket_invariant {G A : Type} (sm : StdMath R) (tm : TrigMath R)
    (rw : RngWrapper R G) (nd : NormalDistribution R G) {P : Params R} (env : SweepEnv R G P)
    (c : ControllerConstants R) (ra : RunningAverage R A)
    (hc : c.AccRatioAdjustmentSamples ≠ 0)
    (s : State R G P × StepSizes R A) (hb : AngleBracket c s.2) :
    (∀ mem timeslice st1,
      updateInSlice sm tm rw nd env mem s.2 timeslice s.1 = Except.ok st1 →
      ∃ sz1, updateInSliceThermalization sm tm rw nd env c ra mem timeslice s
          = Except.ok (st1, sz1) ∧
        AngleBracket c sz1 ∧
        sz1.curmaxAngleDelta - sz1.curminAngleDelta
          ≤ s.2.curmaxAngleDelta - s.2.curminAngleDelta) ∧
    (∀ calls r, thermalizationCalls sm tm rw nd env c ra calls s = Except.ok r →
      AngleBracket c r.2 ∧
      r.2.curmaxAngleDelta - r.2.curminAngleDelta
        ≤ s.2.curmaxAngleDelta - s.2.curminAngleDelta ∧
      c.MinAngleDelta ≤ r.2.angleDelta ∧ r.2.angleDelta ≤ c.MaxAngleDelta) ∧
    (c.MinAngleDelta ≤ c.InitialAngleDelta → c.InitialAngleDelta ≤ c.MaxAngleDelta →
      AngleBracket c (constructStepSizes c ra)) := by
  refine ⟨?_, ?_, ?_⟩
  · intro mem timeslice st1 h
    obtain ⟨sz1, h1⟩ :=
      updateInSliceThermalization_returns sm tm rw nd env c ra mem timeslice s st1 h hc
    exact ⟨sz1, h1,
      updateInSliceThermalization_bracket sm tm rw nd env c ra mem timeslice s _ hb h1⟩
  · intro calls r h
    obtain ⟨k1, k2⟩ := thermalizationCalls_bracket sm tm rw nd env c ra calls s r hb h
    exact ⟨k1, k2, le_trans k1.1 k1.2.1, le_trans k1.2.2.1 k1.2.2.2⟩
  · intro h1 h2
    exact ⟨le_refl _, h1, h2, le_refl _⟩

theorem updateInSlice_repeat_eq {G A : Type} (sm : StdMath R) (tm : TrigMath R)
    (rw : RngWrapper R G) (nd : NormalDistribution R G) {P : Params R} (env : SweepEnv R G P)
    (mem : SweepMembers R) (sz : StepSizes R A) (timeslice : Nat) (st : State R G P) :
    updateInSlice_repeat sm tm rw nd env mem sz timeslice st
      = repeatWithProposal env mem.repeatUpdateInSlice timeslice
          (match mem.spinProposalMethod with
            | SpinProposalMethod.BOX => proposeNewField rw sz.phiDelta
            | SpinProposalMethod.ROTATE_THEN_SCALE =>
              if mem.performedSweeps % 2 = 0 then proposeRotatedField sm tm rw sz.angleDelta
              else proposeScaledField tm nd sz.scaleDelta
            | SpinProposalMethod.ROTATE_AND_SCALE =>
              proposeRotatedScaledField sm tm rw nd sz.angleDelta sz.scaleDelta) st := by
  unfold updateInSlice_repeat repeatWithProposal
  cases hm : mem.spinProposalMethod
  · rfl
  · by_cases hp : mem.performedSweeps % 2 = 0
    · simp only [if_pos hp]
    · simp only [if_neg hp]
  · rfl

theorem adaptStepSizes_averages {A : Type} (c : ControllerConstants R)
    (ra : RunningAverage R A) (mem : SweepMembers R) (v : R) (sz sz1 : StepSizes R A)
    (h : adaptStepSizes c ra mem v sz = Except.ok sz1) :
    ∃ what, adaptingWhat c mem = Except.ok what ∧
      sz1.accRatioLocal_box_RA = (addToRunningAverage ra what v sz).accRatioLocal_box_RA ∧
      sz1.accRatioLocal_rotate_RA
        = (addToRunningAverage ra what v sz).accRatioLocal_rotate_RA ∧
      sz1.accRatioLocal_scale_RA = (addToRunningAverage ra what v sz).accRatioLocal_scale_RA := by
  obtain ⟨what, hw, e | e⟩ := adaptStepSizes_ok c ra mem v sz sz1 h
  · exact ⟨what, hw, by rw [e], by rw [e], by rw [e]⟩
  · obtain ⟨a1, a2, a3⟩ := adjustStepSize_averages c mem what
      (ra.get (chosenRunningAverage what (addToRunningAverage ra what v sz)))
      (addToRunningAverage ra what v sz)
    exact ⟨what, hw, by rw [e, a1], by rw [e, a2], by rw [e, a3]⟩

/-- In every repetition of the loop of `updateInSlice` the proposal handed to
`callUpdateInSlice_for_updateMethod` is `proposeNewField` for `box`,
`proposeRotatedScaledField` for `rotate_and_scale` and, for `rotate_then_scale`,
`proposeRotatedField` when `performedSweeps` is even and `proposeScaledField` when it is odd.
For `rotate_then_scale`, `updateInSliceThermalization` returns whenever its `updateInSlice`
does (`AccRatioAdjustmentSamples > 0`) and adds the `lastAccRatioLocal` that `updateInSlice`
left to the running average of the rotate moves when `performedSweeps` is even and to that of
the scale moves when it is odd, leaving the other running averages as they were. -/
theorem updateInSlice_repeat_choice {G A : Type} (sm : StdMath R) (tm : TrigMath R)
    (rw : RngWrapper R G) (nd : NormalDistribution R G) {P : Params R} (env : SweepEnv R G P)
    (c : ControllerConstants R) (ra : RunningAverage R A)
    (mem : SweepMembers R) (timeslice : Nat) (s : State R G P × StepSizes R A) :
    (mem.spinProposalMethod = SpinProposalMethod.BOX →
      updateInSlice_repeat sm tm rw nd env mem s.2 timeslice s.1
        = repeatWithProposal env mem.repeatUpdateInSlice timeslice
            (proposeNewField rw s.2.phiDelta) s.1) ∧
    (mem.spinProposalMethod = SpinProposalMethod.ROTATE_AND_SCALE →
      updateInSlice_repeat sm tm rw nd env mem s.2 timeslice s.1
        = repeatWithProposal env mem.repeatUpdateInSlice timeslice
            (proposeRotatedScaledField sm tm rw nd s.2.angleDelta s.2.scaleDelta) s.1) ∧
    (mem.spinProposalMethod = SpinProposalMethod.ROTATE_THEN_SCALE →
      (mem.performedSweeps % 2 = 0 →
        updateInSlice_repeat sm tm rw nd env mem s.2 timeslice s.1
          = repeatWithProposal env mem.repeatUpdateInSlice timeslice
              (proposeRotatedField sm tm rw s.2.angleDelta) s.1) ∧
      (mem.performedSweeps % 2 = 1 →
        updateInSlice_repeat sm tm rw nd env mem s.2 timeslice s.1
          = repeatWithProposal env mem.repeatUpdateInSlice timeslice
              (proposeScaledField tm nd s.2.scaleDelta) s.1) ∧
      (c.AccRatioAdjustmentSamples ≠ 0 → ∀ st1,
        updateInSlice sm tm rw nd env mem s.2 timeslice s.1 = Except.ok st1 →
        ∃ sz1, updateInSliceThermalization sm tm rw nd env c ra mem timeslice s
            = Except.ok (st1, sz1) ∧
          (mem.performedSweeps % 2 = 0 →
            sz1.accRatioLocal_rotate_RA
                = ra.addValue s.2.accRatioLocal_rotate_RA st1.lastAccRatioLocal ∧
              sz1.accRatioLocal_scale_RA = s.2.accRatioLocal_scale_RA ∧
              sz1.accRatioLocal_box_RA = s.2.accRatioLocal_box_RA) ∧
          (mem.performedSweeps % 2 = 1 →
            sz1.accRatioLocal_scale_RA
                = ra.addValue s.2.accRatioLocal_scale_RA st1.lastAccRatioLocal ∧
              sz1.accRatioLocal_rotate_RA = s.2.accRatioLocal_rotate_RA ∧
              sz1.accRatioLocal_box_RA = s.2.accRatioLocal_box_RA))) := by
  have key := updateInSlice_repeat_eq sm tm rw nd env mem s.2 timeslice s.1
  refine ⟨?_, ?_, ?_⟩
  · intro hm
    rw [key, hm]
  · intro hm
    rw [key, hm]
  · intro hm
    refine ⟨?_, ?_, ?_⟩
    · intro hp
      rw [key, hm]
      simp only [if_pos hp]
    · intro hp
      have hp' : ¬ mem.performedSweeps % 2 = 0 := by omega
      rw [key, hm]
      simp only [if_neg hp']
    · intro hc st1 h
      obtain ⟨sz1, h1⟩ :=
        updateInSliceThermalization_returns sm tm rw nd env c ra mem timeslice s st1 h hc
      obtain ⟨-, h2⟩ :=
        updateInSliceThermalization_ok sm tm rw nd env c ra mem timeslice s _ h1
      obtain ⟨what, hw, a1, a2, a3⟩ := adaptStepSizes_averages c ra mem _ _ _ h2
      refine ⟨sz1, h1, ?_, ?_⟩
      · intro hp
        have e : what = AdaptingWhat.ADAPT_ROTATE := by
          unfold adaptingWhat at hw
          rw [hm] at hw
          simp only [if_pos hp] at hw
          exact (Except.ok.inj hw).symm
        subst e
        exact ⟨a2, a3, a1⟩
      · intro hp
        have hp' : ¬ mem.performedSweeps % 2 = 0 := by omega
        have e : what = AdaptingWhat.ADAPT_SCALE := by
          unfold adaptingWhat at hw
          rw [hm] at hw
          simp only [if_neg hp'] at hw
          exact (Except.ok.inj hw).symm
        subst e
        exact ⟨a3, a2, a1⟩

theorem adjustStepSize_scale_below_target {R A : Type} [LinearOrderedField R]
    (c : ControllerConstants R) (mem : SweepMembers R) (avg : R) (sz : StepSizes R A)
    (h : avg ≤ mem.targetAccRatioLocal) :
    adjustStepSize c mem AdaptingWhat.ADAPT_SCALE avg sz = sz := by
  have h1 : ¬ avg > mem.targetAccRatioLocal := not_lt.2 h
  have hb : ¬ (avg > mem.targetAccRatioLocal ∧ sz.scaleDelta < c.MaxScaleDelta) :=
    fun x => h1 x.1
  have hd : ¬ (avg > mem.targetAccRatioLocal ∧ sz.scaleDelta > c.MinScaleDelta) :=
    fun x => h1 x.1
  simp only [adjustStepSize, if_neg hb, if_neg hd, ite_self]

/-- C22. A call of `updateInSliceThermalization` for scale moves (`rotate_then_scale`, odd
`performedSweeps`, `adaptScaleDelta` on) at an adjustment point: the averaged acceptance ratio
is `0`, below the target `1/2`, and `scaleDelta = 1/2` exceeds `MinScaleDelta = 1/10`, yet
`scaleDelta` and its bracket `[1/10, 1]` are left as they were; the midpoint of
`curminScaleDelta` and `scaleDelta` would be `3/10`. -/
theorem scale_controller_ignores_low_acceptance :
    ((updateInSliceThermalization exMathRot exTrig exRng exNormalLow exSweepEnv exConstants
        exRunningAverage exMembersScale 1 (exStateUnit, exStepSizes)).toOption.map
      fun r => (exRunningAverage.getSamplesAdded r.2.accRatioLocal_scale_RA
          % exConstants.AccRatioAdjustmentSamples,
        exRunningAverage.get r.2.accRatioLocal_scale_RA,
        r.2.scaleDelta, r.2.curminScaleDelta, r.2.curmaxScaleDelta))
      = some (0, 0, 1 / 2, 1 / 10, 1) ∧
    exMembersScale.targetAccRatioLocal = 1 / 2 ∧
    exMembersScale.adaptScaleDelta = true ∧
    exStepSizes.scaleDelta = 1 / 2 ∧
    exStepSizes.curminScaleDelta = 1 / 10 ∧
    exConstants.MinScaleDelta = 1 / 10 := by
  refine ⟨?_, ?_, ?_, ?_, ?_, ?_⟩ <;> decide!

/-- C28. The parameter set `exParsIntervals` passes all checks of `createDetSDW`; on the
object constructed from it `globalMove` evaluates `(performedSweeps + 1) % globalMoveInterval`
with `globalMoveInterval = 0`, and `updateInSlice` evaluates
`performedSweeps % rescaleInterval` with `rescaleInterval = 0`. -/
theorem interval_moduli_zero_divisor :
    createDetSDW (fun p => p) exParsIntervals
      = Except.ok (false, CheckerboardMethod.CB_NONE) ∧
    failureOf (globalMove exMath exRng exEnv 10
        (constructSweepMembers exParsIntervals (1 / 2 : ℚ) 2) exGlobalState)
      = some SweepFailure.zeroDivisor ∧
    failureOf (updateInSlice_repeat exMathRot exTrig exRng exNormalLow exSweepEnv
        (constructSweepMembers exParsIntervals (1 / 2 : ℚ) 2) exStepSizes 1 exStateUnit)
      = none ∧
    failureOf (updateInSlice exMathRot exTrig exRng exNormalLow exSweepEnv
        (constructSweepMembers exParsIntervals (1 / 2 : ℚ) 2) exStepSizes 1 exStateUnit)
      = some SweepFailure.zeroDivisor :=
  ⟨rfl, by decide!, by decide!, by decide!⟩

theorem exPow_two (v : ℚ) : exPow.pow v 2 = v ^ 2 := by
  show (if (2 : ℚ) = 2 then v ^ 2 else if (2 : ℚ) = 4 then v ^ 4 else v) = v ^ 2
  rw [if_pos rfl]

theorem exPow_four (v : ℚ) : exPow.pow v 4 = v ^ 4 := by
  show (if (4 : ℚ) = 2 then v ^ 2 else if (4 : ℚ) = 4 then v ^ 4 else v) = v ^ 4
  rw [if_neg (by norm_num), if_pos rfl]

theorem deltaSPhiTimesliceRescale_eq_phiAction_diff_witness :
    (exParamsUnit.c = 1 ∧ 2 ≤ exParamsUnit.m ∧ 1 ≤ 2 ∧ 2 ≤ exParamsUnit.m) ∧
    deltaSPhiTimesliceRescale exPow exParamsUnit exField 2 (3 / 2)
      = phiAction exParamsUnit (exField.rescaleSlice exParamsUnit.N 2 (3 / 2))
        - phiAction exParamsUnit exField :=
  ⟨⟨rfl, by decide, by decide, by decide⟩,
    deltaSPhiTimesliceRescale_eq_phiAction_diff exPow exParamsUnit exField 2 (3 / 2)
      exPow_two exPow_four rfl (by decide) (by decide) (by decide)⟩

theorem exStepSizes_bracket : AngleBracket exConstants exStepSizes :=
  ⟨by decide!, by decide!, by decide!, by decide!⟩

theorem angle_bracket_invariant_witness :
    (exConstants.AccRatioAdjustmentSamples ≠ 0 ∧ AngleBracket exConstants exStepSizes) ∧
    ∃ st1 sz1,
      updateInSliceThermalization exMathRot exTrig exRng exNormalLow exSweepEnv exConstants
          exRunningAverage exMembersScale 1 (exStateUnit, exStepSizes)
        = Except.ok (st1, sz1) ∧
      AngleBracket exConstants sz1 ∧
      sz1.curmaxAngleDelta - sz1.curminAngleDelta
        ≤ exStepSizes.curmaxAngleDelta - exStepSizes.curminAngleDelta := by
  have hfail : failureOf (updateInSlice exMathRot exTrig exRng exNormalLow exSweepEnv
      exMembersScale exStepSizes 1 exStateUnit) = none := by decide!
  have hret : ∃ st1, updateInSlice exMathRot exTrig exRng exNormalLow exSweepEnv
      exMembersScale exStepSizes 1 exStateUnit = Except.ok st1 := by
    cases h : updateInSlice exMathRot exTrig exRng exNormalLow exSweepEnv
      exMembersScale exStepSizes 1 exStateUnit with
    | error e =>
      rw [h] at hfail
      cases hfail
    | ok st1 => exact ⟨st1, rfl⟩
  obtain ⟨st1, h1⟩ := hret
  obtain ⟨sz1, h2⟩ := (angle_bracket_invariant exMathRot exTrig exRng exNormalLow exSweepEnv
    exConstants exRunningAverage (by decide) (exStateUnit, exStepSizes)
    exStepSizes_bracket).1 exMembersScale 1 st1 h1
  exact ⟨⟨by decide, exStepSizes_bracket⟩, st1, sz1, h2⟩

/-- C26. Six sweeps in three jackknife blocks, the value 1 inserted at each sweep
`curSweep = 1, ..., 6`: every block should leave out `countValues / jkBlockCount = 2` samples,
but the block indices `curSweep / jkBlockSizeSweeps` are `0, 1, 1, 2, 2, 3`, so that block 0
leaves out one sample only and accumulates five values. `evaluateJackknife` divides its sum by
`countValues - countValues / jkBlockCount = 4` and hands the block averages `5/4, 1, 1` to
`jackknife`, although every inserted value and the mean are 1. -/
theorem jackknife_first_block_leaves_out_one :
    exMC6.sweeps % exMC6.jkBlocks = 0 ∧
    exInsConst.map (fun p => p.2 / (exMC6.sweeps / exMC6.jkBlocks)) = [0, 1, 1, 2, 2, 3] ∧
    (exInsConst.filter fun p => p.2 / (exMC6.sweeps / exMC6.jkBlocks) ≠ 0).length = 5 ∧
    (((ObservableHandlerCommon.create exMC6 (0 : ℚ)).insertAll exInsConst).map
        fun h => (h.jkBlockValues, h.countValues,
          h.countValues - h.countValues / h.jkBlockCount, h.total))
      = some ([5, 4, 4], 6, 4, 6) ∧
    (((ObservableHandlerCommon.create exMC6 (0 : ℚ)).insertAll exInsConst).map
        jackknifeArguments) = some (some ([5 / 4, 1, 1], 1, 0)) := by
  refine ⟨?_, ?_, ?_, ?_, ?_⟩ <;> decide!

theorem exShift_block_santos :
    shiftRightMultiply CheckerboardMethod.CB_SANTOS exParamsBug exHopBug (fun _ => 1)
        (shiftLeftMultiply CheckerboardMethod.CB_SANTOS exParamsBug exHopBug (fun _ => 1) 1
          Band.XBAND) Band.XBAND ⟨0, by decide⟩ ⟨0, by decide⟩
      = ⟨20111 / 20736, 0⟩ := by
  decide!

theorem exShift_block_assaad :
    shiftRightMultiply CheckerboardMethod.CB_ASSAAD exParamsBug exHopBug (fun _ => 1)
        (shiftLeftMultiply CheckerboardMethod.CB_ASSAAD exParamsBug exHopBug (fun _ => 1) 1
          Band.XBAND) Band.XBAND ⟨0, by decide⟩ ⟨0, by decide⟩
      = ⟨20111 / 20736, 0⟩ := by
  decide!

theorem exShift_full_santos :
    shiftGreenSymmetric CheckerboardMethod.CB_SANTOS exParamsBug exHopBug (fun _ => 1)
        (fun _ => 1) 1 ⟨0, by decide⟩ ⟨0, by decide⟩
      = ⟨20111 / 20736, 0⟩ := by
  decide!

theorem exShift_full_assaad :
    shiftGreenSymmetric CheckerboardMethod.CB_ASSAAD exParamsBug exHopBug (fun _ => 1)
        (fun _ => 1) 1 ⟨0, by decide⟩ ⟨0, by decide⟩
      = ⟨20111 / 20736, 0⟩ := by
  decide!

/-- C25. On the 6 x 6 lattice, with half-step bond factors that satisfy
`cosh^2 - sinh^2 = 1`, `shiftGreenSymmetric` maps the identity matrix to a matrix with the
entry `20111/20736` at `(0, 0)`, for `CB_SANTOS` and for `CB_ASSAAD`, whereas a product
`S * 1 * S^-1` has the entry 1 there. On a single block, the right factor applied to the left factor does not
give the identity: the right factor is not the inverse of the left one. -/
theorem shiftGreenSymmetric_not_similarity :
    exHopBug.Hyperbolic ∧
    shiftGreenSymmetric CheckerboardMethod.CB_SANTOS exParamsBug exHopBug (fun _ => 1)
        (fun _ => 1) 1 ⟨0, by decide⟩ ⟨0, by decide⟩
      = ⟨20111 / 20736, 0⟩ ∧
    shiftGreenSymmetric CheckerboardMethod.CB_ASSAAD exParamsBug exHopBug (fun _ => 1)
        (fun _ => 1) 1 ⟨0, by decide⟩ ⟨0, by decide⟩
      = ⟨20111 / 20736, 0⟩ ∧
    shiftRightMultiply CheckerboardMethod.CB_SANTOS exParamsBug exHopBug (fun _ => 1)
        (shiftLeftMultiply CheckerboardMethod.CB_SANTOS exParamsBug exHopBug (fun _ => 1) 1
          Band.XBAND) Band.XBAND ≠ 1 ∧
    shiftRightMultiply CheckerboardMethod.CB_ASSAAD exParamsBug exHopBug (fun _ => 1)
        (shiftLeftMultiply CheckerboardMethod.CB_ASSAAD exParamsBug exHopBug (fun _ => 1) 1
          Band.XBAND) Band.XBAND ≠ 1 ∧
    (∀ S Sinv : MatCpx ℚ (4 * exParamsBug.N) (4 * exParamsBug.N), S * Sinv = 1 →
      (S * 1 * Sinv) ⟨0, by decide⟩ ⟨0, by decide⟩ = 1) :=
  ⟨exBug_hypotheses.2.1, exShift_full_santos, exShift_full_assaad,
    fun h => absurd (exShift_block_santos.symm.trans (congrFun (congrFun h _) _)) (by decide!),
    fun h => absurd (exShift_block_assaad.symm.trans (congrFun (congrFun h _) _)) (by decide!),
    fun S Sinv h => by rw [Matrix.mul_one, h, Matrix.one_apply_eq]⟩

theorem mapFind_assign {V : Type} (m : StrMap V) (k : String) (v : V) (k' : String) :
    mapFind (mapAssign m k v) k' = if k' = k then some v else mapFind m k' := by
  induction m with
  | nil =>
    simp only [mapAssign, mapFind]
    by_cases h : k' = k
    · rw [if_pos h, if_pos h.symm]
    · rw [if_neg h, if_neg (fun e => h e.symm)]
  | cons e rest ih =>
    simp only [mapAssign]
    by_cases he : e.1 = k
    · rw [if_pos he]
      simp only [mapFind]
      by_cases h : k' = k
      · rw [if_pos h, if_pos h.symm]
      · rw [if_neg h, if_neg (fun e' => h e'.symm), if_neg (fun e' => h (e'.symm.trans he))]
    · rw [if_neg he]
      simp only [mapFind]
      by_cases h1 : e.1 = k'
      · simp only [if_pos h1, if_neg (fun e' : k' = k => he (h1.trans e'))]
      · simp only [if_neg h1, ih]

theorem mapAssign_keys {V : Type} (m : StrMap V) (k : String) (v : V) :
    (∀ k', k' ∈ (mapAssign m k v).map Prod.fst ↔ k' = k ∨ k' ∈ m.map Prod.fst) ∧
    ((m.map Prod.fst).Nodup → ((mapAssign m k v).map Prod.fst).Nodup) := by
  induction m with
  | nil =>
    simp [mapAssign]
  | cons e rest ih =>
    obtain ⟨ih1, ih2⟩ := ih
    simp only [mapAssign]
    by_cases he : e.1 = k
    · rw [if_pos he]
      refine ⟨fun k' => ?_, fun hn => ?_⟩
      · simp only [List.map_cons, List.mem_cons, he]
        tauto
      · simp only [List.map_cons, List.nodup_cons] at hn ⊢
        rw [← he]
        exact hn
    · rw [if_neg he]
      refine ⟨fun k' => ?_, fun hn => ?_⟩
      · simp only [List.map_cons, List.mem_cons, ih1]
        tauto
      · simp only [List.map_cons, List.nodup_cons] at hn ⊢
        refine ⟨fun hmem => ?_, ih2 hn.2⟩
        rcases (ih1 e.1).1 hmem with h | h
        · exact he h
        · exact hn.1 h

theorem mapFind_eq_none {V : Type} (m : StrMap V) (k : String)
    (h : k ∉ m.map Prod.fst) : mapFind m k = none := by
  induction m with
  | nil => rfl
  | cons e rest ih =>
    simp only [List.map_cons, List.mem_cons, not_or] at h
    simp only [mapFind]
    rw [if_neg (fun e' => h.1 e'.symm), ih h.2]

theorem foldlM_except_invariant {σ α ε : Type} (Q : σ → Prop) (f : σ → α → Except ε σ)
    (hf : ∀ s a s', Q s → f s a = Except.ok s' → Q s') (l : List α) :
    ∀ s s', Q s → l.foldlM f s = Except.ok s' → Q s' := by
  induction l with
  | nil =>
    intro s s' hs h
    cases h
    exact hs
  | cons a t ih =>
    intro s s' hs h
    rw [List.foldlM_cons] at h
    cases h1 : f s a with
    | error e =>
      rw [h1] at h
      cases h
    | ok s1 =>
      rw [h1] at h
      exact ih s1 s' (hf s a s1 hs h1) h

theorem recordEstimate_keysDistinct (maps : EvalMaps R) (obsName this_bc : String) (est : R)
    (blocks : List R) (h : maps.KeysDistinct) :
    (recordEstimate maps obsName this_bc est blocks).KeysDistinct :=
  ⟨(mapAssign_keys _ _ _).2 h.1, (mapAssign_keys _ _ _).2 h.2⟩

theorem recordFile_keysDistinct (stat : Statistics R) (tm : TrigMath R)
    (jkBlocks : Nat) (this_bc : String) (maps : EvalMaps R) (file : SeriesFile R)
    (h : maps.KeysDistinct) : (recordFile stat tm jkBlocks this_bc maps file).KeysDistinct := by
  unfold recordFile
  simp only
  split_ifs
  · exact recordEstimate_keysDistinct _ _ _ _ _
      (recordEstimate_keysDistinct _ _ _ _ _ (recordEstimate_keysDistinct _ _ _ _ _ h))
  · exact recordEstimate_keysDistinct _ _ _ _ _ h

theorem processFile_keysDistinct (stat : Statistics R) (tm : TrigMath R) (noexp : Bool)
    (jkBlocks : Nat) (this_bc : String) (maps : EvalMaps R) (file : SeriesFile R)
    (maps' : EvalMaps R) (h : maps.KeysDistinct)
    (e : processFile stat tm noexp jkBlocks this_bc maps file = Except.ok maps') :
    maps'.KeysDistinct := by
  unfold processFile at e
  by_cases hcol : file.columns ≠ 1
  · rw [if_pos hcol] at e
    cases e
  · rw [if_neg hcol] at e
    cases e
    by_cases hx : noexp = false
    · simp only [if_pos hx]
      exact recordFile_keysDistinct stat tm jkBlocks this_bc maps file h
    · simp only [if_neg hx]
      exact h

theorem processDirectory_keysDistinct (stat : Statistics R) (tm : TrigMath R) (noexp : Bool)
    (jkBlocks : Nat) (maps : EvalMaps R) (dir : InputDirectory R)
    (maps' : EvalMaps R) (h : maps.KeysDistinct)
    (e : processDirectory stat tm noexp jkBlocks maps dir = Except.ok maps') :
    maps'.KeysDistinct := by
  unfold processDirectory at e
  simp only at e
  split_ifs at e
  refine foldlM_except_invariant EvalMaps.KeysDistinct _
    (fun s a s' hs hh => processFile_keysDistinct stat tm noexp jkBlocks dir.bc s a s' hs hh)
    dir.files _ _ ?_ e
  exact h

theorem sumEntries_fold (obs : String) (inner : StrMap R) :
    ∀ (a : StrMap R) (x : R), mapFind a obs = some x →
      mapFind (inner.foldl
          (fun a bc_val_pair => mapAssign a obs ((mapFind a obs).getD 0 + bc_val_pair.2)) a) obs
        = some (x + (inner.map Prod.snd).sum) ∧
      ∀ k, k ≠ obs →
        mapFind (inner.foldl
          (fun a bc_val_pair => mapAssign a obs ((mapFind a obs).getD 0 + bc_val_pair.2)) a) k
        = mapFind a k := by
  induction inner with
  | nil =>
    intro a x hx
    simp [hx]
  | cons e t ih =>
    intro a x hx
    rw [List.foldl_cons]
    have h1 : mapFind (mapAssign a obs ((mapFind a obs).getD 0 + e.2)) obs = some (x + e.2) := by
      rw [mapFind_assign, if_pos rfl, hx, Option.getD_some]
    obtain ⟨k1, k2⟩ := ih _ _ h1
    refine ⟨?_, fun k hk => ?_⟩
    · rw [k1, List.map_cons, List.sum_cons, add_assoc]
    · rw [k2 k hk, mapFind_assign, if_neg hk]

theorem averageEstimates_eq (m : StrMap (StrMap R)) :
    averageEstimates m = m.foldl estimateStep [] := rfl

theorem averageBlockEstimates_eq (n : Nat) (m : StrMap (StrMap (List R))) :
    averageBlockEstimates n m = m.foldl (blockStep n) [] := rfl

theorem estimateStep_find (acc : StrMap R) (e : String × StrMap R) (k : String) :
    mapFind (estimateStep acc e) k
      = if k = e.1 then some ((e.2.map Prod.snd).sum / 4) else mapFind acc k := by
  have h0 : mapFind (mapAssign acc e.1 0) e.1 = some (0 : R) := by
    rw [mapFind_assign, if_pos rfl]
  obtain ⟨k1, k2⟩ := sumEntries_fold e.1 e.2 _ _ h0
  unfold estimateStep
  simp only
  rw [mapFind_assign]
  by_cases hk : k = e.1
  · rw [if_pos hk, if_pos hk, k1, Option.getD_some, zero_add]
  · rw [if_neg hk, if_neg hk, k2 k hk, mapFind_assign, if_neg hk]

theorem foldl_step_find {V W : Type} (step : StrMap W → String × V → StrMap W)
    (val : V → W → Prop)
    (hstep : ∀ acc e, ∃ w, val e.2 w ∧
      ∀ k, mapFind (step acc e) k = if k = e.1 then some w else mapFind acc k)
    (obs : String) (l : StrMap V) :
    ∀ acc, (l.map Prod.fst).Nodup →
      (∀ inner, mapFind l obs = some inner →
        ∃ w, mapFind (l.foldl step acc) obs = some w ∧ val inner w) ∧
      (mapFind l obs = none → mapFind (l.foldl step acc) obs = mapFind acc obs) := by
  induction l with
  | nil =>
    intro acc _
    exact ⟨(fun inner hi => nomatch hi), fun _ => rfl⟩
  | cons e t ih =>
    intro acc hnd
    simp only [List.map_cons, List.nodup_cons] at hnd
    obtain ⟨ih1, ih2⟩ := ih (step acc e) hnd.2
    obtain ⟨w, hw1, hw2⟩ := hstep acc e
    rw [List.foldl_cons]
    simp only [mapFind]
    by_cases he : e.1 = obs
    · rw [if_pos he]
      have hnone : mapFind t obs = none := mapFind_eq_none t obs (by rw [← he]; exact hnd.1)
      refine ⟨fun inner hi => ?_, fun hi => nomatch hi⟩
      cases hi
      refine ⟨w, ?_, hw1⟩
      rw [ih2 hnone, hw2, if_pos he.symm]
    · rw [if_neg he]
      refine ⟨ih1, fun hi => ?_⟩
      rw [ih2 hi, hw2, if_neg (fun x => he x.symm)]

theorem averageEstimates_find (m : StrMap (StrMap R)) (hn : (m.map Prod.fst).Nodup)
    (obs : String) (inner : StrMap R) (h : mapFind m obs = some inner) :
    mapFind (averageEstimates m) obs = some ((inner.map Prod.snd).sum / 4) := by
  rw [averageEstimates_eq]
  obtain ⟨w, h1, h2⟩ := (foldl_step_find estimateStep
    (fun inner w => w = (inner.map Prod.snd).sum / 4)
    (fun acc e => ⟨_, rfl, fun k => estimateStep_find acc e k⟩) obs m [] hn).1 inner h
  rw [h1, h2]

theorem forEachBlock_spec (n : Nat) (f : Nat → R → R) (v : List R) :
    (forEachBlock n f v).length = v.length ∧
    ∀ j, j < v.length →
      (forEachBlock n f v).getD j 0 = if j < n then f j (v.getD j 0) else v.getD j 0 := by
  unfold forEachBlock
  induction n with
  | zero =>
    refine ⟨rfl, fun j _ => ?_⟩
    simp
  | succ n ih =>
    rw [List.range_succ, List.foldl_append, List.foldl_cons, List.foldl_nil]
    obtain ⟨ih1, ih2⟩ := ih
    refine ⟨by rw [List.length_set, ih1], fun j hj => ?_⟩
    rw [List.getD_eq_getElem?_getD, List.getElem?_set, ih1]
    by_cases hnj : n = j
    · subst hnj
      rw [if_pos rfl, if_pos hj, Option.getD_some, ih2 n hj, if_neg (Nat.lt_irrefl _),
        if_pos (Nat.lt_succ_self _)]
    · rw [if_neg hnj, ← List.getD_eq_getElem?_getD, ih2 j hj]
      by_cases hjn : j < n
      · rw [if_pos hjn, if_pos (by omega)]
      · rw [if_neg hjn, if_neg (by omega)]

theorem sumBlocks_fold (n : Nat) (obs : String) (inner : StrMap (List R)) :
    ∀ (a : StrMap (List R)) (x : List R), mapFind a obs = some x → x.length = n →
      (∃ w, mapFind (inner.foldl
          (fun a bc_blockVec_pair => mapAssign a obs (forEachBlock n
            (fun jb y => y + bc_blockVec_pair.2.getD jb 0) ((mapFind a obs).getD []))) a) obs
          = some w ∧ w.length = n ∧
        ∀ jb, jb < n →
          w.getD jb 0 = x.getD jb 0 + (inner.map fun e => e.2.getD jb 0).sum) ∧
      ∀ k, k ≠ obs →
        mapFind (inner.foldl
          (fun a bc_blockVec_pair => mapAssign a obs (forEachBlock n
            (fun jb y => y + bc_blockVec_pair.2.getD jb 0) ((mapFind a obs).getD []))) a) k
        = mapFind a k := by
  induction inner with
  | nil =>
    intro a x hx hl
    exact ⟨⟨x, hx, hl, fun jb _ => by simp⟩, fun k _ => rfl⟩
  | cons e t ih =>
    intro a x hx hl
    rw [List.foldl_cons]
    obtain ⟨s1, s2⟩ := forEachBlock_spec n (fun jb y => y + e.2.getD jb 0) x
    have h1 : mapFind (mapAssign a obs (forEachBlock n
        (fun jb y => y + e.2.getD jb 0) ((mapFind a obs).getD []))) obs
        = some (forEachBlock n (fun jb y => y + e.2.getD jb 0) x) := by
      rw [mapFind_assign, if_pos rfl, hx, Option.getD_some]
    obtain ⟨⟨w, k1, k1l, k1v⟩, k2⟩ := ih _ _ h1 (by rw [s1, hl])
    refine ⟨⟨w, k1, k1l, fun jb hjb => ?_⟩, fun k hk => ?_⟩
    · rw [k1v jb hjb, s2 jb (by rw [hl]; exact hjb), if_pos hjb, List.map_cons, List.sum_cons,
        add_assoc]
    · rw [k2 k hk, mapFind_assign, if_neg hk]

theorem blockStep_find (n : Nat) (acc : StrMap (List R)) (e : String × StrMap (List R)) :
    ∃ v, (v.length = n ∧ ∀ jb, jb < n →
        v.getD jb 0 = (e.2.map fun b => b.2.getD jb 0).sum / 4) ∧
      ∀ k, mapFind (blockStep n acc e) k = if k = e.1 then some v else mapFind acc k := by
  have h0 : mapFind (mapAssign acc e.1 (List.replicate n (0 : R))) e.1
      = some (List.replicate n 0) := by
    rw [mapFind_assign, if_pos rfl]
  obtain ⟨⟨w, k1, k1l, k1v⟩, k2⟩ :=
    sumBlocks_fold n e.1 e.2 _ _ h0 (List.length_replicate _ _)
  obtain ⟨s1, s2⟩ := forEachBlock_spec n (fun _ y => y / 4) w
  refine ⟨forEachBlock n (fun _ y => y / 4) w, ⟨by rw [s1, k1l], fun jb hjb => ?_⟩,
    fun k => ?_⟩
  · rw [s2 jb (by rw [k1l]; exact hjb), if_pos hjb, k1v jb hjb]
    simp [List.getD_eq_getElem?_getD, hjb]
  · unfold blockStep
    simp only
    rw [mapFind_assign, k1, Option.getD_some]
    by_cases hk : k = e.1
    · rw [if_pos hk, if_pos hk]
    · rw [if_neg hk, if_neg hk, k2 k hk, mapFind_assign, if_neg hk]

theorem averageBlockEstimates_find (n : Nat) (m : StrMap (StrMap (List R)))
    (hn : (m.map Prod.fst).Nodup) (obs : String) (inner : StrMap (List R))
    (h : mapFind m obs = some inner) :
    ∃ v, mapFind (averageBlockEstimates n m) obs = some v ∧ v.length = n ∧
      ∀ jb, jb < n → v.getD jb 0 = (inner.map fun b => b.2.getD jb 0).sum / 4 := by
  rw [averageBlockEstimates_eq]
  obtain ⟨w, h1, h2, h3⟩ := (foldl_step_find (blockStep n)
    (fun inner v => v.length = n ∧ ∀ jb, jb < n →
      v.getD jb 0 = (inner.map fun b => b.2.getD jb 0).sum / 4)
    (fun acc e => blockStep_find n acc e) obs m [] hn).1 inner h
  exact ⟨w, h1, h2, h3⟩

theorem emptyEvalMaps_keysDistinct : (emptyEvalMaps : EvalMaps R).KeysDistinct :=
  ⟨List.nodup_nil, List.nodup_nil⟩

/-- C23 (amended). When `main` reaches the end of the averaging loops, then for every
observable with an entry in `obs_bc_estimates` the value `avg_estimates[obs]` is the sum of its
per-boundary-condition estimates divided by 4, which is their arithmetic mean when there are
four of them; and every `avg_jkBlockEstimates[obs][jb]`, `jb < jkBlocks`, is the sum of the
per-boundary-condition block estimates divided by 4. -/
theorem evalbc_average (stat : Statistics R) (tm : TrigMath R) (noexp : Bool) (jkBlocks : Nat)
    (inputDirectories : List (InputDirectory R)) (res : StrMap R × StrMap (List R))
    (h : evalbc stat tm noexp jkBlocks inputDirectories = Except.ok res) :
    ∃ maps,
      inputDirectories.foldlM (processDirectory stat tm noexp jkBlocks) emptyEvalMaps
        = Except.ok maps ∧
      (∀ obs bc_estimates, mapFind maps.obs_bc_estimates obs = some bc_estimates →
        mapFind res.1 obs = some ((bc_estimates.map Prod.snd).sum / 4) ∧
        (bc_estimates.length = 4 →
          mapFind res.1 obs
            = some ((bc_estimates.map Prod.snd).sum / (bc_estimates.length : R)))) ∧
      (∀ obs bc_jkBlockEstimates,
        mapFind maps.obs_bc_jkBlockEstimates obs = some bc_jkBlockEstimates →
        ∃ v, mapFind res.2 obs = some v ∧ v.length = jkBlocks ∧
          ∀ jb, jb < jkBlocks →
            v.getD jb 0 = (bc_jkBlockEstimates.map fun b => b.2.getD jb 0).sum / 4) := by
  unfold evalbc at h
  split_ifs at h with hlen
  split at h
  · cases h
  · rename_i maps hm
    have hk : maps.KeysDistinct :=
      foldlM_except_invariant EvalMaps.KeysDistinct _
        (fun s a s' hs hh => processDirectory_keysDistinct stat tm noexp jkBlocks s a s' hs hh)
        inputDirectories _ _ emptyEvalMaps_keysDistinct hm
    split at h
    · cases h
    · split_ifs at h
      cases h
      refine ⟨maps, hm, fun obs inner hi => ?_, fun obs inner hi => ?_⟩
      · have e := averageEstimates_find maps.obs_bc_estimates hk.1 obs inner hi
        refine ⟨e, fun h4 => ?_⟩
        rw [e, h4]
        norm_num
      · exact averageBlockEstimates_find jkBlocks maps.obs_bc_jkBlockEstimates hk.2 obs inner hi

/-- C23 (counterexample). Four directories, one for each boundary condition, of which three
hold a series of the observable `occ`, each with the estimate 4: `avg_estimates["occ"]` and
the entries of `avg_jkBlockEstimates["occ"]` are 3, the sum of the three estimates divided
by 4, and not their arithmetic mean 4. -/
theorem evalbc_three_of_four :
    ((evalbc exStatistics exPow false 2 exDirectories).toOption.map
        fun r => (mapFind r.1 "occ", mapFind r.2 "occ")) = some (some 3, some [3, 3]) ∧
    ((exDirectories.foldlM (processDirectory exStatistics exPow false 2)
        emptyEvalMaps).toOption.map
        fun maps => (mapFind maps.obs_bc_estimates "occ",
          mapFind maps.obs_bc_jkBlockEstimates "occ"))
      = some (some [("pbc", 4), ("apbc-x", 4), ("apbc-y", 4)],
          some [("pbc", [4, 4]), ("apbc-x", [4, 4]), ("apbc-y", [4, 4])]) := by
  constructor <;> decide!

theorem evalbc_average_witness :
    ∃ res maps,
      evalbc exStatistics exPow false 2 exDirectories = Except.ok res ∧
      exDirectories.foldlM (processDirectory exStatistics exPow false 2) emptyEvalMaps
        = Except.ok maps ∧
      (∀ obs bc_estimates, mapFind maps.obs_bc_estimates obs = some bc_estimates →
        mapFind res.1 obs = some ((bc_estimates.map Prod.snd).sum / 4) ∧
        (bc_estimates.length = 4 →
          mapFind res.1 obs
            = some ((bc_estimates.map Prod.snd).sum / (bc_estimates.length : ℚ)))) ∧
      (∀ obs bc_jkBlockEstimates,
        mapFind maps.obs_bc_jkBlockEstimates obs = some bc_jkBlockEstimates →
        ∃ v, mapFind res.2 obs = some v ∧ v.length = 2 ∧
          ∀ jb, jb < 2 →
            v.getD jb 0 = (bc_jkBlockEstimates.map fun b => b.2.getD jb 0).sum / 4) := by
  have hs : (evalbc exStatistics exPow false 2 exDirectories).toOption.isSome = true := by
    decide!
  cases h : evalbc exStatistics exPow false 2 exDirectories with
  | error e =>
    rw [h] at hs
    cases hs
  | ok res =>
    obtain ⟨maps, h1, h2, h3⟩ := evalbc_average exStatistics exPow false 2 exDirectories res h
    exact ⟨res, maps, rfl, h1, h2, h3⟩

theorem visited_update_apply (v : Nat → Nat → Bool) (a b s k : Nat) :
    Function.update v a (Function.update (v a) b true) s k
      = if s = a ∧ k = b then true else v s k := by
  by_cases hs : s = a
  · subst hs
    by_cases hk : k = b
    · subst hk; simp
    · simp [Function.update_noteq hk, hk]
  · simp [Function.update_noteq hs, hs]

theorem visitedCount_le (P : Params R) (v : Nat → Nat → Bool) :
    visitedCount P v ≤ P.N * P.m := by
  unfold visitedCount
  refine (Finset.card_filter_le _ _).trans ?_
  simp [Finset.card_product]

theorem visitedCount_empty (P : Params R) : visitedCount P (fun _ _ => false) = 0 := by
  unfold visitedCount
  simp

theorem visitedCount_update (P : Params R) (v : Nat → Nat → Bool) (a b : Nat)
    (ha : a < P.N) (hb1 : 1 ≤ b) (hb2 : b ≤ P.m) (hv : v a b = false) :
    visitedCount P (Function.update v a (Function.update (v a) b true))
      = visitedCount P v + 1 := by
  unfold visitedCount
  have hset : ((Finset.range P.N ×ˢ Finset.Icc 1 P.m).filter fun p =>
        Function.update v a (Function.update (v a) b true) p.1 p.2 = true)
      = insert (a, b) ((Finset.range P.N ×ˢ Finset.Icc 1 P.m).filter fun p =>
        v p.1 p.2 = true) := by
    ext ⟨s, k⟩
    simp only [Finset.mem_filter, Finset.mem_product, Finset.mem_range, Finset.mem_Icc,
      Finset.mem_insert, Prod.mk.injEq, visited_update_apply]
    constructor
    · rintro ⟨hr, h⟩
      by_cases hsk : s = a ∧ k = b
      · exact Or.inl hsk
      · rw [if_neg hsk] at h; exact Or.inr ⟨hr, h⟩
    · rintro (⟨rfl, rfl⟩ | ⟨hr, h⟩)
      · exact ⟨⟨ha, hb1, hb2⟩, by simp⟩
      · refine ⟨hr, ?_⟩
        by_cases hsk : s = a ∧ k = b
        · rw [if_pos hsk]
        · rw [if_neg hsk]; exact h
  rw [hset, Finset.card_insert_of_not_mem]
  simp [hv]

theorem wolffInv_empty (P : Params R) (rd : Phi R) (F0 : PhiField R) :
    WolffInv P rd F0 (fun _ _ => false) [] F0 0 := by
  exact ⟨(fun _ _ h => nomatch h), (visitedCount_empty P).symm, (fun _ h => nomatch h),
    List.nodup_nil, (fun _ _ => rfl)⟩

theorem wolffInv_mark (P : Params R) (rd : Phi R) (F0 : PhiField R) (v : Nat → Nat → Bool)
    (stack : List (Nat × Nat)) (F : PhiField R) (count : Nat) (neigh : Nat × Nat)
    (h : WolffInv P rd F0 v stack F count) (ha : neigh.1 < P.N) (hb1 : 1 ≤ neigh.2)
    (hb2 : neigh.2 ≤ P.m) (hv : v neigh.1 neigh.2 = false) :
    WolffInv P rd F0 (Function.update v neigh.1 (Function.update (v neigh.1) neigh.2 true))
      (neigh :: stack) (F.set neigh.1 neigh.2 (flippedPhi F rd neigh.1 neigh.2)) (count + 1) := by
  obtain ⟨h1, h2, h3, h4, h5⟩ := h
  refine ⟨?_, ?_, ?_, ?_, ?_⟩
  · intro s k hsk
    rw [visited_update_apply] at hsk
    by_cases e : s = neigh.1 ∧ k = neigh.2
    · rw [e.1, e.2]; exact ⟨ha, hb1, hb2⟩
    · rw [if_neg e] at hsk; exact h1 s k hsk
  · rw [visitedCount_update P v _ _ ha hb1 hb2 hv, h2]
  · intro p hp
    rw [visited_update_apply]
    rcases List.mem_cons.1 hp with rfl | hp
    · simp
    · by_cases e : p.1 = neigh.1 ∧ p.2 = neigh.2
      · rw [if_pos e]
      · rw [if_neg e]; exact h3 p hp
  · refine List.nodup_cons.2 ⟨fun hmem => ?_, h4⟩
    have := h3 neigh hmem
    rw [hv] at this
    exact Bool.noConfusion this
  · intro s k
    rw [getPhi_set, visited_update_apply]
    by_cases e : s = neigh.1 ∧ k = neigh.2
    · rw [if_pos e, if_pos e, if_pos rfl, e.1, e.2]
      have hF := h5 neigh.1 neigh.2
      rw [hv] at hF
      simp only [Bool.false_eq_true, if_false] at hF
      funext i
      unfold flippedPhi
      rw [hF]
    · rw [if_neg e, if_neg e]; exact h5 s k

theorem wolffTryNeighbor_loop {G U : Type} (sm : StdMath R) (rw : RngWrapper R G)
    {P : Params R} (rd : Phi R) (F0 : PhiField R) (bound low : Nat) (factor : R)
    (site timeslice : Nat) (s : GlobalState R G U P × Nat) (neigh : Nat × Nat)
    (h : WolffLoop rd F0 bound low s) (ha : neigh.1 < P.N) (hb1 : 1 ≤ neigh.2)
    (hb2 : neigh.2 ≤ P.m) :
    WolffLoop rd F0 bound low (wolffTryNeighbor sm rw rd factor site timeslice s neigh) := by
  obtain ⟨hi, hb, hl⟩ := h
  unfold wolffTryNeighbor
  simp only
  split
  · rename_i hv
    split
    · split
      · have hm := wolffInv_mark P rd F0 _ _ _ _ neigh hi ha hb1 hb2 hv
        have hc : s.2 + 1 ≤ P.N * P.m := by
          rw [hm.2.1]; exact visitedCount_le P _
        refine ⟨hm, ?_, Nat.le_succ_of_le hl⟩
        show (s.1.gmd.next_sites.length + 1) + (P.N * P.m - (s.2 + 1)) = bound
        omega
      · exact ⟨hi, hb, hl⟩
    · exact ⟨hi, hb, hl⟩
  · exact ⟨hi, hb, hl⟩

theorem foldl_wolffLoop {G U : Type} {P : Params R} (rd : Phi R) (F0 : PhiField R)
    (bound low : Nat)
    (f : GlobalState R G U P × Nat → Nat × Nat → GlobalState R G U P × Nat)
    (hf : ∀ s neigh, WolffLoop rd F0 bound low s → neigh.1 < P.N → 1 ≤ neigh.2 →
      neigh.2 ≤ P.m → WolffLoop rd F0 bound low (f s neigh)) :
    ∀ (l : List (Nat × Nat)) (s : GlobalState R G U P × Nat),
      (∀ p ∈ l, p.1 < P.N ∧ 1 ≤ p.2 ∧ p.2 ≤ P.m) → WolffLoop rd F0 bound low s →
      WolffLoop rd F0 bound low (l.foldl f s) := by
  intro l
  induction l with
  | nil => intro s _ h; exact h
  | cons a l ih =>
    intro s hl h
    have ha := hl a (List.mem_cons_self _ _)
    exact ih (f s a) (fun p hp => hl p (List.mem_cons_of_mem _ hp)) (hf s a h ha.1 ha.2.1 ha.2.2)

theorem wolffVisit_loop {G U : Type} (sm : StdMath R) (rw : RngWrapper R G)
    {P : Params R} (rd : Phi R) (F0 : PhiField R) (bound low : Nat)
    (site timeslice : Nat) (s : GlobalState R G U P × Nat)
    (h : WolffLoop rd F0 bound low s) (ha : site < P.N) (hb1 : 1 ≤ timeslice)
    (hb2 : timeslice ≤ P.m) :
    WolffLoop rd F0 bound low (wolffVisit sm rw rd site timeslice s) := by
  unfold wolffVisit
  simp only
  refine foldl_wolffLoop rd F0 bound low _
    (fun s neigh hs => wolffTryNeighbor_loop sm rw rd F0 bound low _ site timeslice s neigh hs)
    _ _ ?_ (foldl_wolffLoop rd F0 bound low _
    (fun s neigh hs => wolffTryNeighbor_loop sm rw rd F0 bound low _ site timeslice s neigh hs)
    _ _ ?_ h)
  · intro p hp
    have hk : timeslice ∈ Finset.Icc 1 P.m := Finset.mem_Icc.2 ⟨hb1, hb2⟩
    simp only [List.map_cons, List.map_nil, List.mem_cons, List.mem_singleton,
      List.not_mem_nil, or_false] at hp
    rcases hp with rfl | rfl
    · exact ⟨ha, Finset.mem_Icc.1 (timeNeigh_mem ChainDir.PLUS hk)⟩
    · exact ⟨ha, Finset.mem_Icc.1 (timeNeigh_mem ChainDir.MINUS hk)⟩
  · intro p hp
    have hN : site < P.L * P.L := ha
    simp only [neighbors, List.map_cons, List.map_nil, List.mem_cons, List.mem_singleton,
      List.not_mem_nil, or_false] at hp
    rcases hp with rfl | rfl | rfl | rfl
    · exact ⟨spaceNeigh_lt NeighDir.XPLUS hN, hb1, hb2⟩
    · exact ⟨spaceNeigh_lt NeighDir.XMINUS hN, hb1, hb2⟩
    · exact ⟨spaceNeigh_lt NeighDir.YPLUS hN, hb1, hb2⟩
    · exact ⟨spaceNeigh_lt NeighDir.YMINUS hN, hb1, hb2⟩

theorem wolffGrow_loop {G U : Type} (sm : StdMath R) (rw : RngWrapper R G)
    {P : Params R} (rd : Phi R) (F0 : PhiField R) (low : Nat) :
    ∀ (fuel bound : Nat) (s : GlobalState R G U P × Nat),
      WolffLoop rd F0 bound low s → bound ≤ fuel → 1 ≤ fuel →
      ∃ r bound', wolffGrow sm rw rd fuel s = some r ∧ WolffLoop rd F0 bound' low r ∧
        r.1.gmd.next_sites = [] := by
  intro fuel
  induction fuel with
  | zero => intro bound s _ _ h; omega
  | succ fuel ih =>
    intro bound s h hb _
    unfold wolffGrow
    cases hst : s.1.gmd.next_sites with
    | nil => exact ⟨s, bound, rfl, h, hst⟩
    | cons top rest =>
      simp only
      obtain ⟨⟨h1, h2, h3, h4, h5⟩, hbd, hl⟩ := h
      rw [hst] at h3 h4 hbd
      have htop := h1 top.1 top.2 (h3 top (List.mem_cons_self _ _))
      have hpop : WolffLoop rd F0 (bound - 1) low
          (({ s.1 with gmd := { s.1.gmd with next_sites := rest } }, s.2)
            : GlobalState R G U P × Nat) := by
        refine ⟨⟨h1, h2, fun p hp => h3 p (List.mem_cons_of_mem _ hp),
          (List.nodup_cons.1 h4).2, h5⟩, ?_, hl⟩
        show rest.length + (P.N * P.m - s.2) = bound - 1
        simp only [List.length_cons] at hbd
        omega
      have hvis := wolffVisit_loop sm rw rd F0 (bound - 1) low top.1 top.2 _ hpop
        htop.1 htop.2.1 htop.2.2
      split
      · rename_i hemp
        exact ⟨_, bound - 1, rfl, hvis, List.isEmpty_iff.1 hemp⟩
      · rename_i hemp
        have hne : 1 ≤ (wolffVisit sm rw rd top.1 top.2
            (({ s.1 with gmd := { s.1.gmd with next_sites := rest } }, s.2)
              : GlobalState R G U P × Nat)).1.gmd.next_sites.length := by
          rcases hl2 : (wolffVisit sm rw rd top.1 top.2
            (({ s.1 with gmd := { s.1.gmd with next_sites := rest } }, s.2)
              : GlobalState R G U P × Nat)).1.gmd.next_sites with _ | ⟨a, l⟩
          · rw [hl2] at hemp; simp at hemp
          · simp
        have hb2 := hvis.2.1
        exact ih (bound - 1) _ hvis (by omega) (by omega)

theorem wolffSeed_loop {G U : Type} (sm : StdMath R) {P : Params R} (rd : Phi R)
    (st : GlobalState R G U P) (site timeslice : Nat) (hs : site < P.N)
    (h1 : 1 ≤ timeslice) (h2 : timeslice ≤ P.m) :
    WolffLoop rd st.F (P.N * P.m) 1
      ((wolffSeed sm rd st site timeslice, 1) : GlobalState R G U P × Nat) := by
  have hm := wolffInv_mark P rd st.F _ _ _ _ (site, timeslice) (wolffInv_empty P rd st.F)
    hs h1 h2 rfl
  have hc : 0 + 1 ≤ P.N * P.m := by
    rw [hm.2.1]; exact visitedCount_le P _
  refine ⟨hm, ?_, le_refl 1⟩
  show 1 + (P.N * P.m - 1) = P.N * P.m
  omega

theorem attemptWolffClusterUpdate_isSome {G U : Type} (sm : StdMath R) (rw : RngWrapper R G)
    {P : Params R} (env : GlobalEnv R G U P) (fuel : Nat) (st : GlobalState R G U P)
    (hL : 0 < P.N) (hm : 1 ≤ P.m) (hf : P.N * P.m ≤ fuel)
    (hrng : ∀ lo hi g, lo ≤ hi → lo ≤ (rw.randInt lo hi g).1 ∧ (rw.randInt lo hi g).1 ≤ hi) :
    (attemptWolffClusterUpdate sm rw env fuel st).isSome = true := by
  unfold attemptWolffClusterUpdate
  simp only
  generalize hg : wolffGrow sm rw _ fuel _ = o
  have hts := hrng 1 P.m (rw.randPointOnSphere st.rng).2 hm
  have hsite := hrng 0 (P.N - 1) (rw.randInt 1 P.m (rw.randPointOnSphere st.rng).2).2
    (Nat.zero_le _)
  have hfuel : 1 ≤ fuel := le_trans (Nat.mul_pos hL hm) hf
  obtain ⟨r, bound', hr, _, _⟩ := wolffGrow_loop sm rw
    ![(rw.randPointOnSphere st.rng).1.1, (rw.randPointOnSphere st.rng).1.2.1,
      (rw.randPointOnSphere st.rng).1.2.2] _ 1 fuel _ _
    (wolffSeed_loop sm _
      ({ st with
          g := st.gmd.g
          UdVStorage := st.gmd.UdVStorage
          gmd := { st.gmd with
            F := st.F, phiCosh := st.phiCosh, phiSinh := st.phiSinh, g := st.g,
            UdVStorage := st.UdVStorage }
          rng := (rw.randInt 0 (P.N - 1) (rw.randInt 1 P.m (rw.randPointOnSphere st.rng).2).2).2 }
        : GlobalState R G U P) _ _
      (lt_of_le_of_lt hsite.2 (Nat.sub_lt hL Nat.one_pos)) hts.1 hts.2) hf hfuel
  have ho : o = some r := hg.symm.trans hr
  subst ho
  simp only
  split <;> rfl

/-- C29. The cluster growth of `attemptWolffClusterUpdate`, entered with the seed
`(site, timeslice)` of the lattice, returns for every field, reflection axis, generator and
every fuel of at least `N*m` iterations (so the loop ends after at most `N*m` of them): the
stack is then empty, `cluster_size` is the number of marked points and lies in `1..N*m`, only
points with site below `N` and slice in `1..m` are marked, and the field is the one before
the seed was flipped with exactly the marked points reflected, each once. A neighbour that is
marked already or whose bond argument is `>= 0` changes nothing; a push happens only for a
neighbour that was unmarked, marks it, flips it and counts it, and marks are never removed.
With a generator whose `randInt` stays within its bounds the whole routine returns. -/
theorem wolff_cluster_growth {G U : Type} (sm : StdMath R) (rw : RngWrapper R G)
    {P : Params R} (rd : Phi R) (st : GlobalState R G U P) (site timeslice : Nat)
    (hs : site < P.N) (h1 : 1 ≤ timeslice) (h2 : timeslice ≤ P.m)
    (fuel : Nat) (hf : P.N * P.m ≤ fuel) :
    (∃ r, wolffGrow sm rw rd fuel (wolffSeed sm rd st site timeslice, 1) = some r ∧
      r.1.gmd.next_sites = [] ∧
      r.2 = visitedCount P r.1.gmd.visited ∧ 1 ≤ r.2 ∧ r.2 ≤ P.N * P.m ∧
      (∀ s k, r.1.gmd.visited s k = true → s < P.N ∧ 1 ≤ k ∧ k ≤ P.m) ∧
      (∀ s k, r.1.F.getPhi s k
        = if r.1.gmd.visited s k = true then flippedPhi st.F rd s k else st.F.getPhi s k)) ∧
    (∀ (factor : R) (a b : Nat) (s : GlobalState R G U P × Nat) (neigh : Nat × Nat),
      (s.1.gmd.visited neigh.1 neigh.2 = true ∨
        0 ≤ factor * projectedPhi s.1.F rd a b * projectedPhi s.1.F rd neigh.1 neigh.2) →
      wolffTryNeighbor sm rw rd factor a b s neigh = s) ∧
    (∀ (factor : R) (a b : Nat) (s : GlobalState R G U P × Nat) (neigh : Nat × Nat),
      (∀ x y, s.1.gmd.visited x y = true →
        (wolffTryNeighbor sm rw rd factor a b s neigh).1.gmd.visited x y = true) ∧
      (((wolffTryNeighbor sm rw rd factor a b s neigh).1.gmd.next_sites = s.1.gmd.next_sites ∧
          (wolffTryNeighbor sm rw rd factor a b s neigh).1.gmd.visited = s.1.gmd.visited ∧
          (wolffTryNeighbor sm rw rd factor a b s neigh).1.F = s.1.F ∧
          (wolffTryNeighbor sm rw rd factor a b s neigh).2 = s.2) ∨
        (s.1.gmd.visited neigh.1 neigh.2 = false ∧
          (wolffTryNeighbor sm rw rd factor a b s neigh).1.gmd.visited neigh.1 neigh.2 = true ∧
          (wolffTryNeighbor sm rw rd factor a b s neigh).1.gmd.next_sites
            = neigh :: s.1.gmd.next_sites ∧
          (wolffTryNeighbor sm rw rd factor a b s neigh).1.F
            = s.1.F.set neigh.1 neigh.2 (flippedPhi s.1.F rd neigh.1 neigh.2) ∧
          (wolffTryNeighbor sm rw rd factor a b s neigh).2 = s.2 + 1))) ∧
    (∀ (env : GlobalEnv R G U P) (st' : GlobalState R G U P),
      (∀ lo hi g, lo ≤ hi → lo ≤ (rw.randInt lo hi g).1 ∧ (rw.randInt lo hi g).1 ≤ hi) →
      (attemptWolffClusterUpdate sm rw env fuel st').isSome = true) := by
  have hN : 0 < P.N := lt_of_le_of_lt (Nat.zero_le _) hs
  have hm : 1 ≤ P.m := h1.trans h2
  have hfuel : 1 ≤ fuel := le_trans (Nat.mul_pos hN hm) hf
  refine ⟨?_, ?_, ?_, ?_⟩
  · obtain ⟨r, bound', hr, ⟨⟨i1, i2, _, _, i5⟩, _, hl⟩, hemp⟩ :=
      wolffGrow_loop sm rw rd st.F 1 fuel _ _
        (wolffSeed_loop sm rd st site timeslice hs h1 h2) hf hfuel
    exact ⟨r, hr, hemp, i2, hl, i2 ▸ visitedCount_le P _, i1, i5⟩
  · intro factor a b s neigh h
    unfold wolffTryNeighbor
    simp only
    rcases h with h | h
    · rw [if_neg (by rw [h]; exact Bool.noConfusion)]
    · rw [if_neg (not_lt.2 h), ite_self]
  · intro factor a b s neigh
    unfold wolffTryNeighbor
    simp only
    split
    · rename_i hv
      split
      · split
        · refine ⟨fun x y hxy => ?_, Or.inr ⟨hv, ?_, rfl, rfl, rfl⟩⟩
          · show Function.update s.1.gmd.visited neigh.1
              (Function.update (s.1.gmd.visited neigh.1) neigh.2 true) x y = true
            rw [visited_update_apply]
            split
            · rfl
            · exact hxy
          · show Function.update s.1.gmd.visited neigh.1
              (Function.update (s.1.gmd.visited neigh.1) neigh.2 true) neigh.1 neigh.2 = true
            rw [visited_update_apply, if_pos ⟨rfl, rfl⟩]
        · exact ⟨fun _ _ h => h, Or.inl ⟨rfl, rfl, rfl, rfl⟩⟩
      · exact ⟨fun _ _ h => h, Or.inl ⟨rfl, rfl, rfl, rfl⟩⟩
    · exact ⟨fun _ _ h => h, Or.inl ⟨rfl, rfl, rfl, rfl⟩⟩
  · intro env st' hrng
    exact attemptWolffClusterUpdate_isSome sm rw env fuel st' hN hm hf hrng

theorem wolff_cluster_growth_witness :
    (0 < exParams1.N ∧ 1 ≤ 1 ∧ 1 ≤ exParams1.m ∧ exParams1.N * exParams1.m ≤ 2) ∧
    (∃ r, wolffGrow exMath exRng ![0, 0, 1] 2
        (wolffSeed exMath ![0, 0, 1] exGlobalState 0 1, 1) = some r ∧
      r.1.gmd.next_sites = [] ∧ r.2 = visitedCount exParams1 r.1.gmd.visited ∧
      1 ≤ r.2 ∧ r.2 ≤ exParams1.N * exParams1.m) ∧
    (wolffGrow exMath exRng ![0, 0, 1] 2
        (wolffSeed exMath ![0, 0, 1] exGlobalState 0 1, 1)).map
      (fun r => (r.2, r.1.gmd.visited 0 1, r.1.gmd.visited 0 2, r.1.F.phi2 0 1, r.1.F.phi2 0 2))
      = some (2, true, true, -1, -1) :=
  ⟨by decide,
    (wolff_cluster_growth exMath exRng ![0, 0, 1] exGlobalState 0 1 (by decide) (by decide)
      (by decide) 2 (by decide)).1.imp
      (fun _ h => ⟨h.1, h.2.1, h.2.2.1, h.2.2.2.1, h.2.2.2.2.1⟩),
    by decide!⟩

theorem callUpdateInSlice_eq_sitesPass {G : Type} (sm : StdMath R) (rw : RngWrapper R G)
    {P : Params R} (um : UpdateMethod) (delaySteps : Nat) (dud : DelayedUpdatesData R P.N)
    (timeslice : Nat) (proposeSpin : ProposeSpin R G) (st : State R G P)
    (hd : um = UpdateMethod.DELAYED → 1 ≤ delaySteps) :
    callUpdateInSlice_for_updateMethod sm rw um delaySteps dud timeslice proposeSpin st
      = sitesPass sm rw um timeslice proposeSpin st := by
  cases um with
  | ITERATIVE => rfl
  | WOODBURY => rfl
  | DELAYED =>
    unfold callUpdateInSlice_for_updateMethod
    simp only
    rw [updateInSlice_delayed_eq sm rw proposeSpin timeslice delaySteps P.N st dud (hd rfl)
      (le_refl _)]
    rfl

theorem repeatWithProposal_eq_repeatedSitesPass {G : Type} (sm : StdMath R)
    (rw : RngWrapper R G) {P : Params R} (um : UpdateMethod) (delaySteps : Nat)
    (dud : DelayedUpdatesData R P.N) (env : SweepEnv R G P)
    (henv : env.callUpdateInSlice_for_updateMethod
      = callUpdateInSlice_for_updateMethod sm rw um delaySteps dud)
    (hd : um = UpdateMethod.DELAYED → 1 ≤ delaySteps)
    (n timeslice : Nat) (proposeSpin : ProposeSpin R G) (st : State R G P) :
    repeatWithProposal env n timeslice proposeSpin st
      = repeatedSitesPass sm rw um n timeslice proposeSpin st := by
  unfold repeatWithProposal repeatedSitesPass
  rw [henv]
  congr 1
  funext s _
  rw [callUpdateInSlice_eq_sitesPass sm rw um delaySteps dud timeslice proposeSpin s hd]

theorem updateInSlice_eq_bind {G A : Type} (sm : StdMath R) (tm : TrigMath R)
    (rw : RngWrapper R G) (nd : NormalDistribution R G) {P : Params R} (env : SweepEnv R G P)
    (mem : SweepMembers R) (sz : StepSizes R A) (timeslice : Nat) (st : State R G P) :
    updateInSlice sm tm rw nd env mem sz timeslice st
      = (updateInSlice_repeat sm tm rw nd env mem sz timeslice st).bind
          (updateInSlice sm tm rw nd env { mem with repeatUpdateInSlice := 0 } sz timeslice) := by
  have h0 : ∀ st1 : State R G P,
      updateInSlice_repeat sm tm rw nd env { mem with repeatUpdateInSlice := 0 } sz timeslice st1
        = Except.ok st1 := fun st1 => rfl
  cases h : updateInSlice_repeat sm tm rw nd env mem sz timeslice st with
  | error e =>
    unfold updateInSlice
    rw [h]
    rfl
  | ok st1 =>
    show updateInSlice sm tm rw nd env mem sz timeslice st
      = updateInSlice sm tm rw nd env { mem with repeatUpdateInSlice := 0 } sz timeslice st1
    unfold updateInSlice
    rw [h, h0 st1]

theorem updateInSlice_no_repeat {G A : Type} (sm : StdMath R) (tm : TrigMath R)
    (rw : RngWrapper R G) (nd : NormalDistribution R G) {P : Params R} (env : SweepEnv R G P)
    (mem : SweepMembers R) (sz : StepSizes R A) (timeslice : Nat) (st1 : State R G P)
    (hr : mem.rescale = false) :
    updateInSlice sm tm rw nd env { mem with repeatUpdateInSlice := 0 } sz timeslice st1
      = Except.ok st1 := by
  have h0 : updateInSlice_repeat sm tm rw nd env { mem with repeatUpdateInSlice := 0 } sz
      timeslice st1 = Except.ok st1 := rfl
  unfold updateInSlice
  rw [h0]
  simp [hr]

theorem woodbury_site_uses_proposal {G : Type} (sm : StdMath R) (rw : RngWrapper R G)
    {P : Params R} (proposeSpin : ProposeSpin R G) (timeslice : Nat) (st : State R G P)
    (site : Fin P.N) :
    ((proposeSpin st.F st.rng site timeslice).1.1 = false →
      updateInSlice_woodbury_site sm rw proposeSpin timeslice st site
        = some { st with rng := (proposeSpin st.F st.rng site timeslice).2 }) ∧
    ((proposeSpin st.F st.rng site timeslice).1.1 = true → ∀ st',
      updateInSlice_woodbury_site sm rw proposeSpin timeslice st site = some st' →
      ((acceptTest rw (woodburyProb sm st timeslice site
          (proposeSpin st.F st.rng site timeslice).1.2)
          (proposeSpin st.F st.rng site timeslice).2).1 = true →
        st'.F = st.F.set site timeslice (proposeSpin st.F st.rng site timeslice).1.2) ∧
      ((acceptTest rw (woodburyProb sm st timeslice site
          (proposeSpin st.F st.rng site timeslice).1.2)
          (proposeSpin st.F st.rng site timeslice).2).1 = false →
        st'.F = st.F)) := by
  refine ⟨?_, ?_⟩
  · intro hv
    unfold updateInSlice_woodbury_site
    simp only [hv, if_true]
  · intro hv st' hst
    have hv' : ¬ (proposeSpin st.F st.rng site timeslice).1.1 = false := by simp [hv]
    unfold updateInSlice_woodbury_site at hst
    simp only [if_neg hv'] at hst
    refine ⟨?_, ?_⟩
    · intro ht
      simp only [ht, if_true] at hst
      obtain ⟨g', -, e⟩ := Option.map_eq_some'.1 hst
      rw [← e]
      rfl
    · intro ht
      have ht' : ¬ (acceptTest rw (woodburyProb sm st timeslice site
          (proposeSpin st.F st.rng site timeslice).1.2)
          (proposeSpin st.F st.rng site timeslice).2).1 = true := by simp [ht]
      simp only [if_neg ht'] at hst
      cases hst
      rfl

theorem iterative_site_uses_proposal {G : Type} (sm : StdMath R) (rw : RngWrapper R G)
    {P : Params R} (proposeSpin : ProposeSpin R G) (timeslice : Nat) (st : State R G P)
    (site : Fin P.N) :
    ((proposeSpin st.F st.rng site timeslice).1.1 = false →
      updateInSlice_iterative_site sm rw proposeSpin timeslice st site
        = { st with rng := (proposeSpin st.F st.rng site timeslice).2 }) ∧
    ((proposeSpin st.F st.rng site timeslice).1.1 = true →
      ((acceptTest rw (iterativeProb sm st timeslice site
          (proposeSpin st.F st.rng site timeslice).1.2)
          (proposeSpin st.F st.rng site timeslice).2).1 = true →
        (updateInSlice_iterative_site sm rw proposeSpin timeslice st site).F
          = st.F.set site timeslice (proposeSpin st.F st.rng site timeslice).1.2) ∧
      ((acceptTest rw (iterativeProb sm st timeslice site
          (proposeSpin st.F st.rng site timeslice).1.2)
          (proposeSpin st.F st.rng site timeslice).2).1 = false →
        (updateInSlice_iterative_site sm rw proposeSpin timeslice st site).F = st.F)) := by
  refine ⟨?_, ?_⟩
  · intro hv
    unfold updateInSlice_iterative_site
    simp only [hv, if_true]
  · intro hv
    have hv' : ¬ (proposeSpin st.F st.rng site timeslice).1.1 = false := by simp [hv]
    refine ⟨?_, ?_⟩
    · intro ht
      unfold updateInSlice_iterative_site
      simp only [if_neg hv', ht, if_true]
      rfl
    · intro ht
      have ht' : ¬ (acceptTest rw (iterativeProb sm st timeslice site
          (proposeSpin st.F st.rng site timeslice).1.2)
          (proposeSpin st.F st.rng site timeslice).2).1 = true := by simp [ht]
      unfold updateInSlice_iterative_site
      simp only [if_neg hv', if_neg ht']

/-- C21. With `callUpdateInSlice_for_updateMethod` running the routine of the update method
`um` (`delaySteps >= 1` for the delayed one), `updateInSlice` makes `repeatUpdateInSlice`
passes over all sites `0, ..., N-1` in which the move at every site is drawn by
`proposeNewField` for `box`, by `proposeRotatedScaledField` for `rotate_and_scale` and, for
`rotate_then_scale`, by `proposeRotatedField` when `performedSweeps` is even and by
`proposeScaledField` when it is odd; what follows the passes is the part of `updateInSlice`
after its loop, which returns the state as it is when `rescale` is off. In the body of a site
an invalid proposal only advances the generator, an accepted valid one writes the proposed
vector to the field at that site and a rejected one leaves the field as it is. For
`rotate_then_scale`, `updateInSliceThermalization` returns whenever its `updateInSlice` does
(`AccRatioAdjustmentSamples > 0`) and adds the `lastAccRatioLocal` that `updateInSlice` left to
the running average of the rotate moves when `performedSweeps` is even and to that of the
scale moves when it is odd, leaving the other running averages as they were. -/
theorem updateInSlice_proposal_choice {G A : Type} (sm : StdMath R) (tm : TrigMath R)
    (rw : RngWrapper R G) (nd : NormalDistribution R G) {P : Params R}
    (um : UpdateMethod) (delaySteps : Nat) (dud : DelayedUpdatesData R P.N)
    (env : SweepEnv R G P) (c : ControllerConstants R) (ra : RunningAverage R A)
    (mem : SweepMembers R) (timeslice : Nat) (s : State R G P × StepSizes R A)
    (henv : env.callUpdateInSlice_for_updateMethod
      = callUpdateInSlice_for_updateMethod sm rw um delaySteps dud)
    (hd : um = UpdateMethod.DELAYED → 1 ≤ delaySteps) :
    (mem.spinProposalMethod = SpinProposalMethod.BOX →
      updateInSlice sm tm rw nd env mem s.2 timeslice s.1
        = (repeatedSitesPass sm rw um mem.repeatUpdateInSlice timeslice
              (proposeNewField rw s.2.phiDelta) s.1).bind
            (updateInSlice sm tm rw nd env { mem with repeatUpdateInSlice := 0 } s.2
              timeslice)) ∧
    (mem.spinProposalMethod = SpinProposalMethod.ROTATE_AND_SCALE →
      updateInSlice sm tm rw nd env mem s.2 timeslice s.1
        = (repeatedSitesPass sm rw um mem.repeatUpdateInSlice timeslice
              (proposeRotatedScaledField sm tm rw nd s.2.angleDelta s.2.scaleDelta) s.1).bind
            (updateInSlice sm tm rw nd env { mem with repeatUpdateInSlice := 0 } s.2
              timeslice)) ∧
    (mem.spinProposalMethod = SpinProposalMethod.ROTATE_THEN_SCALE →
      (mem.performedSweeps % 2 = 0 →
        updateInSlice sm tm rw nd env mem s.2 timeslice s.1
          = (repeatedSitesPass sm rw um mem.repeatUpdateInSlice timeslice
                (proposeRotatedField sm tm rw s.2.angleDelta) s.1).bind
              (updateInSlice sm tm rw nd env { mem with repeatUpdateInSlice := 0 } s.2
                timeslice)) ∧
      (mem.performedSweeps % 2 = 1 →
        updateInSlice sm tm rw nd env mem s.2 timeslice s.1
          = (repeatedSitesPass sm rw um mem.repeatUpdateInSlice timeslice
                (proposeScaledField tm nd s.2.scaleDelta) s.1).bind
              (updateInSlice sm tm rw nd env { mem with repeatUpdateInSlice := 0 } s.2
                timeslice)) ∧
      (c.AccRatioAdjustmentSamples ≠ 0 → ∀ st1,
        updateInSlice sm tm rw nd env mem s.2 timeslice s.1 = Except.ok st1 →
        ∃ sz1, updateInSliceThermalization sm tm rw nd env c ra mem timeslice s
            = Except.ok (st1, sz1) ∧
          (mem.performedSweeps % 2 = 0 →
            sz1.accRatioLocal_rotate_RA
                = ra.addValue s.2.accRatioLocal_rotate_RA st1.lastAccRatioLocal ∧
              sz1.accRatioLocal_scale_RA = s.2.accRatioLocal_scale_RA ∧
              sz1.accRatioLocal_box_RA = s.2.accRatioLocal_box_RA) ∧
          (mem.performedSweeps % 2 = 1 →
            sz1.accRatioLocal_scale_RA
                = ra.addValue s.2.accRatioLocal_scale_RA st1.lastAccRatioLocal ∧
              sz1.accRatioLocal_rotate_RA = s.2.accRatioLocal_rotate_RA ∧
              sz1.accRatioLocal_box_RA = s.2.accRatioLocal_box_RA))) ∧
    (mem.rescale = false → ∀ st1,
      updateInSlice sm tm rw nd env { mem with repeatUpdateInSlice := 0 } s.2 timeslice st1
        = Except.ok st1) ∧
    (∀ (proposeSpin : ProposeSpin R G) (st : State R G P) (site : Fin P.N),
      ((proposeSpin st.F st.rng site timeslice).1.1 = false →
        updateInSlice_woodbury_site sm rw proposeSpin timeslice st site
            = some { st with rng := (proposeSpin st.F st.rng site timeslice).2 } ∧
          updateInSlice_iterative_site sm rw proposeSpin timeslice st site
            = { st with rng := (proposeSpin st.F st.rng site timeslice).2 }) ∧
      ((proposeSpin st.F st.rng site timeslice).1.1 = true →
        (∀ st', updateInSlice_woodbury_site sm rw proposeSpin timeslice st site = some st' →
          ((acceptTest rw (woodburyProb sm st timeslice site
              (proposeSpin st.F st.rng site timeslice).1.2)
              (proposeSpin st.F st.rng site timeslice).2).1 = true →
            st'.F = st.F.set site timeslice (proposeSpin st.F st.rng site timeslice).1.2) ∧
          ((acceptTest rw (woodburyProb sm st timeslice site
              (proposeSpin st.F st.rng site timeslice).1.2)
              (proposeSpin st.F st.rng site timeslice).2).1 = false →
            st'.F = st.F)) ∧
        ((acceptTest rw (iterativeProb sm st timeslice site
            (proposeSpin st.F st.rng site timeslice).1.2)
            (proposeSpin st.F st.rng site timeslice).2).1 = true →
          (updateInSlice_iterative_site sm rw proposeSpin timeslice st site).F
            = st.F.set site timeslice (proposeSpin st.F st.rng site timeslice).1.2) ∧
        ((acceptTest rw (iterativeProb sm st timeslice site
            (proposeSpin st.F st.rng site timeslice).1.2)
            (proposeSpin st.F st.rng site timeslice).2).1 = false →
          (updateInSlice_iterative_site sm rw proposeSpin timeslice st site).F = st.F))) := by
  have hb := updateInSlice_eq_bind sm tm rw nd env mem s.2 timeslice s.1
  have key := updateInSlice_repeat_eq sm tm rw nd env mem s.2 timeslice s.1
  have hrep := repeatWithProposal_eq_repeatedSitesPass sm rw um delaySteps dud env henv hd
    mem.repeatUpdateInSlice timeslice
  refine ⟨?_, ?_, ?_, ?_, ?_⟩
  · intro hm
    rw [hb, key, hm]
    simp only
    rw [hrep]
  · intro hm
    rw [hb, key, hm]
    simp only
    rw [hrep]
  · intro hm
    refine ⟨?_, ?_, ?_⟩
    · intro hp
      rw [hb, key, hm]
      simp only [if_pos hp]
      rw [hrep]
    · intro hp
      have hp' : ¬ mem.performedSweeps % 2 = 0 := by omega
      rw [hb, key, hm]
      simp only [if_neg hp']
      rw [hrep]
    · exact ((updateInSlice_repeat_choice sm tm rw nd env c ra mem timeslice s).2.2 hm).2.2
  · intro hr st1
    exact updateInSlice_no_repeat sm tm rw nd env mem s.2 timeslice st1 hr
  · intro proposeSpin st site
    have hw := woodbury_site_uses_proposal sm rw proposeSpin timeslice st site
    have hi := iterative_site_uses_proposal sm rw proposeSpin timeslice st site
    exact ⟨fun hv => ⟨hw.1 hv, hi.1 hv⟩, fun hv => ⟨hw.2 hv, (hi.2 hv).1, (hi.2 hv).2⟩⟩

theorem updateInSlice_proposal_choice_witness :
    (exSweepEnvDelayed.callUpdateInSlice_for_updateMethod
        = callUpdateInSlice_for_updateMethod exMathRot exRng UpdateMethod.DELAYED 2 exDud4 ∧
      (UpdateMethod.DELAYED = UpdateMethod.DELAYED → 1 ≤ 2) ∧
      exMembersScale.spinProposalMethod = SpinProposalMethod.ROTATE_THEN_SCALE ∧
      exMembersScale.performedSweeps % 2 = 1) ∧
    updateInSlice exMathRot exTrig exRng exNormalLow exSweepEnvDelayed exMembersScale
        exStepSizes 1 exState4Rot
      = (repeatedSitesPass exMathRot exRng UpdateMethod.DELAYED
            exMembersScale.repeatUpdateInSlice 1
            (proposeScaledField exTrig exNormalLow exStepSizes.scaleDelta) exState4Rot).bind
          (updateInSlice exMathRot exTrig exRng exNormalLow exSweepEnvDelayed
            { exMembersScale with repeatUpdateInSlice := 0 } exStepSizes 1) :=
  ⟨⟨rfl, fun _ => by decide, rfl, by decide⟩,
    ((updateInSlice_proposal_choice exMathRot exTrig exRng exNormalLow UpdateMethod.DELAYED 2
      exDud4 exSweepEnvDelayed exConstants exRunningAverage exMembersScale 1
      (exState4Rot, exStepSizes) rfl (fun _ => by decide)).2.2.1 rfl).2.1 (by decide)⟩

end DetSDW
